import Mathlib

/-!
# RelationalDatabaseDemo: a shallow embedding of the execution engine

The C++ sources (`Datatype.cpp`, `Constraint.h`, `Field.cpp`, `Table.cpp`,
`Database.cpp`, `SQLParser.cpp`) are embedded as pure Lean functions.

* `std::map<std::string, T>` is an association list kept in key order
  (`StdMap`); iteration over the map is iteration over the list.
* `std::set<std::string>` is a `Finset String`.
* A member function that mutates `*this` and may throw returns an `Outcome`:
  the state left behind together with the exception, if one escaped.
* A `const` function that may throw returns `Except DbError _`.
* `std::stod` is a parameter (`Stod`): floating point parsing is not modelled.
* Inside the parser a `std::string` is the list of its characters, a
  `std::istringstream` is an `IStream` (unread text, `eofbit`, `failbit`), and
  a `std::regex` is a `Regex` run by a depth-first matcher.
-/

namespace RelDb

/-! ## Containers -/

/-- Order of `std::string::operator<`: lexicographic on the characters. -/
def keyLt (a b : String) : Prop := a.data < b.data

instance keyLtDecidable : DecidableRel keyLt :=
  fun a b => inferInstanceAs (Decidable (a.data < b.data))

/-- A `std::map<std::string, β>`: the entries in iteration order. -/
abbrev StdMap (β : Type) := List (String × β)

namespace StdMap

/-- The call `m.find(k)`: `none` stands for `m.end()`. -/
def find {β : Type} : StdMap β → String → Option β
  | [], _ => none
  | (k', v) :: rest, k => if k = k' then some v else find rest k

/-- The assignment `m[k] = v`: overwrite the entry of `k`, or insert it at its
place in key order. -/
def assign {β : Type} : StdMap β → String → β → StdMap β
  | [], k, v => [(k, v)]
  | (k', v') :: rest, k, v =>
    if k = k' then (k, v) :: rest
    else if keyLt k k' then (k, v) :: (k', v') :: rest
    else (k', v') :: assign rest k v

/-- The side effect of reading `m[k]`: an absent key is inserted with the
default value `d`. -/
def touch {β : Type} (m : StdMap β) (k : String) (d : β) : StdMap β :=
  match find m k with
  | some _ => m
  | none => assign m k d

/-- The call `m.erase(k)`. -/
def erase {β : Type} : StdMap β → String → StdMap β
  | [], _ => []
  | (k', v') :: rest, k => if k = k' then rest else (k', v') :: erase rest k

/-- The keys in iteration order. -/
def keys {β : Type} (m : StdMap β) : List String := m.map Prod.fst

/-- The representation invariant of `std::map`: keys strictly increasing. -/
def Sorted {β : Type} (m : StdMap β) : Prop := (keys m).Pairwise keyLt

instance sortedDecidable {β : Type} (m : StdMap β) : Decidable (Sorted m) :=
  inferInstanceAs (Decidable ((keys m).Pairwise keyLt))

end StdMap

/-- A record: `std::map<std::string, std::string>`, column name to value. -/
abbrev Record := StdMap String

/-- The primary-key indexes: `std::map<std::string, std::set<std::string>>`. -/
abbrev UniqueFields := StdMap (Finset String)

/-! ## Errors -/

/-- The exceptions thrown by the engine, one constructor per kind of `throw`
site (the message text is given in each comment). -/
inductive DbError where
  /-- `invalid_argument`, "Missing value for field: " -/
  | missingValue (field : String)
  /-- `invalid_argument` thrown by `DataType::validate`, "Invalid value for
  Int", "Value exceeds maximum length for Varchar", ... -/
  | typeError (typeName : String)
  /-- `runtime_error`, "Value cannot be empty." -/
  | emptyValue
  /-- `invalid_argument`, "Primary key constraint violated for field: " -/
  | primaryKeyViolated (field : String)
  /-- `invalid_argument`, "Foreign key constraint violated for field: " -/
  | foreignKeyViolated (field : String)
  /-- `invalid_argument`, "Field not found: " -/
  | fieldNotFound (field : String)
  /-- `invalid_argument`, "Field not found in condition: " -/
  | conditionFieldNotFound (field : String)
  /-- `runtime_error`, "Field not found in record: " -/
  | recordFieldNotFound (field : String)
  /-- `runtime_error`, "Unknown condition relation: " -/
  | unknownRelation (relation : String)
  /-- `runtime_error`, "Unsupported operator in condition: " -/
  | unsupportedOperator (op : String)
  /-- `runtime_error`, "Unsupported operator in join condition: " -/
  | unsupportedJoinOperator (op : String)
  /-- `invalid_argument`, "No records matched the update conditions." -/
  | noMatch
  /-- `runtime_error` / `invalid_argument`, "Referenced table not found: " -/
  | referencedTableNotFound (table : String)
  /-- `invalid_argument`, "Referenced column does not match field name: " -/
  | referencedColumnMismatch (column : String)
  /-- `invalid_argument`, "Referenced column is not a primary key: " -/
  | referencedNotPrimaryKey (column : String)
  /-- `invalid_argument`, "Field already exists: " -/
  | fieldExists (field : String)
  /-- `runtime_error`, "Table not found: " -/
  | tableNotFound (table : String)
  /-- `runtime_error`, "Table already exists: " -/
  | tableExists (table : String)
  /-- `runtime_error`, "Invalid VARCHAR type definition: " -/
  | invalidVarchar (type : String)
  /-- `runtime_error`, "Unsupported data type: " -/
  | unsupportedDataType (type : String)
  /-- `runtime_error`, "Unsupported constraint: " -/
  | unsupportedConstraint (name : String)
  /-- `runtime_error`, "Unsupported operation: " -/
  | unsupportedOperation (operation : String)
  /-- `runtime_error`, "Field count does not match value count." -/
  | valueCountMismatch
  /-- `runtime_error` thrown by `SQLParser::parse` -/
  | syntaxError (message : String)
  /-- `invalid_argument` or `out_of_range` thrown by `std::stod`/`std::stoul` -/
  | numberConversion
  /-- `out_of_range` thrown by `std::map::at` -/
  | outOfRange
  deriving DecidableEq, Repr

deriving instance DecidableEq for Except

/-- The result of a mutating member function: it returns normally
leaving `state`, or an exception escapes leaving `state`. -/
inductive Outcome (σ : Type) where
  | ok (state : σ)
  | fail (err : DbError) (state : σ)
  deriving DecidableEq

namespace Outcome

/-- The state left behind, whether or not an exception escaped. -/
def state {σ : Type} : Outcome σ → σ
  | ok s => s
  | fail _ s => s

/-- The exception that escaped, if any. -/
def error {σ : Type} : Outcome σ → Option DbError
  | ok _ => none
  | fail e _ => some e

end Outcome

/-! ## Numeric conversions -/

/-- The function `std::stod` and the comparisons of `double`, taken as a
parameter. `stod s` is `none` when `std::stod` throws, and otherwise the value
together with the number of bytes consumed (`idx`). -/
structure Stod where
  D : Type
  stod : String → Option (D × Nat)
  lt : D → D → Bool
  le : D → D → Bool

/-- The predicate `std::isspace` in the "C" locale. -/
def isSpace (c : Char) : Bool :=
  c.toNat == 32 || (9 ≤ c.toNat && c.toNat ≤ 13)

/-- Skip leading white space: the number of characters skipped and the rest. -/
def skipSpaces : List Char → Nat × List Char
  | [] => (0, [])
  | c :: cs =>
    if isSpace c then ((skipSpaces cs).1 + 1, (skipSpaces cs).2) else (0, c :: cs)

/-- Read a run of decimal digits: the digits read and the rest. -/
def takeDigits : List Char → List Char × List Char
  | [] => ([], [])
  | c :: cs =>
    if c.isDigit then (c :: (takeDigits cs).1, (takeDigits cs).2) else ([], c :: cs)

/-- The value of a run of decimal digits. -/
def digitsValue (ds : List Char) : Nat :=
  ds.foldl (fun acc c => acc * 10 + (c.toNat - 48)) 0

/-- The functions `std::stoi` / `std::stol` in base 10 with result range
`[lo, hi]`: skip white space, read an optional sign and at least one digit.
`none` when the function throws (no digits, or value out of range);
otherwise the value and `idx`, the number of characters consumed. -/
def stoInteger (lo hi : Int) (s : String) : Option (Int × Nat) :=
  let ws := skipSpaces s.data
  let signed : Bool × Nat × List Char :=
    match ws.2 with
    | c :: cs => if c = '-' then (true, 1, cs) else if c = '+' then (false, 1, cs) else (false, 0, c :: cs)
    | [] => (false, 0, [])
  let ds := (takeDigits signed.2.2).1
  if ds = [] then none
  else
    let v : Int := if signed.1 then -(digitsValue ds : Int) else (digitsValue ds : Int)
    if lo ≤ v ∧ v ≤ hi then some (v, ws.1 + signed.2.1 + ds.length) else none

/-- The function `std::stoi`: `int` is 32 bits wide. -/
def stoi (s : String) : Option (Int × Nat) := stoInteger (-2147483648) 2147483647 s

/-- The function `std::stol`: `long` is taken 64 bits wide (LP64). -/
def stol (s : String) : Option (Int × Nat) :=
  stoInteger (-9223372036854775808) 9223372036854775807 s

/-- An instance of `Stod` that reads decimal integer literals only; it is used
to instantiate the parameter in closed examples. -/
def Stod.integral : Stod where
  D := Int
  stod := fun s => stoInteger (-1000000000000000) 1000000000000000 s
  lt := fun a b => decide (a < b)
  le := fun a b => decide (a ≤ b)

/-! ## Data types (Datatype.cpp) -/

/-- The subclasses of `DataType`. -/
inductive DataType where
  | varchar (maxLength : Nat)
  | int
  | longInt
  | double
  | dateTime
  deriving DecidableEq, Repr

/-- Match a string against a shape in which `D` stands for one decimal digit
and every other character for itself. -/
def matchesShape : List Char → List Char → Bool
  | [], [] => true
  | p :: ps, c :: cs => (if p = 'D' then c.isDigit else c = p) && matchesShape ps cs
  | _, _ => false

namespace DataType

/-- The virtual function `DataType::validate`. -/
def validate (S : Stod) : DataType → String → Except DbError Unit
  | varchar maxLength, value =>
    if value.utf8ByteSize > maxLength then .error (.typeError "Varchar") else .ok ()
  | int, value =>
    match stoi value with
    | some (_, idx) => if idx ≠ value.utf8ByteSize then .error (.typeError "Int") else .ok ()
    | none => .error (.typeError "Int")
  | longInt, value =>
    match stol value with
    | some (_, idx) => if idx ≠ value.utf8ByteSize then .error (.typeError "LongInt") else .ok ()
    | none => .error (.typeError "LongInt")
  | double, value =>
    match S.stod value with
    | some (_, idx) => if idx ≠ value.utf8ByteSize then .error (.typeError "Double") else .ok ()
    | none => .error (.typeError "Double")
  | dateTime, value =>
    if matchesShape "DDDD-DD-DD DD:DD:DD".data value.data then .ok ()
    else .error (.typeError "DateTime")

end DataType

/-! ## Constraints (Constraint.h) -/

/-- The subclasses of `Constraint`. -/
inductive Constraint where
  | notEmpty
  | primaryKey
  | foreignKey (referencedTable referencedColumn : String)
  deriving DecidableEq, Repr

namespace Constraint

/-- The virtual function `Constraint::getName`. -/
def getName : Constraint → String
  | notEmpty => "NOT_EMPTY"
  | primaryKey => "PRIMARY_KEY"
  | foreignKey _ _ => "FOREIGN_KEY_REFERENCES"

/-- The virtual function `Constraint::check`. -/
def check : Constraint → String → Except DbError Unit
  | notEmpty, value => if value = "" then .error .emptyValue else .ok ()
  | primaryKey, _ => .ok ()
  | foreignKey _ _, _ => .ok ()

end Constraint

/-! ## Fields (Field.cpp) -/

/-- The class `Field`. -/
structure Field where
  name : String
  dataType : DataType
  constraints : List Constraint
  deriving DecidableEq, Repr

namespace Field

/-- The loop of `Field::validate` over the constraints. -/
def checkConstraints : List Constraint → String → Except DbError Unit
  | [], _ => .ok ()
  | c :: cs, value =>
    match c.check value with
    | .ok _ => checkConstraints cs value
    | .error e => .error e

/-- The function `Field::validate`: the data type first, then each constraint. -/
def validate (S : Stod) (field : Field) (value : String) : Except DbError Unit :=
  match field.dataType.validate S value with
  | .ok _ => checkConstraints field.constraints value
  | .error e => .error e

/-- Whether the constraint list holds one named `PRIMARY_KEY`. -/
def isPrimaryKey (field : Field) : Bool :=
  field.constraints.any (fun c => c.getName = "PRIMARY_KEY")

end Field

/-! ## Conditions (SQLParser.h) -/

/-- The struct `SQLParser::Condition`. -/
structure Condition where
  field : String
  op : String
  value : String
  relation : String
  deriving DecidableEq, Repr

/-! ## Tables and the database -/

/-- The class `Table` (the `database` back pointer is passed to the member
functions that use it). -/
structure Table where
  name : String
  records : List Record
  fields : StdMap Field
  uniqueFields : UniqueFields
  deriving DecidableEq

/-- The class `Database`: the map `tables`. -/
structure Database where
  tables : StdMap Table
  deriving DecidableEq

/-- The function `Database::getTable`. -/
def Database.getTable (db : Database) (tableName : String) : Option Table :=
  StdMap.find db.tables tableName


/-! ## Table.cpp -/

namespace Table

open StdMap

/-- The constructor `Table(name, database)`. -/
def new (name : String) : Table :=
  { name := name, records := [], fields := [], uniqueFields := [] }

/-- The function `Table::checkForeignKeyConstraint`. -/
def checkForeignKeyConstraint (db : Database)
    (referencedTableName referencedColumnName value : String) : Except DbError Bool :=
  match db.getTable referencedTableName with
  | none => .error (.referencedTableNotFound referencedTableName)
  | some referencedTable =>
    .ok (referencedTable.records.any
      (fun record => decide (find record referencedColumnName = some value)))

/-- The constraint loop of `Table::addField`. A constraint named
`FOREIGN_KEY_REFERENCES` is always a `ForeignKeyConstraint`, so the
`dynamic_cast` cannot yield null; the model skips that case. -/
def addFieldConstraints (db : Database) (field : Field) : Table → List Constraint → Outcome Table
  | t, [] => .ok t
  | t, c :: cs =>
    if c.getName = "PRIMARY_KEY" then
      .ok { t with uniqueFields := assign t.uniqueFields field.name ∅ }
    else if c.getName = "FOREIGN_KEY_REFERENCES" then
      match c with
      | .foreignKey referencedTable referencedColumn =>
        match db.getTable referencedTable with
        | none => .fail (.referencedTableNotFound referencedTable) t
        | some refTable =>
          if referencedColumn ≠ field.name then
            .fail (.referencedColumnMismatch referencedColumn) t
          else
            match find refTable.fields referencedColumn with
            | none => .fail .outOfRange t
            | some refField =>
              if refField.isPrimaryKey then addFieldConstraints db field t cs
              else .fail (.referencedNotPrimaryKey referencedColumn) t
      | _ => addFieldConstraints db field t cs
    else addFieldConstraints db field t cs

/-- The function `Table::addField`. -/
def addField (db : Database) (t : Table) (field : Field) : Outcome Table :=
  match find t.fields field.name with
  | some _ => .fail (.fieldExists field.name) t
  | none =>
    addFieldConstraints db field
      { t with fields := assign t.fields field.name field } field.constraints

/-- First loop of `enforceConstraintsOnInsert`: every declared field has a
value, and the value passes `Field::validate`. -/
def validateFields (S : Stod) : List (String × Field) → Record → Except DbError Unit
  | [], _ => .ok ()
  | (fieldName, field) :: rest, record =>
    match find record fieldName with
    | some value =>
      match field.validate S value with
      | .ok _ => validateFields S rest record
      | .error e => .error e
    | none => .error (.missingValue fieldName)

/-- Inner loop of the second loop of `enforceConstraintsOnInsert`: the
uniqueness test for one field. Reading `uniqueFields[fieldName]` creates the
entry when it is absent. -/
def checkPrimaryKey (fieldName value : String) : List Constraint → UniqueFields → Outcome UniqueFields
  | [], uf => .ok uf
  | c :: cs, uf =>
    if c.getName = "PRIMARY_KEY" then
      if value ∈ (find (touch uf fieldName ∅) fieldName).getD ∅ then
        .fail (.primaryKeyViolated fieldName) (touch uf fieldName ∅)
      else checkPrimaryKey fieldName value cs (touch uf fieldName ∅)
    else checkPrimaryKey fieldName value cs uf

/-- Second loop of `enforceConstraintsOnInsert`. The value is read through the
iterator returned by `record.find`, which the first loop has shown valid. -/
def checkPrimaryKeys (record : Record) : List (String × Field) → UniqueFields → Outcome UniqueFields
  | [], uf => .ok uf
  | (fieldName, field) :: rest, uf =>
    match checkPrimaryKey fieldName ((find record fieldName).getD "") field.constraints uf with
    | .ok uf1 => checkPrimaryKeys record rest uf1
    | .fail e uf1 => .fail e uf1

/-- Inner loop of the third loop of `enforceConstraintsOnInsert`: it looks for
constraints whose name is `FOREIGN_KEY`. -/
def checkForeignKey (db : Database) (fieldName value : String) : List Constraint → Except DbError Unit
  | [] => .ok ()
  | c :: cs =>
    if c.getName = "FOREIGN_KEY" then
      match c with
      | .foreignKey referencedTable referencedColumn =>
        match checkForeignKeyConstraint db referencedTable referencedColumn value with
        | .error e => .error e
        | .ok true => checkForeignKey db fieldName value cs
        | .ok false => .error (.foreignKeyViolated fieldName)
      | _ => checkForeignKey db fieldName value cs
    else checkForeignKey db fieldName value cs

/-- Third loop of `enforceConstraintsOnInsert`. -/
def checkForeignKeys (db : Database) (record : Record) : List (String × Field) → Except DbError Unit
  | [] => .ok ()
  | (fieldName, field) :: rest =>
    match find record fieldName with
    | some value =>
      match checkForeignKey db fieldName value field.constraints with
      | .ok _ => checkForeignKeys db record rest
      | .error e => .error e
    | none => checkForeignKeys db record rest

/-- The function `Table::enforceConstraintsOnInsert`. -/
def enforceConstraintsOnInsert (S : Stod) (db : Database) (t : Table) (record : Record) :
    Outcome Table :=
  match validateFields S t.fields record with
  | .error e => .fail e t
  | .ok _ =>
    match checkPrimaryKeys record t.fields t.uniqueFields with
    | .fail e uf => .fail e { t with uniqueFields := uf }
    | .ok uf =>
      match checkForeignKeys db record t.fields with
      | .error e => .fail e { t with uniqueFields := uf }
      | .ok _ => .ok { t with uniqueFields := uf }

/-- Last loop of `insertRecord`: the value of every indexed field is added to
its index (`record.at` throws `out_of_range` on an absent key). -/
def indexInserted (record : Record) : List (String × Field) → UniqueFields → Outcome UniqueFields
  | [], uf => .ok uf
  | (fieldName, _) :: rest, uf =>
    match find uf fieldName with
    | some index =>
      match find record fieldName with
      | some value => indexInserted record rest (assign uf fieldName (insert value index))
      | none => .fail .outOfRange uf
    | none => indexInserted record rest uf

/-- The function `Table::insertRecord`. -/
def insertRecord (S : Stod) (db : Database) (t : Table) (record : Record) : Outcome Table :=
  match enforceConstraintsOnInsert S db t record with
  | .fail e t1 => .fail e t1
  | .ok t1 =>
    match indexInserted record t1.fields t1.uniqueFields with
    | .ok uf => .ok { t1 with records := t1.records ++ [record], uniqueFields := uf }
    | .fail e uf => .fail e { t1 with records := t1.records ++ [record], uniqueFields := uf }

/-- The comparison `std::stod(value) ⋈ std::stod(condValue)`. -/
def compareNumbers (S : Stod) (value condValue : String) (cmp : S.D → S.D → Bool) :
    Except DbError Bool :=
  match S.stod value with
  | none => .error .numberConversion
  | some (a, _) =>
    match S.stod condValue with
    | none => .error .numberConversion
    | some (b, _) => .ok (cmp a b)

/-- The operator chain that `Table::evaluateCondition` and
`evaluateCombinedConditions` both contain, character for character: compare
the stored value with the literal of the condition. -/
def compareValues (S : Stod) (op value condValue : String) : Except DbError Bool :=
  if op = "=" ∨ op = "==" then .ok (decide (value = condValue))
  else if op = "!=" ∨ op = "<>" then .ok (decide (value ≠ condValue))
  else if op = "<" then compareNumbers S value condValue (fun a b => S.lt a b)
  else if op = ">" then compareNumbers S value condValue (fun a b => S.lt b a)
  else if op = "<=" then compareNumbers S value condValue (fun a b => S.le a b)
  else if op = ">=" then compareNumbers S value condValue (fun a b => S.le b a)
  else .error (.unsupportedOperator op)

/-- The function `Table::evaluateCondition`. -/
def evaluateCondition (S : Stod) (record : Record) (condition : Condition) :
    Except DbError Bool :=
  match find record condition.field with
  | none => .error (.conditionFieldNotFound condition.field)
  | some value => compareValues S condition.op value condition.value

/-- The loop of `Table::evaluateConditions` from index 1 on; `&&` and `||`
do not evaluate their right operand when the left one decides. -/
def evaluateRest (S : Stod) (record : Record) : List Condition → Bool → Except DbError Bool
  | [], result => .ok result
  | condition :: rest, result =>
    if condition.relation = "AND" then
      if result then
        match evaluateCondition S record condition with
        | .ok b => evaluateRest S record rest b
        | .error e => .error e
      else evaluateRest S record rest false
    else if condition.relation = "OR" then
      if result then evaluateRest S record rest true
      else
        match evaluateCondition S record condition with
        | .ok b => evaluateRest S record rest b
        | .error e => .error e
    else .error (.unknownRelation condition.relation)

/-- The function `Table::evaluateConditions`. -/
def evaluateConditions (S : Stod) (record : Record) : List Condition → Except DbError Bool
  | [] => .ok true
  | first :: rest =>
    match evaluateCondition S record first with
    | .ok b => evaluateRest S record rest b
    | .error e => .error e

/-- Inner loop of `selectRecords`: copy the requested fields of a record. -/
def projectFields (record : Record) : List String → Record → Except DbError Record
  | [], selected => .ok selected
  | fieldName :: rest, selected =>
    match find record fieldName with
    | some value => projectFields record rest (assign selected fieldName value)
    | none => .error (.fieldNotFound fieldName)

/-- The projection step of `selectRecords` for one record. -/
def project (fieldsToSelect : List String) (record : Record) : Except DbError Record :=
  if fieldsToSelect = ["*"] then .ok record else projectFields record fieldsToSelect []

/-- The loop of `selectRecords` over the records. -/
def selectLoop (S : Stod) (fieldsToSelect : List String) (conditions : List Condition) :
    List Record → Except DbError (List Record)
  | [] => .ok []
  | record :: rest =>
    match evaluateConditions S record conditions with
    | .error e => .error e
    | .ok false => selectLoop S fieldsToSelect conditions rest
    | .ok true =>
      match project fieldsToSelect record with
      | .error e => .error e
      | .ok selected =>
        match selectLoop S fieldsToSelect conditions rest with
        | .error e => .error e
        | .ok result => .ok (selected :: result)

/-- The function `Table::selectRecords`. -/
def selectRecords (S : Stod) (t : Table) (fieldsToSelect : List String)
    (conditions : List Condition) : Except DbError (List Record) :=
  selectLoop S fieldsToSelect conditions t.records

/-- First inner loop of `updateRecords`: validate each new value and write it
into the copy `updatedRecord`. -/
def applyNewValues (S : Stod) (fields : StdMap Field) :
    List (String × String) → Record → Except DbError Record
  | [], updatedRecord => .ok updatedRecord
  | (fieldName, newValue) :: rest, updatedRecord =>
    match find fields fieldName with
    | some field =>
      match field.validate S newValue with
      | .ok _ => applyNewValues S fields rest (assign updatedRecord fieldName newValue)
      | .error e => .error e
    | none => .error (.fieldNotFound fieldName)

/-- Constraint loop of `enforceConstraintsOnUpdate` for one changed field. -/
def checkConstraintsOnUpdate (db : Database) (fieldName newValue : String) :
    List Constraint → UniqueFields → Outcome UniqueFields
  | [], uf => .ok uf
  | c :: cs, uf =>
    if c.getName = "PRIMARY_KEY" then
      if newValue ∈ (find (touch uf fieldName ∅) fieldName).getD ∅ then
        .fail (.primaryKeyViolated fieldName) (touch uf fieldName ∅)
      else checkConstraintsOnUpdate db fieldName newValue cs (touch uf fieldName ∅)
    else if c.getName = "FOREIGN_KEY" then
      match c with
      | .foreignKey referencedTable referencedColumn =>
        match checkForeignKeyConstraint db referencedTable referencedColumn newValue with
        | .error e => .fail e uf
        | .ok true => checkConstraintsOnUpdate db fieldName newValue cs uf
        | .ok false => .fail (.foreignKeyViolated fieldName) uf
      | _ => checkConstraintsOnUpdate db fieldName newValue cs uf
    else checkConstraintsOnUpdate db fieldName newValue cs uf

/-- The loop of `enforceConstraintsOnUpdate` over the entries of
`updatedRecord`. -/
def enforceUpdateLoop (S : Stod) (db : Database) (fields : StdMap Field)
    (originalRecord : Record) : List (String × String) → UniqueFields → Outcome UniqueFields
  | [], uf => .ok uf
  | (fieldName, newValue) :: rest, uf =>
    match find fields fieldName with
    | some field =>
      match field.validate S newValue with
      | .error e => .fail e uf
      | .ok _ =>
        if newValue ≠ (find originalRecord fieldName).getD "" then
          match checkConstraintsOnUpdate db fieldName newValue field.constraints uf with
          | .ok uf1 => enforceUpdateLoop S db fields originalRecord rest uf1
          | .fail e uf1 => .fail e uf1
        else enforceUpdateLoop S db fields originalRecord rest uf
    | none => .fail (.fieldNotFound fieldName) uf

/-- The function `Table::enforceConstraintsOnUpdate`. -/
def enforceConstraintsOnUpdate (S : Stod) (db : Database) (t : Table)
    (originalRecord updatedRecord : Record) : Outcome Table :=
  match enforceUpdateLoop S db t.fields originalRecord updatedRecord t.uniqueFields with
  | .ok uf => .ok { t with uniqueFields := uf }
  | .fail e uf => .fail e { t with uniqueFields := uf }

/-- Second inner loop of `updateRecords`: for every assigned field that has an
index and whose value changed, the old value leaves the index and the new one
enters it. -/
def swapIndexes (originalRecord : Record) : List (String × String) → UniqueFields → UniqueFields
  | [], uf => uf
  | (fieldName, newValue) :: rest, uf =>
    match find uf fieldName with
    | some index =>
      if newValue ≠ (find originalRecord fieldName).getD "" then
        swapIndexes originalRecord rest
          (assign uf fieldName (insert newValue (index.erase ((find originalRecord fieldName).getD ""))))
      else swapIndexes originalRecord rest uf
    | none => swapIndexes originalRecord rest uf

/-- The body of the loop of `updateRecords` for one matching record: the new
record and the indexes, or the exception with the indexes as they were left. -/
def updateRecord (S : Stod) (db : Database) (fields : StdMap Field)
    (newValues : StdMap String) (record : Record) (uf : UniqueFields) :
    Outcome (Record × UniqueFields) :=
  match applyNewValues S fields newValues record with
  | .error e => .fail e (record, uf)
  | .ok updatedRecord =>
    match enforceUpdateLoop S db fields record updatedRecord uf with
    | .fail e uf1 => .fail e (record, uf1)
    | .ok uf1 => .ok (updatedRecord, swapIndexes record newValues uf1)

/-- The loop of `updateRecords` over the records; the Boolean is the local
variable `updated`. -/
def updateLoop (S : Stod) (db : Database) (fields : StdMap Field)
    (newValues : StdMap String) (conditions : List Condition) :
    List Record → UniqueFields → Bool → Outcome (List Record × UniqueFields × Bool)
  | [], uf, updated => .ok ([], uf, updated)
  | record :: rest, uf, updated =>
    match evaluateConditions S record conditions with
    | .error e => .fail e (record :: rest, uf, updated)
    | .ok false =>
      match updateLoop S db fields newValues conditions rest uf updated with
      | .ok (rs, uf1, u) => .ok (record :: rs, uf1, u)
      | .fail e (rs, uf1, u) => .fail e (record :: rs, uf1, u)
    | .ok true =>
      match updateRecord S db fields newValues record uf with
      | .fail e (_, uf1) => .fail e (record :: rest, uf1, true)
      | .ok (updatedRecord, uf1) =>
        match updateLoop S db fields newValues conditions rest uf1 true with
        | .ok (rs, uf2, u) => .ok (updatedRecord :: rs, uf2, u)
        | .fail e (rs, uf2, u) => .fail e (updatedRecord :: rs, uf2, u)

/-- The function `Table::updateRecords`. -/
def updateRecords (S : Stod) (db : Database) (t : Table) (newValues : StdMap String)
    (conditions : List Condition) : Outcome Table :=
  match updateLoop S db t.fields newValues conditions t.records t.uniqueFields false with
  | .fail e (rs, uf, _) => .fail e { t with records := rs, uniqueFields := uf }
  | .ok (rs, uf, updated) =>
    if updated then .ok { t with records := rs, uniqueFields := uf }
    else .fail .noMatch { t with records := rs, uniqueFields := uf }

/-- Inner loop of `deleteRecords`: the value of every indexed field leaves its
index (`(*it)[fieldName]` reads as the empty string when the key is absent). -/
def indexErased (record : Record) : List (String × Field) → UniqueFields → UniqueFields
  | [], uf => uf
  | (fieldName, _) :: rest, uf =>
    match find uf fieldName with
    | some index =>
      indexErased record rest
        (assign uf fieldName (index.erase ((find record fieldName).getD "")))
    | none => indexErased record rest uf

/-- The loop of `deleteRecords` over the records. -/
def deleteLoop (S : Stod) (fields : StdMap Field) (conditions : List Condition) :
    List Record → UniqueFields → Outcome (List Record × UniqueFields)
  | [], uf => .ok ([], uf)
  | record :: rest, uf =>
    match evaluateConditions S record conditions with
    | .error e => .fail e (record :: rest, uf)
    | .ok true => deleteLoop S fields conditions rest (indexErased record fields uf)
    | .ok false =>
      match deleteLoop S fields conditions rest uf with
      | .ok (rs, uf1) => .ok (record :: rs, uf1)
      | .fail e (rs, uf1) => .fail e (record :: rs, uf1)

/-- The function `Table::deleteRecords`. -/
def deleteRecords (S : Stod) (t : Table) (conditions : List Condition) : Outcome Table :=
  match deleteLoop S t.fields conditions t.records t.uniqueFields with
  | .ok (rs, uf) => .ok { t with records := rs, uniqueFields := uf }
  | .fail e (rs, uf) => .fail e { t with records := rs, uniqueFields := uf }

end Table

/-! ## Database.cpp -/

/-- The loop of `evaluateCombinedConditions`, with the local variables
`result` and `lastRelation`. -/
def evaluateCombinedLoop (S : Stod) (record : Record) :
    List Condition → Bool → String → Except DbError Bool
  | [], result, _ => .ok result
  | condition :: rest, result, lastRelation =>
    match StdMap.find record condition.field with
    | none => .error (.recordFieldNotFound condition.field)
    | some fieldValue =>
      match Table.compareValues S condition.op fieldValue condition.value with
      | .error e => .error e
      | .ok conditionResult =>
        evaluateCombinedLoop S record rest
          (if lastRelation = "AND" then result && conditionResult
           else if lastRelation = "OR" then result || conditionResult
           else result)
          (if condition.relation = "" then "AND" else condition.relation)

/-- The function `evaluateCombinedConditions` of Database.cpp. -/
def evaluateCombinedConditions (S : Stod) (record : Record) (conditions : List Condition) :
    Except DbError Bool :=
  evaluateCombinedLoop S record conditions true "AND"

/-! ## Joins (Table.cpp) -/

/-- The key computed by the lambda `getValue` of `evaluateJoinCondition`: the
text after the first dot, or the whole name when it has no dot. -/
def bareName (fieldName : String) : String :=
  match fieldName.data.dropWhile (fun c => decide (c ≠ '.')) with
  | [] => fieldName
  | _ :: rest => String.mk rest

/-- The lambda `getValue` of `evaluateJoinCondition`: the value stored under
the bare key, the empty string when the key is absent. -/
def getValue (record : Record) (fieldName : String) : String :=
  (StdMap.find record (bareName fieldName)).getD ""

/-- The function `evaluateJoinCondition` of Table.cpp. -/
def evaluateJoinCondition (leftRecord rightRecord : Record) (condition : Condition) :
    Except DbError Bool :=
  if condition.op = "=" then
    .ok (decide (getValue leftRecord condition.field = getValue rightRecord condition.value))
  else .error (.unsupportedJoinOperator condition.op)

namespace Table

/-- The combined record built by `performInnerJoin`: a copy of the left record
into which every entry of the right record is written under the key
`rightTableName + "." + key`. -/
def combineRecords (rightTableName : String) (leftRecord rightRecord : Record) : Record :=
  rightRecord.foldl
    (fun combined p => StdMap.assign combined (rightTableName ++ "." ++ p.1) p.2) leftRecord

/-- Inner loop of `performInnerJoin`: one left record against the right
records. -/
def joinLeftRecord (joinCondition : Condition) (rightTableName : String) (leftRecord : Record) :
    List Record → Except DbError (List Record)
  | [] => .ok []
  | rightRecord :: rest =>
    match evaluateJoinCondition leftRecord rightRecord joinCondition with
    | .error e => .error e
    | .ok matched =>
      match joinLeftRecord joinCondition rightTableName leftRecord rest with
      | .error e => .error e
      | .ok result =>
        .ok (if matched then combineRecords rightTableName leftRecord rightRecord :: result
             else result)

/-- The function `Table::performInnerJoin`; `leftTableName` is not used by the
body. -/
def performInnerJoin (leftRecords rightRecords : List Record) (joinCondition : Condition)
    (rightTableName leftTableName : String) : Except DbError (List Record) :=
  match leftRecords with
  | [] => .ok []
  | leftRecord :: rest =>
    match joinLeftRecord joinCondition rightTableName leftRecord rightRecords with
    | .error e => .error e
    | .ok rows =>
      match performInnerJoin rest rightRecords joinCondition rightTableName leftTableName with
      | .error e => .error e
      | .ok result => .ok (rows ++ result)

end Table

/-! ## Statements (SQLParser.h) and Database.cpp, continued -/

/-- The struct `SQLParser::Join`. -/
structure Join where
  table : String
  onCondition : String
  deriving DecidableEq, Repr

/-- The struct `SQLParser::ColumnDefinition`. -/
structure ColumnDefinition where
  name : String
  type : String
  constraints : List String
  referencedTable : String
  referencedColumn : String
  deriving DecidableEq, Repr

/-- The struct `SQLParser::Query`. -/
structure Query where
  operation : String
  fields : List String
  table : String
  conditions : List Condition
  joins : List Join
  values : StdMap String
  multiValues : List (StdMap String)
  columns : List ColumnDefinition
  deriving DecidableEq

/-- The function `std::stoul` in base 10 (`unsigned long` taken 64 bits wide):
skip white space, read an optional sign and at least one digit; a value with a
minus sign is negated modulo `2^64`. `none` when the function throws (no
digits, or magnitude above `2^64 - 1`). -/
def stoul (s : List Char) : Option Nat :=
  let ws := skipSpaces s
  let signed : Bool × List Char :=
    match ws.2 with
    | c :: cs => if c = '-' then (true, cs) else if c = '+' then (false, cs) else (false, c :: cs)
    | [] => (false, [])
  let ds := (takeDigits signed.2).1
  if ds = [] then none
  else if digitsValue ds < 2 ^ 64 then
    some (if signed.1 then (2 ^ 64 - digitsValue ds) % 2 ^ 64 else digitsValue ds)
  else none

/-- Whether `pattern` is found at position 0 of `text`. -/
def startsWith : List Char → List Char → Bool
  | [], _ => true
  | _ :: _, [] => false
  | p :: ps, c :: cs => decide (p = c) && startsWith ps cs

/-- The call `s.find(c)` of `std::string`: the position of the first
occurrence, `none` for `npos`. -/
def findChar (c : Char) : List Char → Option Nat
  | [] => none
  | d :: ds => if d = c then some 0 else (findChar c ds).map (fun n => n + 1)

namespace Database

/-- The constraint loop of `Database::createField`. -/
def createConstraints (colDef : ColumnDefinition) : List String → Except DbError (List Constraint)
  | [] => .ok []
  | constraintStr :: rest =>
    if constraintStr = "NOT_EMPTY" then
      match createConstraints colDef rest with
      | .ok cs => .ok (Constraint.notEmpty :: cs)
      | .error e => .error e
    else if constraintStr = "PRIMARY_KEY" then
      match createConstraints colDef rest with
      | .ok cs => .ok (Constraint.primaryKey :: cs)
      | .error e => .error e
    else if constraintStr = "FOREIGN_KEY_REFERENCES" then
      match createConstraints colDef rest with
      | .ok cs => .ok (Constraint.foreignKey colDef.referencedTable colDef.referencedColumn :: cs)
      | .error e => .error e
    else .error (.unsupportedConstraint constraintStr)

/-- The data type part of `Database::createField`. For `VARCHAR` the length is
the text between the first `(` and the first `)`, read by `std::stoul`; the
count `endPos - startPos - 1` is computed in `size_t`. -/
def createDataType (type : String) : Except DbError DataType :=
  if startsWith "VARCHAR".data type.data then
    match findChar '(' type.data, findChar ')' type.data with
    | some startPos, some endPos =>
      match stoul ((type.data.drop (startPos + 1)).take
          ((endPos + 2 ^ 64 - startPos - 1) % 2 ^ 64)) with
      | some length => .ok (.varchar length)
      | none => .error .numberConversion
    | _, _ => .error (.invalidVarchar type)
  else if type = "INT" then .ok .int
  else if type = "LONGINT" then .ok .longInt
  else if type = "DOUBLE" then .ok .double
  else if type = "DATETIME" then .ok .dateTime
  else .error (.unsupportedDataType type)

/-- The function `Database::createField`. -/
def createField (colDef : ColumnDefinition) : Except DbError Field :=
  match createDataType colDef.type with
  | .error e => .error e
  | .ok dataType =>
    match createConstraints colDef colDef.constraints with
    | .error e => .error e
    | .ok constraints => .ok { name := colDef.name, dataType := dataType, constraints := constraints }

/-- The loop of `Database::createTable` over the column definitions, on the
table under construction. -/
def createColumns (db : Database) : Table → List ColumnDefinition → Except DbError Table
  | newTable, [] => .ok newTable
  | newTable, colDef :: rest =>
    match createField colDef with
    | .error e => .error e
    | .ok field =>
      match Table.addField db newTable field with
      | .fail e _ => .error e
      | .ok t1 => createColumns db t1 rest

/-- The function `Database::createTable`: the new table enters the map only
after every column has been added. -/
def createTable (db : Database) (query : Query) : Outcome Database :=
  match StdMap.find db.tables query.table with
  | some _ => .fail (.tableExists query.table) db
  | none =>
    match createColumns db (Table.new query.table) query.columns with
    | .error e => .fail e db
    | .ok newTable => .ok { tables := StdMap.assign db.tables query.table newTable }

/-- The function `Database::dropTable`. -/
def dropTable (db : Database) (query : Query) : Outcome Database :=
  match StdMap.find db.tables query.table with
  | none => .fail (.tableNotFound query.table) db
  | some _ => .ok { tables := StdMap.erase db.tables query.table }

end Database

/-! ## Character streams (`std::istringstream`)

A `std::string` is the list of its characters. -/

/-- The state of a `std::istringstream`: the characters not yet read and the
flags `eofbit` and `failbit`. -/
structure IStream where
  rest : List Char
  eofbit : Bool
  failbit : Bool
  deriving DecidableEq, Repr

/-- Split a text at the first `delim`: the text before it and, when there is
one, the text after it. -/
def cut (delim : Char) : List Char → List Char × Option (List Char)
  | [] => ([], none)
  | c :: cs => if c = delim then ([], some cs) else (c :: (cut delim cs).1, (cut delim cs).2)

namespace IStream

/-- The constructor `std::istringstream stream(text)`. -/
def ofText (text : List Char) : IStream := { rest := text, eofbit := false, failbit := false }

/-- The call `stream >> token` on a `std::string`, given the value the
variable holds before: the stream after the call and the value the variable
holds after it. A stream that is not `good()` fails and leaves the variable
alone; so does one that holds only white space. Otherwise leading white space
is skipped and the characters up to the next white space are read; `eofbit` is
set when the end of the text stopped the reading. -/
def extract (s : IStream) (token : List Char) : IStream × List Char :=
  if s.eofbit || s.failbit then ({ s with failbit := true }, token)
  else
    match s.rest.dropWhile isSpace with
    | [] => ({ rest := [], eofbit := true, failbit := true }, token)
    | c :: cs =>
      ({ rest := (c :: cs).dropWhile (fun d => !isSpace d),
         eofbit := ((c :: cs).dropWhile (fun d => !isSpace d)).isEmpty,
         failbit := false },
       (c :: cs).takeWhile (fun d => !isSpace d))

/-- The call `std::getline(stream, line, delim)`: a stream that is not
`good()` fails and leaves the variable alone. Otherwise the characters up to
the first `delim` are read and the delimiter is dropped; without a delimiter
everything is read and `eofbit` is set, and `failbit` too when nothing was
read. -/
def getline (s : IStream) (line : List Char) (delim : Char) : IStream × List Char :=
  if s.eofbit || s.failbit then ({ s with failbit := true }, line)
  else
    match cut delim s.rest with
    | (text, some after) => ({ rest := after, eofbit := false, failbit := false }, text)
    | (text, none) => ({ rest := [], eofbit := true, failbit := text.isEmpty }, text)

end IStream

/-- The values that the loop `while (std::getline(stream, token, delim))`
reads from a new stream over the text: the pieces between the delimiters, and
the piece after the last delimiter unless it is empty. -/
def getlines (delim : Char) : List Char → List (List Char)
  | [] => []
  | c :: cs =>
    if c = delim then [] :: getlines delim cs
    else
      match getlines delim cs with
      | [] => [[c]]
      | piece :: pieces => (c :: piece) :: pieces

/-- The values that successive calls `stream >> token` read from a new stream
over the text, up to the first call that fails: the maximal runs of characters
other than white space. -/
def words : List Char → List (List Char)
  | [] => []
  | c :: cs =>
    if isSpace c then words cs
    else
      match cs with
      | [] => [[c]]
      | d :: _ =>
        if isSpace d then [c] :: words cs
        else
          match words cs with
          | [] => [[c]]
          | word :: rest => (c :: word) :: rest

/-- The loop `while (std::getline(stream, token, delim))` itself, run on a
stream for at most `fuel` rounds: the values read. -/
def getlinesLoop (delim : Char) : Nat → IStream → List (List Char)
  | 0, _ => []
  | fuel + 1, stream =>
    if (stream.getline [] delim).1.failbit then []
    else (stream.getline [] delim).2 :: getlinesLoop delim fuel (stream.getline [] delim).1

/-- The loop `while (stream >> token)` itself, run on a stream for at most
`fuel` rounds: the values read. -/
def wordsLoop : Nat → IStream → List (List Char)
  | 0, _ => []
  | fuel + 1, stream =>
    if (stream.extract []).1.failbit then []
    else (stream.extract []).2 :: wordsLoop fuel (stream.extract []).1

/-- The call `s.rfind(c)` of `std::string`: the position of the last
occurrence, `none` for `npos`. -/
def rfindChar (c : Char) : List Char → Option Nat
  | [] => none
  | d :: ds =>
    match rfindChar c ds with
    | some n => some (n + 1)
    | none => if d = c then some 0 else none

/-- The call `s.find(pattern)` of `std::string`: the position of the first
occurrence of the text, `none` for `npos`. -/
def findText (pattern : List Char) : List Char → Option Nat
  | [] => if pattern.isEmpty then some 0 else none
  | c :: cs =>
    if startsWith pattern (c :: cs) then some 0 else (findText pattern cs).map (fun n => n + 1)

/-! ## Regular expressions (`std::regex`, ECMAScript grammar)

The matcher of `std::regex` for the ECMAScript grammar explores the pattern
depth first: a repetition takes as many characters as it can and gives them
back one by one, an alternation tries its branches from left to right, and the
first way to reach the end of the pattern is the match. -/

/-- The patterns the parser uses: one character of a class, a greedy
repetition `c*` of a class, sequence, alternation, the assertion `\b`, and a
capturing group with its number. -/
inductive Regex where
  | char (p : Char → Bool)
  | star (p : Char → Bool)
  | seq (a b : Regex)
  | alt (a b : Regex)
  | wordBoundary
  | group (index : Nat) (a : Regex)

/-- The texts captured by the groups closed so far, latest first. -/
abbrev Captures := List (Nat × List Char)

/-- The class `\w`: letters, digits and the underscore. -/
def isWord (c : Char) : Bool := c.isAlphanum || c = '_'

/-- Greedy repetition of a class from a position (the character before it and
the text after it): take one more character when the class allows it and the
rest of the pattern, `k`, then succeeds; otherwise stop here. -/
def starRun {α : Type} (p : Char → Bool) :
    Option Char → List Char → (Option Char → List Char → Option α) → Option α
  | prev, [], k => k prev []
  | prev, c :: cs, k =>
    if p c then
      match starRun p (some c) cs k with
      | some r => some r
      | none => k prev (c :: cs)
    else k prev (c :: cs)

namespace Regex

/-- The pattern `c+` of a class. -/
def plus (p : Char → Bool) : Regex := seq (char p) (star p)

/-- A literal text under the flag `icase`. -/
def word : List Char → Regex → Regex
  | [], tail => tail
  | c :: cs, tail => seq (char (fun d => d.toLower = c.toLower)) (word cs tail)

/-- Match a pattern at a position, then the rest of the pattern `k`. -/
def run {α : Type} : Regex → Option Char → List Char → Captures →
    (Option Char → List Char → Captures → Option α) → Option α
  | char p, _, text, caps, k =>
    match text with
    | [] => none
    | c :: cs => if p c then k (some c) cs caps else none
  | star p, prev, text, caps, k => starRun p prev text (fun prev1 text1 => k prev1 text1 caps)
  | seq a b, prev, text, caps, k =>
    run a prev text caps (fun prev1 text1 caps1 => run b prev1 text1 caps1 k)
  | alt a b, prev, text, caps, k =>
    match run a prev text caps k with
    | some r => some r
    | none => run b prev text caps k
  | wordBoundary, prev, text, caps, k =>
    if (prev.any isWord) != (text.head?.any isWord) then k prev text caps else none
  | group index a, prev, text, caps, k =>
    run a prev text caps (fun prev1 text1 caps1 =>
      k prev1 text1 ((index, text.take (text.length - text1.length)) :: caps1))

/-- The call `match.str(index)`: the text of a group, empty when the group
took no part in the match. -/
def str (caps : Captures) (index : Nat) : List Char :=
  match caps.find? (fun p => p.1 = index) with
  | some p => p.2
  | none => []

/-- The function `std::regex_match`: the whole text has to match. -/
def regex_match (re : Regex) (text : List Char) : Option Captures :=
  run re none text [] (fun _ text1 caps => if text1.isEmpty then some caps else none)

/-- The function `std::regex_search` from a position: the first position, from
left to right, where the pattern matches. The result is the matched text, the
position after it and the captures. -/
def regex_search (re : Regex) :
    Option Char → List Char → Option (List Char × Option Char × List Char × Captures)
  | prev, [] =>
    run re prev [] [] (fun prev1 text1 caps => some ([], prev1, text1, caps))
  | prev, c :: cs =>
    match run re prev (c :: cs) [] (fun prev1 text1 caps => some (prev1, text1, caps)) with
    | some (prev1, text1, caps) =>
      some ((c :: cs).take ((c :: cs).length - text1.length), prev1, text1, caps)
    | none => regex_search re (some c) cs

/-- The matches that a `std::sregex_iterator` walks through: each search
starts where the previous match ended. Every match takes at least one
character off the text, so a fuel of the length of the text plus one reaches
the end; a match of the empty text, which the patterns of the parser do not
have, ends the walk here. -/
def matchesFrom (re : Regex) : Nat → Option Char → List Char → List (List Char × Captures)
  | 0, _, _ => []
  | fuel + 1, prev, text =>
    match regex_search re prev text with
    | none => []
    | some (matched, prev1, text1, caps) =>
      if matched.isEmpty then [(matched, caps)]
      else (matched, caps) :: matchesFrom re fuel prev1 text1

/-- All matches of a pattern in a text. -/
def regex_matches (re : Regex) (text : List Char) : List (List Char × Captures) :=
  matchesFrom re (text.length + 1) none text

end Regex

/-! ## SQLParser.cpp -/

namespace SQLParser

/-- The function `SQLParser::trim`: drop the white space at both ends. -/
def trim (str : List Char) : List Char :=
  ((str.dropWhile isSpace).reverse.dropWhile isSpace).reverse

/-- The loop of `remove_quotes`: from left to right, each backslash that is
followed by the quote `q` is replaced, together with it, by `q`, and the search
goes on after the replacement. -/
def unescape (q : Char) : List Char → List Char
  | [] => []
  | [c] => [c]
  | c :: d :: ds =>
    if c = '\\' ∧ d = q then q :: unescape q ds else c :: unescape q (d :: ds)

/-- The function `remove_quotes`. -/
def remove_quotes (str : List Char) : List Char :=
  if str.length ≥ 2 ∧
      ((str.head? = some '\'' ∧ str.getLast? = some '\'') ∨
       (str.head? = some '"' ∧ str.getLast? = some '"')) then
    unescape (str.headD '\'') (trim ((str.drop 1).take (str.length - 2)))
  else trim str

/-- The function `to_upper`. -/
def to_upper (str : List Char) : List Char := str.map Char.toUpper

/-- The function `join`. -/
def join (tokens : List (List Char)) (delimiter : List Char) : List Char :=
  delimiter.intercalate tokens

/-- The class `[\w.]`. -/
def fieldChar (c : Char) : Bool := isWord c || c = '.'

/-- The class `[<>!=]`. -/
def operatorChar (c : Char) : Bool := c = '<' || c = '>' || c = '!' || c = '='

/-- The pattern `[<>!=]+|\bLIKE\b|\bIN\b`, flag `icase`. -/
def operatorPattern : Regex :=
  .alt (.plus operatorChar)
    (.alt (.seq .wordBoundary (Regex.word "LIKE".data .wordBoundary))
      (.seq .wordBoundary (Regex.word "IN".data .wordBoundary)))

/-- The pattern `'[^']*'|"[^"]*"|\S+`. -/
def literalPattern : Regex :=
  .alt (.seq (.char (fun c => c = '\''))
          (.seq (.star (fun c => c != '\'')) (.char (fun c => c = '\''))))
    (.alt (.seq (.char (fun c => c = '"'))
            (.seq (.star (fun c => c != '"')) (.char (fun c => c = '"'))))
      (.plus (fun c => !isSpace c)))

/-- The pattern `tokenRegex` of `parse_conditions`, flag `icase`:
`([\w.]+\s*(?:[<>!=]+|\bLIKE\b|\bIN\b)\s*(?:'[^']*'|"[^"]*"|\S+)|\bAND\b|\bOR\b)`. -/
def tokenRegex : Regex :=
  .group 1
    (.alt
      (.seq (.plus fieldChar)
        (.seq (.star isSpace)
          (.seq operatorPattern (.seq (.star isSpace) literalPattern))))
      (.alt (.seq .wordBoundary (Regex.word "AND".data .wordBoundary))
        (.seq .wordBoundary (Regex.word "OR".data .wordBoundary))))

/-- The pattern `conditionRegex` of `parse_conditions`, flag `icase`:
`([\w.]+)\s*([<>!=]+|\bLIKE\b|\bIN\b)\s*(('[^']*'|"[^"]*"|\S+))`. -/
def conditionRegex : Regex :=
  .seq (.group 1 (.plus fieldChar))
    (.seq (.star isSpace)
      (.seq (.group 2 operatorPattern)
        (.seq (.star isSpace) (.group 3 (.group 4 literalPattern)))))

/-- The second loop of `parse_conditions`, over the tokens, with the local
variable `currentRelation`: the conditions it appends. -/
def conditionLoop : List (List Char) → List Char → List Condition
  | [], _ => []
  | text :: rest, currentRelation =>
    let token := trim text
    let token_upper := to_upper token
    if token_upper = "AND".data ∨ token_upper = "OR".data then conditionLoop rest token_upper
    else
      match Regex.regex_match conditionRegex token with
      | some caps =>
        { field := String.mk (to_upper (trim (Regex.str caps 1))),
          op := String.mk (trim (Regex.str caps 2)),
          value := String.mk (remove_quotes (trim (Regex.str caps 3))),
          relation := String.mk currentRelation } :: conditionLoop rest []
      | none => conditionLoop rest currentRelation

/-- The function `SQLParser::parse_conditions`: the vector `conditions` after
the call. -/
def parse_conditions (condition_str : List Char) (conditions : List Condition) :
    List Condition :=
  conditions ++
    conditionLoop ((Regex.regex_matches tokenRegex condition_str).map (fun m => m.1)) []

/-- The function `parse_field_value_pairs`. -/
def parse_field_value_pairs (clause : List Char) : StdMap String :=
  (getlines ',' clause).foldl
    (fun values piece =>
      let assignment := trim piece
      match findChar '=' assignment with
      | some pos =>
        StdMap.assign values (String.mk (to_upper (trim (assignment.take pos))))
          (String.mk (remove_quotes (trim (assignment.drop (pos + 1)))))
      | none => values)
    []

/-- The statement `SQLParser::Query query;`. -/
def emptyQuery : Query :=
  { operation := "", fields := [], table := "", conditions := [], joins := [],
    values := [], multiValues := [], columns := [] }

/-- The character `'\n'`. -/
def newline : Char := Char.ofNat 10

/-! ### The SELECT branch -/

/-- The loop that reads the field tokens up to `FROM`: the stream and
`fieldTokens` after it. -/
def fieldTokenLoop : Nat → IStream → List (List Char) → IStream × List (List Char)
  | 0, stream, fieldTokens => (stream, fieldTokens)
  | fuel + 1, stream, fieldTokens =>
    let r := stream.extract []
    if r.1.failbit then (r.1, fieldTokens)
    else if to_upper r.2 = "FROM".data then (r.1, fieldTokens)
    else fieldTokenLoop fuel r.1 (fieldTokens ++ [to_upper r.2])

/-- The loop that reads the words of an `ON` condition: the stream, the text
`joinCondition` and, when `WHERE` or `INNER` ended the loop, that keyword. -/
def joinConditionLoop : Nat → IStream → List Char → IStream × List Char × Option (List Char)
  | 0, stream, joinCondition => (stream, joinCondition, none)
  | fuel + 1, stream, joinCondition =>
    let r := stream.extract []
    if r.1.failbit then (r.1, joinCondition, none)
    else if to_upper r.2 = "WHERE".data ∨ to_upper r.2 = "INNER".data then
      (r.1, joinCondition, some (to_upper r.2))
    else joinConditionLoop fuel r.1 (joinCondition ++ r.2 ++ [' '])

/-- The loop `while (nextToken == "INNER")`, entered with `nextToken` equal to
`INNER`: the stream, `nextToken` and the joins after it. -/
def joinLoop : Nat → IStream → List Join → Except DbError (IStream × List Char × List Join)
  | 0, stream, joins => .ok (stream, "INNER".data, joins)
  | fuel + 1, stream, joins =>
    let r1 := stream.extract "INNER".data
    if to_upper r1.2 = "JOIN".data then
      let r2 := r1.1.extract []
      let r3 := r2.1.extract (to_upper r1.2)
      if to_upper r3.2 = "ON".data then
        let r4 := joinConditionLoop (r3.1.rest.length + 1) r3.1 []
        let join : Join :=
          { table := String.mk (to_upper r2.2),
            onCondition := String.mk (to_upper (trim r4.2.1)) }
        match r4.2.2 with
        | some keyword =>
          if keyword = "INNER".data then joinLoop fuel r4.1 (joins ++ [join])
          else .ok (r4.1, keyword, joins ++ [join])
        | none => .ok (r4.1, to_upper r3.2, joins ++ [join])
      else .error (.syntaxError "Expected 'ON' after 'INNER JOIN' in SELECT statement.")
    else .error (.syntaxError "Expected 'JOIN' after 'INNER' in SELECT statement.")

/-- The loop `while (stream >> nextToken)` of the SELECT branch. -/
def clauseLoop : Nat → IStream → Query → Except DbError Query
  | 0, _, query => .ok query
  | fuel + 1, stream, query =>
    let r := stream.extract []
    if r.1.failbit then .ok query
    else
      let joined : Except DbError (IStream × List Char × List Join) :=
        if to_upper r.2 = "INNER".data then joinLoop (r.1.rest.length + 1) r.1 query.joins
        else .ok (r.1, to_upper r.2, query.joins)
      match joined with
      | .error e => .error e
      | .ok (stream1, nextToken, joins) =>
        if nextToken = "WHERE".data then
          .ok { query with
            joins := joins,
            conditions :=
              (parse_conditions (stream1.getline [] newline).2 query.conditions).map
                (fun c => { c with field := String.mk (to_upper c.field.data) }) }
        else clauseLoop fuel stream1 { query with joins := joins }

/-- The SELECT branch of `SQLParser::parse`. -/
def parseSelect (stream : IStream) (query : Query) : Except DbError Query :=
  let r := fieldTokenLoop (stream.rest.length + 1) stream []
  if r.2.isEmpty then .error (.syntaxError "No fields specified in SELECT statement.")
  else
    let fields := (getlines ',' (join r.2 [' '])).map (fun token => String.mk (trim token))
    let r1 := r.1.extract []
    if r1.1.failbit then .error (.syntaxError "No table specified in SELECT statement.")
    else
      clauseLoop (r1.1.rest.length + 1) r1.1
        { query with fields := fields, table := String.mk (to_upper r1.2) }

/-! ### The INSERT branch -/

/-- The pattern `valuesRegex`: `\(([^)]+)\)`. -/
def valuesRegex : Regex :=
  .seq (.char (fun c => c = '(')) (.seq (.group 1 (.plus (fun c => c != ')'))) (.char (fun c => c = ')')))

/-- The loop over the values of one group, with the local variables
`fieldIndex` and `valueMap`, and the test that follows it. -/
def valueLoop (fields : List String) :
    List (List Char) → Nat → StdMap String → Except DbError (StdMap String)
  | [], fieldIndex, valueMap =>
    if fieldIndex ≠ fields.length then
      .error (.syntaxError "Mismatched number of values in INSERT statement.")
    else .ok valueMap
  | value :: rest, fieldIndex, valueMap =>
    if fieldIndex ≥ fields.length then
      .error (.syntaxError "Mismatched number of values in INSERT statement.")
    else
      valueLoop fields rest (fieldIndex + 1)
        (StdMap.assign valueMap (fields.getD fieldIndex "")
          (String.mk (remove_quotes (trim value))))

/-- The loop over the value groups: the vector `multiValues` it builds. -/
def groupLoop (fields : List String) : List (List Char) → Except DbError (List (StdMap String))
  | [] => .ok []
  | valueGroup :: rest =>
    match valueLoop fields (getlines ',' valueGroup) 0 [] with
    | .error e => .error e
    | .ok valueMap =>
      match groupLoop fields rest with
      | .error e => .error e
      | .ok multiValues => .ok (valueMap :: multiValues)

/-- The INSERT branch of `SQLParser::parse`; `token` holds `INSERT`. -/
def parseInsert (stream : IStream) (token : List Char) (query : Query) : Except DbError Query :=
  let r1 := stream.extract token
  if to_upper r1.2 ≠ "INTO".data then
    .error (.syntaxError "Expected 'INTO' keyword in INSERT statement.")
  else
    let r2 := r1.1.extract []
    if r2.1.failbit then .error (.syntaxError "No table specified in INSERT statement.")
    else
      let r3 := r2.1.extract (to_upper r1.2)
      if r3.2 ≠ "(".data then
        .error (.syntaxError "Expected '(' after table name in INSERT statement.")
      else
        let r4 := r3.1.getline r3.2 ')'
        let fields := (getlines ',' r4.2).map (fun field => String.mk (to_upper (trim field)))
        let r5 := r4.1.extract r4.2
        if to_upper r5.2 ≠ "VALUES".data then
          .error (.syntaxError "Expected 'VALUES' keyword in INSERT statement.")
        else
          let valuesLine := (r5.1.getline [] newline).2
          match groupLoop fields
              ((Regex.regex_matches valuesRegex valuesLine).map (fun m => Regex.str m.2 1)) with
          | .error e => .error e
          | .ok multiValues =>
            .ok { query with
              table := String.mk (to_upper r2.2), fields := fields, multiValues := multiValues }

/-! ### The UPDATE and DELETE branches -/

/-- The UPDATE branch of `SQLParser::parse`; `token` holds `UPDATE`. -/
def parseUpdate (stream : IStream) (token : List Char) (query : Query) : Except DbError Query :=
  let r1 := stream.extract []
  if r1.1.failbit then .error (.syntaxError "No table specified in UPDATE statement.")
  else
    let r2 := r1.1.extract token
    if to_upper r2.2 ≠ "SET".data then
      .error (.syntaxError "Expected 'SET' keyword in UPDATE statement.")
    else
      let restOfLine := (r2.1.getline [] newline).2
      let clauses : List Char × List Char :=
        match findText "WHERE".data restOfLine with
        | some wherePos => (restOfLine.take wherePos, restOfLine.drop (wherePos + 5))
        | none => (restOfLine, [])
      .ok { query with
        table := String.mk (to_upper r1.2),
        values := parse_field_value_pairs clauses.1,
        conditions :=
          if clauses.2.isEmpty then query.conditions
          else parse_conditions clauses.2 query.conditions }

/-- The loop of the DELETE branch that looks for `WHERE`. -/
def whereLoop : Nat → IStream → Query → Query
  | 0, _, query => query
  | fuel + 1, stream, query =>
    let r := stream.extract []
    if r.1.failbit then query
    else if to_upper r.2 = "WHERE".data then
      { query with
        conditions := parse_conditions (r.1.getline [] newline).2 query.conditions }
    else whereLoop fuel r.1 query

/-- The DELETE branch of `SQLParser::parse`; `token` holds `DELETE`. -/
def parseDelete (stream : IStream) (token : List Char) (query : Query) : Except DbError Query :=
  let r1 := stream.extract token
  if to_upper r1.2 ≠ "FROM".data then
    .error (.syntaxError "Expected 'FROM' keyword in DELETE statement.")
  else
    let r2 := r1.1.extract []
    if r2.1.failbit then .error (.syntaxError "No table specified in DELETE statement.")
    else
      .ok (whereLoop (r2.1.rest.length + 1) r2.1 { query with table := String.mk (to_upper r2.2) })

/-! ### The CREATE and DROP branches -/

/-- The loop over the constraint tokens of one column definition. -/
def constraintLoop : List (List Char) → ColumnDefinition → Except DbError ColumnDefinition
  | [], colDef => .ok colDef
  | token :: rest, colDef =>
    let constraintToken := to_upper token
    if constraintToken = "PRIMARY_KEY".data ∨ constraintToken = "NOT_EMPTY".data then
      constraintLoop rest
        { colDef with constraints := colDef.constraints ++ [String.mk constraintToken] }
    else if constraintToken = "FOREIGN_KEY_REFERENCES".data then
      match rest with
      | [] =>
        .error (.syntaxError
          "Expected referenced table and column after FOREIGN_KEY_REFERENCES.")
      | referenceStr :: rest1 =>
        match findChar '.' referenceStr with
        | none =>
          .error (.syntaxError
            "Invalid FOREIGN_KEY_REFERENCES format. Expected another_table.column_name.")
        | some dotPos =>
          constraintLoop rest1
            { colDef with
              referencedTable := String.mk (to_upper (referenceStr.take dotPos)),
              referencedColumn := String.mk (to_upper (referenceStr.drop (dotPos + 1))),
              constraints := colDef.constraints ++ ["FOREIGN_KEY_REFERENCES"] }
    else .error (.syntaxError ("Invalid constraint: " ++ String.mk constraintToken))

/-- The body of the loop over the column definitions: one definition. -/
def parseColumn (text : List Char) : Except DbError ColumnDefinition :=
  let columnDefStr := trim text
  let tokens := words columnDefStr
  constraintLoop (tokens.drop 2)
    { name := String.mk (to_upper (tokens.headD [])),
      type := String.mk (to_upper ((tokens.drop 1).headD [])),
      constraints := [], referencedTable := "", referencedColumn := "" }

/-- The loop over the column definitions. -/
def columnLoop : List (List Char) → Except DbError (List ColumnDefinition)
  | [] => .ok []
  | text :: rest =>
    match parseColumn text with
    | .error e => .error e
    | .ok colDef =>
      match columnLoop rest with
      | .error e => .error e
      | .ok columns => .ok (colDef :: columns)

/-- The CREATE branch of `SQLParser::parse`; `token` holds `CREATE`. The count
of `substr` is `endPos - startPos - 1` in `size_t`, which wraps around when
the last `)` comes before the first `(`. -/
def parseCreate (stream : IStream) (token : List Char) (query : Query) : Except DbError Query :=
  let r1 := stream.extract token
  if to_upper r1.2 = "TABLE".data then
    let r2 := r1.1.extract []
    let columnsDefinition := (r2.1.getline [] ';').2
    match findChar '(' columnsDefinition, rfindChar ')' columnsDefinition with
    | some startPos, some endPos =>
      let columns :=
        (columnsDefinition.drop (startPos + 1)).take ((endPos + 2 ^ 64 - startPos - 1) % 2 ^ 64)
      match columnLoop (getlines ',' columns) with
      | .error e => .error e
      | .ok defs => .ok { query with table := String.mk (to_upper r2.2), columns := defs }
    | _, _ => .error (.syntaxError "Invalid column definitions in CREATE TABLE statement.")
  else .error (.syntaxError "Expected 'TABLE' keyword after 'CREATE'.")

/-- The DROP branch of `SQLParser::parse`; `token` holds `DROP`. -/
def parseDrop (stream : IStream) (token : List Char) (query : Query) : Except DbError Query :=
  let r1 := stream.extract token
  if to_upper r1.2 = "TABLE".data then
    let r2 := r1.1.extract []
    if r2.1.failbit then .error (.syntaxError "No table specified in DROP TABLE statement.")
    else .ok { query with table := String.mk r2.2 }
  else .error (.syntaxError "Expected 'TABLE' keyword in DROP statement.")

/-- The function `SQLParser::parse`. -/
def parse (sql : String) : Except DbError Query :=
  let r := (IStream.ofText sql.data).extract []
  let token := to_upper r.2
  let query : Query := { emptyQuery with operation := String.mk token }
  if token = [] then .error (.syntaxError "No operation specified in the SQL query.")
  else if token = "SELECT".data then parseSelect r.1 query
  else if token = "INSERT".data then parseInsert r.1 token query
  else if token = "UPDATE".data then parseUpdate r.1 token query
  else if token = "DELETE".data then parseDelete r.1 token query
  else if token = "CREATE".data then parseCreate r.1 token query
  else if token = "DROP".data then parseDrop r.1 token query
  else .error (.syntaxError ("Unsupported SQL operation: " ++ String.mk token))

end SQLParser

/-! ## Database.cpp: INSERT and SELECT -/

namespace Database

/-- The innermost loop of `Database::insertIntoTable`:
`record[query.fields[i]] = recordValues.at(query.fields[i])`. -/
def buildRecord (recordValues : StdMap String) : List String → Record → Except DbError Record
  | [], record => .ok record
  | fieldName :: rest, record =>
    match StdMap.find recordValues fieldName with
    | some value => buildRecord recordValues rest (StdMap.assign record fieldName value)
    | none => .error .outOfRange

/-- The loop of `Database::insertIntoTable` over `query.multiValues`, on the
table found under `name`; the table sees the database through its pointer. -/
def insertRows (S : Stod) (db : Database) (name : String) (fields : List String) :
    Table → List (StdMap String) → Outcome Table
  | table, [] => .ok table
  | table, recordValues :: rest =>
    if fields.length ≠ recordValues.length then .fail .valueCountMismatch table
    else
      match buildRecord recordValues fields [] with
      | .error e => .fail e table
      | .ok record =>
        match Table.insertRecord S { tables := StdMap.assign db.tables name table } table record with
        | .fail e t1 => .fail e t1
        | .ok t1 => insertRows S db name fields t1 rest

/-- The function `Database::insertIntoTable`. -/
def insertIntoTable (S : Stod) (db : Database) (query : Query) : Outcome Database :=
  match StdMap.find db.tables query.table with
  | none => .fail (.tableNotFound query.table) db
  | some table =>
    match insertRows S db query.table query.fields table query.multiValues with
    | .ok t1 => .ok { tables := StdMap.assign db.tables query.table t1 }
    | .fail e t1 => .fail e { tables := StdMap.assign db.tables query.table t1 }

/-- The loop of `Database::executeSelectQuery` over the JOIN clauses, with the
local variable `currentRecords`. The result is `none` when the loop reads
`joinConditions[0]` from an empty vector, which has no defined behaviour. -/
def joinAll (db : Database) (primaryName : String) :
    List Join → List Record → Option (Except DbError (List Record))
  | [], currentRecords => some (.ok currentRecords)
  | join :: rest, currentRecords =>
    match StdMap.find db.tables join.table with
    | none => some (.error (.tableNotFound join.table))
    | some joinTable =>
      match SQLParser.parse_conditions join.onCondition.data [] with
      | [] => none
      | joinCondition :: _ =>
        match Table.performInnerJoin currentRecords joinTable.records joinCondition
            joinTable.name primaryName with
        | .error e => some (.error e)
        | .ok result => joinAll db primaryName rest result

/-- The loop of `Database::executeSelectQuery` that applies the WHERE chain to
the combined records. -/
def filterLoop (S : Stod) (conditions : List Condition) :
    List Record → Except DbError (List Record)
  | [] => .ok []
  | record :: rest =>
    match evaluateCombinedConditions S record conditions with
    | .error e => .error e
    | .ok keep =>
      match filterLoop S conditions rest with
      | .error e => .error e
      | .ok filteredResults => .ok (if keep then record :: filteredResults else filteredResults)

/-- The last loop of `Database::executeSelectQuery`: the projection of every
filtered record, written like the one of `Table::selectRecords`. -/
def projectLoop (fields : List String) : List Record → Except DbError (List Record)
  | [] => .ok []
  | record :: rest =>
    match Table.project fields record with
    | .error e => .error e
    | .ok selectedRecord =>
      match projectLoop fields rest with
      | .error e => .error e
      | .ok finalResults => .ok (selectedRecord :: finalResults)

/-- The function `Database::executeSelectQuery`; `none` when the body reads
past the end of `joinConditions`. -/
def executeSelectQuery (S : Stod) (db : Database) (query : Query) :
    Option (Except DbError (List Record)) :=
  match StdMap.find db.tables query.table with
  | none => some (.error (.tableNotFound query.table))
  | some primaryTable =>
    if query.joins = [] then
      some (Table.selectRecords S primaryTable query.fields query.conditions)
    else
      match joinAll db primaryTable.name query.joins primaryTable.records with
      | none => none
      | some (.error e) => some (.error e)
      | some (.ok currentRecords) =>
        match filterLoop S query.conditions currentRecords with
        | .error e => some (.error e)
        | .ok filteredResults => some (projectLoop query.fields filteredResults)

end Database

/-! ## Sequences of calls on one table -/

/-- One call of a mutating member function of `Table`, with the database the
back pointer shows at the time of the call. -/
inductive Call where
  | insertRecord (db : Database) (record : Record)
  | updateRecords (db : Database) (newValues : StdMap String) (conditions : List Condition)
  | deleteRecords (conditions : List Condition)

namespace Call

/-- The arguments of type `std::map` are maps: their keys strictly increase. -/
def WellFormed : Call → Prop
  | insertRecord _ record => StdMap.Sorted record
  | updateRecords _ newValues _ => StdMap.Sorted newValues
  | deleteRecords _ => True

instance wellFormedDecidable (c : Call) : Decidable (WellFormed c) := by
  cases c <;> unfold WellFormed <;> infer_instance

end Call

namespace Table

/-- Perform one call. -/
def call (S : Stod) (t : Table) : Call → Outcome Table
  | .insertRecord db record => insertRecord S db t record
  | .updateRecords db newValues conditions => updateRecords S db t newValues conditions
  | .deleteRecords conditions => deleteRecords S t conditions

/-- The table after a sequence of calls, each continuing from the state the
previous one left, whether it returned or threw. -/
def run (S : Stod) : Table → List Call → Table
  | t, [] => t
  | t, c :: cs => run S (call S t c).state cs

/-- Whether every call of the sequence returns without an exception. -/
def allSucceed (S : Stod) : Table → List Call → Bool
  | _, [] => true
  | t, c :: cs =>
    match call S t c with
    | .ok t1 => allSucceed S t1 cs
    | .fail _ _ => false

/-- The table built by the loop of `Database::createTable`: `addField` for
each field in turn, `none` as soon as one call throws. -/
def addFields (db : Database) : Table → List Field → Option Table
  | t, [] => some t
  | t, field :: rest =>
    match addField db t field with
    | .ok t1 => addFields db t1 rest
    | .fail _ _ => none

end Table

/-! ## Reference semantics of a condition chain -/

namespace Table

/-- The truth value of one condition on a record (`false` when its evaluation
throws). -/
def holds (S : Stod) (record : Record) (condition : Condition) : Bool :=
  match evaluateCondition S record condition with
  | .ok b => b
  | .error _ => false

/-- The chain rule in the words of the specification: the running result is
combined with each further condition, in order, by the relation that
condition carries (`AND`, otherwise `OR`); no operator binds tighter. -/
def leftFold (S : Stod) (record : Record) : List Condition → Bool → Bool
  | [], result => result
  | condition :: rest, result =>
    leftFold S record rest
      (if condition.relation = "AND" then result && holds S record condition
       else result || holds S record condition)

end Table

/-! ## Reference semantics of a selection -/

namespace Table

end Table

/-! ## Reference semantics of a join -/

/-- The join predicate for the operator `=`: the two operands, looked up by
their bare names, are equal. -/
def joinPredicate (condition : Condition) (leftRecord rightRecord : Record) : Bool :=
  decide (getValue leftRecord condition.field = getValue rightRecord condition.value)

/-! ## The written form of statements -/

/-- White space between two tokens: at least one character, all of them
white space. -/
def Blank (s : List Char) : Prop := s ≠ [] ∧ ∀ c ∈ s, isSpace c = true

instance blankDecidable (s : List Char) : Decidable (Blank s) := by
  unfold Blank; infer_instance

/-- A token: at least one character, none of them white space. -/
def Token (w : List Char) : Prop := w ≠ [] ∧ ∀ c ∈ w, isSpace c = false

instance tokenDecidable (w : List Char) : Decidable (Token w) := by
  unfold Token; infer_instance

/-- A constraint as it is written in a column definition: a single keyword, or
the keyword `FOREIGN_KEY_REFERENCES` followed by the token `table.column`. -/
inductive ConstraintText where
  | plain (keyword : List Char)
  | reference (keyword table column : List Char)

namespace ConstraintText

/-- The tokens of a written constraint. -/
def tokens : ConstraintText → List (List Char)
  | plain keyword => [keyword]
  | reference keyword table column => [keyword, table ++ '.' :: column]

/-- The keyword is one of the three, in any letter case, and `table` ends at
the first dot of the reference. -/
def WellFormed : ConstraintText → Prop
  | plain keyword =>
    SQLParser.to_upper keyword = "PRIMARY_KEY".data ∨
    SQLParser.to_upper keyword = "NOT_EMPTY".data
  | reference keyword table _ =>
    SQLParser.to_upper keyword = "FOREIGN_KEY_REFERENCES".data ∧ '.' ∉ table

instance wellFormedDecidable (c : ConstraintText) : Decidable (WellFormed c) := by
  cases c <;> unfold WellFormed <;> infer_instance

/-- The constraint name that the statement is to carry. -/
def name : ConstraintText → String
  | plain keyword => String.mk (SQLParser.to_upper keyword)
  | reference _ _ _ => "FOREIGN_KEY_REFERENCES"

/-- The referenced table and column after a list of constraints: those of the
last reference, upper-cased. -/
def referenced : List ConstraintText → String × String → String × String
  | [], r => r
  | plain _ :: rest, r => referenced rest r
  | reference _ table column :: rest, _ =>
    referenced rest (String.mk (SQLParser.to_upper table), String.mk (SQLParser.to_upper column))

end ConstraintText

/-- A column definition as it is written: `col type c1 ... ck`. -/
structure ColumnText where
  col : List Char
  type : List Char
  constraints : List ConstraintText

namespace ColumnText

/-- The tokens of a written column definition. -/
def tokens (d : ColumnText) : List (List Char) :=
  d.col :: d.type :: d.constraints.flatMap ConstraintText.tokens

/-- The column definition that the statement is to carry. -/
def definition (d : ColumnText) : ColumnDefinition :=
  { name := String.mk (SQLParser.to_upper d.col),
    type := String.mk (SQLParser.to_upper d.type),
    constraints := d.constraints.map ConstraintText.name,
    referencedTable := (ConstraintText.referenced d.constraints ("", "")).1,
    referencedColumn := (ConstraintText.referenced d.constraints ("", "")).2 }

end ColumnText

/-- The row that a tuple of values is to yield: each listed field, from left
to right, is assigned the value at its position. -/
def rowOf (fields values : List String) : StdMap String :=
  (fields.zip values).foldl (fun m p => StdMap.assign m p.1 p.2) []

/-- Whether a text goes on with the letters of a keyword, in any letter case,
and then with something other than a word character. -/
def keywordAt : List Char → List Char → Bool
  | [], text => !(text.head?.any isWord)
  | _ :: _, [] => false
  | c :: cs, d :: ds => d.toLower = c.toLower && keywordAt cs ds

/-- A literal as it is written in a condition: a text between two quotes of
one kind, or a token. -/
inductive LiteralText where
  | quoted (q : Char) (body : List Char)
  | bare (text : List Char)

namespace LiteralText

/-- The written text. -/
def text : LiteralText → List Char
  | quoted q body => q :: (body ++ [q])
  | bare token => token

/-- A quoted literal holds its quote character at the two ends only; a bare
literal is a token that does not begin with a quote. -/
def WellFormed : LiteralText → Prop
  | quoted q body => (q = '\'' ∨ q = '"') ∧ q ∉ body
  | bare token => Token token ∧ token.head? ≠ some '\'' ∧ token.head? ≠ some '"'

instance wellFormedDecidable (l : LiteralText) : Decidable (WellFormed l) := by
  cases l <;> unfold WellFormed <;> infer_instance

/-- The value the condition is to carry: the text between the quotes without
the white space at its ends, or the token. -/
def value : LiteralText → List Char
  | quoted _ body => SQLParser.trim body
  | bare token => token

end LiteralText

/-- A condition as it is written: field, operator and literal, with white
space between them. -/
structure ConditionText where
  field : List Char
  gap1 : List Char
  op : List Char
  gap2 : List Char
  literal : LiteralText

namespace ConditionText

/-- The written text. -/
def text (c : ConditionText) : List Char :=
  c.field ++ (c.gap1 ++ (c.op ++ (c.gap2 ++ c.literal.text)))

/-- The field is a non-empty run of letters, digits, underscores and dots;
the operator is a non-empty run of the characters `<>!=`, or `LIKE` or `IN` in
any letter case. -/
def WellFormed (c : ConditionText) : Prop :=
  c.field ≠ [] ∧ (∀ ch ∈ c.field, SQLParser.fieldChar ch = true) ∧
  Blank c.gap1 ∧ Blank c.gap2 ∧
  ((c.op ≠ [] ∧ ∀ ch ∈ c.op, SQLParser.operatorChar ch = true) ∨
    SQLParser.to_upper c.op = "LIKE".data ∨ SQLParser.to_upper c.op = "IN".data) ∧
  c.literal.WellFormed

instance wellFormedDecidable (c : ConditionText) : Decidable (WellFormed c) := by
  unfold WellFormed; infer_instance

/-- The condition that `parse_conditions` is to append, given the relation
that precedes it. -/
def condition (c : ConditionText) (relation : List Char) : Condition :=
  { field := String.mk (SQLParser.to_upper c.field), op := String.mk c.op,
    value := String.mk c.literal.value, relation := String.mk relation }

end ConditionText

/-- A further condition of a chain as it is written: white space, the relation,
white space, the condition. -/
structure LinkText where
  before : List Char
  relation : List Char
  after : List Char
  condition : ConditionText

namespace LinkText

/-- The written text. -/
def text (l : LinkText) : List Char :=
  l.before ++ (l.relation ++ (l.after ++ l.condition.text))

/-- The relation is `AND` or `OR` in any letter case, and the field of the
condition that follows is not the word `LIKE` or `IN`, nor one of them
followed by a dot. -/
def WellFormed (l : LinkText) : Prop :=
  Blank l.before ∧ Blank l.after ∧
  (SQLParser.to_upper l.relation = "AND".data ∨ SQLParser.to_upper l.relation = "OR".data) ∧
  l.condition.WellFormed ∧
  keywordAt "LIKE".data (l.condition.field ++ [' ']) = false ∧
  keywordAt "IN".data (l.condition.field ++ [' ']) = false

instance wellFormedDecidable (l : LinkText) : Decidable (WellFormed l) := by
  unfold WellFormed; infer_instance

end LinkText

/-! ## The written form of values and operands -/

/-- The operand `bare` is the operand `name` without its qualifier: the text
after the first dot of `name`, or `name` itself when it has no dot. -/
def Unqualified (name bare : String) : Prop :=
  (∃ qualifier : String, '.' ∉ qualifier.data ∧ name = qualifier ++ "." ++ bare) ∨
  ('.' ∉ name.data ∧ bare = name)

/-- A text of the shape `DDDD-DD-DD DD:DD:DD`, cut into its six fields. -/
structure DateTimeText where
  year : List Char
  month : List Char
  day : List Char
  hour : List Char
  minute : List Char
  second : List Char

namespace DateTimeText

/-- The text as it is written: the separators are `-`, `-`, one space, `:`
and `:`. -/
def text (w : DateTimeText) : List Char :=
  w.year ++ '-' :: (w.month ++ '-' :: (w.day ++ ' ' :: (w.hour ++ ':' :: (w.minute ++
    ':' :: w.second))))

/-- The fields have four, two, two, two, two and two characters, all of them
decimal digits. -/
def WellFormed (w : DateTimeText) : Prop :=
  w.year.length = 4 ∧ w.month.length = 2 ∧ w.day.length = 2 ∧ w.hour.length = 2 ∧
  w.minute.length = 2 ∧ w.second.length = 2 ∧
  ∀ c ∈ w.year ++ w.month ++ w.day ++ w.hour ++ w.minute ++ w.second, c.isDigit = true

instance wellFormedDecidable (w : DateTimeText) : Decidable (WellFormed w) := by
  unfold WellFormed; infer_instance

end DateTimeText

/-- A text that `std::stoi` reads to its end, cut into its three parts:
leading white space, a sign, and the digits. -/
structure IntegerText where
  blank : List Char
  sign : List Char
  digits : List Char

namespace IntegerText

/-- The text as it is written. -/
def text (w : IntegerText) : List Char := w.blank ++ (w.sign ++ w.digits)

/-- The number the text denotes. -/
def value (w : IntegerText) : Int :=
  if w.sign = ['-'] then -(digitsValue w.digits : Int) else (digitsValue w.digits : Int)

/-- The first part holds white space only (any number of characters, also
none), the sign is absent, `-` or `+`, there is at least one digit, and the
number lies in the range of a 32-bit `int`. -/
def WellFormed (w : IntegerText) : Prop :=
  (∀ c ∈ w.blank, isSpace c = true) ∧
  (w.sign = [] ∨ w.sign = ['-'] ∨ w.sign = ['+']) ∧
  w.digits ≠ [] ∧ (∀ c ∈ w.digits, c.isDigit = true) ∧
  -2147483648 ≤ w.value ∧ w.value ≤ 2147483647

instance wellFormedDecidable (w : IntegerText) : Decidable (WellFormed w) := by
  unfold WellFormed; infer_instance

end IntegerText

/-! ## Invariants of a table -/

namespace Table

open StdMap

/-- Every primary-key field has an index: `addField` creates it. -/
def IndexesDeclared (t : Table) : Prop :=
  ∀ p ∈ t.fields, p.2.isPrimaryKey = true → (find t.uniqueFields p.1).isSome = true

instance indexesDeclaredDecidable (t : Table) : Decidable (IndexesDeclared t) := by
  unfold IndexesDeclared; infer_instance

/-- The values that the records hold in column `C`, in record order (`none`
for a record without that key). -/
def column (records : List Record) (C : String) : List (Option String) :=
  records.map (fun r => find r C)

/-- The set of values that the records hold in column `C`. -/
def columnValues (records : List Record) (C : String) : Finset String :=
  (records.filterMap (fun r => find r C)).toFinset

/-- The primary-key index invariant: the index of every primary-key column is
exactly the set of values the current records hold in that column. -/
def IndexInvariant (t : Table) : Prop :=
  ∀ p ∈ t.fields, p.2.isPrimaryKey = true →
    find t.uniqueFields p.1 = some (columnValues t.records p.1)

instance indexInvariantDecidable (t : Table) : Decidable (IndexInvariant t) := by
  unfold IndexInvariant; infer_instance

/-- Primary-key uniqueness: no two positions of the record sequence hold the
same value in a primary-key column. -/
def KeysUnique (t : Table) : Prop :=
  ∀ p ∈ t.fields, p.2.isPrimaryKey = true → (column t.records p.1).Nodup

instance keysUniqueDecidable (t : Table) : Decidable (KeysUnique t) := by
  unfold KeysUnique; infer_instance

/-- Every record has a value for every declared field. -/
def RecordsTotal (t : Table) : Prop :=
  ∀ r ∈ t.records, ∀ p ∈ t.fields, (find r p.1).isSome = true

instance recordsTotalDecidable (t : Table) : Decidable (RecordsTotal t) := by
  unfold RecordsTotal; infer_instance

/-- The invariant of the loops over the records: every record has a value
for every declared field, and every primary-key column has an index that is
exactly its value set and holds no value twice. -/
def Coherent (fields : StdMap Field) (records : List Record) (uf : UniqueFields) : Prop :=
  (∀ r ∈ records, ∀ p ∈ fields, (find r p.1).isSome = true) ∧
  ∀ p ∈ fields, p.2.isPrimaryKey = true →
    find uf p.1 = some (columnValues records p.1) ∧ (column records p.1).Nodup

/-- The state of a table that `Database::createTable` has just built: no
record, distinct field names, an empty index for every primary-key field. -/
def Fresh (t : Table) : Prop :=
  t.records = [] ∧ (keys t.fields).Nodup ∧
  ∀ p ∈ t.fields, p.2.isPrimaryKey = true → find t.uniqueFields p.1 = some ∅

instance freshDecidable (t : Table) : Decidable (Fresh t) := by
  unfold Fresh; infer_instance

/-- The state invariant of a table: field names are distinct, and the four
properties above hold. -/
def Consistent (t : Table) : Prop :=
  (keys t.fields).Nodup ∧ IndexesDeclared t ∧ RecordsTotal t ∧ IndexInvariant t ∧ KeysUnique t

instance consistentDecidable (t : Table) : Decidable (Consistent t) := by
  unfold Consistent; infer_instance

end Table

/-! ## Scenario data -/

namespace Scenario

/-- A database without tables. -/
def emptyDb : Database := { tables := [] }

/-- Column `ID INT PRIMARY_KEY`. -/
def idField : Field := { name := "ID", dataType := .int, constraints := [.primaryKey] }

/-- Column `NAME VARCHAR(20) NOT_EMPTY`. -/
def nameField : Field := { name := "NAME", dataType := .varchar 20, constraints := [.notEmpty] }

/-- The table of `CREATE TABLE USERS (ID INT PRIMARY_KEY, NAME VARCHAR(20) NOT_EMPTY)`. -/
def users : Table :=
  { name := "USERS", records := [],
    fields := [("ID", idField), ("NAME", nameField)],
    uniqueFields := [("ID", ∅)] }

/-- The row `(1, 'Ann')`. -/
def ann : Record := [("ID", "1"), ("NAME", "Ann")]

/-- The row `(1, 'Bob')`. -/
def bob : Record := [("ID", "1"), ("NAME", "Bob")]

/-- The table `USERS` after `INSERT INTO USERS (ID,NAME) VALUES (1,'Ann')`. -/
def usersAnn : Table :=
  { name := "USERS", records := [ann],
    fields := [("ID", idField), ("NAME", nameField)],
    uniqueFields := [("ID", {"1"})] }

/-- A database holding `USERS` with the row of Ann. -/
def usersDb : Database := { tables := [("USERS", usersAnn)] }

/-- Column `OID INT PRIMARY_KEY`. -/
def orderIdField : Field := { name := "OID", dataType := .int, constraints := [.primaryKey] }

/-- Column `ID INT FOREIGN_KEY_REFERENCES USERS.ID`. -/
def userRefField : Field :=
  { name := "ID", dataType := .int, constraints := [.foreignKey "USERS" "ID"] }

/-- The table of
`CREATE TABLE ORDERS (OID INT PRIMARY_KEY, ID INT FOREIGN_KEY_REFERENCES USERS.ID)`. -/
def orders : Table :=
  { name := "ORDERS", records := [],
    fields := [("ID", userRefField), ("OID", orderIdField)],
    uniqueFields := [("OID", ∅)] }

/-- An order row whose `ID` names user 99. -/
def order99 : Record := [("ID", "99"), ("OID", "1")]

/-- A row with `ID` 1 and an empty `NAME`. -/
def emptyName : Record := [("ID", "1"), ("NAME", "")]

/-- A row with a non-numeric `ID`. -/
def badId : Record := [("ID", "x"), ("NAME", "Ann")]

/-- Column `CODE VARCHAR(5) NOT_EMPTY`. -/
def codeField : Field := { name := "CODE", dataType := .varchar 5, constraints := [.notEmpty] }

/-- Column `QTY INT`. -/
def qtyField : Field := { name := "QTY", dataType := .int, constraints := [] }

/-- The table of `CREATE TABLE ITEMS (CODE VARCHAR(5) NOT_EMPTY, QTY INT)`. -/
def items : Table :=
  { name := "ITEMS", records := [],
    fields := [("CODE", codeField), ("QTY", qtyField)],
    uniqueFields := [] }

/-- The row of `INSERT INTO ITEMS (QTY) VALUES (x)`. -/
def onlyQty : Record := [("QTY", "x")]

/-- The row of `INSERT INTO ITEMS (CODE,QTY) VALUES ('',x)`. -/
def emptyCode : Record := [("CODE", ""), ("QTY", "x")]

/-- The condition `ID = 1`, first of its chain. -/
def idIs1 : Condition := { field := "ID", op := "=", value := "1", relation := "" }

/-- The condition `ID = 2`, preceded by `OR`. -/
def orIdIs2 : Condition := { field := "ID", op := "=", value := "2", relation := "OR" }

/-- The condition `ID = 3`, preceded by `AND`. -/
def andIdIs3 : Condition := { field := "ID", op := "=", value := "3", relation := "AND" }

/-- The row `(2, 'Cat')`. -/
def cat : Record := [("ID", "2"), ("NAME", "Cat")]

/-- The condition `ID = 2`, first of its chain. -/
def idIs2 : Condition := { field := "ID", op := "=", value := "2", relation := "" }

/-- Insert Ann and Cat, `UPDATE USERS SET ID=3 WHERE ID=1`, `DELETE FROM USERS
WHERE ID=2`. -/
def session : List Call :=
  [.insertRecord emptyDb ann, .insertRecord emptyDb cat,
   .updateRecords emptyDb [("ID", "3")] [idIs1], .deleteRecords [idIs2]]

/-- Insert Ann, insert Bob (same `ID`), insert Cat, `UPDATE USERS SET ID=1
WHERE ID=2`. -/
def clashes : List Call :=
  [.insertRecord emptyDb ann, .insertRecord emptyDb bob, .insertRecord emptyDb cat,
   .updateRecords emptyDb [("ID", "1")] [idIs2]]

/-- A CREATE statement as `SQLParser::parse` returns it. -/
def createQuery (table : String) (columns : List ColumnDefinition) : Query :=
  { operation := "CREATE", fields := [], table := table, conditions := [], joins := [],
    values := [], multiValues := [], columns := columns }

/-- A DROP statement as `SQLParser::parse` returns it. -/
def dropQuery (table : String) : Query :=
  { operation := "DROP", fields := [], table := table, conditions := [], joins := [],
    values := [], multiValues := [], columns := [] }

/-- The column `ID INT PRIMARY_KEY`. -/
def idColumn : ColumnDefinition :=
  { name := "ID", type := "INT", constraints := ["PRIMARY_KEY"],
    referencedTable := "", referencedColumn := "" }

/-- The column `NAME VARCHAR(20) NOT_EMPTY`. -/
def nameColumn : ColumnDefinition :=
  { name := "NAME", type := "VARCHAR(20)", constraints := ["NOT_EMPTY"],
    referencedTable := "", referencedColumn := "" }

/-- The column `ID INT PRIMARY_KEY FOREIGN_KEY_REFERENCES NOPE.ID`. -/
def keyThenReference : ColumnDefinition :=
  { name := "ID", type := "INT", constraints := ["PRIMARY_KEY", "FOREIGN_KEY_REFERENCES"],
    referencedTable := "NOPE", referencedColumn := "ID" }

/-- The column `ID INT FOREIGN_KEY_REFERENCES NOPE.ID PRIMARY_KEY`. -/
def referenceThenKey : ColumnDefinition :=
  { name := "ID", type := "INT", constraints := ["FOREIGN_KEY_REFERENCES", "PRIMARY_KEY"],
    referencedTable := "NOPE", referencedColumn := "ID" }

/-- The table a CREATE with the column `keyThenReference` registers. -/
def danglingTable : Table :=
  { name := "T", records := [],
    fields := [("ID", { name := "ID", dataType := .int,
                        constraints := [.primaryKey, .foreignKey "NOPE" "ID"] })],
    uniqueFields := [("ID", ∅)] }

/-- An order row of user 1. -/
def order10 : Record := [("ID", "1"), ("OID", "10")]

/-- A second order row of user 1. -/
def order11 : Record := [("ID", "1"), ("OID", "11")]

/-- The table `ORDERS` holding `order10`. -/
def ordersOne : Table :=
  { name := "ORDERS", records := [order10],
    fields := [("ID", userRefField), ("OID", orderIdField)],
    uniqueFields := [("OID", {"10"})] }

/-- The condition `OID = 10`, first of its chain. -/
def oidIs10 : Condition := { field := "OID", op := "=", value := "10", relation := "" }

/-- A database holding `ORDERS` (one order, referencing `USERS.ID`) and `USERS`. -/
def shopDb : Database := { tables := [("ORDERS", ordersOne), ("USERS", usersAnn)] }

/-- The table `USERS` holding Ann and Cat. -/
def usersAnnCat : Table :=
  { name := "USERS", records := [ann, cat],
    fields := [("ID", idField), ("NAME", nameField)],
    uniqueFields := [("ID", {"1", "2"})] }

/-- The join condition of `ON USERS.ID = ORDERS.ID`. -/
def joinOnId : Condition :=
  { field := "USERS.ID", op := "=", value := "ORDERS.ID", relation := "" }

/-- The join condition of `ON USERS.ID = ORDERS.USERID`. -/
def joinOnUserId : Condition :=
  { field := "USERS.ID", op := "=", value := "ORDERS.USERID", relation := "" }

/-- Ann joined with her order 10. -/
def annOrder10 : Record :=
  [("ID", "1"), ("NAME", "Ann"), ("ORDERS.ID", "1"), ("ORDERS.OID", "10")]

/-- Ann joined with her order 11. -/
def annOrder11 : Record :=
  [("ID", "1"), ("NAME", "Ann"), ("ORDERS.ID", "1"), ("ORDERS.OID", "11")]

/-- A row of `ORDERS (ID, USERID)`: order 10 of user 1. -/
def orderOfUser1 : Record := [("ID", "10"), ("USERID", "1")]

/-- A row of `ORDERS (ID, USERID)`: order 20 of user 2. -/
def orderOfUser2 : Record := [("ID", "20"), ("USERID", "2")]

/-- The row of `INSERT INTO USERS (ID,NAME,EXTRA) VALUES (1,'Ann',x)`. -/
def annExtra : Record := [("EXTRA", "x"), ("ID", "1"), ("NAME", "Ann")]

/-- The table `USERS` holding the row `annExtra`. -/
def usersExtra : Table :=
  { name := "USERS", records := [annExtra],
    fields := [("ID", idField), ("NAME", nameField)],
    uniqueFields := [("ID", {"1"})] }

/-- The row of `INSERT INTO ITEMS (CODE) VALUES ('toolong')`. -/
def longCode : Record := [("CODE", "toolong")]

/-- The row of `INSERT INTO USERS (ID) VALUES (1)`. -/
def onlyId : Record := [("ID", "1")]

/-- The condition of `WHERE NAME LIKE 'A%'`, first of its chain. -/
def nameLikeA : Condition := { field := "NAME", op := "LIKE", value := "A%", relation := "" }

/-- The join condition of `ON ORDERS.ID = USERS.USERID`: each operand is
written with the name of the other table. -/
def joinSwapped : Condition :=
  { field := "ORDERS.ID", op := "=", value := "USERS.USERID", relation := "" }

/-- The join condition of `ON USERS.AGE = ORDERS.PRICE`: no row holds `AGE`
or `PRICE`. -/
def joinOnAbsent : Condition :=
  { field := "USERS.AGE", op := "=", value := "ORDERS.PRICE", relation := "" }

/-- The condition `ID = 3`, first of its chain. -/
def idIs3 : Condition := { field := "ID", op := "=", value := "3", relation := "" }

/-- The column definition `DATA BLOB`. -/
def blobColumn : ColumnDefinition :=
  { name := "DATA", type := "BLOB", constraints := [], referencedTable := "",
    referencedColumn := "" }

/-- The statement `INSERT INTO USERS ( ID,NAME,EXTRA) VALUES (1,'Ann','x')`
as `SQLParser::parse` returns it. -/
def insertAnnExtra : Query :=
  { SQLParser.emptyQuery with
    operation := "INSERT", table := "USERS", fields := ["ID", "NAME", "EXTRA"],
    multiValues := [[("EXTRA", "x"), ("ID", "1"), ("NAME", "Ann")]] }

/-- The statement `SELECT * FROM` a table, as `SQLParser::parse` returns it. -/
def selectAll (table : String) : Query :=
  { SQLParser.emptyQuery with operation := "SELECT", fields := ["*"], table := table }

/-- The row of Ann after `SET ID=9`. -/
def ann9 : Record := [("ID", "9"), ("NAME", "Ann")]

/-- The table `usersAnnCat` as `UPDATE USERS SET ID=9` leaves it when it
throws at the second record. -/
def usersAnn9Cat : Table :=
  { name := "USERS", records := [ann9, cat],
    fields := [("ID", idField), ("NAME", nameField)],
    uniqueFields := [("ID", {"9", "2"})] }

/-- A database holding `ORDERS` without records and `USERS` with Ann. -/
def noOrdersDb : Database := { tables := [("ORDERS", orders), ("USERS", usersAnn)] }

/-- The statement `SELECT * FROM USERS INNER JOIN ORDERS ON` followed by the
text `onText`, as `SQLParser::parse` returns it. -/
def selectJoin (onText : String) : Query :=
  { SQLParser.emptyQuery with
    operation := "SELECT", fields := ["*"], table := "USERS",
    joins := [{ table := "ORDERS", onCondition := onText }] }

/-- The join condition of `ON USERS.ID < ORDERS.ID`. -/
def joinLess : Condition :=
  { field := "USERS.ID", op := "<", value := "ORDERS.ID", relation := "" }

/-- The condition `AGE = 3`, first of its chain; `USERS` declares no `AGE`. -/
def ageIs3 : Condition := { field := "AGE", op := "=", value := "3", relation := "" }

/-- The condition `NAME < 3`, joined to its chain by `OR`. -/
def orNameLess3 : Condition := { field := "NAME", op := "<", value := "3", relation := "OR" }

/-- The row of Ann after `SET ID=5`. -/
def ann5 : Record := [("ID", "5"), ("NAME", "Ann")]

end Scenario

/-! ## Lemmas on the containers -/

namespace StdMap

theorem find_assign_self {β : Type} (m : StdMap β) (k : String) (v : β) :
    find (assign m k v) k = some v := by
  induction m with
  | nil => simp [assign, find]
  | cons p rest ih =>
    obtain ⟨k', v'⟩ := p
    unfold assign
    by_cases h1 : k = k'
    · simp [h1, find]
    · by_cases h2 : keyLt k k'
      · simp [h1, h2, find]
      · simp [h1, h2, find, ih]

theorem find_assign_ne {β : Type} (m : StdMap β) (k k2 : String) (v : β) (h : k2 ≠ k) :
    find (assign m k v) k2 = find m k2 := by
  induction m with
  | nil => simp [assign, find, h]
  | cons p rest ih =>
    obtain ⟨k', v'⟩ := p
    unfold assign
    by_cases h1 : k = k'
    · subst h1
      simp [find, h]
    · by_cases h2 : keyLt k k'
      · simp [h1, h2, find, h]
      · simp [h1, h2, find, ih]

theorem find_assign {β : Type} (m : StdMap β) (k k2 : String) (v : β) :
    find (assign m k v) k2 = if k2 = k then some v else find m k2 := by
  by_cases h : k2 = k
  · subst h
    simp [find_assign_self]
  · simp [h, find_assign_ne]

theorem touch_eq_self {β : Type} (m : StdMap β) (k : String) (d v : β)
    (h : find m k = some v) : touch m k d = m := by
  simp [touch, h]

theorem mem_of_find {β : Type} (m : StdMap β) (k : String) (v : β)
    (h : find m k = some v) : (k, v) ∈ m := by
  induction m with
  | nil => simp [find] at h
  | cons p rest ih =>
    obtain ⟨k', v'⟩ := p
    unfold find at h
    by_cases h1 : k = k'
    · simp [h1] at h
      simp [h1, h]
    · simp [h1] at h
      exact List.mem_cons_of_mem _ (ih h)

theorem find_isSome_of_mem {β : Type} (m : StdMap β) (k : String) (v : β)
    (h : (k, v) ∈ m) : ∃ w, find m k = some w := by
  induction m with
  | nil => simp at h
  | cons p rest ih =>
    obtain ⟨k', v'⟩ := p
    unfold find
    by_cases h1 : k = k'
    · exact ⟨v', by simp [h1]⟩
    · simp only [h1, if_false]
      rcases List.mem_cons.mp h with h2 | h2
      · exact absurd (congrArg Prod.fst h2) h1
      · exact ih h2

theorem keyLt_irrefl (a : String) : ¬ keyLt a a := fun h => lt_irrefl a.data h

theorem keyLt_trans {a b c : String} (h1 : keyLt a b) (h2 : keyLt b c) : keyLt a c :=
  lt_trans (a := a.data) h1 h2

theorem keyLt_of_not {a b : String} (h1 : a ≠ b) (h2 : ¬ keyLt a b) : keyLt b a := by
  rcases lt_trichotomy a.data b.data with h | h | h
  · exact absurd h h2
  · exact absurd (String.ext h) h1
  · exact h

theorem find_eq_none_of_not_mem {β : Type} (m : StdMap β) (k : String)
    (h : k ∉ keys m) : find m k = none := by
  induction m with
  | nil => rfl
  | cons p rest ih =>
    obtain ⟨k', v'⟩ := p
    simp only [keys, List.map_cons, List.mem_cons, not_or] at h
    simp only [find, h.1, if_false]
    exact ih h.2

theorem mem_keys_assign {β : Type} (m : StdMap β) (k x : String) (v : β)
    (h : x ∈ keys (assign m k v)) : x = k ∨ x ∈ keys m := by
  by_cases hx : x = k
  · exact Or.inl hx
  · right
    by_contra hn
    have h1 := find_eq_none_of_not_mem m x hn
    have h2 : find (assign m k v) x = none := by rw [find_assign_ne m k x v hx]; exact h1
    obtain ⟨p, hp, hpx⟩ := List.mem_map.mp h
    obtain ⟨w, hw⟩ := find_isSome_of_mem (assign m k v) x p.2 (by rw [← hpx]; exact hp)
    rw [h2] at hw
    cases hw

theorem sorted_assign {β : Type} (m : StdMap β) (k : String) (v : β) (h : Sorted m) :
    Sorted (assign m k v) := by
  induction m with
  | nil => simp [assign, Sorted, keys]
  | cons p rest ih =>
    obtain ⟨k', v'⟩ := p
    have hs : (∀ x ∈ keys rest, keyLt k' x) ∧ Sorted rest := by
      simpa [Sorted, keys] using h
    unfold assign
    by_cases h1 : k = k'
    · subst h1
      simpa [Sorted, keys] using h
    · by_cases h2 : keyLt k k'
      · simp only [h1, h2, if_true, if_false]
        have : ∀ x ∈ keys ((k', v') :: rest), keyLt k x := by
          intro x hx
          rcases List.mem_cons.mp hx with hx | hx
          · exact hx ▸ h2
          · exact keyLt_trans h2 (hs.1 x hx)
        exact List.pairwise_cons.mpr ⟨this, h⟩
      · simp only [h1, h2, if_false]
        have hlt : keyLt k' k := keyLt_of_not h1 h2
        have : ∀ x ∈ keys (assign rest k v), keyLt k' x := by
          intro x hx
          rcases mem_keys_assign rest k x v hx with hx | hx
          · exact hx ▸ hlt
          · exact hs.1 x hx
        exact List.pairwise_cons.mpr ⟨this, ih hs.2⟩

end StdMap

/-! ## The scenario tables are the ones the engine builds -/

namespace Scenario

theorem users_created :
    Table.addFields emptyDb (Table.new "USERS") [idField, nameField] = some users := by
  decide

theorem usersAnn_inserted :
    Table.insertRecord Stod.integral emptyDb users ann = .ok usersAnn := by
  decide

theorem items_created :
    Table.addFields emptyDb (Table.new "ITEMS") [codeField, qtyField] = some items := by
  decide

theorem orders_created :
    Table.addFields usersDb (Table.new "ORDERS") [orderIdField, userRefField] = some orders := by
  decide

end Scenario

/-! ## Condition chains -/

namespace Table

open StdMap

theorem holds_of_ok (S : Stod) (record : Record) (c : Condition) (b : Bool)
    (h : evaluateCondition S record c = .ok b) : holds S record c = b := by
  simp [holds, h]

theorem evaluateRest_eq_leftFold (S : Stod) (record : Record) (rest : List Condition)
    (hev : ∀ c ∈ rest, ∃ b, evaluateCondition S record c = .ok b)
    (hrel : ∀ c ∈ rest, c.relation = "AND" ∨ c.relation = "OR") (r : Bool) :
    evaluateRest S record rest r = .ok (leftFold S record rest r) := by
  induction rest generalizing r with
  | nil => rfl
  | cons c cs ih =>
    have hev' : ∀ c ∈ cs, ∃ b, evaluateCondition S record c = .ok b :=
      fun d hd => hev d (List.mem_cons_of_mem _ hd)
    have hrel' : ∀ c ∈ cs, c.relation = "AND" ∨ c.relation = "OR" :=
      fun d hd => hrel d (List.mem_cons_of_mem _ hd)
    obtain ⟨b, hb⟩ := hev c (List.mem_cons_self _ _)
    have hh := holds_of_ok S record c b hb
    unfold evaluateRest leftFold
    rcases hrel c (List.mem_cons_self _ _) with hand | hor
    · cases r <;> simp [hand, hb, hh, ih hev' hrel']
    · have hne : c.relation ≠ "AND" := by rw [hor]; decide
      cases r <;> simp [hne, hor, hb, hh, ih hev' hrel']

end Table

/-! ## Lemmas on insertion -/

namespace Table

open StdMap

theorem getName_ne_foreignKey (c : Constraint) : c.getName ≠ "FOREIGN_KEY" := by
  cases c <;> simp only [Constraint.getName] <;> decide

theorem checkForeignKey_ok (db : Database) (fieldName value : String) (cs : List Constraint) :
    checkForeignKey db fieldName value cs = .ok () := by
  induction cs with
  | nil => rfl
  | cons c cs ih =>
    unfold checkForeignKey
    simp [getName_ne_foreignKey c, ih]

theorem checkForeignKeys_ok (db : Database) (record : Record) (fields : List (String × Field)) :
    checkForeignKeys db record fields = .ok () := by
  induction fields with
  | nil => rfl
  | cons p rest ih =>
    obtain ⟨fieldName, field⟩ := p
    unfold checkForeignKeys
    cases hf : find record fieldName with
    | none => simpa using ih
    | some value => simp [checkForeignKey_ok, ih]

theorem validateFields_ok_iff (S : Stod) (fields : List (String × Field)) (record : Record) :
    validateFields S fields record = .ok () ↔
      ∀ p ∈ fields, ∃ w, find record p.1 = some w ∧ p.2.validate S w = .ok () := by
  induction fields with
  | nil => simp [validateFields]
  | cons p rest ih =>
    obtain ⟨fieldName, field⟩ := p
    unfold validateFields
    cases hf : find record fieldName with
    | none => simp [hf]
    | some value =>
      cases hv : field.validate S value with
      | error e => simp [hf, hv]
      | ok u => simp [hf, hv, ih]

theorem checkPrimaryKey_eq (fieldName value : String) (cs : List Constraint)
    (uf : UniqueFields)
    (hdecl : cs.any (fun c => decide (c.getName = "PRIMARY_KEY")) = true →
      (find uf fieldName).isSome = true) :
    checkPrimaryKey fieldName value cs uf =
      if cs.any (fun c => decide (c.getName = "PRIMARY_KEY")) = true ∧
          value ∈ (find uf fieldName).getD ∅
      then .fail (.primaryKeyViolated fieldName) uf else .ok uf := by
  induction cs with
  | nil => simp [checkPrimaryKey]
  | cons c cs ih =>
    unfold checkPrimaryKey
    by_cases hc : c.getName = "PRIMARY_KEY"
    · have hsome : (find uf fieldName).isSome = true := hdecl (by simp [hc])
      obtain ⟨idx, hidx⟩ := Option.isSome_iff_exists.mp hsome
      have ht : touch uf fieldName ∅ = uf := touch_eq_self uf fieldName ∅ idx hidx
      by_cases hv : value ∈ idx
      · simp [hc, ht, hidx, hv]
      · have ih' := ih (fun _ => hsome)
        simp [hc, ht, hidx, hv, ih']
    · have ih' := ih (fun h => hdecl (by simp [h]))
      simp [hc, ih']

theorem checkPrimaryKeys_ok (record : Record) (fields : List (String × Field))
    (uf : UniqueFields)
    (hdecl : ∀ p ∈ fields, p.2.isPrimaryKey = true → (find uf p.1).isSome = true)
    (hfree : ∀ p ∈ fields, p.2.isPrimaryKey = true →
      (find record p.1).getD "" ∉ (find uf p.1).getD ∅) :
    checkPrimaryKeys record fields uf = .ok uf := by
  induction fields with
  | nil => rfl
  | cons p rest ih =>
    obtain ⟨fieldName, field⟩ := p
    unfold checkPrimaryKeys
    have h1 := checkPrimaryKey_eq fieldName ((find record fieldName).getD "")
      field.constraints uf (fun h => hdecl (fieldName, field) (List.mem_cons_self _ _) h)
    have h2 : ¬ (field.constraints.any (fun c => decide (c.getName = "PRIMARY_KEY")) = true ∧
        (find record fieldName).getD "" ∈ (find uf fieldName).getD ∅) :=
      fun h => hfree (fieldName, field) (List.mem_cons_self _ _) h.1 h.2
    rw [h1, if_neg h2]
    exact ih (fun q hq => hdecl q (List.mem_cons_of_mem _ hq))
      (fun q hq => hfree q (List.mem_cons_of_mem _ hq))

theorem checkPrimaryKeys_fail (record : Record) (fields : List (String × Field))
    (uf : UniqueFields)
    (hdecl : ∀ p ∈ fields, p.2.isPrimaryKey = true → (find uf p.1).isSome = true)
    (hdup : ∃ p ∈ fields, p.2.isPrimaryKey = true ∧
      (find record p.1).getD "" ∈ (find uf p.1).getD ∅) :
    ∃ name, checkPrimaryKeys record fields uf = .fail (.primaryKeyViolated name) uf := by
  induction fields with
  | nil => simp at hdup
  | cons p rest ih =>
    obtain ⟨fieldName, field⟩ := p
    unfold checkPrimaryKeys
    have h1 := checkPrimaryKey_eq fieldName ((find record fieldName).getD "")
      field.constraints uf (fun h => hdecl (fieldName, field) (List.mem_cons_self _ _) h)
    by_cases h2 : field.constraints.any (fun c => decide (c.getName = "PRIMARY_KEY")) = true ∧
        (find record fieldName).getD "" ∈ (find uf fieldName).getD ∅
    · rw [h1, if_pos h2]
      exact ⟨fieldName, rfl⟩
    · rw [h1, if_neg h2]
      obtain ⟨q, hq, hpk, hmem⟩ := hdup
      rcases List.mem_cons.mp hq with heq | hin
      · subst heq
        exact absurd ⟨hpk, hmem⟩ h2
      · exact ih (fun q hq => hdecl q (List.mem_cons_of_mem _ hq)) ⟨q, hin, hpk, hmem⟩

theorem indexInserted_eq (record : Record) (fields : List (String × Field))
    (uf : UniqueFields)
    (htotal : ∀ p ∈ fields, (find record p.1).isSome = true) :
    ∃ uf1, indexInserted record fields uf = .ok uf1 ∧
      ∀ C, find uf1 C = (find uf C).map (fun index =>
        if C ∈ keys fields then insert ((find record C).getD "") index else index) := by
  induction fields generalizing uf with
  | nil => exact ⟨uf, rfl, fun C => by simp [keys]⟩
  | cons p rest ih =>
    obtain ⟨fieldName, field⟩ := p
    have hrest : ∀ q ∈ rest, (find record q.1).isSome = true :=
      fun q hq => htotal q (List.mem_cons_of_mem _ hq)
    obtain ⟨value, hvalue⟩ := Option.isSome_iff_exists.mp
      (htotal (fieldName, field) (List.mem_cons_self _ _))
    unfold indexInserted
    cases hidx : find uf fieldName with
    | none =>
      obtain ⟨uf1, h1, h2⟩ := ih uf hrest
      refine ⟨uf1, by simpa using h1, fun C => ?_⟩
      rw [h2 C]
      by_cases hC : C = fieldName
      · subst hC
        simp [hidx]
      · have hk : (C ∈ keys ((fieldName, field) :: rest)) ↔ C ∈ keys rest := by
          simp [keys, hC]
        simp only [hk]
    | some index =>
      obtain ⟨uf1, h1, h2⟩ := ih (assign uf fieldName (insert value index)) hrest
      refine ⟨uf1, by simpa [hvalue] using h1, fun C => ?_⟩
      rw [h2 C, find_assign]
      by_cases hC : C = fieldName
      · subst hC
        simp [hidx, hvalue, keys]
      · have hk : (C ∈ keys ((fieldName, field) :: rest)) ↔ C ∈ keys rest := by
          simp [keys, hC]
        simp only [hk, if_neg hC]

theorem eta_uniqueFields (t : Table) : { t with uniqueFields := t.uniqueFields } = t := by
  cases t; rfl

theorem insertRecord_of_invalid (S : Stod) (db : Database) (t : Table) (record : Record)
    (e : DbError) (h : validateFields S t.fields record = .error e) :
    insertRecord S db t record = .fail e t := by
  simp [insertRecord, enforceConstraintsOnInsert, h]

theorem insertRecord_of_duplicate (S : Stod) (db : Database) (t : Table) (record : Record)
    (hdecl : IndexesDeclared t)
    (hvalid : validateFields S t.fields record = .ok ())
    (hdup : ∃ p ∈ t.fields, p.2.isPrimaryKey = true ∧
      (find record p.1).getD "" ∈ (find t.uniqueFields p.1).getD ∅) :
    ∃ name, insertRecord S db t record = .fail (.primaryKeyViolated name) t := by
  obtain ⟨name, hname⟩ := checkPrimaryKeys_fail record t.fields t.uniqueFields hdecl hdup
  exact ⟨name, by simp [insertRecord, enforceConstraintsOnInsert, hvalid, hname, eta_uniqueFields]⟩

theorem insertRecord_of_fresh (S : Stod) (db : Database) (t : Table) (record : Record)
    (hdecl : IndexesDeclared t)
    (hvalid : validateFields S t.fields record = .ok ())
    (hfree : ∀ p ∈ t.fields, p.2.isPrimaryKey = true →
      (find record p.1).getD "" ∉ (find t.uniqueFields p.1).getD ∅) :
    ∃ uf1, insertRecord S db t record
        = .ok { t with records := t.records ++ [record], uniqueFields := uf1 } ∧
      ∀ C, find uf1 C = (find t.uniqueFields C).map (fun index =>
        if C ∈ keys t.fields then insert ((find record C).getD "") index else index) := by
  have hpk := checkPrimaryKeys_ok record t.fields t.uniqueFields hdecl hfree
  have htotal : ∀ p ∈ t.fields, (find record p.1).isSome = true := by
    intro p hp
    obtain ⟨w, hw, _⟩ := (validateFields_ok_iff S t.fields record).mp hvalid p hp
    simp [hw]
  obtain ⟨uf1, h1, h2⟩ := indexInserted_eq record t.fields t.uniqueFields htotal
  refine ⟨uf1, ?_, h2⟩
  simp [insertRecord, enforceConstraintsOnInsert, hvalid, hpk, checkForeignKeys_ok, h1]

theorem enforceConstraintsOnInsert_state (S : Stod) (db : Database) (t : Table)
    (record : Record) :
    (enforceConstraintsOnInsert S db t record).state.name = t.name ∧
    (enforceConstraintsOnInsert S db t record).state.fields = t.fields ∧
    (enforceConstraintsOnInsert S db t record).state.records = t.records := by
  unfold enforceConstraintsOnInsert
  repeat' split
  all_goals simp [Outcome.state]

theorem insertRecord_ok_shape (S : Stod) (db : Database) (t t1 : Table) (record : Record)
    (h : insertRecord S db t record = .ok t1) :
    t1.name = t.name ∧ t1.fields = t.fields ∧ t1.records = t.records ++ [record] := by
  have hs := enforceConstraintsOnInsert_state S db t record
  unfold insertRecord at h
  cases he : enforceConstraintsOnInsert S db t record with
  | fail e t2 => simp [he] at h
  | ok t2 =>
    simp only [he, Outcome.state] at h hs
    cases hi : indexInserted record t2.fields t2.uniqueFields with
    | fail e uf => simp [hi] at h
    | ok uf =>
      simp only [hi] at h
      injection h with h
      subst h
      simp [hs]

theorem selectLoop_star (S : Stod) (records : List Record) :
    selectLoop S ["*"] [] records = .ok records := by
  induction records with
  | nil => rfl
  | cons r rest ih => simp [selectLoop, evaluateConditions, project, ih]

end Table

/-! ## The primary-key invariant: columns and indexes -/

namespace Table

open StdMap

theorem column_append (a b : List Record) (C : String) :
    column (a ++ b) C = column a C ++ column b C := by
  simp [column]

theorem column_cons (r : Record) (b : List Record) (C : String) :
    column (r :: b) C = find r C :: column b C := by
  simp [column]

theorem mem_columnValues (records : List Record) (C x : String) :
    x ∈ columnValues records C ↔ some x ∈ column records C := by
  simp [columnValues, column, List.mem_filterMap]

theorem find_of_mem_nodup {β : Type} (m : StdMap β) (k : String) (v : β)
    (hn : (keys m).Nodup) (h : (k, v) ∈ m) : find m k = some v := by
  induction m with
  | nil => simp at h
  | cons p rest ih =>
    obtain ⟨k', v'⟩ := p
    have hn' : k' ∉ keys rest ∧ (keys rest).Nodup := by simpa [keys] using hn
    rcases List.mem_cons.mp h with heq | hin
    · injection heq with h1 h2
      subst h1; subst h2
      simp [find]
    · have hne : k ≠ k' := by
        intro hk
        subst hk
        exact hn'.1 (List.mem_map_of_mem Prod.fst hin)
      simp only [find, hne, if_false]
      exact ih hn'.2 hin

/-- Replacing, in a column without repetition, the value `o` of one record by
a value `v` that is `o` itself or occurs nowhere: the column stays without
repetition and its value set loses `o` and gains `v`. -/
theorem column_replace (pre rest : List Record) (r r1 : Record) (C o v : String)
    (hnodup : (column (pre ++ r :: rest) C).Nodup)
    (ho : find r C = some o) (hv : find r1 C = some v)
    (hnew : v ≠ o → v ∉ columnValues (pre ++ r :: rest) C) :
    (column (pre ++ r1 :: rest) C).Nodup ∧
    columnValues (pre ++ r1 :: rest) C
      = insert v ((columnValues (pre ++ r :: rest) C).erase o) := by
  rw [column_append, column_cons, ho] at hnodup
  have hparts := List.nodup_middle.mp hnodup
  have hcons := List.nodup_cons.mp hparts
  have ho_not : some o ∉ column pre C ++ column rest C := hcons.1
  have hv_not : some v ∉ column pre C ++ column rest C := by
    by_cases hvo : v = o
    · rw [hvo]; exact ho_not
    · have := hnew hvo
      rw [mem_columnValues, column_append, column_cons, ho] at this
      intro hmem
      apply this
      rcases List.mem_append.mp hmem with h | h
      · exact List.mem_append_left _ h
      · exact List.mem_append_right _ (List.mem_cons_of_mem _ h)
  constructor
  · rw [column_append, column_cons, hv]
    exact List.nodup_middle.mpr (List.nodup_cons.mpr ⟨hv_not, hcons.2⟩)
  · ext x
    simp only [mem_columnValues, column_append, column_cons, ho, hv, Finset.mem_insert,
      Finset.mem_erase, List.mem_append, List.mem_cons, Option.some.injEq]
    constructor
    · rintro (h | h | h)
      · right
        exact ⟨fun hx => ho_not (List.mem_append_left _ (hx ▸ h)), Or.inl h⟩
      · exact Or.inl h
      · right
        exact ⟨fun hx => ho_not (List.mem_append_right _ (hx ▸ h)), Or.inr (Or.inr h)⟩
    · rintro (h | ⟨hne, h | h | h⟩)
      · exact Or.inr (Or.inl h)
      · exact Or.inl h
      · exact absurd h hne
      · exact Or.inr (Or.inr h)

/-- Removing one record from a column without repetition: the value set loses
the value of that record. -/
theorem column_remove (pre rest : List Record) (r : Record) (C o : String)
    (hnodup : (column (pre ++ r :: rest) C).Nodup) (ho : find r C = some o) :
    (column (pre ++ rest) C).Nodup ∧
    columnValues (pre ++ rest) C = (columnValues (pre ++ r :: rest) C).erase o := by
  rw [column_append, column_cons, ho] at hnodup
  have hparts := List.nodup_middle.mp hnodup
  have hcons := List.nodup_cons.mp hparts
  have ho_not : some o ∉ column pre C ++ column rest C := hcons.1
  constructor
  · rw [column_append]
    exact hcons.2
  · ext x
    simp only [mem_columnValues, column_append, column_cons, ho, Finset.mem_erase,
      List.mem_append, List.mem_cons, Option.some.injEq]
    constructor
    · rintro (h | h)
      · exact ⟨fun hx => ho_not (List.mem_append_left _ (hx ▸ h)), Or.inl h⟩
      · exact ⟨fun hx => ho_not (List.mem_append_right _ (hx ▸ h)), Or.inr (Or.inr h)⟩
    · rintro ⟨hne, h | h | h⟩
      · exact Or.inl h
      · exact absurd h hne
      · exact Or.inr h

/-- Appending a record whose value is new to a column without repetition. -/
theorem column_extend (records : List Record) (r : Record) (C v : String)
    (hnodup : (column records C).Nodup) (hv : find r C = some v)
    (hnew : v ∉ columnValues records C) :
    (column (records ++ [r]) C).Nodup ∧
    columnValues (records ++ [r]) C = insert v (columnValues records C) := by
  rw [mem_columnValues] at hnew
  constructor
  · rw [column_append, column_cons, hv]
    have : (column records C ++ [some v]).Nodup := by
      rw [List.nodup_append]
      exact ⟨hnodup, List.nodup_singleton _, by
        intro a ha hb
        rw [List.mem_singleton] at hb
        exact hnew (hb ▸ ha)⟩
    simpa [column] using this
  · ext x
    simp only [mem_columnValues, column_append, column_cons, hv, Finset.mem_insert,
      List.mem_append, List.mem_cons, Option.some.injEq]
    constructor
    · rintro (h | h | h)
      · exact Or.inr h
      · exact Or.inl h
      · simp [column] at h
    · rintro (h | h)
      · exact Or.inr (Or.inl h)
      · exact Or.inl h

end Table

/-! ## The primary-key invariant: deletion -/

namespace Table

open StdMap

theorem consistent_iff (t : Table) :
    Consistent t ↔ (keys t.fields).Nodup ∧ Coherent t.fields t.records t.uniqueFields := by
  unfold Consistent Coherent IndexesDeclared RecordsTotal IndexInvariant KeysUnique
  constructor
  · rintro ⟨h1, _, h3, h4, h5⟩
    exact ⟨h1, h3, fun p hp hpk => ⟨h4 p hp hpk, h5 p hp hpk⟩⟩
  · rintro ⟨h1, h3, h45⟩
    exact ⟨h1, fun p hp hpk => by simp [(h45 p hp hpk).1], h3,
      fun p hp hpk => (h45 p hp hpk).1, fun p hp hpk => (h45 p hp hpk).2⟩

theorem indexErased_eq (record : Record) (fields : List (String × Field)) (uf : UniqueFields)
    (C : String) :
    find (indexErased record fields uf) C = (find uf C).map (fun index =>
      if C ∈ keys fields then index.erase ((find record C).getD "") else index) := by
  induction fields generalizing uf with
  | nil => simp [indexErased, keys]
  | cons p rest ih =>
    obtain ⟨fieldName, field⟩ := p
    unfold indexErased
    cases hidx : find uf fieldName with
    | none =>
      simp only
      rw [ih uf]
      by_cases hC : C = fieldName
      · subst hC
        simp [hidx]
      · have hk : (C ∈ keys ((fieldName, field) :: rest)) ↔ C ∈ keys rest := by
          simp [keys, hC]
        simp only [hk]
    | some index =>
      simp only
      rw [ih, find_assign]
      by_cases hC : C = fieldName
      · subst hC
        simp [hidx, keys]
      · have hk : (C ∈ keys ((fieldName, field) :: rest)) ↔ C ∈ keys rest := by
          simp [keys, hC]
        simp only [hk, if_neg hC]

theorem coherent_remove (fields : StdMap Field) (pre rest : List Record) (r : Record)
    (uf : UniqueFields) (h : Coherent fields (pre ++ r :: rest) uf) :
    Coherent fields (pre ++ rest) (indexErased r fields uf) := by
  obtain ⟨htotal, hcols⟩ := h
  refine ⟨fun x hx => htotal x ?_, fun p hp hpk => ?_⟩
  · rcases List.mem_append.mp hx with h | h
    · exact List.mem_append_left _ h
    · exact List.mem_append_right _ (List.mem_cons_of_mem _ h)
  · obtain ⟨hidx, hnodup⟩ := hcols p hp hpk
    obtain ⟨o, ho⟩ := Option.isSome_iff_exists.mp (htotal r (by simp) p hp)
    obtain ⟨h1, h2⟩ := column_remove pre rest r p.1 o hnodup ho
    refine ⟨?_, h1⟩
    have hk : p.1 ∈ keys fields := List.mem_map_of_mem Prod.fst hp
    rw [indexErased_eq, hidx, h2]
    simp [hk, ho]

theorem deleteLoop_coherent (S : Stod) (fields : StdMap Field) (conditions : List Condition)
    (records : List Record) (pre : List Record) (uf : UniqueFields)
    (h : Coherent fields (pre ++ records) uf) :
    Coherent fields (pre ++ (deleteLoop S fields conditions records uf).state.1)
      (deleteLoop S fields conditions records uf).state.2 := by
  induction records generalizing pre uf with
  | nil => simpa [deleteLoop, Outcome.state] using h
  | cons r rest ih =>
    unfold deleteLoop
    cases hev : evaluateConditions S r conditions with
    | error e => simpa [Outcome.state] using h
    | ok b =>
      cases b
      · have ih' := ih (pre ++ [r]) uf (by simpa using h)
        cases hd : deleteLoop S fields conditions rest uf with
        | ok s =>
          obtain ⟨rs, uf1⟩ := s
          simpa [hd, Outcome.state] using ih'
        | fail e s =>
          obtain ⟨rs, uf1⟩ := s
          simpa [hd, Outcome.state] using ih'
      · exact ih pre (indexErased r fields uf) (coherent_remove fields pre rest r uf h)

theorem deleteRecords_consistent (S : Stod) (t : Table) (conditions : List Condition)
    (h : Consistent t) : Consistent (deleteRecords S t conditions).state := by
  rw [consistent_iff] at h ⊢
  have hc := deleteLoop_coherent S t.fields conditions t.records [] t.uniqueFields
    (by simpa using h.2)
  unfold deleteRecords
  cases hd : deleteLoop S t.fields conditions t.records t.uniqueFields with
  | ok s =>
    obtain ⟨rs, uf1⟩ := s
    simp only [hd, Outcome.state] at hc ⊢
    exact ⟨h.1, by simpa using hc⟩
  | fail e s =>
    obtain ⟨rs, uf1⟩ := s
    simp only [hd, Outcome.state] at hc ⊢
    exact ⟨h.1, by simpa using hc⟩

end Table

/-! ## The primary-key invariant: insertion -/

namespace Table

open StdMap

theorem insertRecord_consistent (S : Stod) (db : Database) (t : Table) (record : Record)
    (h : Consistent t) : Consistent (insertRecord S db t record).state := by
  have hdecl : IndexesDeclared t := h.2.1
  cases hvalid : validateFields S t.fields record with
  | error e =>
    rw [insertRecord_of_invalid S db t record e hvalid]
    exact h
  | ok u =>
    by_cases hdup : ∃ p ∈ t.fields, p.2.isPrimaryKey = true ∧
        (find record p.1).getD "" ∈ (find t.uniqueFields p.1).getD ∅
    · obtain ⟨name, hname⟩ := insertRecord_of_duplicate S db t record hdecl hvalid hdup
      rw [hname]
      exact h
    · have hfree : ∀ p ∈ t.fields, p.2.isPrimaryKey = true →
          (find record p.1).getD "" ∉ (find t.uniqueFields p.1).getD ∅ :=
        fun p hp hpk hmem => hdup ⟨p, hp, hpk, hmem⟩
      obtain ⟨uf1, h1, h2⟩ := insertRecord_of_fresh S db t record hdecl hvalid hfree
      rw [h1]
      rw [consistent_iff] at h ⊢
      obtain ⟨hkeys, htotal, hcols⟩ := h
      have hrec := (validateFields_ok_iff S t.fields record).mp hvalid
      refine ⟨hkeys, ?_, ?_⟩
      · intro r hr p hp
        rcases List.mem_append.mp hr with hr | hr
        · exact htotal r hr p hp
        · obtain ⟨w, hw, _⟩ := hrec p hp
          rw [List.mem_singleton.mp hr]
          simp [hw]
      · intro p hp hpk
        obtain ⟨hidx, hnodup⟩ := hcols p hp hpk
        obtain ⟨v, hv, _⟩ := hrec p hp
        have hnew : v ∉ columnValues t.records p.1 := by
          have := hfree p hp hpk
          simpa [hidx, hv] using this
        obtain ⟨e1, e2⟩ := column_extend t.records record p.1 v hnodup hv hnew
        have hk : p.1 ∈ keys t.fields := List.mem_map_of_mem Prod.fst hp
        refine ⟨?_, e1⟩
        simp only [Outcome.state]
        rw [h2 p.1, hidx, e2]
        simp [hk, hv]

end Table

/-! ## The primary-key invariant: update -/

namespace Table

open StdMap

theorem nodup_keys_of_sorted {β : Type} (m : StdMap β) (h : Sorted m) : (keys m).Nodup :=
  List.Pairwise.imp (R := keyLt) (S := fun a b => a ≠ b)
    (fun {a _} hlt heq => keyLt_irrefl a (by subst heq; exact hlt)) h

theorem applyNewValues_ok (S : Stod) (fields : StdMap Field) (newValues : StdMap String)
    (record updated : Record) (hn : (keys newValues).Nodup)
    (h : applyNewValues S fields newValues record = .ok updated) :
    (∀ k v, find newValues k = some v → find updated k = some v) ∧
    (∀ k, find newValues k = none → find updated k = find record k) := by
  induction newValues generalizing record with
  | nil =>
    simp only [applyNewValues, Except.ok.injEq] at h
    subst h
    exact ⟨fun k v hk => by simp [find] at hk, fun k _ => rfl⟩
  | cons p rest ih =>
    obtain ⟨n, v⟩ := p
    have hn' : n ∉ keys rest ∧ (keys rest).Nodup := by simpa [keys] using hn
    unfold applyNewValues at h
    cases hf : find fields n with
    | none => simp [hf] at h
    | some field =>
      cases hv : field.validate S v with
      | error e => simp [hf, hv] at h
      | ok u =>
        simp only [hf, hv] at h
        obtain ⟨ih1, ih2⟩ := ih (assign record n v) hn'.2 h
        have hrest : find rest n = none := find_eq_none_of_not_mem rest n hn'.1
        constructor
        · intro k w hk
          by_cases hkn : k = n
          · subst hkn
            simp only [find, if_true, Option.some.injEq] at hk
            subst hk
            rw [ih2 k hrest, find_assign_self]
          · simp only [find, hkn, if_false] at hk
            exact ih1 k w hk
        · intro k hk
          by_cases hkn : k = n
          · subst hkn
            simp [find] at hk
          · simp only [find, hkn, if_false] at hk
            rw [ih2 k hk, find_assign_ne record n k v hkn]

theorem checkConstraintsOnUpdate_eq (db : Database) (fieldName newValue : String)
    (cs : List Constraint) (uf : UniqueFields)
    (hdecl : cs.any (fun c => decide (c.getName = "PRIMARY_KEY")) = true →
      (find uf fieldName).isSome = true) :
    checkConstraintsOnUpdate db fieldName newValue cs uf =
      if cs.any (fun c => decide (c.getName = "PRIMARY_KEY")) = true ∧
          newValue ∈ (find uf fieldName).getD ∅
      then .fail (.primaryKeyViolated fieldName) uf else .ok uf := by
  induction cs with
  | nil => simp [checkConstraintsOnUpdate]
  | cons c cs ih =>
    unfold checkConstraintsOnUpdate
    by_cases hc : c.getName = "PRIMARY_KEY"
    · have hsome : (find uf fieldName).isSome = true := hdecl (by simp [hc])
      obtain ⟨idx, hidx⟩ := Option.isSome_iff_exists.mp hsome
      have ht : touch uf fieldName ∅ = uf := touch_eq_self uf fieldName ∅ idx hidx
      by_cases hv : newValue ∈ idx
      · simp [hc, ht, hidx, hv]
      · have ih' := ih (fun _ => hsome)
        simp [hc, ht, hidx, hv, ih']
    · have ih' := ih (fun h => hdecl (by simp [h]))
      simp [hc, getName_ne_foreignKey c, ih']

theorem enforceUpdateLoop_state (S : Stod) (db : Database) (fields : StdMap Field)
    (original : Record) (entries : List (String × String)) (uf : UniqueFields)
    (hdecl : ∀ p ∈ fields, p.2.isPrimaryKey = true → (find uf p.1).isSome = true) :
    (enforceUpdateLoop S db fields original entries uf).state = uf := by
  induction entries with
  | nil => rfl
  | cons p rest ih =>
    obtain ⟨n, v⟩ := p
    unfold enforceUpdateLoop
    cases hf : find fields n with
    | none => rfl
    | some field =>
      simp only
      cases hv : field.validate S v with
      | error e => rfl
      | ok u =>
        simp only
        have hc := checkConstraintsOnUpdate_eq db n v field.constraints uf
          (fun h => hdecl (n, field) (mem_of_find fields n field hf) h)
        by_cases hchg : v ≠ (find original n).getD ""
        · rw [if_pos hchg, hc]
          by_cases hviol : field.constraints.any (fun c => decide (c.getName = "PRIMARY_KEY")) = true ∧
              v ∈ (find uf n).getD ∅
          · rw [if_pos hviol]
            rfl
          · rw [if_neg hviol]
            exact ih
        · rw [if_neg hchg]
          exact ih

theorem enforceUpdateLoop_ok (S : Stod) (db : Database) (fields : StdMap Field)
    (original : Record) (entries : List (String × String)) (uf uf1 : UniqueFields)
    (hdecl : ∀ p ∈ fields, p.2.isPrimaryKey = true → (find uf p.1).isSome = true)
    (h : enforceUpdateLoop S db fields original entries uf = .ok uf1) :
    ∀ q ∈ entries, ∀ field, find fields q.1 = some field → field.isPrimaryKey = true →
      q.2 ≠ (find original q.1).getD "" → q.2 ∉ (find uf q.1).getD ∅ := by
  induction entries with
  | nil => intro q hq; simp at hq
  | cons p rest ih =>
    obtain ⟨n, v⟩ := p
    unfold enforceUpdateLoop at h
    cases hf : find fields n with
    | none => simp [hf] at h
    | some field =>
      cases hv : field.validate S v with
      | error e => simp [hf, hv] at h
      | ok u =>
        simp only [hf, hv] at h
        have hc := checkConstraintsOnUpdate_eq db n v field.constraints uf
          (fun h => hdecl (n, field) (mem_of_find fields n field hf) h)
        by_cases hchg : v ≠ (find original n).getD ""
        · rw [if_pos hchg, hc] at h
          by_cases hviol : field.constraints.any (fun c => decide (c.getName = "PRIMARY_KEY")) = true ∧
              v ∈ (find uf n).getD ∅
          · simp [hviol] at h
          · rw [if_neg hviol] at h
            simp only at h
            intro q hq
            rcases List.mem_cons.mp hq with heq | hin
            · subst heq
              intro field1 hf1 hpk1 _ hmem
              rw [hf] at hf1
              injection hf1 with hf1
              subst hf1
              exact hviol ⟨hpk1, hmem⟩
            · exact ih h q hin
        · rw [if_neg hchg] at h
          intro q hq
          rcases List.mem_cons.mp hq with heq | hin
          · subst heq
            intro field1 _ _ hne
            exact absurd hne hchg
          · exact ih h q hin

/-- The index of a column after the swap loop of `updateRecords`. -/
theorem swapIndexes_eq (original : Record) (newValues : StdMap String) (uf : UniqueFields)
    (hn : (keys newValues).Nodup) (C : String) :
    find (swapIndexes original newValues uf) C = (find uf C).map (fun index =>
      match find newValues C with
      | some v =>
        if v ≠ (find original C).getD "" then
          insert v (index.erase ((find original C).getD ""))
        else index
      | none => index) := by
  induction newValues generalizing uf with
  | nil => simp [swapIndexes, find]
  | cons p rest ih =>
    obtain ⟨n, v⟩ := p
    have hn' : n ∉ keys rest ∧ (keys rest).Nodup := by simpa [keys] using hn
    have hrest : find rest n = none := find_eq_none_of_not_mem rest n hn'.1
    unfold swapIndexes
    by_cases hC : C = n
    · subst hC
      cases hidx : find uf C with
      | none => simp [ih _ hn'.2, hidx]
      | some index =>
        by_cases hchg : v ≠ (find original C).getD ""
        · simp [ih _ hn'.2, hrest, find_assign_self, find, hchg]
        · simp [ih _ hn'.2, hrest, find, hchg, hidx]
    · cases hidx : find uf n with
      | none => simp [ih _ hn'.2, find, hC]
      | some index =>
        by_cases hchg : v ≠ (find original n).getD ""
        · simp [ih _ hn'.2, find, hC, hchg, find_assign_ne]
        · simp [ih _ hn'.2, find, hC, hchg]

end Table

namespace Table

open StdMap

theorem coherent_declared (fields : StdMap Field) (records : List Record) (uf : UniqueFields)
    (h : Coherent fields records uf) :
    ∀ p ∈ fields, p.2.isPrimaryKey = true → (find uf p.1).isSome = true :=
  fun p hp hpk => by simp [(h.2 p hp hpk).1]

theorem updateRecord_fail_state (S : Stod) (db : Database) (fields : StdMap Field)
    (newValues : StdMap String) (record : Record) (uf : UniqueFields)
    (hdecl : ∀ p ∈ fields, p.2.isPrimaryKey = true → (find uf p.1).isSome = true)
    (e : DbError) (s : Record × UniqueFields)
    (h : updateRecord S db fields newValues record uf = .fail e s) : s.2 = uf := by
  unfold updateRecord at h
  cases ha : applyNewValues S fields newValues record with
  | error e1 =>
    simp only [ha] at h
    injection h with _ h2
    rw [← h2]
  | ok updated =>
    simp only [ha] at h
    have hs := enforceUpdateLoop_state S db fields record updated uf hdecl
    cases he : enforceUpdateLoop S db fields record updated uf with
    | ok uf1 => simp [he] at h
    | fail e1 uf1 =>
      simp only [he, Outcome.state] at h hs
      injection h with _ h2
      rw [← h2]
      exact hs

theorem updateRecord_ok_coherent (S : Stod) (db : Database) (fields : StdMap Field)
    (newValues : StdMap String) (pre rest : List Record) (record : Record)
    (uf : UniqueFields)
    (hkeys : (keys fields).Nodup) (hn : (keys newValues).Nodup)
    (hco : Coherent fields (pre ++ record :: rest) uf)
    (s : Record × UniqueFields)
    (h : updateRecord S db fields newValues record uf = .ok s) :
    Coherent fields (pre ++ s.1 :: rest) s.2 := by
  have hdecl := coherent_declared fields _ uf hco
  obtain ⟨htotal, hcols⟩ := hco
  unfold updateRecord at h
  cases ha : applyNewValues S fields newValues record with
  | error e1 => simp [ha] at h
  | ok updated =>
    simp only [ha] at h
    have hs := enforceUpdateLoop_state S db fields record updated uf hdecl
    cases he : enforceUpdateLoop S db fields record updated uf with
    | fail e1 uf1 => simp [he] at h
    | ok uf1 =>
      simp only [he, Outcome.state] at h hs
      subst hs
      injection h with h
      subst h
      obtain ⟨hset, hkeep⟩ := applyNewValues_ok S fields newValues record updated hn ha
      have hchk := enforceUpdateLoop_ok S db fields record updated uf1 uf1 hdecl he
      have hupd : ∀ p ∈ fields, (find updated p.1).isSome = true := by
        intro p hp
        cases hnv : find newValues p.1 with
        | none =>
          rw [hkeep p.1 hnv]
          exact htotal record (by simp) p hp
        | some v => simp [hset p.1 v hnv]
      refine ⟨?_, ?_⟩
      · intro x hx p hp
        rcases List.mem_append.mp hx with hx | hx
        · exact htotal x (List.mem_append_left _ hx) p hp
        · rcases List.mem_cons.mp hx with hx | hx
          · rw [hx]
            exact hupd p hp
          · exact htotal x (List.mem_append_right _ (List.mem_cons_of_mem _ hx)) p hp
      · intro p hp hpk
        obtain ⟨hidx, hnodup⟩ := hcols p hp hpk
        obtain ⟨o, ho⟩ := Option.isSome_iff_exists.mp (htotal record (by simp) p hp)
        obtain ⟨v, hv⟩ := Option.isSome_iff_exists.mp (hupd p hp)
        have hfield : find fields p.1 = some p.2 := find_of_mem_nodup fields p.1 p.2 hkeys hp
        have hnew : v ≠ o → v ∉ columnValues (pre ++ record :: rest) p.1 := by
          intro hne
          have := hchk (p.1, v) (mem_of_find updated p.1 v hv) p.2 hfield hpk
            (by simpa [ho] using hne)
          simpa [hidx] using this
        obtain ⟨c1, c2⟩ := column_replace pre rest record updated p.1 o v hnodup ho hv hnew
        refine ⟨?_, c1⟩
        have ho_mem : o ∈ columnValues (pre ++ record :: rest) p.1 := by
          rw [mem_columnValues, column_append, column_cons, ho]
          simp
        rw [swapIndexes_eq record newValues uf1 hn p.1, hidx, c2]
        cases hnv : find newValues p.1 with
        | none =>
          have : v = o := by
            have := hkeep p.1 hnv
            rw [hv, ho] at this
            injection this
          subst this
          simp [Finset.insert_erase ho_mem]
        | some w =>
          have : v = w := by
            have := hset p.1 w hnv
            rw [hv] at this
            injection this
          subst this
          by_cases hvo : v = o
          · subst hvo
            simp [ho, Finset.insert_erase ho_mem]
          · simp [ho, hvo]

theorem updateLoop_coherent (S : Stod) (db : Database) (fields : StdMap Field)
    (newValues : StdMap String) (conditions : List Condition)
    (hkeys : (keys fields).Nodup) (hn : (keys newValues).Nodup)
    (records : List Record) (pre : List Record) (uf : UniqueFields) (updated : Bool)
    (h : Coherent fields (pre ++ records) uf) :
    Coherent fields
      (pre ++ (updateLoop S db fields newValues conditions records uf updated).state.1)
      (updateLoop S db fields newValues conditions records uf updated).state.2.1 := by
  induction records generalizing pre uf updated with
  | nil => simpa [updateLoop, Outcome.state] using h
  | cons r rest ih =>
    unfold updateLoop
    cases hev : evaluateConditions S r conditions with
    | error e => simpa [Outcome.state] using h
    | ok b =>
      cases b
      · have ih' := ih (pre ++ [r]) uf updated (by simpa using h)
        cases hd : updateLoop S db fields newValues conditions rest uf updated with
        | ok s =>
          obtain ⟨rs, uf1, u⟩ := s
          simpa [hd, Outcome.state] using ih'
        | fail e s =>
          obtain ⟨rs, uf1, u⟩ := s
          simpa [hd, Outcome.state] using ih'
      · simp only
        cases hu : updateRecord S db fields newValues r uf with
        | fail e s =>
          obtain ⟨r0, uf1⟩ := s
          have := updateRecord_fail_state S db fields newValues r uf
            (coherent_declared fields _ uf h) e (r0, uf1) hu
          simp only at this
          subst this
          simpa [Outcome.state] using h
        | ok s =>
          obtain ⟨r1, uf1⟩ := s
          have hco := updateRecord_ok_coherent S db fields newValues pre rest r uf hkeys hn h
            (r1, uf1) hu
          have ih' := ih (pre ++ [r1]) uf1 true (by simpa using hco)
          simp only
          cases hd : updateLoop S db fields newValues conditions rest uf1 true with
          | ok s2 =>
            obtain ⟨rs, uf2, u⟩ := s2
            simpa [hd, Outcome.state] using ih'
          | fail e s2 =>
            obtain ⟨rs, uf2, u⟩ := s2
            simpa [hd, Outcome.state] using ih'

theorem updateRecords_consistent (S : Stod) (db : Database) (t : Table)
    (newValues : StdMap String) (conditions : List Condition)
    (hn : Sorted newValues) (h : Consistent t) :
    Consistent (updateRecords S db t newValues conditions).state := by
  rw [consistent_iff] at h ⊢
  have hc := updateLoop_coherent S db t.fields newValues conditions h.1
    (nodup_keys_of_sorted newValues hn) t.records [] t.uniqueFields false (by simpa using h.2)
  unfold updateRecords
  cases hd : updateLoop S db t.fields newValues conditions t.records t.uniqueFields false with
  | ok s =>
    obtain ⟨rs, uf1, u⟩ := s
    simp only [hd, Outcome.state] at hc ⊢
    cases u
    · exact ⟨h.1, by simpa [Outcome.state] using hc⟩
    · exact ⟨h.1, by simpa [Outcome.state] using hc⟩
  | fail e s =>
    obtain ⟨rs, uf1, u⟩ := s
    simp only [hd, Outcome.state] at hc ⊢
    exact ⟨h.1, by simpa using hc⟩

end Table

/-! ## The primary-key invariant: creation and sequences of calls -/

namespace Table

open StdMap

theorem assign_absent {β : Type} (m : StdMap β) (k : String) (v : β)
    (h : find m k = none) :
    ∃ l1 l2, m = l1 ++ l2 ∧ assign m k v = l1 ++ (k, v) :: l2 := by
  induction m with
  | nil => exact ⟨[], [], rfl, rfl⟩
  | cons p rest ih =>
    obtain ⟨k', v'⟩ := p
    unfold find at h
    by_cases h1 : k = k'
    · simp [h1] at h
    · simp only [h1, if_false] at h
      unfold assign
      by_cases h2 : keyLt k k'
      · exact ⟨[], (k', v') :: rest, rfl, by simp [h1, h2]⟩
      · obtain ⟨l1, l2, e1, e2⟩ := ih h
        exact ⟨(k', v') :: l1, l2, by simp [e1], by simp [h1, h2, e2]⟩

theorem addFieldConstraints_ok (db : Database) (field : Field) (t t2 : Table)
    (cs : List Constraint) (h : addFieldConstraints db field t cs = .ok t2) :
    (cs.any (fun c => decide (c.getName = "PRIMARY_KEY")) = false ∧ t2 = t) ∨
    (cs.any (fun c => decide (c.getName = "PRIMARY_KEY")) = true ∧
      t2 = { t with uniqueFields := assign t.uniqueFields field.name ∅ }) := by
  induction cs with
  | nil =>
    simp only [addFieldConstraints, Outcome.ok.injEq] at h
    exact Or.inl ⟨rfl, h.symm⟩
  | cons c cs ih =>
    unfold addFieldConstraints at h
    by_cases hc : c.getName = "PRIMARY_KEY"
    · simp only [hc, if_true, Outcome.ok.injEq] at h
      exact Or.inr ⟨by simp [hc], h.symm⟩
    · have hany : (c :: cs).any (fun c => decide (c.getName = "PRIMARY_KEY"))
          = cs.any (fun c => decide (c.getName = "PRIMARY_KEY")) := by simp [hc]
      rw [hany]
      simp only [hc, if_false] at h
      repeat' split at h
      all_goals first
        | exact ih h
        | cases h

/-- The state `Database::createTable` leaves in a new table: no record,
distinct field names, an empty index for every primary-key field. -/
theorem addField_fresh (db : Database) (t t2 : Table) (field : Field)
    (h : addField db t field = .ok t2) (hf : Fresh t) : Fresh t2 := by
  obtain ⟨hrec, hkeys, hidx⟩ := hf
  unfold addField at h
  cases hfind : find t.fields field.name with
  | some f => simp [hfind] at h
  | none =>
    simp only [hfind] at h
    obtain ⟨l1, l2, e1, e2⟩ := assign_absent t.fields field.name field hfind
    have hname : ∀ p ∈ t.fields, p.1 ≠ field.name := by
      intro p hp hpn
      obtain ⟨w, hw⟩ := find_isSome_of_mem t.fields p.1 p.2 hp
      rw [hpn, hfind] at hw
      cases hw
    have hkeys2 : (keys (assign t.fields field.name field)).Nodup := by
      rw [e2]
      rw [e1] at hkeys hname
      simp only [keys, List.map_append, List.map_cons] at hkeys ⊢
      refine List.nodup_middle.mpr (List.nodup_cons.mpr ⟨?_, hkeys⟩)
      intro hmem
      rw [← List.map_append] at hmem
      obtain ⟨p, hp, hpn⟩ := List.mem_map.mp hmem
      exact hname p hp hpn
    have hmem2 : ∀ p ∈ assign t.fields field.name field,
        p = (field.name, field) ∨ p ∈ t.fields := by
      intro p hp
      rw [e2] at hp
      rw [e1]
      rcases List.mem_append.mp hp with h1 | h1
      · exact Or.inr (List.mem_append_left _ h1)
      · rcases List.mem_cons.mp h1 with h1 | h1
        · exact Or.inl h1
        · exact Or.inr (List.mem_append_right _ h1)
    rcases addFieldConstraints_ok db field _ t2 field.constraints h with ⟨hno, h2⟩ | ⟨hyes, h2⟩
    · subst h2
      refine ⟨hrec, hkeys2, ?_⟩
      intro p hp hpk
      rcases hmem2 p hp with h1 | h1
      · subst h1
        simp [Field.isPrimaryKey, hno] at hpk
      · exact hidx p h1 hpk
    · subst h2
      refine ⟨hrec, hkeys2, ?_⟩
      intro p hp hpk
      rcases hmem2 p hp with h1 | h1
      · subst h1
        simp [find_assign_self]
      · simp only
        rw [find_assign_ne _ _ _ _ (hname p h1)]
        exact hidx p h1 hpk

theorem addFields_fresh (db : Database) (declared : List Field) (t t2 : Table)
    (h : addFields db t declared = some t2) (hf : Fresh t) : Fresh t2 := by
  induction declared generalizing t with
  | nil =>
    simp only [addFields, Option.some.injEq] at h
    exact h ▸ hf
  | cons f rest ih =>
    unfold addFields at h
    cases ha : addField db t f with
    | fail e s => simp [ha] at h
    | ok t1 =>
      simp only [ha] at h
      exact ih t1 h (addField_fresh db t t1 f ha hf)

theorem new_fresh (name : String) : Fresh (Table.new name) := by
  simp [Fresh, Table.new, keys]

theorem fresh_consistent (t : Table) (h : Fresh t) : Consistent t := by
  obtain ⟨hrec, hkeys, hidx⟩ := h
  rw [consistent_iff]
  refine ⟨hkeys, ?_, ?_⟩
  · rw [hrec]
    intro r hr
    simp at hr
  · intro p hp hpk
    rw [hrec]
    exact ⟨by simpa [columnValues] using hidx p hp hpk, by simp [column]⟩

theorem call_consistent (S : Stod) (t : Table) (c : Call) (hwf : c.WellFormed)
    (h : Consistent t) : Consistent (call S t c).state := by
  cases c with
  | insertRecord db record => exact insertRecord_consistent S db t record h
  | updateRecords db newValues conditions =>
    exact updateRecords_consistent S db t newValues conditions hwf h
  | deleteRecords conditions => exact deleteRecords_consistent S t conditions h

theorem run_consistent (S : Stod) (t : Table) (calls : List Call)
    (hwf : ∀ c ∈ calls, c.WellFormed) (h : Consistent t) : Consistent (run S t calls) := by
  induction calls generalizing t with
  | nil => exact h
  | cons c cs ih =>
    exact ih (call S t c).state (fun d hd => hwf d (List.mem_cons_of_mem _ hd))
      (call_consistent S t c (hwf c (List.mem_cons_self _ _)) h)

end Table

/-! ## Claims on the primary-key invariants -/

namespace Table

open StdMap

/-- C1: the primary-key index invariant. Start from a table that
`createTable` has just built (no records) and perform any finite sequence of
successful `insertRecord` / `updateRecords` / `deleteRecords` calls whose map
arguments are maps: for every primary-key column the index set is exactly the
set of values the current records hold in that column. -/
theorem primaryKey_index_invariant (S : Stod) (db0 : Database) (name : String)
    (declared : List Field) (t0 : Table) (calls : List Call)
    (hcreate : addFields db0 (Table.new name) declared = some t0)
    (hwf : ∀ c ∈ calls, c.WellFormed)
    (_hok : allSucceed S t0 calls = true) :
    ∀ p ∈ (run S t0 calls).fields, p.2.isPrimaryKey = true →
      ∃ index, find (run S t0 calls).uniqueFields p.1 = some index ∧
        ∀ v, v ∈ index ↔ ∃ r ∈ (run S t0 calls).records, find r p.1 = some v := by
  have hcons := run_consistent S t0 calls hwf
    (fresh_consistent t0 (addFields_fresh db0 declared _ t0 hcreate (new_fresh name)))
  intro p hp hpk
  refine ⟨_, hcons.2.2.2.1 p hp hpk, fun v => ?_⟩
  simp [columnValues, List.mem_filterMap]

/-- C1 on `USERS`: insert Ann and Cat, move Ann to `ID` 3, delete Cat. -/
theorem primaryKey_index_invariant_witness :
    addFields Scenario.emptyDb (Table.new "USERS") [Scenario.idField, Scenario.nameField]
      = some Scenario.users ∧
    (∀ c ∈ Scenario.session, c.WellFormed) ∧
    allSucceed Stod.integral Scenario.users Scenario.session = true ∧
    (run Stod.integral Scenario.users Scenario.session).records
      = [[("ID", "3"), ("NAME", "Ann")]] ∧
    ∀ p ∈ (run Stod.integral Scenario.users Scenario.session).fields,
      p.2.isPrimaryKey = true →
      ∃ index, find (run Stod.integral Scenario.users Scenario.session).uniqueFields p.1
          = some index ∧
        ∀ v, v ∈ index ↔
          ∃ r ∈ (run Stod.integral Scenario.users Scenario.session).records,
            find r p.1 = some v :=
  ⟨by decide, by decide, by decide, by decide,
   primaryKey_index_invariant Stod.integral Scenario.emptyDb "USERS"
     [Scenario.idField, Scenario.nameField] Scenario.users Scenario.session
     (by decide) (by decide) (by decide)⟩

/-- C3: primary-key uniqueness. In a table reached from a newly created one by
any sequence of `insertRecord` / `updateRecords` / `deleteRecords` calls,
whether each call returns or throws, no two distinct positions of the record
sequence hold the same value in a primary-key column. -/
theorem primaryKey_unique (S : Stod) (db0 : Database) (name : String)
    (declared : List Field) (t0 : Table) (calls : List Call)
    (hcreate : addFields db0 (Table.new name) declared = some t0)
    (hwf : ∀ c ∈ calls, c.WellFormed) :
    ∀ p ∈ (run S t0 calls).fields, p.2.isPrimaryKey = true →
      ∀ i j : Fin (run S t0 calls).records.length, i ≠ j →
        find ((run S t0 calls).records.get i) p.1
          ≠ find ((run S t0 calls).records.get j) p.1 := by
  have hcons := run_consistent S t0 calls hwf
    (fresh_consistent t0 (addFields_fresh db0 declared _ t0 hcreate (new_fresh name)))
  intro p hp hpk i j hij heq
  have hnodup : (column (run S t0 calls).records p.1).Nodup := hcons.2.2.2.2 p hp hpk
  have hi : i.1 < (column (run S t0 calls).records p.1).length := by
    simp [column]
  have hj : j.1 < (column (run S t0 calls).records p.1).length := by
    simp [column]
  have hget : (column (run S t0 calls).records p.1)[i.1]
      = (column (run S t0 calls).records p.1)[j.1] := by
    simpa [column] using heq
  exact hij (Fin.ext ((List.Nodup.getElem_inj_iff hnodup).mp hget))

/-- C3 on `USERS`: insert Ann, fail to insert Bob with the same `ID`, insert
Cat, fail to move Cat onto the `ID` of Ann. -/
theorem primaryKey_unique_witness :
    addFields Scenario.emptyDb (Table.new "USERS") [Scenario.idField, Scenario.nameField]
      = some Scenario.users ∧
    (∀ c ∈ Scenario.clashes, c.WellFormed) ∧
    allSucceed Stod.integral Scenario.users Scenario.clashes = false ∧
    (run Stod.integral Scenario.users Scenario.clashes).records
      = [Scenario.ann, Scenario.cat] ∧
    ∀ p ∈ (run Stod.integral Scenario.users Scenario.clashes).fields,
      p.2.isPrimaryKey = true →
      ∀ i j : Fin (run Stod.integral Scenario.users Scenario.clashes).records.length, i ≠ j →
        find ((run Stod.integral Scenario.users Scenario.clashes).records.get i) p.1
          ≠ find ((run Stod.integral Scenario.users Scenario.clashes).records.get j) p.1 :=
  ⟨by decide, by decide, by decide, by decide,
   primaryKey_unique Stod.integral Scenario.emptyDb "USERS"
     [Scenario.idField, Scenario.nameField] Scenario.users Scenario.clashes
     (by decide) (by decide)⟩

end Table

/-! ## Claims on insertion -/

namespace Table

open StdMap

theorem validateFields_append (S : Stod) (pre rest : List (String × Field)) (record : Record) :
    validateFields S (pre ++ rest) record =
      match validateFields S pre record with
      | .ok _ => validateFields S rest record
      | .error e => .error e := by
  induction pre with
  | nil => simp [validateFields]
  | cons p pre ih =>
    obtain ⟨fieldName, field⟩ := p
    simp only [List.cons_append, validateFields]
    cases hf : find record fieldName with
    | none => simp
    | some value =>
      cases hv : field.validate S value with
      | error e => simp [hv]
      | ok u => simpa [hv] using ih

theorem dataType_validate_error (S : Stod) (dataType : DataType) (value : String) (e : DbError)
    (h : dataType.validate S value = .error e) : ∃ typeName, e = .typeError typeName := by
  cases dataType <;> simp only [DataType.validate] at h <;> repeat' split at h
  all_goals first
    | (cases h; exact ⟨_, rfl⟩)
    | cases h

/-- C2: `insertRecord` is atomic. On a table whose primary-key fields all have
their index (as `addField` leaves it), either the call throws and the table is
exactly as before, or it returns and the record sequence is the old one with
the record appended while the index of every primary-key field gains exactly
the value the record holds in that field. -/
theorem insertRecord_atomic (S : Stod) (db : Database) (t : Table) (record : Record)
    (hdecl : IndexesDeclared t) :
    (∃ e, insertRecord S db t record = .fail e t) ∨
    (∃ t1, insertRecord S db t record = .ok t1 ∧
      t1.name = t.name ∧ t1.fields = t.fields ∧ t1.records = t.records ++ [record] ∧
      ∀ p ∈ t.fields, p.2.isPrimaryKey = true →
        ∃ index value, find t.uniqueFields p.1 = some index ∧ find record p.1 = some value ∧
          find t1.uniqueFields p.1 = some (insert value index)) := by
  cases hvalid : validateFields S t.fields record with
  | error e => exact Or.inl ⟨e, insertRecord_of_invalid S db t record e hvalid⟩
  | ok u =>
    by_cases hdup : ∃ p ∈ t.fields, p.2.isPrimaryKey = true ∧
        (find record p.1).getD "" ∈ (find t.uniqueFields p.1).getD ∅
    · obtain ⟨name, hname⟩ := insertRecord_of_duplicate S db t record hdecl hvalid hdup
      exact Or.inl ⟨_, hname⟩
    · have hfree : ∀ p ∈ t.fields, p.2.isPrimaryKey = true →
          (find record p.1).getD "" ∉ (find t.uniqueFields p.1).getD ∅ :=
        fun p hp hpk hmem => hdup ⟨p, hp, hpk, hmem⟩
      obtain ⟨uf1, h1, h2⟩ := insertRecord_of_fresh S db t record hdecl hvalid hfree
      refine Or.inr ⟨_, h1, rfl, rfl, rfl, ?_⟩
      intro p hp hpk
      obtain ⟨index, hindex⟩ := Option.isSome_iff_exists.mp (hdecl p hp hpk)
      obtain ⟨value, hvalue, _⟩ := (validateFields_ok_iff S t.fields record).mp hvalid p hp
      refine ⟨index, value, hindex, hvalue, ?_⟩
      have hk : p.1 ∈ keys t.fields := List.mem_map_of_mem Prod.fst hp
      simp [h2 p.1, hindex, hvalue, hk]

/-- C2 on the table `USERS` and the row of Ann. -/
theorem insertRecord_atomic_witness :
    IndexesDeclared Scenario.users ∧
    ((∃ e, insertRecord Stod.integral Scenario.emptyDb Scenario.users Scenario.ann
        = .fail e Scenario.users) ∨
     (∃ t1, insertRecord Stod.integral Scenario.emptyDb Scenario.users Scenario.ann = .ok t1 ∧
      t1.name = Scenario.users.name ∧ t1.fields = Scenario.users.fields ∧
      t1.records = Scenario.users.records ++ [Scenario.ann] ∧
      ∀ p ∈ Scenario.users.fields, p.2.isPrimaryKey = true →
        ∃ index value, find Scenario.users.uniqueFields p.1 = some index ∧
          find Scenario.ann p.1 = some value ∧
          find t1.uniqueFields p.1 = some (insert value index))) :=
  ⟨by decide,
   insertRecord_atomic Stod.integral Scenario.emptyDb Scenario.users Scenario.ann (by decide)⟩

/-- C4 as stated fails: `USERS` holds the row of Ann with `ID` 1 and satisfies
the index invariant; inserting a row with `ID` 1 and an empty `NAME` is
rejected with the NOT_EMPTY error of `NAME`, raised by the validation pass that
runs before the uniqueness test, and not with a primary-key violation. -/
theorem duplicate_key_masked_by_validation :
    IndexInvariant Scenario.usersAnn ∧
    ("ID", Scenario.idField) ∈ Scenario.usersAnn.fields ∧
    Scenario.idField.isPrimaryKey = true ∧
    find Scenario.emptyName "ID" = some "1" ∧
    (∃ r ∈ Scenario.usersAnn.records, find r "ID" = some "1") ∧
    insertRecord Stod.integral Scenario.emptyDb Scenario.usersAnn Scenario.emptyName
      = .fail .emptyValue Scenario.usersAnn := by
  decide

/-- C4, amended: on a table that satisfies the primary-key index invariant, a
record whose value in a primary-key column already occurs in that column is
rejected and the table is exactly as before; the exception is a primary-key
violation whenever the record has, for every declared field, a value that
passes the validation of that field. -/
theorem insertRecord_duplicate_key (S : Stod) (db : Database) (t : Table) (record : Record)
    (C : String) (field : Field) (value : String)
    (hinv : IndexInvariant t) (hC : (C, field) ∈ t.fields)
    (hpk : field.isPrimaryKey = true) (hvalue : find record C = some value)
    (hocc : ∃ r ∈ t.records, find r C = some value) :
    (∃ e, insertRecord S db t record = .fail e t) ∧
    ((∀ p ∈ t.fields, ∃ w, find record p.1 = some w ∧ p.2.validate S w = .ok ()) →
      ∃ name, insertRecord S db t record = .fail (.primaryKeyViolated name) t) := by
  have hdecl : IndexesDeclared t := fun p hp h => by simp [hinv p hp h]
  have hdup : ∃ p ∈ t.fields, p.2.isPrimaryKey = true ∧
      (find record p.1).getD "" ∈ (find t.uniqueFields p.1).getD ∅ := by
    refine ⟨(C, field), hC, hpk, ?_⟩
    obtain ⟨r, hr, hrv⟩ := hocc
    simp only [hinv (C, field) hC hpk, hvalue, Option.getD_some, columnValues,
      List.mem_toFinset, List.mem_filterMap]
    exact ⟨r, hr, hrv⟩
  constructor
  · cases hvalid : validateFields S t.fields record with
    | error e => exact ⟨e, insertRecord_of_invalid S db t record e hvalid⟩
    | ok u =>
      obtain ⟨name, hname⟩ := insertRecord_of_duplicate S db t record hdecl hvalid hdup
      exact ⟨_, hname⟩
  · intro hall
    exact insertRecord_of_duplicate S db t record hdecl
      ((validateFields_ok_iff S t.fields record).mpr hall) hdup

/-- C4 on Scenario 1: after `(1,'Ann')`, inserting `(1,'Bob')` into `USERS` is
rejected with a primary-key violation and the table keeps its one record. -/
theorem insertRecord_duplicate_key_witness :
    IndexInvariant Scenario.usersAnn ∧
    ((∃ e, insertRecord Stod.integral Scenario.emptyDb Scenario.usersAnn Scenario.bob
        = .fail e Scenario.usersAnn) ∧
     ((∀ p ∈ Scenario.usersAnn.fields,
          ∃ w, find Scenario.bob p.1 = some w ∧ p.2.validate Stod.integral w = .ok ()) →
       ∃ name, insertRecord Stod.integral Scenario.emptyDb Scenario.usersAnn Scenario.bob
         = .fail (.primaryKeyViolated name) Scenario.usersAnn)) ∧
    Scenario.usersAnn.records.length = 1 :=
  ⟨by decide,
   insertRecord_duplicate_key Stod.integral Scenario.emptyDb Scenario.usersAnn Scenario.bob
     "ID" Scenario.idField "1" (by decide) (by decide) (by decide) (by decide) (by decide),
   by decide⟩

/-- C5 fails on the code: `ORDERS.ID` references `USERS.ID`, no user has `ID`
99, and yet inserting an order with `ID` 99 returns normally and appends the
row. The third loop of `enforceConstraintsOnInsert` looks for a constraint
named `FOREIGN_KEY`, while `ForeignKeyConstraint::getName` returns
`FOREIGN_KEY_REFERENCES`. -/
theorem insertRecord_accepts_dangling_reference :
    checkForeignKeyConstraint Scenario.usersDb "USERS" "ID" "99" = .ok false ∧
    insertRecord Stod.integral Scenario.usersDb Scenario.orders Scenario.order99
      = .ok { Scenario.orders with
              records := [Scenario.order99], uniqueFields := [("OID", {"1"})] } := by
  decide

/-- C6 as stated fails: in `ITEMS (CODE VARCHAR(5) NOT_EMPTY, QTY INT)` the
value `x` fails the validator of `QTY`, yet a row without `CODE` is rejected
with the missing-value error of `CODE`, and a row with an empty `CODE` with
its NOT_EMPTY error: the first declared field in name order that fails decides
the exception. -/
theorem type_error_masked_by_earlier_field :
    find Scenario.onlyQty "QTY" = some "x" ∧
    DataType.validate Stod.integral .int "x" = .error (.typeError "Int") ∧
    insertRecord Stod.integral Scenario.emptyDb Scenario.items Scenario.onlyQty
      = .fail (.missingValue "CODE") Scenario.items ∧
    insertRecord Stod.integral Scenario.emptyDb Scenario.items Scenario.emptyCode
      = .fail .emptyValue Scenario.items := by
  decide

/-- C6, amended: a record that supplies, for some declared column, a value
that fails the data-type validator of that column is rejected and the table
(so also its record count) is exactly as before; the exception is the type
error of that column whenever every declared column before it in name order
has a value that passes its validation. -/
theorem insertRecord_type_invalid (S : Stod) (db : Database) (t : Table) (record : Record)
    (pre post : List (String × Field)) (C : String) (field : Field) (value : String)
    (e : DbError)
    (hfields : t.fields = pre ++ (C, field) :: post)
    (hvalue : find record C = some value)
    (hinvalid : field.dataType.validate S value = .error e) :
    (∃ e1, insertRecord S db t record = .fail e1 t) ∧
    (∃ typeName, e = .typeError typeName) ∧
    ((∀ p ∈ pre, ∃ w, find record p.1 = some w ∧ p.2.validate S w = .ok ()) →
      insertRecord S db t record = .fail e t) := by
  have hfield : field.validate S value = .error e := by simp [Field.validate, hinvalid]
  have hhere : validateFields S ((C, field) :: post) record = .error e := by
    simp [validateFields, hvalue, hfield]
  refine ⟨?_, dataType_validate_error S field.dataType value e hinvalid, ?_⟩
  · cases hvalid : validateFields S t.fields record with
    | error e1 => exact ⟨e1, insertRecord_of_invalid S db t record e1 hvalid⟩
    | ok u =>
      rw [hfields, validateFields_append] at hvalid
      cases hpre : validateFields S pre record with
      | error e2 => simp [hpre] at hvalid
      | ok u2 => simp [hpre, hhere] at hvalid
  · intro hall
    apply insertRecord_of_invalid
    rw [hfields, validateFields_append, (validateFields_ok_iff S pre record).mpr hall]
    exact hhere

/-- C6 on `USERS`: the row `(x, 'Ann')` has a non-numeric `ID`, the first
declared column, and is rejected with the type error of `INT`. -/
theorem insertRecord_type_invalid_witness :
    Scenario.users.fields = [] ++ ("ID", Scenario.idField) :: [("NAME", Scenario.nameField)] ∧
    find Scenario.badId "ID" = some "x" ∧
    Scenario.idField.dataType.validate Stod.integral "x" = .error (.typeError "Int") ∧
    ((∃ e1, insertRecord Stod.integral Scenario.emptyDb Scenario.users Scenario.badId
        = .fail e1 Scenario.users) ∧
     (∃ typeName, DbError.typeError "Int" = .typeError typeName) ∧
     ((∀ p ∈ ([] : List (String × Field)),
          ∃ w, find Scenario.badId p.1 = some w ∧ p.2.validate Stod.integral w = .ok ()) →
       insertRecord Stod.integral Scenario.emptyDb Scenario.users Scenario.badId
         = .fail (.typeError "Int") Scenario.users)) :=
  ⟨by decide, by decide, by decide,
   insertRecord_type_invalid Stod.integral Scenario.emptyDb Scenario.users Scenario.badId
     [] [("NAME", Scenario.nameField)] "ID" Scenario.idField "x" (.typeError "Int")
     (by decide) (by decide) (by decide)⟩

/-- C7: if `insertRecord(R)` returns, then `selectRecords(["*"], [])` right
after it returns what it returned before the insertion, followed by one row
equal to `R`. -/
theorem insert_select_roundTrip (S : Stod) (db : Database) (t t1 : Table) (record : Record)
    (h : insertRecord S db t record = .ok t1) :
    ∃ rows, selectRecords S t ["*"] [] = .ok rows ∧
      selectRecords S t1 ["*"] [] = .ok (rows ++ [record]) := by
  obtain ⟨_, _, hrec⟩ := insertRecord_ok_shape S db t t1 record h
  exact ⟨t.records, selectLoop_star S t.records, by
    simp [selectRecords, hrec, selectLoop_star]⟩

/-- C7 on the table `USERS` and the row of Ann. -/
theorem insert_select_roundTrip_witness :
    insertRecord Stod.integral Scenario.emptyDb Scenario.users Scenario.ann
      = .ok Scenario.usersAnn ∧
    ∃ rows, selectRecords Stod.integral Scenario.users ["*"] [] = .ok rows ∧
      selectRecords Stod.integral Scenario.usersAnn ["*"] [] = .ok (rows ++ [Scenario.ann]) :=
  ⟨by decide,
   insert_select_roundTrip Stod.integral Scenario.emptyDb Scenario.users Scenario.usersAnn
     Scenario.ann (by decide)⟩

end Table

/-! ## Claims on selection -/

namespace Table

open StdMap

end Table

/-! ## Claims on condition chains -/

namespace Table

/-- C9: for a record and a non-empty chain in which every condition evaluates
without error and every later condition carries `AND` or `OR`,
`Table::evaluateConditions` returns the left fold: it starts from the value of
the first condition and combines the running result with each further
condition by that condition's relation, with no precedence. -/
theorem evaluateConditions_is_leftFold (S : Stod) (record : Record) (first : Condition)
    (rest : List Condition)
    (hev : ∀ c ∈ first :: rest, ∃ b, evaluateCondition S record c = .ok b)
    (hrel : ∀ c ∈ rest, c.relation = "AND" ∨ c.relation = "OR") :
    evaluateConditions S record (first :: rest)
      = .ok (leftFold S record rest (holds S record first)) := by
  obtain ⟨b, hb⟩ := hev first (List.mem_cons_self _ _)
  have hrest := evaluateRest_eq_leftFold S record rest
    (fun c hc => hev c (List.mem_cons_of_mem _ hc)) hrel b
  simp [evaluateConditions, hb, holds_of_ok S record first b hb, hrest]

/-- C9 at `ID = 1 OR ID = 2 AND ID = 3` on the row of Ann: the chain is
`(true OR false) AND false`, which is false, whereas `true OR (false AND
false)` is true. -/
theorem evaluateConditions_is_leftFold_witness :
    (∀ c ∈ [Scenario.idIs1, Scenario.orIdIs2, Scenario.andIdIs3],
        ∃ b, evaluateCondition Stod.integral Scenario.ann c = .ok b) ∧
    (∀ c ∈ [Scenario.orIdIs2, Scenario.andIdIs3], c.relation = "AND" ∨ c.relation = "OR") ∧
    evaluateConditions Stod.integral Scenario.ann
        [Scenario.idIs1, Scenario.orIdIs2, Scenario.andIdIs3]
      = .ok ((true || false) && false) ∧
    ((true || false) && false) ≠ (true || (false && false)) :=
  ⟨by decide, by decide,
   (evaluateConditions_is_leftFold Stod.integral Scenario.ann Scenario.idIs1
      [Scenario.orIdIs2, Scenario.andIdIs3] (by decide) (by decide)).trans (by decide),
   by decide⟩

end Table

/-- C10 fails on the code: on the chain of `ID = 1 OR ID = 2` and the row of
Ann, `Table::evaluateConditions` combines the second condition by its own
relation `OR` and returns true, while `evaluateCombinedConditions` combines it
by the relation of the condition before it (empty, read as `AND`) and returns
false. -/
theorem evaluateCombinedConditions_differs_on_or :
    Table.evaluateConditions Stod.integral Scenario.ann [Scenario.idIs1, Scenario.orIdIs2]
      = .ok true ∧
    evaluateCombinedConditions Stod.integral Scenario.ann [Scenario.idIs1, Scenario.orIdIs2]
      = .ok false := by
  decide

/-! ## Lemmas on erasing a key -/

namespace StdMap

theorem find_erase_ne {β : Type} (m : StdMap β) (k k2 : String) (h : k2 ≠ k) :
    find (erase m k) k2 = find m k2 := by
  induction m with
  | nil => rfl
  | cons p rest ih =>
    obtain ⟨k', v'⟩ := p
    unfold erase
    by_cases h1 : k = k'
    · subst h1
      simp [find, h]
    · simp [h1, find, ih]

theorem find_erase_self {β : Type} (m : StdMap β) (k : String) (hn : (keys m).Nodup) :
    find (erase m k) k = none := by
  induction m with
  | nil => rfl
  | cons p rest ih =>
    obtain ⟨k', v'⟩ := p
    have hn' : k' ∉ keys rest ∧ (keys rest).Nodup := by simpa [keys] using hn
    unfold erase
    by_cases h1 : k = k'
    · subst h1
      simpa using find_eq_none_of_not_mem rest k hn'.1
    · simp [h1, find, ih hn'.2]

end StdMap

/-! ## Claims on CREATE and DROP -/

namespace Scenario

theorem ordersOne_inserted :
    Table.insertRecord Stod.integral usersDb orders order10 = .ok ordersOne := by
  decide

theorem users_by_createTable :
    Database.createTable emptyDb (createQuery "USERS" [idColumn, nameColumn])
      = .ok { tables := [("USERS", users)] } := by
  decide

end Scenario

namespace Database

open StdMap

/-- C18: a CREATE whose table name is already a key of the table map throws
the duplicate-table error and leaves the database as it was. -/
theorem createTable_existing (db : Database) (query : Query) (t : Table)
    (h : find db.tables query.table = some t) :
    createTable db query = .fail (.tableExists query.table) db := by
  simp [createTable, h]

/-- C18 on a second `CREATE TABLE USERS` in a database that holds `USERS`. -/
theorem createTable_existing_witness :
    find Scenario.usersDb.tables
        (Scenario.createQuery "USERS" [Scenario.idColumn, Scenario.nameColumn]).table
      = some Scenario.usersAnn ∧
    createTable Scenario.usersDb (Scenario.createQuery "USERS" [Scenario.idColumn, Scenario.nameColumn])
      = .fail (.tableExists "USERS") Scenario.usersDb :=
  ⟨by decide,
   createTable_existing Scenario.usersDb
     (Scenario.createQuery "USERS" [Scenario.idColumn, Scenario.nameColumn]) Scenario.usersAnn
     (by decide)⟩

/-- C19 fails on the code: in a database without tables,
`CREATE TABLE T (ID INT PRIMARY_KEY FOREIGN_KEY_REFERENCES NOPE.ID)` returns
normally and registers `T`, although table `NOPE` does not exist; with the two
constraints written in the other order the same statement throws. The loop of
`addField` leaves at the first `PRIMARY_KEY` and never reaches the reference. -/
theorem createTable_skips_reference_after_key :
    createTable Scenario.emptyDb (Scenario.createQuery "T" [Scenario.keyThenReference])
      = .ok { tables := [("T", Scenario.danglingTable)] } ∧
    createTable Scenario.emptyDb (Scenario.createQuery "T" [Scenario.referenceThenKey])
      = .fail (.referencedTableNotFound "NOPE") Scenario.emptyDb := by
  decide

/-- C20: DROP removes only the named table. On a database whose table map is a
map: when the name is absent `dropTable` throws the table-not-found error and
the database is as it was; otherwise it returns, `getTable` no longer finds the
name, and `getTable` of every other name is what it was. No other table is
consulted, so a foreign key that references the dropped table does not stop
the call. -/
theorem dropTable_effect (db : Database) (query : Query) (hmap : Sorted db.tables) :
    (find db.tables query.table = none →
      dropTable db query = .fail (.tableNotFound query.table) db) ∧
    (∀ t, find db.tables query.table = some t →
      ∃ db1, dropTable db query = .ok db1 ∧ db1.getTable query.table = none ∧
        ∀ other, other ≠ query.table → db1.getTable other = db.getTable other) := by
  constructor
  · intro h
    simp [dropTable, h]
  · intro t h
    refine ⟨{ tables := erase db.tables query.table }, by simp [dropTable, h], ?_, ?_⟩
    · exact find_erase_self db.tables query.table (Table.nodup_keys_of_sorted db.tables hmap)
    · intro other hne
      exact find_erase_ne db.tables query.table other hne

/-- C20 on `DROP TABLE USERS` in a database where `ORDERS.ID` references
`USERS.ID`: the call returns, `USERS` is gone and `ORDERS` is as it was. -/
theorem dropTable_effect_witness :
    Sorted Scenario.shopDb.tables ∧
    dropTable Scenario.shopDb (Scenario.dropQuery "USERS")
      = .ok { tables := [("ORDERS", Scenario.ordersOne)] } ∧
    ((find Scenario.shopDb.tables (Scenario.dropQuery "USERS").table = none →
      dropTable Scenario.shopDb (Scenario.dropQuery "USERS")
        = .fail (.tableNotFound (Scenario.dropQuery "USERS").table) Scenario.shopDb) ∧
     (∀ t, find Scenario.shopDb.tables (Scenario.dropQuery "USERS").table = some t →
      ∃ db1, dropTable Scenario.shopDb (Scenario.dropQuery "USERS") = .ok db1 ∧
        db1.getTable (Scenario.dropQuery "USERS").table = none ∧
        ∀ other, other ≠ (Scenario.dropQuery "USERS").table →
          db1.getTable other = Scenario.shopDb.getTable other)) :=
  ⟨by decide, by decide,
   dropTable_effect Scenario.shopDb (Scenario.dropQuery "USERS") (by decide)⟩

end Database

/-! ## Lemmas on the loops of UPDATE and DELETE -/

namespace Table

open StdMap

theorem updateLoop_all_false (S : Stod) (db : Database) (fields : StdMap Field)
    (newValues : StdMap String) (c : List Condition) (records : List Record)
    (uf : UniqueFields) (updated : Bool)
    (h : ∀ r ∈ records, evaluateConditions S r c = .ok false) :
    updateLoop S db fields newValues c records uf updated = .ok (records, uf, updated) := by
  induction records with
  | nil => rfl
  | cons r rest ih =>
    unfold updateLoop
    simp [h r (List.mem_cons_self _ _), ih (fun x hx => h x (List.mem_cons_of_mem _ hx))]

theorem eta_records_uniqueFields (t : Table) :
    { t with records := t.records, uniqueFields := t.uniqueFields } = t := by
  cases t; rfl

theorem applyNewValues_invalid (S : Stod) (fields : StdMap Field) (newValues : StdMap String)
    (k v : String) (field : Field) (e : DbError)
    (hk : (k, v) ∈ newValues) (hf : find fields k = some field)
    (hv : field.validate S v = .error e) (record : Record) :
    ∃ e1, applyNewValues S fields newValues record = .error e1 := by
  induction newValues generalizing record with
  | nil => simp at hk
  | cons p rest ih =>
    obtain ⟨n, w⟩ := p
    unfold applyNewValues
    cases hfn : find fields n with
    | none => exact ⟨_, rfl⟩
    | some f =>
      simp only
      cases hvn : f.validate S w with
      | error e2 => exact ⟨e2, rfl⟩
      | ok u =>
        simp only
        rcases List.mem_cons.mp hk with heq | hin
        · injection heq with h1 h2
          subst h1; subst h2
          rw [hf] at hfn
          injection hfn with hfn
          subst hfn
          rw [hv] at hvn
          cases hvn
        · exact ih hin _

/-- When writing the new values fails on every record, the loop of
`updateRecords` leaves the records and the indexes as they were, and a normal
end of the loop leaves the flag `updated` as it was. -/
theorem updateLoop_of_invalid (S : Stod) (db : Database) (fields : StdMap Field)
    (newValues : StdMap String) (c : List Condition)
    (hbad : ∀ record, ∃ e1, applyNewValues S fields newValues record = .error e1)
    (records : List Record) (uf : UniqueFields) (updated : Bool) :
    (∃ e u, updateLoop S db fields newValues c records uf updated = .fail e (records, uf, u)) ∨
    updateLoop S db fields newValues c records uf updated = .ok (records, uf, updated) := by
  induction records with
  | nil => exact Or.inr rfl
  | cons r rest ih =>
    unfold updateLoop
    cases hev : evaluateConditions S r c with
    | error e => exact Or.inl ⟨e, updated, rfl⟩
    | ok b =>
      cases b
      · rcases ih with ⟨e, u, h1⟩ | h1
        · exact Or.inl ⟨e, u, by simp [h1]⟩
        · exact Or.inr (by simp [h1])
      · obtain ⟨e1, h1⟩ := hbad r
        exact Or.inl ⟨e1, true, by simp [updateRecord, h1]⟩

end Table

/-! ## Claims on UPDATE -/

namespace Table

open StdMap

/-- C12, amended: an UPDATE that matches nothing is an error. When the
condition chain evaluates to false, without raising an error, on every current
record (in particular when the table has no records), `updateRecords` throws
the no-match error and the table, with its records and indexes, is exactly as
before. -/
theorem updateRecords_no_match (S : Stod) (db : Database) (t : Table)
    (newValues : StdMap String) (c : List Condition)
    (hnone : ∀ r ∈ t.records, evaluateConditions S r c = .ok false) :
    updateRecords S db t newValues c = .fail .noMatch t := by
  unfold updateRecords
  rw [updateLoop_all_false S db t.fields newValues c t.records t.uniqueFields false hnone]
  simp [eta_records_uniqueFields]

/-- C12 on `UPDATE USERS SET NAME='Bo' WHERE ID=2` with only Ann stored. -/
theorem updateRecords_no_match_witness :
    (∀ r ∈ Scenario.usersAnn.records,
      evaluateConditions Stod.integral r [Scenario.idIs2] = .ok false) ∧
    updateRecords Stod.integral Scenario.emptyDb Scenario.usersAnn [("NAME", "Bo")]
        [Scenario.idIs2]
      = .fail .noMatch Scenario.usersAnn :=
  ⟨by decide,
   updateRecords_no_match Stod.integral Scenario.emptyDb Scenario.usersAnn [("NAME", "Bo")]
     [Scenario.idIs2] (by decide)⟩

/-- C13: an UPDATE with an invalid value changes nothing. When the SET map
assigns to a declared field a value that fails `Field::validate` of that field
(its data type, or NOT_EMPTY on an empty string), `updateRecords` throws and
the table, with every record and every index, is exactly as before. -/
theorem updateRecords_invalid_value (S : Stod) (db : Database) (t : Table)
    (newValues : StdMap String) (c : List Condition) (k v : String) (field : Field)
    (e : DbError)
    (hk : (k, v) ∈ newValues) (hf : find t.fields k = some field)
    (hv : field.validate S v = .error e) :
    ∃ e1, updateRecords S db t newValues c = .fail e1 t := by
  have hbad := applyNewValues_invalid S t.fields newValues k v field e hk hf hv
  unfold updateRecords
  rcases updateLoop_of_invalid S db t.fields newValues c hbad t.records t.uniqueFields false
    with ⟨e1, u, h1⟩ | h1
  · exact ⟨e1, by simp [h1, eta_records_uniqueFields]⟩
  · exact ⟨.noMatch, by simp [h1, eta_records_uniqueFields]⟩

/-- C13 on Scenario 5: `UPDATE USERS SET NAME='' WHERE ID=1` throws the
NOT_EMPTY error and the `NAME` of the record stays `Ann`. -/
theorem updateRecords_invalid_value_witness :
    ("NAME", "") ∈ ([("NAME", "")] : StdMap String) ∧
    find Scenario.usersAnn.fields "NAME" = some Scenario.nameField ∧
    Scenario.nameField.validate Stod.integral "" = .error .emptyValue ∧
    (∃ e1, updateRecords Stod.integral Scenario.emptyDb Scenario.usersAnn [("NAME", "")]
        [Scenario.idIs1] = .fail e1 Scenario.usersAnn) ∧
    updateRecords Stod.integral Scenario.emptyDb Scenario.usersAnn [("NAME", "")]
        [Scenario.idIs1] = .fail .emptyValue Scenario.usersAnn ∧
    Scenario.usersAnn.records.map (fun r => find r "NAME") = [some "Ann"] :=
  ⟨by decide, by decide, by decide,
   updateRecords_invalid_value Stod.integral Scenario.emptyDb Scenario.usersAnn [("NAME", "")]
     [Scenario.idIs1] "NAME" "" Scenario.nameField .emptyValue (by decide) (by decide)
     (by decide),
   by decide, by decide⟩

/-- C15 fails on the code: `ORDERS.ID` references `USERS.ID`, no user has `ID`
99, and yet `UPDATE ORDERS SET ID=99 WHERE OID=10` returns normally and the
record now holds 99. The constraint loop of `enforceConstraintsOnUpdate` looks
for the name `FOREIGN_KEY`, while `ForeignKeyConstraint::getName` returns
`FOREIGN_KEY_REFERENCES`. -/
theorem updateRecords_accepts_dangling_reference :
    checkForeignKeyConstraint Scenario.usersDb "USERS" "ID" "99" = .ok false ∧
    updateRecords Stod.integral Scenario.usersDb Scenario.ordersOne [("ID", "99")]
        [Scenario.oidIs10]
      = .ok { Scenario.ordersOne with records := [[("ID", "99"), ("OID", "10")]] } := by
  decide

end Table

/-! ## Claims on the effect of UPDATE and DELETE -/

namespace Table

open StdMap

theorem updateRecord_ok_applied (S : Stod) (db : Database) (fields : StdMap Field)
    (newValues : StdMap String) (record : Record) (uf : UniqueFields)
    (s : Record × UniqueFields)
    (h : updateRecord S db fields newValues record uf = .ok s) :
    applyNewValues S fields newValues record = .ok s.1 := by
  unfold updateRecord at h
  cases ha : applyNewValues S fields newValues record with
  | error e => simp [ha] at h
  | ok updated =>
    simp only [ha] at h
    cases he : enforceUpdateLoop S db fields record updated uf with
    | fail e uf1 => simp [he] at h
    | ok uf1 =>
      simp only [he] at h
      injection h with h
      rw [← h]

/-- What the loop of `updateRecords` does to each record when it ends
normally. -/
theorem updateLoop_ok_records (S : Stod) (db : Database) (fields : StdMap Field)
    (newValues : StdMap String) (c : List Condition) (hn : (keys newValues).Nodup)
    (records : List Record) (uf : UniqueFields) (updated : Bool)
    (s : List Record × UniqueFields × Bool)
    (h : updateLoop S db fields newValues c records uf updated = .ok s) :
    List.Forall₂ (fun old new =>
      (evaluateConditions S old c = .ok true ∧
        (∀ k v, find newValues k = some v → find new k = some v) ∧
        (∀ k, find newValues k = none → find new k = find old k)) ∨
      (evaluateConditions S old c = .ok false ∧ new = old)) records s.1 := by
  induction records generalizing uf updated s with
  | nil =>
    simp only [updateLoop, Outcome.ok.injEq] at h
    subst h
    exact List.Forall₂.nil
  | cons r rest ih =>
    unfold updateLoop at h
    cases hev : evaluateConditions S r c with
    | error e => simp [hev] at h
    | ok b =>
      cases b
      · simp only [hev] at h
        cases hd : updateLoop S db fields newValues c rest uf updated with
        | fail e s2 =>
          obtain ⟨rs, uf1, u⟩ := s2
          simp [hd] at h
        | ok s2 =>
          obtain ⟨rs, uf1, u⟩ := s2
          simp only [hd, Outcome.ok.injEq] at h
          subst h
          exact List.Forall₂.cons (Or.inr ⟨hev, rfl⟩) (ih uf updated _ hd)
      · simp only [hev] at h
        cases hu : updateRecord S db fields newValues r uf with
        | fail e s1 =>
          obtain ⟨r0, uf1⟩ := s1
          simp [hu] at h
        | ok s1 =>
          obtain ⟨r1, uf1⟩ := s1
          simp only [hu] at h
          have happ := updateRecord_ok_applied S db fields newValues r uf (r1, uf1) hu
          obtain ⟨a1, a2⟩ := applyNewValues_ok S fields newValues r r1 hn happ
          cases hd : updateLoop S db fields newValues c rest uf1 true with
          | fail e s2 =>
            obtain ⟨rs, uf2, u⟩ := s2
            simp [hd] at h
          | ok s2 =>
            obtain ⟨rs, uf2, u⟩ := s2
            simp only [hd, Outcome.ok.injEq] at h
            subst h
            exact List.Forall₂.cons (Or.inl ⟨hev, a1, a2⟩) (ih uf1 true _ hd)

/-- C16: the effect of a successful UPDATE. If `updateRecords` returns, the
name and the fields are unchanged, the record sequence has the same length,
and position by position: a record on which the chain evaluated to true now
holds the value of the SET map for each name of the SET map and its old value
for every other name; a record on which it evaluated to false is unchanged. -/
theorem updateRecords_effect (S : Stod) (db : Database) (t t1 : Table)
    (newValues : StdMap String) (c : List Condition)
    (hmap : Sorted newValues)
    (h : updateRecords S db t newValues c = .ok t1) :
    t1.name = t.name ∧ t1.fields = t.fields ∧ t1.records.length = t.records.length ∧
    List.Forall₂ (fun old new =>
      (evaluateConditions S old c = .ok true ∧
        (∀ k v, find newValues k = some v → find new k = some v) ∧
        (∀ k, find newValues k = none → find new k = find old k)) ∨
      (evaluateConditions S old c = .ok false ∧ new = old)) t.records t1.records := by
  unfold updateRecords at h
  cases hd : updateLoop S db t.fields newValues c t.records t.uniqueFields false with
  | fail e s =>
    obtain ⟨rs, uf, u⟩ := s
    simp [hd] at h
  | ok s =>
    obtain ⟨rs, uf, u⟩ := s
    have hf := updateLoop_ok_records S db t.fields newValues c
      (nodup_keys_of_sorted newValues hmap) t.records t.uniqueFields false _ hd
    simp only [hd] at h
    cases u
    · simp at h
    · simp only [if_true, Outcome.ok.injEq] at h
      subst h
      exact ⟨rfl, rfl, (List.Forall₂.length_eq hf).symm, hf⟩

/-- C16 on `UPDATE USERS SET NAME='Bo' WHERE ID=1` with Ann and Cat stored:
Ann becomes Bo, Cat is unchanged. -/
theorem updateRecords_effect_witness :
    Sorted ([("NAME", "Bo")] : StdMap String) ∧
    updateRecords Stod.integral Scenario.emptyDb Scenario.usersAnnCat [("NAME", "Bo")]
        [Scenario.idIs1]
      = .ok { Scenario.usersAnnCat with
              records := [[("ID", "1"), ("NAME", "Bo")], Scenario.cat] } ∧
    ({ Scenario.usersAnnCat with
        records := [[("ID", "1"), ("NAME", "Bo")], Scenario.cat] } : Table).records.length
      = Scenario.usersAnnCat.records.length ∧
    List.Forall₂ (fun old new =>
      (evaluateConditions Stod.integral old [Scenario.idIs1] = .ok true ∧
        (∀ k v, find ([("NAME", "Bo")] : StdMap String) k = some v → find new k = some v) ∧
        (∀ k, find ([("NAME", "Bo")] : StdMap String) k = none → find new k = find old k)) ∨
      (evaluateConditions Stod.integral old [Scenario.idIs1] = .ok false ∧ new = old))
      Scenario.usersAnnCat.records
      ({ Scenario.usersAnnCat with
          records := [[("ID", "1"), ("NAME", "Bo")], Scenario.cat] } : Table).records :=
  ⟨by decide, by decide,
   (updateRecords_effect Stod.integral Scenario.emptyDb Scenario.usersAnnCat
      { Scenario.usersAnnCat with records := [[("ID", "1"), ("NAME", "Bo")], Scenario.cat] }
      [("NAME", "Bo")] [Scenario.idIs1] (by decide) (by decide)).2.2.1,
   (updateRecords_effect Stod.integral Scenario.emptyDb Scenario.usersAnnCat
      { Scenario.usersAnnCat with records := [[("ID", "1"), ("NAME", "Bo")], Scenario.cat] }
      [("NAME", "Bo")] [Scenario.idIs1] (by decide) (by decide)).2.2.2⟩

end Table

namespace Table

open StdMap

theorem selectLoop_all_false (S : Stod) (F : List String) (c : List Condition)
    (records : List Record)
    (h : ∀ r ∈ records, evaluateConditions S r c = .ok false) :
    selectLoop S F c records = .ok [] := by
  induction records with
  | nil => rfl
  | cons r rest ih =>
    unfold selectLoop
    simp [h r (List.mem_cons_self _ _), ih (fun x hx => h x (List.mem_cons_of_mem _ hx))]

theorem mem_columnValues_iff (records : List Record) (C x : String) :
    x ∈ columnValues records C ↔ ∃ r ∈ records, find r C = some x := by
  simp [columnValues, List.mem_filterMap]

end Table

/-! ## Claims on joins -/

namespace Table

open StdMap

theorem qualified_inj (N k1 k2 : String) (h : N ++ "." ++ k1 = N ++ "." ++ k2) : k1 = k2 := by
  have h1 := congrArg String.data h
  simp only [String.data_append, List.append_assoc] at h1
  exact String.ext (List.append_cancel_left (List.append_cancel_left h1))

theorem combine_other_key (N : String) (r : Record) (acc : Record) (key : String)
    (h : ∀ k ∈ keys r, key ≠ N ++ "." ++ k) :
    find (r.foldl (fun combined p => assign combined (N ++ "." ++ p.1) p.2) acc) key
      = find acc key := by
  induction r generalizing acc with
  | nil => rfl
  | cons p rest ih =>
    have hp : key ≠ N ++ "." ++ p.1 := h p.1 (by simp [keys])
    have hrest : ∀ k ∈ keys rest, key ≠ N ++ "." ++ k :=
      fun k hk => h k (by simp only [keys, List.map_cons, List.mem_cons]; exact Or.inr hk)
    simp only [List.foldl_cons]
    rw [ih _ hrest, find_assign_ne _ _ _ _ hp]

theorem combine_qualified_key (N : String) (r : Record) (acc : Record) (k v : String)
    (hn : (keys r).Nodup) (h : find r k = some v) :
    find (r.foldl (fun combined p => assign combined (N ++ "." ++ p.1) p.2) acc)
      (N ++ "." ++ k) = some v := by
  induction r generalizing acc with
  | nil => simp [find] at h
  | cons p rest ih =>
    obtain ⟨k0, v0⟩ := p
    have hn' : k0 ∉ keys rest ∧ (keys rest).Nodup := by simpa [keys] using hn
    simp only [List.foldl_cons]
    by_cases hk : k = k0
    · subst hk
      simp only [find, if_true, Option.some.injEq] at h
      subst h
      rw [combine_other_key N rest _ (N ++ "." ++ k)
        (fun k1 hk1 heq => hn'.1 (by rw [qualified_inj N k k1 heq]; exact hk1))]
      exact find_assign_self _ _ _
    · simp only [find, hk, if_false] at h
      exact ih _ hn'.2 h

theorem joinLeftRecord_eq (cond : Condition) (N : String) (l : Record) (R : List Record)
    (hop : cond.op = "=") :
    joinLeftRecord cond N l R
      = .ok ((R.filter (joinPredicate cond l)).map (combineRecords N l)) := by
  induction R with
  | nil => rfl
  | cons r rest ih =>
    unfold joinLeftRecord
    simp only [evaluateJoinCondition, hop, if_true, ih]
    by_cases hm : getValue l cond.field = getValue r cond.value
    · simp [joinPredicate, hm, List.filter]
    · simp [joinPredicate, hm, List.filter]

/-- C11 as stated fails: joining `USERS` with `ORDERS` and the result with
`ORDERS` again, the left row that holds `ORDERS.OID` 10 is paired with the
order 11 and the combined row holds `ORDERS.OID` 11: a key of the left row
that equals a qualified key of the right row does not keep its value. -/
theorem join_overwrites_qualified_left_key :
    performInnerJoin Scenario.usersAnn.records [Scenario.order10, Scenario.order11]
      Scenario.joinOnId "ORDERS" "USERS" = .ok [Scenario.annOrder10, Scenario.annOrder11] ∧
    evaluateJoinCondition Scenario.annOrder10 Scenario.order11 Scenario.joinOnId = .ok true ∧
    find Scenario.annOrder10 "ORDERS.OID" = some "10" ∧
    performInnerJoin [Scenario.annOrder10, Scenario.annOrder11]
      [Scenario.order10, Scenario.order11] Scenario.joinOnId "ORDERS" "USERS"
      = .ok [Scenario.annOrder10, Scenario.annOrder11,
             Scenario.annOrder10, Scenario.annOrder11] := by
  decide

/-- C11, amended: for a join condition with operator `=`, `performInnerJoin`
returns, for each left row in order and each right row in order, exactly one
combined row per pair that satisfies the join predicate; the combined row
holds, for every key `k` of the right row, the key `N.k` with the value of the
right row, every other key of the left row with the value of the left row,
and no other key. -/
theorem performInnerJoin_shape (L R : List Record) (cond : Condition) (N M : String)
    (hop : cond.op = "=") :
    performInnerJoin L R cond N M
      = .ok (L.flatMap (fun l => (R.filter (joinPredicate cond l)).map (combineRecords N l))) ∧
    ∀ l r : Record, Sorted r →
      (∀ k v, find r k = some v → find (combineRecords N l r) (N ++ "." ++ k) = some v) ∧
      (∀ key, (∀ k ∈ keys r, key ≠ N ++ "." ++ k) →
        find (combineRecords N l r) key = find l key) := by
  constructor
  · induction L with
    | nil => rfl
    | cons l rest ih =>
      unfold performInnerJoin
      simp [joinLeftRecord_eq cond N l R hop, ih, List.flatMap]
  · intro l r hr
    exact ⟨fun k v h => combine_qualified_key N r l k v (nodup_keys_of_sorted r hr) h,
      fun key h => combine_other_key N r l key h⟩

/-- C11 on Scenario 4: `USERS` joined with `ORDERS` on `USERS.ID =
ORDERS.USERID` gives one row with the keys `ID`, `NAME`, `ORDERS.ID` and
`ORDERS.USERID`. -/
theorem performInnerJoin_shape_witness :
    Scenario.joinOnUserId.op = "=" ∧
    performInnerJoin Scenario.usersAnn.records [Scenario.orderOfUser1, Scenario.orderOfUser2]
        Scenario.joinOnUserId "ORDERS" "USERS"
      = .ok [[("ID", "1"), ("NAME", "Ann"), ("ORDERS.ID", "10"), ("ORDERS.USERID", "1")]] ∧
    ∀ l r : Record, Sorted r →
      (∀ k v, find r k = some v →
        find (combineRecords "ORDERS" l r) ("ORDERS" ++ "." ++ k) = some v) ∧
      (∀ key, (∀ k ∈ keys r, key ≠ "ORDERS" ++ "." ++ k) →
        find (combineRecords "ORDERS" l r) key = find l key) :=
  ⟨by decide,
   (performInnerJoin_shape Scenario.usersAnn.records
      [Scenario.orderOfUser1, Scenario.orderOfUser2] Scenario.joinOnUserId "ORDERS" "USERS"
      (by decide)).1.trans (by decide),
   (performInnerJoin_shape Scenario.usersAnn.records
      [Scenario.orderOfUser1, Scenario.orderOfUser2] Scenario.joinOnUserId "ORDERS" "USERS"
      (by decide)).2⟩

end Table

/-! ## Claims on UPDATE of a primary key -/

namespace Table

open StdMap

theorem enforceUpdateLoop_pass (S : Stod) (db : Database) (fields : StdMap Field)
    (original : Record) (entries : List (String × String)) (uf : UniqueFields)
    (hdecl : ∀ p ∈ fields, p.2.isPrimaryKey = true → (find uf p.1).isSome = true)
    (h : ∀ q ∈ entries, ∃ f, find fields q.1 = some f ∧ f.validate S q.2 = .ok () ∧
      (q.2 ≠ (find original q.1).getD "" → f.isPrimaryKey = true →
        q.2 ∉ (find uf q.1).getD ∅)) :
    enforceUpdateLoop S db fields original entries uf = .ok uf := by
  induction entries with
  | nil => rfl
  | cons p rest ih =>
    obtain ⟨n, w⟩ := p
    obtain ⟨f, hf, hv, hchk⟩ := h (n, w) (List.mem_cons_self _ _)
    have ih' := ih (fun q hq => h q (List.mem_cons_of_mem _ hq))
    unfold enforceUpdateLoop
    simp only [hf, hv]
    by_cases hchg : w ≠ (find original n).getD ""
    · rw [if_pos hchg, checkConstraintsOnUpdate_eq db n w f.constraints uf
        (fun hh => hdecl (n, f) (mem_of_find fields n f hf) hh)]
      have hno : ¬ (f.constraints.any (fun c => decide (c.getName = "PRIMARY_KEY")) = true ∧
          w ∈ (find uf n).getD ∅) := fun hh => hchk hchg hh.1 hh.2
      rw [if_neg hno]
      exact ih'
    · rw [if_neg hchg]
      exact ih'

theorem updateLoop_skip (S : Stod) (db : Database) (fields : StdMap Field)
    (newValues : StdMap String) (c : List Condition) (pre rest : List Record)
    (uf : UniqueFields) (updated : Bool)
    (h : ∀ r ∈ pre, evaluateConditions S r c = .ok false) :
    updateLoop S db fields newValues c (pre ++ rest) uf updated =
      match updateLoop S db fields newValues c rest uf updated with
      | .ok (rs, uf1, u) => .ok (pre ++ rs, uf1, u)
      | .fail e (rs, uf1, u) => .fail e (pre ++ rs, uf1, u) := by
  induction pre with
  | nil =>
    simp only [List.nil_append]
    cases updateLoop S db fields newValues c rest uf updated with
    | ok s => rfl
    | fail e s => rfl
  | cons r pre ih =>
    have ih' := ih (fun x hx => h x (List.mem_cons_of_mem _ hx))
    simp only [List.cons_append]
    rw [updateLoop]
    simp only [h r (List.mem_cons_self _ _), ih']
    cases updateLoop S db fields newValues c rest uf updated with
    | ok s => rfl
    | fail e s => rfl

/-- The body of the loop of `updateRecords` for `SET C = v` on a record that
holds `o` in the primary-key column `C`. -/
theorem updateRecord_single (S : Stod) (db : Database) (fields : StdMap Field)
    (r : Record) (uf : UniqueFields) (C v o : String) (field : Field) (index : Finset String)
    (hkeys : (keys fields).Nodup)
    (hdecl : ∀ p ∈ fields, p.2.isPrimaryKey = true → (find uf p.1).isSome = true)
    (hC : (C, field) ∈ fields) (hpk : field.isPrimaryKey = true)
    (hvalid : field.validate S v = .ok ())
    (hsorted : Sorted r)
    (hown : ∀ q ∈ r, ∃ f, find fields q.1 = some f ∧ f.validate S q.2 = .ok ())
    (ho : find r C = some o) (hidx : find uf C = some index) :
    ((v = o ∨ v ∉ index) →
      updateRecord S db fields [(C, v)] r uf
        = .ok (assign r C v,
            if v ≠ o then assign uf C (insert v (index.erase o)) else uf)) ∧
    (¬ (v = o ∨ v ∉ index) → ∃ e s, updateRecord S db fields [(C, v)] r uf = .fail e s) := by
  have hfield : find fields C = some field := find_of_mem_nodup fields C field hkeys hC
  have happ : applyNewValues S fields [(C, v)] r = .ok (assign r C v) := by
    simp [applyNewValues, hfield, hvalid]
  have hnodup : (keys (assign r C v)).Nodup :=
    nodup_keys_of_sorted _ (sorted_assign r C v hsorted)
  have hswap : swapIndexes r [(C, v)] uf
      = if v ≠ o then assign uf C (insert v (index.erase o)) else uf := by
    by_cases hvo : v = o
    · simp [swapIndexes, hidx, ho, hvo]
    · simp [swapIndexes, hidx, ho, hvo]
  constructor
  · intro hfree
    have hpass := enforceUpdateLoop_pass S db fields r (assign r C v) uf hdecl (by
      intro q hq
      have hq1 : find (assign r C v) q.1 = some q.2 :=
        find_of_mem_nodup _ q.1 q.2 hnodup hq
      rw [find_assign] at hq1
      by_cases hqc : q.1 = C
      · simp only [hqc, if_true, Option.some.injEq] at hq1
        refine ⟨field, by rw [hqc]; exact hfield, by rw [← hq1]; exact hvalid, ?_⟩
        intro hne _
        rw [hqc, ho] at hne
        rw [hqc, hidx, ← hq1]
        rcases hfree with h1 | h1
        · exact absurd (by rw [← hq1, h1]; rfl) hne
        · exact h1
      · simp only [hqc, if_false] at hq1
        obtain ⟨f, hf1, hf2⟩ := hown q (mem_of_find r q.1 q.2 hq1)
        refine ⟨f, hf1, hf2, ?_⟩
        intro hne
        rw [hq1] at hne
        exact absurd rfl hne)
    simp [updateRecord, happ, hpass, hswap]
  · intro hnot
    have hvo : v ≠ o := fun h => hnot (Or.inl h)
    have hin : v ∈ index := by
      by_contra h
      exact hnot (Or.inr h)
    cases he : enforceUpdateLoop S db fields r (assign r C v) uf with
    | fail e uf1 => exact ⟨e, (r, uf1), by simp [updateRecord, happ, he]⟩
    | ok uf1 =>
      have hchk := enforceUpdateLoop_ok S db fields r (assign r C v) uf uf1 hdecl he
        (C, v) (mem_of_find _ C v (find_assign_self r C v)) field hfield hpk
        (by simpa [ho] using hvo)
      simp [hidx] at hchk
      exact absurd hin hchk

/-- C14 as stated fails: `USERS` holds one record with `ID` 1 and an
undeclared key `EXTRA` (as `insertRecord` stores it), the invariants hold, the
value 2 passes the validation of `ID` and no record holds it, and yet
`UPDATE USERS SET ID=2 WHERE ID=1` throws: `enforceConstraintsOnUpdate` walks
every key of the record and rejects a key that is not a declared field. -/
theorem update_key_rejected_for_undeclared_key :
    insertRecord Stod.integral Scenario.emptyDb Scenario.users Scenario.annExtra
      = .ok Scenario.usersExtra ∧
    Consistent Scenario.usersExtra ∧
    Scenario.idField.validate Stod.integral "2" = .ok () ∧
    (∀ x ∈ Scenario.usersExtra.records, find x "ID" ≠ some "2") ∧
    updateRecords Stod.integral Scenario.emptyDb Scenario.usersExtra [("ID", "2")]
        [Scenario.idIs1]
      = .fail (.fieldNotFound "EXTRA") Scenario.usersExtra := by
  decide

/-- C14, amended: on a table in a consistent state, take `UPDATE ... SET C = v`
where `C` is a primary-key column, `v` passes the validation of `C`, and the
chain is true on exactly one record and evaluates to false, without raising an
error, on every other record; the matched record is a map that holds only
declared fields with valid values and holds `o` in `C`. The update returns iff `v = o`
or no current record holds `v` in `C`. When it returns, the matched record is
the old one with `C` set to `v`; if `v ≠ o` the index of `C` is the old index
with `o` removed and `v` inserted, and if `v = o` the indexes are untouched. -/
theorem updateRecords_primaryKey (S : Stod) (db : Database) (t : Table) (c : List Condition)
    (C v o : String) (field : Field) (pre post : List Record) (r : Record)
    (hcons : Consistent t)
    (hC : (C, field) ∈ t.fields) (hpk : field.isPrimaryKey = true)
    (hvalid : field.validate S v = .ok ())
    (hrecords : t.records = pre ++ r :: post)
    (hpre : ∀ x ∈ pre, evaluateConditions S x c = .ok false)
    (hr : evaluateConditions S r c = .ok true)
    (hpost : ∀ x ∈ post, evaluateConditions S x c = .ok false)
    (hsorted : Sorted r)
    (hown : ∀ q ∈ r, ∃ f, find t.fields q.1 = some f ∧ f.validate S q.2 = .ok ())
    (ho : find r C = some o) :
    ((∃ t1, updateRecords S db t [(C, v)] c = .ok t1) ↔
      (v = o ∨ ∀ x ∈ t.records, find x C ≠ some v)) ∧
    (∀ t1, updateRecords S db t [(C, v)] c = .ok t1 →
      t1.records = pre ++ assign r C v :: post ∧
      ∃ index, find t.uniqueFields C = some index ∧
        (v ≠ o → find t1.uniqueFields C = some (insert v (index.erase o))) ∧
        (v = o → t1.uniqueFields = t.uniqueFields)) := by
  have hidx : find t.uniqueFields C = some (columnValues t.records C) :=
    hcons.2.2.2.1 (C, field) hC hpk
  have hfree_iff : (v = o ∨ v ∉ columnValues t.records C) ↔
      (v = o ∨ ∀ x ∈ t.records, find x C ≠ some v) := by
    rw [mem_columnValues_iff]
    constructor
    · rintro (h | h)
      · exact Or.inl h
      · exact Or.inr (fun x hx hv => h ⟨x, hx, hv⟩)
    · rintro (h | h)
      · exact Or.inl h
      · exact Or.inr (fun ⟨x, hx, hv⟩ => h x hx hv)
  obtain ⟨hyes, hno⟩ := updateRecord_single S db t.fields r t.uniqueFields C v o field
    (columnValues t.records C) hcons.1 hcons.2.1 hC hpk hvalid hsorted hown ho hidx
  have hloop : updateLoop S db t.fields [(C, v)] c t.records t.uniqueFields false =
      match updateRecord S db t.fields [(C, v)] r t.uniqueFields with
      | .fail e (_, uf1) => .fail e (pre ++ r :: post, uf1, true)
      | .ok (r1, uf1) => .ok (pre ++ r1 :: post, uf1, true) := by
    rw [hrecords, updateLoop_skip S db t.fields [(C, v)] c pre (r :: post) _ _ hpre]
    rw [updateLoop]
    simp only [hr]
    cases hu : updateRecord S db t.fields [(C, v)] r t.uniqueFields with
    | fail e s => rfl
    | ok s =>
      obtain ⟨r1, uf1⟩ := s
      simp only
      rw [updateLoop_all_false S db t.fields [(C, v)] c post uf1 true hpost]
  by_cases hfree : v = o ∨ v ∉ columnValues t.records C
  · have hu := hyes hfree
    have hres : updateRecords S db t [(C, v)] c
        = .ok { t with records := pre ++ assign r C v :: post,
                       uniqueFields := if v ≠ o then
                         assign t.uniqueFields C
                           (insert v ((columnValues t.records C).erase o))
                         else t.uniqueFields } := by
      simp [updateRecords, hloop, hu]
    refine ⟨⟨fun _ => hfree_iff.mp hfree, fun _ => ⟨_, hres⟩⟩, ?_⟩
    intro t1 ht1
    rw [hres] at ht1
    injection ht1 with ht1
    subst ht1
    refine ⟨rfl, _, hidx, ?_, ?_⟩
    · intro hvo
      simp [hvo, find_assign_self]
    · intro hvo
      simp [hvo]
  · obtain ⟨e, s, hu⟩ := hno hfree
    obtain ⟨r0, uf1⟩ := s
    have hres : updateRecords S db t [(C, v)] c
        = .fail e { t with records := pre ++ r :: post, uniqueFields := uf1 } := by
      simp [updateRecords, hloop, hu]
    refine ⟨⟨fun ⟨t1, ht1⟩ => ?_, fun h => absurd (hfree_iff.mpr h) hfree⟩, ?_⟩
    · rw [hres] at ht1
      cases ht1
    · intro t1 ht1
      rw [hres] at ht1
      cases ht1

/-- C14 on `UPDATE USERS SET ID=3 WHERE ID=1` with Ann and Cat stored: no
record holds 3, the update returns, Ann holds `ID` 3 and the index has lost 1
and gained 3; and `UPDATE USERS SET ID=2 WHERE ID=1` throws because Cat holds 2. -/
theorem updateRecords_primaryKey_witness :
    Consistent Scenario.usersAnnCat ∧
    updateRecords Stod.integral Scenario.emptyDb Scenario.usersAnnCat [("ID", "2")]
        [Scenario.idIs1]
      = .fail (.primaryKeyViolated "ID") Scenario.usersAnnCat ∧
    (((∃ t1, updateRecords Stod.integral Scenario.emptyDb Scenario.usersAnnCat [("ID", "3")]
          [Scenario.idIs1] = .ok t1) ↔
      ("3" = "1" ∨ ∀ x ∈ Scenario.usersAnnCat.records, find x "ID" ≠ some "3")) ∧
     (∀ t1, updateRecords Stod.integral Scenario.emptyDb Scenario.usersAnnCat [("ID", "3")]
          [Scenario.idIs1] = .ok t1 →
      t1.records = [] ++ assign Scenario.ann "ID" "3" :: [Scenario.cat] ∧
      ∃ index, find Scenario.usersAnnCat.uniqueFields "ID" = some index ∧
        ("3" ≠ "1" → find t1.uniqueFields "ID" = some (insert "3" (index.erase "1"))) ∧
        ("3" = "1" → t1.uniqueFields = Scenario.usersAnnCat.uniqueFields))) :=
  ⟨by decide, by decide,
   updateRecords_primaryKey Stod.integral Scenario.emptyDb Scenario.usersAnnCat
     [Scenario.idIs1] "ID" "3" "1" Scenario.idField [] [Scenario.cat] Scenario.ann
     (by decide) (by decide) (by decide) (by decide) (by decide) (by decide) (by decide)
     (by decide) (by decide) (by decide) (by decide)⟩

end Table

/-! ## Claims on the order of the insertion checks, totality and VARCHAR -/

namespace Table

open StdMap

theorem checkPrimaryKeys_first (record : Record) (pre post : List (String × Field))
    (C : String) (field : Field) (uf : UniqueFields)
    (hdecl : ∀ p ∈ pre ++ (C, field) :: post, p.2.isPrimaryKey = true →
      (find uf p.1).isSome = true)
    (hpre : ∀ p ∈ pre, p.2.isPrimaryKey = true →
      (find record p.1).getD "" ∉ (find uf p.1).getD ∅)
    (hpk : field.isPrimaryKey = true)
    (hdup : (find record C).getD "" ∈ (find uf C).getD ∅) :
    checkPrimaryKeys record (pre ++ (C, field) :: post) uf
      = .fail (.primaryKeyViolated C) uf := by
  induction pre with
  | nil =>
    simp only [List.nil_append, checkPrimaryKeys]
    have h1 := checkPrimaryKey_eq C ((find record C).getD "") field.constraints uf
      (fun h => hdecl (C, field) (by simp) h)
    have h2 : field.constraints.any (fun c => decide (c.getName = "PRIMARY_KEY")) = true ∧
        (find record C).getD "" ∈ (find uf C).getD ∅ := ⟨hpk, hdup⟩
    rw [h1, if_pos h2]
  | cons p pre ih =>
    obtain ⟨fieldName, f⟩ := p
    simp only [List.cons_append, checkPrimaryKeys]
    have h1 := checkPrimaryKey_eq fieldName ((find record fieldName).getD "") f.constraints uf
      (fun h => hdecl (fieldName, f) (by simp) h)
    have h2 : ¬ (f.constraints.any (fun c => decide (c.getName = "PRIMARY_KEY")) = true ∧
        (find record fieldName).getD "" ∈ (find uf fieldName).getD ∅) :=
      fun h => hpre (fieldName, f) (List.mem_cons_self _ _) h.1 h.2
    rw [h1, if_neg h2]
    exact ih (fun q hq => hdecl q (by simp at hq ⊢; exact Or.inr hq))
      (fun q hq => hpre q (List.mem_cons_of_mem _ hq))

theorem call_fields (S : Stod) (t : Table) (c : Call) : (call S t c).state.fields = t.fields := by
  cases c with
  | insertRecord db record =>
    have hs := (enforceConstraintsOnInsert_state S db t record).2.1
    simp only [call, insertRecord]
    cases he : enforceConstraintsOnInsert S db t record with
    | fail e t2 => simpa [he, Outcome.state] using hs
    | ok t2 =>
      simp only [he, Outcome.state] at hs ⊢
      cases hi : indexInserted record t2.fields t2.uniqueFields <;> simpa using hs
  | updateRecords db newValues conditions =>
    simp only [call, updateRecords]
    repeat' split
    all_goals rfl
  | deleteRecords conditions =>
    simp only [call, deleteRecords]
    repeat' split
    all_goals rfl

theorem run_fields (S : Stod) (t : Table) (calls : List Call) :
    (run S t calls).fields = t.fields := by
  induction calls generalizing t with
  | nil => rfl
  | cons c cs ih => rw [run, ih, call_fields]

/-- C28 as stated fails: in `ITEMS (CODE VARCHAR(5) NOT_EMPTY, QTY INT)` the row
that holds only `CODE = toolong` lacks a value for the declared field `QTY`,
yet it is rejected with the type error of `CODE`: the loop over the declared
fields tests presence and validity of one field before it looks at the next. -/
theorem missing_value_masked_by_earlier_type_error :
    find Scenario.longCode "QTY" = none ∧
    ("QTY", Scenario.qtyField) ∈ Scenario.items.fields ∧
    insertRecord Stod.integral Scenario.emptyDb Scenario.items Scenario.longCode
      = .fail (.typeError "Varchar") Scenario.items ∧
    insertRecord Stod.integral Scenario.emptyDb Scenario.items Scenario.longCode
      ≠ .fail (.missingValue "QTY") Scenario.items := by
  decide

/-- C28, amended: `insertRecord` walks the declared fields in name order and
stops at the first one that has no value (missing-value error of that field)
or whose value fails `Field::validate` (the error of that validation); only
when every declared field has a valid value does it test the primary keys, in
name order again, and stop at the first whose value is in its index
(primary-key violation of that field). In each case the table is unchanged. -/
theorem insertRecord_check_order (S : Stod) (db : Database) (t : Table) (record : Record)
    (pre post : List (String × Field)) (C : String) (field : Field)
    (hfields : t.fields = pre ++ (C, field) :: post)
    (hpre : ∀ p ∈ pre, ∃ w, find record p.1 = some w ∧ p.2.validate S w = .ok ()) :
    (find record C = none → insertRecord S db t record = .fail (.missingValue C) t) ∧
    (∀ w e, find record C = some w → field.validate S w = .error e →
      insertRecord S db t record = .fail e t) ∧
    (IndexesDeclared t →
      (∀ p ∈ (C, field) :: post, ∃ w, find record p.1 = some w ∧ p.2.validate S w = .ok ()) →
      (∀ p ∈ pre, p.2.isPrimaryKey = true →
        (find record p.1).getD "" ∉ (find t.uniqueFields p.1).getD ∅) →
      field.isPrimaryKey = true →
      (find record C).getD "" ∈ (find t.uniqueFields C).getD ∅ →
      insertRecord S db t record = .fail (.primaryKeyViolated C) t) := by
  have hok := (validateFields_ok_iff S pre record).mpr hpre
  refine ⟨?_, ?_, ?_⟩
  · intro hnone
    apply insertRecord_of_invalid
    rw [hfields, validateFields_append, hok]
    simp [validateFields, hnone]
  · intro w e hw he
    apply insertRecord_of_invalid
    rw [hfields, validateFields_append, hok]
    simp [validateFields, hw, he]
  · intro hdecl hrest hfree hpk hdup
    have hvalid : validateFields S t.fields record = .ok () := by
      rw [validateFields_ok_iff, hfields]
      intro p hp
      rcases List.mem_append.mp hp with h | h
      · exact hpre p h
      · exact hrest p h
    have hfail := checkPrimaryKeys_first record pre post C field t.uniqueFields
      (by rw [← hfields]; exact hdecl) hfree hpk hdup
    rw [← hfields] at hfail
    simp [insertRecord, enforceConstraintsOnInsert, hvalid, hfail, eta_uniqueFields]

/-- C28 on `USERS` holding Ann: after the valid `ID`, the field `NAME` decides.
A row without `NAME` is rejected with the missing-value error of `NAME`. -/
theorem insertRecord_check_order_witness :
    Scenario.usersAnn.fields
      = [("ID", Scenario.idField)] ++ ("NAME", Scenario.nameField) :: [] ∧
    (∀ p ∈ [("ID", Scenario.idField)],
      ∃ w, find Scenario.onlyId p.1 = some w ∧ p.2.validate Stod.integral w = .ok ()) ∧
    find Scenario.onlyId "NAME" = none ∧
    insertRecord Stod.integral Scenario.emptyDb Scenario.usersAnn Scenario.onlyId
      = .fail (.missingValue "NAME") Scenario.usersAnn :=
  ⟨by decide, by decide, by decide,
   (insertRecord_check_order Stod.integral Scenario.emptyDb Scenario.usersAnn Scenario.onlyId
     [("ID", Scenario.idField)] [] "NAME" Scenario.nameField (by decide) (by decide)).1
     (by decide)⟩

/-- C29: every stored record is total on the declared fields. Start from a
table that `createTable` has just built and perform any sequence of
`insertRecord` / `updateRecords` / `deleteRecords` calls, each returning or
throwing: the declared fields are still the same and every record of the
sequence has a value for each of their names. -/
theorem records_total (S : Stod) (db0 : Database) (name : String)
    (declared : List Field) (t0 : Table) (calls : List Call)
    (hcreate : addFields db0 (Table.new name) declared = some t0)
    (hwf : ∀ c ∈ calls, c.WellFormed) :
    (run S t0 calls).fields = t0.fields ∧
    ∀ r ∈ (run S t0 calls).records, ∀ p ∈ t0.fields, ∃ v, find r p.1 = some v := by
  have hcons := run_consistent S t0 calls hwf
    (fresh_consistent t0 (addFields_fresh db0 declared _ t0 hcreate (new_fresh name)))
  refine ⟨run_fields S t0 calls, fun r hr p hp => ?_⟩
  exact Option.isSome_iff_exists.mp
    (hcons.2.2.1 r hr p (by rw [run_fields]; exact hp))

/-- C29 on `USERS`: insert Ann, fail to insert Bob with the same `ID`, insert
Cat, fail to move Cat onto the `ID` of Ann. -/
theorem records_total_witness :
    addFields Scenario.emptyDb (Table.new "USERS") [Scenario.idField, Scenario.nameField]
      = some Scenario.users ∧
    (∀ c ∈ Scenario.clashes, c.WellFormed) ∧
    (run Stod.integral Scenario.users Scenario.clashes).fields = Scenario.users.fields ∧
    ∀ r ∈ (run Stod.integral Scenario.users Scenario.clashes).records,
      ∀ p ∈ Scenario.users.fields, ∃ v, find r p.1 = some v :=
  ⟨by decide, by decide,
   records_total Stod.integral Scenario.emptyDb "USERS"
     [Scenario.idField, Scenario.nameField] Scenario.users Scenario.clashes
     (by decide) (by decide)⟩

end Table

/-- C30: the validator of `VARCHAR(n)` accepts a value exactly when its length
(`std::string::size`, the number of bytes) is at most `n`, and otherwise throws
the type error of `Varchar`; so the empty string is accepted for every `n`. -/
theorem varchar_validate (S : Stod) (n : Nat) (v : String) :
    DataType.validate S (.varchar n) v
      = (if v.utf8ByteSize ≤ n then .ok () else .error (.typeError "Varchar")) ∧
    (DataType.validate S (.varchar n) v = .ok () ↔ v.utf8ByteSize ≤ n) ∧
    DataType.validate S (.varchar n) "" = .ok () := by
  refine ⟨?_, ?_, ?_⟩
  · by_cases h : v.utf8ByteSize ≤ n
    · simp [DataType.validate, h, Nat.not_lt.mpr h]
    · simp [DataType.validate, h, Nat.lt_of_not_le h]
  · by_cases h : v.utf8ByteSize ≤ n
    · simp [DataType.validate, h, Nat.not_lt.mpr h]
    · simp [DataType.validate, h, Nat.lt_of_not_le h]
  · simp [DataType.validate, String.utf8ByteSize, String.utf8ByteSize.go]

/-! ## Claims on the parser: statements where the code leaves the grammar -/

namespace SQLParser

/-- C22 fails on the code: the DROP branch stores the table token as written.
`drop table users` yields the table name `users`, which `dropTable` does not
find in a database whose table was registered as `USERS`; the DELETE branch,
like the other four, stores the upper-cased name. -/
theorem parse_drop_keeps_case :
    parse "drop table users" = .ok (Scenario.dropQuery "users") ∧
    (parse "drop table users").map (fun query => query.table) ≠ .ok "USERS" ∧
    (parse "drop table users").map (fun query => Database.dropTable Scenario.usersDb query)
      = .ok (.fail (.tableNotFound "users") Scenario.usersDb) ∧
    (parse "delete from users").map (fun query => query.table) = .ok "USERS" := by
  decide

/-- C23 fails on the code: the UPDATE branch looks for the text `WHERE` in
upper case only. With `where` in lower case the rest of the line is one
assignment and there is no condition; the same statement with `WHERE` yields
the value `Bob` and the condition `(ID, =, 1)`, and the DELETE branch accepts
`where` in lower case. -/
theorem parse_update_misses_lowercase_where :
    parse "update users set name='Bob' where id=1"
      = .ok { emptyQuery with
          operation := "UPDATE", table := "USERS",
          values := [("NAME", "'Bob' where id=1")], conditions := [] } ∧
    parse "update users set name='Bob' WHERE id=1"
      = .ok { emptyQuery with
          operation := "UPDATE", table := "USERS",
          values := [("NAME", "Bob")],
          conditions := [{ field := "ID", op := "=", value := "1", relation := "" }] } ∧
    (parse "delete from users where id=1").map (fun query => query.conditions)
      = .ok [{ field := "ID", op := "=", value := "1", relation := "" }] := by
  decide

/-- C24 fails on the code: the pattern of a value group asks for at least one
character between the parentheses, so an empty tuple is never looked at. With
two listed fields, `VALUES ()` parses to a statement without rows and
`VALUES (1,2), ()` to a statement with one row; a tuple of one value is
rejected. -/
theorem parse_insert_accepts_empty_tuple :
    parse "INSERT INTO T ( A,B ) VALUES ()"
      = .ok { emptyQuery with
          operation := "INSERT", table := "T", fields := ["A", "B"], multiValues := [] } ∧
    parse "INSERT INTO T ( A,B ) VALUES (1,2), ()"
      = .ok { emptyQuery with
          operation := "INSERT", table := "T", fields := ["A", "B"],
          multiValues := [[("A", "1"), ("B", "2")]] } ∧
    parse "INSERT INTO T ( A,B ) VALUES (1)"
      = .error (.syntaxError "Mismatched number of values in INSERT statement.") := by
  decide

theorem trim_eq_self (str : List Char)
    (hhead : ∀ c, str.head? = some c → isSpace c = false)
    (hlast : ∀ c, str.getLast? = some c → isSpace c = false) : trim str = str := by
  unfold trim
  have h1 : str.dropWhile isSpace = str := by
    cases str with
    | nil => rfl
    | cons c cs => simp [List.dropWhile, hhead c rfl]
  rw [h1]
  have h2 : str.reverse.dropWhile isSpace = str.reverse := by
    cases hr : str.reverse with
    | nil => rfl
    | cons c cs =>
      have hc : str.getLast? = some c := by
        rw [List.getLast?_eq_head?_reverse, hr]; rfl
      simp [List.dropWhile, hlast c hc]
  rw [h2, List.reverse_reverse]

theorem unescape_eq_self (q : Char) (str : List Char) (h : '\\' ∉ str) :
    unescape q str = str := by
  induction str with
  | nil => rfl
  | cons c cs ih =>
    cases cs with
    | nil => rfl
    | cons d ds =>
      have hc : c ≠ '\\' := fun hc => h (by simp [hc])
      have ih' := ih (fun hm => h (List.mem_cons_of_mem _ hm))
      simp [unescape, hc, ih']

theorem remove_quotes_quoted (q : Char) (body : List Char) (hq : q = '\'' ∨ q = '"') :
    remove_quotes (q :: (body ++ [q])) = unescape q (trim body) := by
  have hlen : (q :: (body ++ [q])).length ≥ 2 := by simp
  have hlast : (q :: (body ++ [q])).getLast? = some q := by
    rw [← List.cons_append, List.getLast?_append]; simp
  have hbody : ((q :: (body ++ [q])).drop 1).take ((q :: (body ++ [q])).length - 2) = body := by
    simp
  unfold remove_quotes
  rw [hbody]
  have hcond : (q :: (body ++ [q])).length ≥ 2 ∧
      (((q :: (body ++ [q])).head? = some '\'' ∧ (q :: (body ++ [q])).getLast? = some '\'') ∨
       ((q :: (body ++ [q])).head? = some '"' ∧ (q :: (body ++ [q])).getLast? = some '"')) := by
    refine ⟨hlen, ?_⟩
    rw [hlast]
    rcases hq with h | h
    · exact Or.inl ⟨by simp [h], by simp [h]⟩
    · exact Or.inr ⟨by simp [h], by simp [h]⟩
  rw [if_pos hcond]
  rfl

/-- C27 as stated fails: the text between the quotes of `' Ann '` is ` Ann `
with a blank at each end and holds no backslash, yet `remove_quotes` returns
`Ann`. -/
theorem remove_quotes_trims_inside :
    remove_quotes "' Ann '".data = "Ann".data ∧
    remove_quotes "' Ann '".data ≠ " Ann ".data ∧
    '\\' ∉ " Ann ".data := by
  decide

/-- C27, amended: for a string that begins and ends with the same quote
character `q` (single or double), `remove_quotes` takes the text between the
two quotes, drops the white space at both of its ends, and then replaces, from
left to right, each backslash followed by `q` by `q`. So a text between the
quotes without white space at its ends comes back with only the escaped
quotes replaced, and one that holds no backslash either comes back as it
is. -/
theorem remove_quotes_spec (q : Char) (body : List Char) (hq : q = '\'' ∨ q = '"') :
    remove_quotes (q :: (body ++ [q])) = unescape q (trim body) ∧
    ((∀ c, body.head? = some c → isSpace c = false) →
     (∀ c, body.getLast? = some c → isSpace c = false) →
      remove_quotes (q :: (body ++ [q])) = unescape q body ∧
      ('\\' ∉ body → remove_quotes (q :: (body ++ [q])) = body)) := by
  refine ⟨remove_quotes_quoted q body hq, fun hhead hlast => ?_⟩
  rw [remove_quotes_quoted q body hq, trim_eq_self body hhead hlast]
  exact ⟨rfl, fun h => unescape_eq_self q body h⟩

/-- C27 on the literal `'it\'s'`: the escaped quote is replaced. -/
theorem remove_quotes_spec_witness :
    ('\'' = '\'' ∨ '\'' = '"') ∧
    remove_quotes ('\'' :: ("it\\'s".data ++ ['\''])) = "it's".data ∧
    remove_quotes ('\'' :: ("it\\'s".data ++ ['\'']))
      = unescape '\'' (trim "it\\'s".data) :=
  ⟨by decide, by decide,
   (remove_quotes_spec '\'' "it\\'s".data (by decide)).1⟩

end SQLParser

/-! ## Lemmas on texts and streams -/

theorem takeWhile_run {α : Type} (p : α → Bool) (run tail : List α)
    (hrun : ∀ c ∈ run, p c = true) (htail : ∀ c, tail.head? = some c → p c = false) :
    (run ++ tail).takeWhile p = run ∧ (run ++ tail).dropWhile p = tail := by
  induction run with
  | nil =>
    cases tail with
    | nil => simp
    | cons c cs => simp [List.takeWhile, List.dropWhile, htail c rfl]
  | cons c cs ih =>
    have hc := hrun c (List.mem_cons_self _ _)
    have ih' := ih (fun d hd => hrun d (List.mem_cons_of_mem _ hd))
    simp [List.takeWhile, List.dropWhile, hc, ih'.1, ih'.2]

theorem isSpace_toUpper (c : Char) (h : isSpace c = true) : c.toUpper = c := by
  have hlt : c.toNat < 97 := by
    simp only [isSpace, Bool.or_eq_true, beq_iff_eq, Bool.and_eq_true, decide_eq_true_eq] at h
    omega
  simp only [Char.toUpper]
  rw [if_neg (by omega)]

theorem not_isSpace_of_to_upper (word keyword : List Char)
    (h : SQLParser.to_upper word = keyword) (hk : ∀ c ∈ keyword, isSpace c = false) :
    ∀ c ∈ word, isSpace c = false := by
  intro c hc
  by_contra hs
  have hs' : isSpace c = true := by simpa using hs
  have hmem : c.toUpper ∈ keyword := by
    rw [← h]; exact List.mem_map_of_mem _ hc
  rw [isSpace_toUpper c hs'] at hmem
  simp [hk c hmem] at hs'

theorem extract_token (ws w tail old : List Char) (hws : ∀ c ∈ ws, isSpace c = true)
    (hw : Token w) (htail : ∀ c, tail.head? = some c → isSpace c = true) :
    IStream.extract { rest := ws ++ (w ++ tail), eofbit := false, failbit := false } old
      = ({ rest := tail, eofbit := tail.isEmpty, failbit := false }, w) := by
  obtain ⟨hne, hns⟩ := hw
  have h1 : (ws ++ (w ++ tail)).dropWhile isSpace = w ++ tail := by
    apply (takeWhile_run isSpace ws (w ++ tail) hws _).2
    intro c hc
    cases w with
    | nil => exact absurd rfl hne
    | cons d ds =>
      simp at hc
      subst hc
      exact hns _ (List.mem_cons_self _ _)
  have h2 := takeWhile_run (fun d => !isSpace d) w tail (fun c hc => by simp [hns c hc])
    (fun c hc => by simp [htail c hc])
  cases hw2 : w ++ tail with
  | nil =>
    cases w with
    | nil => exact absurd rfl hne
    | cons d ds => simp at hw2
  | cons c cs =>
    simp only [IStream.extract, Bool.or_self, Bool.false_eq_true, if_false]
    rw [hw2] at h1
    rw [h1]
    simp only
    rw [← hw2, h2.1, h2.2]

theorem cut_found (delim : Char) (text after : List Char) (h : delim ∉ text) :
    cut delim (text ++ delim :: after) = (text, some after) := by
  induction text with
  | nil => simp [cut]
  | cons c cs ih =>
    have hc : c ≠ delim := fun hc => h (by simp [hc])
    have ih' := ih (fun hm => h (List.mem_cons_of_mem _ hm))
    simp [cut, hc, ih']

theorem cut_absent (delim : Char) (text : List Char) (h : delim ∉ text) :
    cut delim text = (text, none) := by
  induction text with
  | nil => simp [cut]
  | cons c cs ih =>
    have hc : c ≠ delim := fun hc => h (by simp [hc])
    have ih' := ih (fun hm => h (List.mem_cons_of_mem _ hm))
    simp [cut, hc, ih']

theorem getlines_single (delim : Char) (piece : List Char) (hne : piece ≠ [])
    (h : delim ∉ piece) : getlines delim piece = [piece] := by
  induction piece with
  | nil => exact absurd rfl hne
  | cons c cs ih =>
    have hc : c ≠ delim := fun hc => h (by simp [hc])
    cases cs with
    | nil => simp [getlines, hc]
    | cons d ds =>
      have ih' := ih (by simp) (fun hm => h (List.mem_cons_of_mem _ hm))
      simp only [getlines, hc, if_false] at ih' ⊢
      rw [ih']

theorem getlines_cons (delim : Char) (piece rest : List Char) (h : delim ∉ piece) :
    getlines delim (piece ++ delim :: rest) = piece :: getlines delim rest := by
  induction piece with
  | nil => simp [getlines]
  | cons c cs ih =>
    have hc : c ≠ delim := fun hc => h (by simp [hc])
    have ih' := ih (fun hm => h (List.mem_cons_of_mem _ hm))
    simp only [List.cons_append, getlines, hc, if_false, List.append_eq]
    rw [ih']

theorem intercalate_cons_cons {α : Type} (sep x y : List α) (rest : List (List α)) :
    sep.intercalate (x :: y :: rest) = x ++ sep ++ sep.intercalate (y :: rest) := by
  simp [List.intercalate, List.intersperse]

theorem intercalate_singleton {α : Type} (sep x : List α) :
    sep.intercalate [x] = x := by
  simp [List.intercalate, List.intersperse]

theorem getlines_intercalate (delim : Char) (pieces : List (List Char))
    (hdelim : ∀ piece ∈ pieces, delim ∉ piece)
    (hlast : ∀ piece, pieces.getLast? = some piece → piece ≠ []) :
    getlines delim ([delim].intercalate pieces) = pieces := by
  induction pieces with
  | nil => simp [List.intercalate, getlines]
  | cons x rest ih =>
    cases rest with
    | nil =>
      rw [intercalate_singleton]
      exact getlines_single delim x (hlast x rfl) (hdelim x (List.mem_cons_self _ _))
    | cons y rest =>
      rw [intercalate_cons_cons, List.append_assoc, List.singleton_append,
        getlines_cons delim x _ (hdelim x (List.mem_cons_self _ _)),
        ih (fun p hp => hdelim p (List.mem_cons_of_mem _ hp))
          (fun p hp => hlast p (by simpa [List.getLast?_cons_cons] using hp))]

theorem findChar_found (c : Char) (pre post : List Char) (h : c ∉ pre) :
    findChar c (pre ++ c :: post) = some pre.length := by
  induction pre with
  | nil => simp [findChar]
  | cons d ds ih =>
    have hd : d ≠ c := fun hd => h (by simp [hd])
    have ih' := ih (fun hm => h (List.mem_cons_of_mem _ hm))
    simp [findChar, hd, ih']

theorem rfindChar_concat (c : Char) (text : List Char) :
    rfindChar c (text ++ [c]) = some text.length := by
  induction text with
  | nil => simp [rfindChar]
  | cons d ds ih => simp [rfindChar, ih]

theorem words_concat_space (text : List Char) (c : Char) (hc : isSpace c = true) :
    words (text ++ [c]) = words text := by
  induction text with
  | nil => simp [words, hc]
  | cons a rest ih =>
    by_cases ha : isSpace a = true
    · simp [words, ha, ih]
    · cases rest with
      | nil => simp [words, ha, hc]
      | cons d ds =>
        simp only [List.cons_append] at ih ⊢
        by_cases hd : isSpace d = true
        · simp only [words, ha, hd, if_false, if_true] at ih ⊢
          simp [ih]
        · simp only [words, ha, hd, if_false] at ih ⊢
          rw [ih]

theorem words_dropWhile (text : List Char) : words (text.dropWhile isSpace) = words text := by
  induction text with
  | nil => rfl
  | cons a rest ih =>
    by_cases ha : isSpace a = true
    · simp [List.dropWhile, words, ha, ih]
    · simp [List.dropWhile, ha]

theorem words_rdropWhile (text : List Char) :
    words ((text.reverse.dropWhile isSpace).reverse) = words text := by
  induction text using List.reverseRecOn with
  | nil => rfl
  | append_singleton rest c ih =>
    by_cases hc : isSpace c = true
    · simp only [List.reverse_append, List.reverse_singleton, List.singleton_append,
        List.dropWhile, hc]
      rw [ih, words_concat_space rest c hc]
    · simp [List.dropWhile, hc]

theorem words_trim (text : List Char) : words (SQLParser.trim text) = words text := by
  unfold SQLParser.trim
  rw [words_rdropWhile, words_dropWhile]

/-! ## The CREATE branch of the parser -/

namespace SQLParser

theorem head_blank_append (s tail : List Char) (hs : Blank s) :
    ∀ c, (s ++ tail).head? = some c → isSpace c = true := by
  obtain ⟨hne, hall⟩ := hs
  cases s with
  | nil => exact absurd rfl hne
  | cons d ds =>
    intro c hc
    simp at hc
    subst hc
    exact hall _ (List.mem_cons_self _ _)

theorem extract_first (w s tail old : List Char) (hw : Token w) (hs : Blank s) :
    IStream.extract (IStream.ofText (w ++ (s ++ tail))) old
      = ({ rest := s ++ tail, eofbit := false, failbit := false }, w) := by
  have h := extract_token [] w (s ++ tail) old (by simp) hw (head_blank_append s tail hs)
  have hne : (s ++ tail).isEmpty = false := by
    cases s with
    | nil => exact absurd rfl hs.1
    | cons d ds => rfl
  simpa [IStream.ofText, hne] using h

theorem extract_next (s1 w s2 tail old : List Char) (hs1 : Blank s1) (hw : Token w)
    (hs2 : Blank s2) :
    IStream.extract { rest := s1 ++ (w ++ (s2 ++ tail)), eofbit := false, failbit := false } old
      = ({ rest := s2 ++ tail, eofbit := false, failbit := false }, w) := by
  have h := extract_token s1 w (s2 ++ tail) old hs1.2 hw (head_blank_append s2 tail hs2)
  have hne : (s2 ++ tail).isEmpty = false := by
    cases s2 with
    | nil => exact absurd rfl hs2.1
    | cons d ds => rfl
  simpa [hne] using h

theorem token_of_to_upper (word keyword : List Char) (h : to_upper word = keyword)
    (hne : keyword ≠ []) (hk : ∀ c ∈ keyword, isSpace c = false) : Token word := by
  refine ⟨?_, not_isSpace_of_to_upper word keyword h hk⟩
  intro hw
  subst hw
  exact hne (by simpa [to_upper] using h.symm)

theorem constraintLoop_written (cs : List ConstraintText) (colDef : ColumnDefinition)
    (hwf : ∀ c ∈ cs, c.WellFormed) :
    constraintLoop (cs.flatMap ConstraintText.tokens) colDef
      = .ok { colDef with
          constraints := colDef.constraints ++ cs.map ConstraintText.name,
          referencedTable :=
            (ConstraintText.referenced cs (colDef.referencedTable, colDef.referencedColumn)).1,
          referencedColumn :=
            (ConstraintText.referenced cs (colDef.referencedTable, colDef.referencedColumn)).2 } := by
  induction cs generalizing colDef with
  | nil => simp [constraintLoop, ConstraintText.referenced]
  | cons c rest ih =>
    have hrest : ∀ d ∈ rest, d.WellFormed := fun d hd => hwf d (List.mem_cons_of_mem _ hd)
    have hc := hwf c (List.mem_cons_self _ _)
    cases c with
    | plain keyword =>
      simp only [List.flatMap_cons, ConstraintText.tokens, List.singleton_append]
      unfold constraintLoop
      simp only
      split
      · rw [ih _ hrest]
        simp [ConstraintText.referenced, ConstraintText.name]
      · exact absurd hc (by assumption)
    | reference keyword table column =>
      obtain ⟨hk, hdot⟩ := hc
      simp only [List.flatMap_cons, ConstraintText.tokens, List.cons_append, List.nil_append,
        constraintLoop]
      rw [hk, if_neg (by decide), if_pos rfl]
      simp only [findChar_found '.' table column hdot, List.append_eq, List.nil_append,
        ← List.flatMap_def]
      rw [ih _ hrest]
      simp [ConstraintText.referenced, ConstraintText.name]

theorem parseColumn_written (text : List Char) (column : ColumnText)
    (htext : words text = column.tokens) (hwf : ∀ c ∈ column.constraints, c.WellFormed) :
    parseColumn text = .ok column.definition := by
  unfold parseColumn
  simp only [words_trim, htext, ColumnText.tokens, List.headD_cons, List.drop_succ_cons,
    List.drop_zero]
  rw [constraintLoop_written column.constraints _ hwf]
  simp [ColumnText.definition]

theorem columnLoop_written (texts : List (List Char)) (columns : List ColumnText)
    (htexts : List.Forall₂ (fun text column => words text = ColumnText.tokens column) texts columns)
    (hwf : ∀ column ∈ columns, ∀ c ∈ column.constraints, c.WellFormed) :
    columnLoop texts = .ok (columns.map ColumnText.definition) := by
  induction htexts with
  | nil => rfl
  | cons h _ ih =>
    simp only [columnLoop, List.map_cons]
    rw [parseColumn_written _ _ h (hwf _ (List.mem_cons_self _ _)),
      ih (fun c hc => hwf c (List.mem_cons_of_mem _ hc))]

end SQLParser

namespace SQLParser

theorem not_mem_blank (s : List Char) (c : Char) (hs : Blank s) (hc : isSpace c = false) :
    c ∉ s := by
  intro hm
  have := hs.2 c hm
  simp [hc] at this

theorem forall₂_left {α β : Type} {R : α → β → Prop} {P : α → Prop} {l1 : List α}
    {l2 : List β} (h : List.Forall₂ R l1 l2) (hP : ∀ a b, R a b → P a) : ∀ a ∈ l1, P a := by
  induction h with
  | nil => simp
  | cons hab _ ih =>
    intro a ha
    rcases List.mem_cons.mp ha with rfl | hm
    · exact hP _ _ hab
    · exact ih a hm

theorem not_mem_intercalate (c : Char) (sep : List Char) (pieces : List (List Char))
    (hsep : c ∉ sep) (h : ∀ piece ∈ pieces, c ∉ piece) : c ∉ sep.intercalate pieces := by
  induction pieces with
  | nil => simp [List.intercalate]
  | cons x rest ih =>
    cases rest with
    | nil =>
      rw [intercalate_singleton]
      exact h x (List.mem_cons_self _ _)
    | cons y rest =>
      rw [intercalate_cons_cons]
      simp only [List.mem_append, not_or]
      exact ⟨⟨h x (List.mem_cons_self _ _), hsep⟩,
        ih (fun p hp => h p (List.mem_cons_of_mem _ hp))⟩

/-- C25: the CREATE grammar. Take a text made of the keywords `CREATE` and
`TABLE` in any letter case, a table name, and between one pair of parentheses
the column definitions separated by commas, with white space between the
tokens; each column definition is free of commas and semicolons and consists
of the tokens `col type c1 ... ck`, every `cj` being `PRIMARY_KEY`, `NOT_EMPTY`
or `FOREIGN_KEY_REFERENCES table.column` in any letter case. Then `parse`
returns the operation `CREATE`, the upper-cased table name and one column
definition per written one, in order, with the upper-cased name and type, the
constraint names in written order, and the upper-cased parts before and after
the first dot of the (last) reference. A `std::string` is shorter than `2^64`
characters. -/
theorem parse_create (kCreate kTable name s1 s2 s3 : List Char)
    (texts : List (List Char)) (columns : List ColumnText)
    (hCreate : to_upper kCreate = "CREATE".data) (hTable : to_upper kTable = "TABLE".data)
    (hs1 : Blank s1) (hs2 : Blank s2) (hs3 : Blank s3) (hname : Token name)
    (htexts : List.Forall₂
      (fun text column => words text = ColumnText.tokens column ∧ ',' ∉ text ∧ ';' ∉ text)
      texts columns)
    (hwf : ∀ column ∈ columns, ∀ c ∈ column.constraints, c.WellFormed)
    (hsize : (",".data.intercalate texts).length < 2 ^ 64) :
    parse (String.mk (kCreate ++ (s1 ++ (kTable ++ (s2 ++ (name ++ (s3 ++
        '(' :: (",".data.intercalate texts ++ [')']))))))))
      = .ok { emptyQuery with
          operation := "CREATE", table := String.mk (to_upper name),
          columns := columns.map ColumnText.definition } := by
  have tCreate : Token kCreate := token_of_to_upper _ _ hCreate (by decide) (by decide)
  have tTable : Token kTable := token_of_to_upper _ _ hTable (by decide) (by decide)
  have hcomma : ∀ text ∈ texts, ',' ∉ text := forall₂_left htexts (fun _ _ h => h.2.1)
  have hsemi : ∀ text ∈ texts, ';' ∉ text := forall₂_left htexts (fun _ _ h => h.2.2)
  have hnonempty : ∀ text ∈ texts, text ≠ [] :=
    forall₂_left htexts (fun a b h => by
      intro ha
      subst ha
      simp [words, ColumnText.tokens] at h)
  have hwords : List.Forall₂ (fun text column => words text = ColumnText.tokens column)
      texts columns := htexts.imp (fun _ _ h => h.1)
  generalize hinner : ",".data.intercalate texts = inner at hsize
  have hlines : getlines ',' inner = texts := by
    rw [← hinner]
    exact getlines_intercalate ',' texts hcomma
      (fun p hp => hnonempty p (List.mem_of_mem_getLast? hp))
  have hnosemi : ';' ∉ s3 ++ '(' :: (inner ++ [')']) := by
    have h1 : ';' ∉ inner := by
      rw [← hinner]
      exact not_mem_intercalate ';' _ texts (by decide) hsemi
    have h2 := not_mem_blank s3 ';' hs3 (by decide)
    simp [h1, h2]
  have hfind : findChar '(' (s3 ++ '(' :: (inner ++ [')'])) = some s3.length :=
    findChar_found '(' s3 _ (not_mem_blank s3 '(' hs3 (by decide))
  have hrfind : rfindChar ')' (s3 ++ '(' :: (inner ++ [')']))
      = some (s3.length + 1 + inner.length) := by
    have e : s3 ++ '(' :: (inner ++ [')']) = (s3 ++ '(' :: inner) ++ [')'] := by simp
    rw [e, rfindChar_concat]
    simp only [List.length_append, List.length_cons, Option.some.injEq]
    omega
  have hcols : ((s3 ++ '(' :: (inner ++ [')'])).drop (s3.length + 1)).take
      ((s3.length + 1 + inner.length + 2 ^ 64 - s3.length - 1) % 2 ^ 64) = inner := by
    have h1 : (s3 ++ '(' :: (inner ++ [')'])).drop (s3.length + 1) = inner ++ [')'] := by
      rw [List.drop_append_eq_append_drop]
      simp
    have h2 : (s3.length + 1 + inner.length + 2 ^ 64 - s3.length - 1) % 2 ^ 64
        = inner.length := by
      have : s3.length + 1 + inner.length + 2 ^ 64 - s3.length - 1 = inner.length + 2 ^ 64 := by
        omega
      rw [this, Nat.add_mod_right, Nat.mod_eq_of_lt hsize]
    rw [h1, h2]
    simp
  unfold parse
  simp only [extract_first kCreate s1 _ [] tCreate hs1, hCreate]
  rw [if_neg (by decide), if_neg (by decide), if_neg (by decide), if_neg (by decide),
    if_neg (by decide), if_pos trivial]
  unfold parseCreate
  simp only [extract_next s1 kTable s2 _ _ hs1 tTable hs2, hTable, if_true,
    extract_next s2 name s3 _ _ hs2 hname hs3]
  simp only [IStream.getline, Bool.or_self, Bool.false_eq_true, if_false,
    cut_absent ';' _ hnosemi, hfind, hrfind, hcols, hlines,
    columnLoop_written texts columns hwords hwf]

/-- C25 on the CREATE statement of Scenario 1, and on a statement in lower
case with a reference and blanks inside the parentheses. -/
theorem parse_create_witness :
    parse "CREATE TABLE USERS (ID INT PRIMARY_KEY, NAME VARCHAR(20) NOT_EMPTY)"
      = .ok (Scenario.createQuery "USERS" [Scenario.idColumn, Scenario.nameColumn]) ∧
    parse "create table orders ( oid int primary_key, id int foreign_key_references users.id )"
      = .ok (Scenario.createQuery "ORDERS"
          [{ name := "OID", type := "INT", constraints := ["PRIMARY_KEY"],
             referencedTable := "", referencedColumn := "" },
           { name := "ID", type := "INT", constraints := ["FOREIGN_KEY_REFERENCES"],
             referencedTable := "USERS", referencedColumn := "ID" }]) :=
  ⟨parse_create "CREATE".data "TABLE".data "USERS".data " ".data " ".data " ".data
    ["ID INT PRIMARY_KEY".data, " NAME VARCHAR(20) NOT_EMPTY".data]
    [{ col := "ID".data, type := "INT".data, constraints := [.plain "PRIMARY_KEY".data] },
     { col := "NAME".data, type := "VARCHAR(20)".data, constraints := [.plain "NOT_EMPTY".data] }]
    (by decide) (by decide) (by decide) (by decide) (by decide) (by decide)
    (.cons ⟨by decide, by decide, by decide⟩ (.cons ⟨by decide, by decide, by decide⟩ .nil))
    (by decide) (by decide),
   parse_create "create".data "table".data "orders".data " ".data " ".data " ".data
    [" oid int primary_key".data, " id int foreign_key_references users.id ".data]
    [{ col := "oid".data, type := "int".data, constraints := [.plain "primary_key".data] },
     { col := "id".data, type := "int".data,
       constraints := [.reference "foreign_key_references".data "users".data "id".data] }]
    (by decide) (by decide) (by decide) (by decide) (by decide) (by decide)
    (.cons ⟨by decide, by decide, by decide⟩ (.cons ⟨by decide, by decide, by decide⟩ .nil))
    (by decide) (by decide)⟩

end SQLParser

/-! ## Lemmas on the matcher -/

theorem getLast?_cons_or (a : Char) (l : List Char) (prev : Option Char) :
    ((a :: l).getLast?).or prev = (l.getLast?).or (some a) := by
  cases l with
  | nil => rfl
  | cons b bs =>
    rw [List.getLast?_cons_cons]
    cases h : (b :: bs).getLast? with
    | none => simp at h
    | some c => rfl

theorem take_length_sub {α : Type} (a b : List α) :
    (a ++ b).take ((a ++ b).length - b.length) = a := by
  simp

/-- A greedy repetition takes the whole run of characters of its class when
the rest of the pattern then succeeds. -/
theorem starRun_greedy {α : Type} (p : Char → Bool) (run tail : List Char)
    (prev : Option Char) (k : Option Char → List Char → Option α)
    (hrun : ∀ c ∈ run, p c = true) (htail : ∀ c, tail.head? = some c → p c = false)
    (hk : (k ((run.getLast?).or prev) tail).isSome = true) :
    starRun p prev (run ++ tail) k = k ((run.getLast?).or prev) tail := by
  induction run generalizing prev with
  | nil =>
    cases tail with
    | nil => rfl
    | cons c cs => simp [starRun, htail c rfl]
  | cons a rest ih =>
    have ha := hrun a (List.mem_cons_self _ _)
    rw [getLast?_cons_or] at hk ⊢
    have ih' := ih (some a) (fun c hc => hrun c (List.mem_cons_of_mem _ hc)) hk
    obtain ⟨r, hr⟩ := Option.isSome_iff_exists.mp hk
    simp only [List.cons_append, starRun, ha, if_true, List.append_eq, ih', hr]

/-- A greedy repetition fails when the rest of the pattern fails wherever the
repetition may stop. -/
theorem starRun_none {α : Type} (p : Char → Bool) (text : List Char)
    (prev : Option Char) (k : Option Char → List Char → Option α)
    (hk : ∀ prev1 text1, k prev1 text1 = none) :
    starRun p prev text k = none := by
  induction text generalizing prev with
  | nil => simp [starRun, hk]
  | cons c cs ih => simp [starRun, hk, ih]

namespace SQLParser

theorem run_valuesRegex {α : Type} (prev : Option Char) (t rest : List Char)
    (k : Option Char → List Char → Captures → Option α)
    (hne : t ≠ []) (ht : ')' ∉ t) (hk : (k (some ')') rest [(1, t)]).isSome = true) :
    Regex.run valuesRegex prev ('(' :: (t ++ ')' :: rest)) [] k = k (some ')') rest [(1, t)] := by
  cases t with
  | nil => exact absurd rfl hne
  | cons c cs =>
    have hc : c ≠ ')' := fun h => ht (by simp [h])
    have hcs : ∀ d ∈ cs, (d != ')') = true := by
      intro d hd
      have : d ≠ ')' := fun h => ht (by rw [← h]; exact List.mem_cons_of_mem _ hd)
      simpa using this
    have htake : (c :: (cs ++ ')' :: rest)).take
        ((c :: (cs ++ ')' :: rest)).length - (')' :: rest).length) = c :: cs := by
      have := take_length_sub (c :: cs) (')' :: rest)
      simpa using this
    simp only [valuesRegex, Regex.plus, Regex.run, List.cons_append, hc, bne_iff_ne, ne_eq,
      not_false_eq_true, decide_True, if_true]
    rw [starRun_greedy _ cs (')' :: rest) (some c) _ hcs (by simp)]
    · simp only [htake, if_true, decide_True]
    · simp only [htake, if_true, decide_True]
      exact hk

end SQLParser

/-! ## The INSERT branch of the parser -/

namespace SQLParser

theorem run_valuesRegex_fail {α : Type} (prev : Option Char) (text : List Char)
    (k : Option Char → List Char → Captures → Option α) (h : text.head? ≠ some '(') :
    Regex.run valuesRegex prev text [] k = none := by
  cases text with
  | nil => simp [valuesRegex, Regex.run]
  | cons c cs =>
    have hc : c ≠ '(' := fun hc => h (by simp [hc])
    simp [valuesRegex, Regex.run, hc]

theorem search_valuesRegex_none (prev : Option Char) (gap : List Char) (h : '(' ∉ gap) :
    Regex.regex_search valuesRegex prev gap = none := by
  induction gap generalizing prev with
  | nil =>
    simp only [Regex.regex_search]
    exact run_valuesRegex_fail prev [] _ (by simp)
  | cons c cs ih =>
    have hc : c ≠ '(' := fun hc => h (by simp [hc])
    have ih' := ih (some c) (fun hm => h (List.mem_cons_of_mem _ hm))
    simp only [Regex.regex_search]
    rw [run_valuesRegex_fail prev (c :: cs) _ (by simpa using hc)]
    exact ih'

theorem search_valuesRegex (prev : Option Char) (gap t rest : List Char) (hgap : '(' ∉ gap)
    (hne : t ≠ []) (ht : ')' ∉ t) :
    Regex.regex_search valuesRegex prev (gap ++ '(' :: (t ++ ')' :: rest))
      = some ('(' :: (t ++ [')']), some ')', rest, [(1, t)]) := by
  induction gap generalizing prev with
  | nil =>
    have htake : ('(' :: (t ++ ')' :: rest)).take
        (('(' :: (t ++ ')' :: rest)).length - rest.length) = '(' :: (t ++ [')']) := by
      have := take_length_sub ('(' :: (t ++ [')'])) rest
      simpa using this
    simp only [List.nil_append, Regex.regex_search]
    rw [run_valuesRegex prev t rest (fun prev1 text1 caps => some (prev1, text1, caps))
      hne ht rfl]
    simp only [htake]
  | cons c cs ih =>
    have hc : c ≠ '(' := fun hc => hgap (by simp [hc])
    have ih' := ih (some c) (fun hm => hgap (List.mem_cons_of_mem _ hm))
    simp only [List.cons_append, Regex.regex_search, List.append_eq]
    rw [run_valuesRegex_fail prev (c :: (cs ++ '(' :: (t ++ ')' :: rest))) _
      (by simpa using hc)]
    exact ih'

/-- The text of the value groups: each group in parentheses, after its gap. -/
theorem matches_valuesRegex (groups : List (List Char × List Char)) (tail : List Char)
    (hgroups : ∀ g ∈ groups, '(' ∉ g.1 ∧ g.2 ≠ [] ∧ ')' ∉ g.2) (htail : '(' ∉ tail)
    (fuel : Nat) (prev : Option Char)
    (hfuel : (groups.flatMap (fun g => g.1 ++ '(' :: (g.2 ++ [')'])) ++ tail).length < fuel) :
    (Regex.matchesFrom valuesRegex fuel prev
        (groups.flatMap (fun g => g.1 ++ '(' :: (g.2 ++ [')'])) ++ tail)).map
      (fun m => Regex.str m.2 1) = groups.map (fun g => g.2) := by
  induction groups generalizing fuel prev with
  | nil =>
    cases fuel with
    | zero => simp at hfuel
    | succ fuel =>
      simp [Regex.matchesFrom, search_valuesRegex_none prev tail htail]
  | cons g rest ih =>
    obtain ⟨hg1, hg2, hg3⟩ := hgroups g (List.mem_cons_self _ _)
    cases fuel with
    | zero => simp at hfuel
    | succ fuel =>
      have hshape : (g :: rest).flatMap (fun g => g.1 ++ '(' :: (g.2 ++ [')'])) ++ tail
          = g.1 ++ '(' :: (g.2 ++ ')' ::
              (rest.flatMap (fun g => g.1 ++ '(' :: (g.2 ++ [')'])) ++ tail)) := by
        simp
      rw [hshape] at hfuel ⊢
      have hlen : (rest.flatMap (fun g => g.1 ++ '(' :: (g.2 ++ [')'])) ++ tail).length
          < fuel := by
        simp only [List.length_append, List.length_cons] at hfuel ⊢
        omega
      have ih' := ih (fun x hx => hgroups x (List.mem_cons_of_mem _ hx)) fuel (some ')') hlen
      simp only [Regex.matchesFrom, search_valuesRegex prev g.1 g.2 _ hg1 hg2 hg3,
        List.isEmpty_cons, Bool.false_eq_true, if_false, List.map_cons, ih']
      simp [Regex.str]

theorem valueLoop_written (fields : List String) (values : List (List Char))
    (fieldIndex : Nat) (valueMap : StdMap String)
    (hlen : fieldIndex + values.length = fields.length) :
    valueLoop fields values fieldIndex valueMap
      = .ok (((fields.drop fieldIndex).zip
          (values.map (fun v => String.mk (remove_quotes (trim v))))).foldl
            (fun m p => StdMap.assign m p.1 p.2) valueMap) := by
  induction values generalizing fieldIndex valueMap with
  | nil =>
    have h : fieldIndex = fields.length := by simpa using hlen
    simp [valueLoop, h]
  | cons v rest ih =>
    have hlt : fieldIndex < fields.length := by
      simp only [List.length_cons] at hlen
      omega
    have ih' := ih (fieldIndex + 1)
      (StdMap.assign valueMap (fields.getD fieldIndex "") (String.mk (remove_quotes (trim v))))
      (by simp only [List.length_cons] at hlen; omega)
    rw [List.getD_eq_getElem _ _ hlt] at ih'
    rw [List.drop_eq_getElem_cons hlt]
    simp only [valueLoop, ge_iff_le, Nat.not_le.mpr hlt, if_false, ih',
      List.getD_eq_getElem _ _ hlt, List.map_cons, List.zip_cons_cons, List.foldl_cons]

theorem groupLoop_written (fields : List String) (rows : List (List (List Char)))
    (hrows : ∀ r ∈ rows, r.length = fields.length ∧
      ∀ v ∈ r, v ≠ [] ∧ ',' ∉ v) :
    groupLoop fields (rows.map (fun r => ",".data.intercalate r))
      = .ok (rows.map (fun r =>
          rowOf fields (r.map (fun v => String.mk (remove_quotes (trim v)))))) := by
  induction rows with
  | nil => rfl
  | cons r rest ih =>
    obtain ⟨hlen, hvals⟩ := hrows r (List.mem_cons_self _ _)
    have hlines : getlines ',' (",".data.intercalate r) = r :=
      getlines_intercalate ',' r (fun v hv => (hvals v hv).2)
        (fun v hv => (hvals v (List.mem_of_mem_getLast? hv)).1)
    simp only [List.map_cons, groupLoop, hlines,
      valueLoop_written fields r 0 [] (by simpa using hlen),
      ih (fun x hx => hrows x (List.mem_cons_of_mem _ hx))]
    simp [rowOf]

end SQLParser

namespace SQLParser

theorem trim_blank_append (s text : List Char) (hs : ∀ c ∈ s, isSpace c = true) :
    trim (s ++ text) = trim text := by
  unfold trim
  have h : (s ++ text).dropWhile isSpace = text.dropWhile isSpace := by
    induction s with
    | nil => rfl
    | cons c cs ih =>
      simp [List.dropWhile, hs c (List.mem_cons_self _ _),
        ih (fun d hd => hs d (List.mem_cons_of_mem _ hd))]
  rw [h]

theorem append_intercalate {α : Type} (s sep x : List α) (rest : List (List α)) :
    s ++ sep.intercalate (x :: rest) = sep.intercalate ((s ++ x) :: rest) := by
  cases rest with
  | nil => simp [intercalate_singleton]
  | cons y rest => simp [intercalate_cons_cons]

theorem intercalate_cons_flatMap {α : Type} (sep x : List α) (rest : List (List α)) :
    sep.intercalate (x :: rest) = x ++ rest.flatMap (fun y => sep ++ y) := by
  induction rest generalizing x with
  | nil => simp [intercalate_singleton]
  | cons y rest ih => rw [intercalate_cons_cons, ih y]; simp

theorem matches_valuesLine (lead sep : List Char) (inners : List (List Char))
    (hlead : '(' ∉ lead) (hsep : '(' ∉ sep) (hinners : ∀ t ∈ inners, t ≠ [] ∧ ')' ∉ t) :
    (Regex.regex_matches valuesRegex
        (lead ++ sep.intercalate (inners.map (fun t => '(' :: (t ++ [')']))))).map
      (fun m => Regex.str m.2 1) = inners := by
  unfold Regex.regex_matches
  cases inners with
  | nil =>
    have h := matches_valuesRegex [] lead (by simp) hlead (lead.length + 1) none (by simp)
    simpa [List.intercalate] using h
  | cons t rest =>
    have hshape : lead ++ sep.intercalate ((t :: rest).map (fun t => '(' :: (t ++ [')'])))
        = ((lead, t) :: rest.map (fun t => (sep, t))).flatMap
            (fun g => g.1 ++ '(' :: (g.2 ++ [')'])) ++ [] := by
      rw [List.map_cons, intercalate_cons_flatMap]
      simp [List.flatMap_map, List.flatMap_def, Function.comp_def]
    rw [hshape]
    have h := matches_valuesRegex ((lead, t) :: rest.map (fun t => (sep, t))) []
      (by
        intro g hg
        rcases List.mem_cons.mp hg with rfl | hm
        · exact ⟨hlead, hinners t (List.mem_cons_self _ _)⟩
        · obtain ⟨u, hu, rfl⟩ := List.mem_map.mp hm
          exact ⟨hsep, hinners u (List.mem_cons_of_mem _ hu)⟩)
      (by simp) _ none (Nat.lt_succ_self _)
    rw [h]
    simp [Function.comp_def]

end SQLParser

namespace SQLParser

theorem find_foldl_assign_other (ps : List (String × String)) (m : StdMap String) (k : String)
    (hk : k ∉ ps.map Prod.fst) :
    StdMap.find (ps.foldl (fun m p => StdMap.assign m p.1 p.2) m) k = StdMap.find m k := by
  induction ps generalizing m with
  | nil => rfl
  | cons p rest ih =>
    have h1 : k ≠ p.1 := fun h => hk (by simp [h])
    have h2 : k ∉ rest.map Prod.fst := fun h => hk (by simp at h ⊢; exact Or.inr h)
    rw [List.foldl_cons, ih _ h2, StdMap.find_assign, if_neg h1]

theorem map_fst_zip_sublist {α β : Type} (l1 : List α) (l2 : List β) :
    ((l1.zip l2).map Prod.fst).Sublist l1 := by
  induction l1 generalizing l2 with
  | nil => simp
  | cons a rest ih =>
    cases l2 with
    | nil => simp
    | cons b bs => simpa using ih bs

theorem find_rowOf (fields values : List String) (hnodup : fields.Nodup)
    (p : String × String) (hp : p ∈ fields.zip values) :
    StdMap.find (rowOf fields values) p.1 = some p.2 := by
  unfold rowOf
  have hkeys : ((fields.zip values).map Prod.fst).Nodup := by
    exact (map_fst_zip_sublist fields values).nodup hnodup
  generalize fields.zip values = ps at hp hkeys
  generalize ([] : StdMap String) = m
  induction ps generalizing m with
  | nil => simp at hp
  | cons q rest ih =>
    rw [List.map_cons, List.nodup_cons] at hkeys
    rw [List.foldl_cons]
    rcases List.mem_cons.mp hp with rfl | hm
    · rw [find_foldl_assign_other rest _ _ hkeys.1, StdMap.find_assign, if_pos rfl]
    · exact ih hm hkeys.2 _

/-- C21 as stated fails: in the INSERT statement of Scenario 1 the token after
the table name is `(ID,NAME)`, not `(`, and `parse` throws. -/
theorem parse_insert_rejects_scenario_text :
    parse "INSERT INTO USERS (ID,NAME) VALUES (1,'Ann')"
      = .error (.syntaxError "Expected '(' after table name in INSERT statement.") := by
  decide

/-- C21, amended: the INSERT grammar with the opening parenthesis of the field
list as a token of its own. Take a text made of `INSERT`, `INTO`, a table
name, `(`, white space, the field names separated by commas, `)`, `VALUES`
(keywords in any letter case) and, on the same line, one tuple
`(v1,...,vn)` per row with as many values as there are fields, the tuples
separated by a text without `(`; names and values are not empty and hold no
comma and no `)`. Then `parse` returns the operation `INSERT`, the upper-cased
table name, the trimmed upper-cased field names and one row per tuple, in
order, that assigns to the fields from left to right the values passed through
`trim` and `remove_quotes`; when the field names are distinct, each field of a
row holds the value at its position. -/
theorem parse_insert (kInsert kInto kValues name s1 s2 s3 s4 s5 lead sep : List Char)
    (fieldTexts : List (List Char)) (rows : List (List (List Char)))
    (hInsert : to_upper kInsert = "INSERT".data) (hInto : to_upper kInto = "INTO".data)
    (hValues : to_upper kValues = "VALUES".data)
    (hs1 : Blank s1) (hs2 : Blank s2) (hs3 : Blank s3) (hs4 : Blank s4)
    (hs5 : ∀ c ∈ s5, isSpace c = true) (hname : Token name)
    (hlead : Blank lead ∧ newline ∉ lead) (hsep : '(' ∉ sep ∧ newline ∉ sep)
    (hfields : fieldTexts ≠ [] ∧ ∀ f ∈ fieldTexts, f ≠ [] ∧ ',' ∉ f ∧ ')' ∉ f)
    (hrows : ∀ r ∈ rows, r.length = fieldTexts.length ∧
      ∀ v ∈ r, v ≠ [] ∧ ',' ∉ v ∧ ')' ∉ v ∧ newline ∉ v) :
    parse (String.mk (kInsert ++ (s1 ++ (kInto ++ (s2 ++ (name ++ (s3 ++ '(' :: (s4 ++
        (",".data.intercalate fieldTexts ++ ')' :: (s5 ++ (kValues ++ (lead ++
          sep.intercalate
            (rows.map (fun r => '(' :: (",".data.intercalate r ++ [')'])))))))))))))))
      = .ok { emptyQuery with
          operation := "INSERT", table := String.mk (to_upper name),
          fields := fieldTexts.map (fun f => String.mk (to_upper (trim f))),
          multiValues := rows.map (fun r =>
            rowOf (fieldTexts.map (fun f => String.mk (to_upper (trim f))))
              (r.map (fun v => String.mk (remove_quotes (trim v))))) } ∧
    ((fieldTexts.map (fun f => String.mk (to_upper (trim f)))).Nodup →
      ∀ r ∈ rows, ∀ p ∈ (fieldTexts.map (fun f => String.mk (to_upper (trim f)))).zip
          (r.map (fun v => String.mk (remove_quotes (trim v)))),
        StdMap.find (rowOf (fieldTexts.map (fun f => String.mk (to_upper (trim f))))
          (r.map (fun v => String.mk (remove_quotes (trim v))))) p.1 = some p.2) := by
  refine ⟨?_, fun hnodup r _ p hp => find_rowOf _ _ hnodup p hp⟩
  have tInsert : Token kInsert := token_of_to_upper _ _ hInsert (by decide) (by decide)
  have tInto : Token kInto := token_of_to_upper _ _ hInto (by decide) (by decide)
  have tValues : Token kValues := token_of_to_upper _ _ hValues (by decide) (by decide)
  have tParen : Token "(".data := by decide
  obtain ⟨hfne, hfall⟩ := hfields
  generalize hfs : fieldTexts.map (fun f => String.mk (to_upper (trim f))) = fields
  have hflen : fields.length = fieldTexts.length := by rw [← hfs]; simp
  generalize hinner : ",".data.intercalate fieldTexts = fieldsInner
  have hfin : ')' ∉ s4 ++ fieldsInner := by
    have h1 := not_mem_blank s4 ')' hs4 (by decide)
    have h2 : ')' ∉ fieldsInner := by
      rw [← hinner]
      exact not_mem_intercalate ')' _ fieldTexts (by decide) (fun f hf => (hfall f hf).2.2)
    simp [h1, h2]
  have hlines : (getlines ',' (s4 ++ fieldsInner)).map
      (fun field => String.mk (to_upper (trim field))) = fields := by
    cases fieldTexts with
    | nil => exact absurd rfl hfne
    | cons f rest =>
      rw [← hinner, append_intercalate, getlines_intercalate ',' ((s4 ++ f) :: rest)]
      · rw [← hfs]
        simp [trim_blank_append s4 f hs4.2]
      · intro piece hp
        rcases List.mem_cons.mp hp with rfl | hm
        · have h1 := not_mem_blank s4 ',' hs4 (by decide)
          have h2 := (hfall f (List.mem_cons_self _ _)).2.1
          simp [h1, h2]
        · exact (hfall piece (List.mem_cons_of_mem _ hm)).2.1
      · intro piece hp
        rcases List.mem_cons.mp (List.mem_of_mem_getLast? hp) with rfl | hm
        · simp [(hfall f (List.mem_cons_self _ _)).1]
        · exact (hfall piece (List.mem_cons_of_mem _ hm)).1
  generalize htuples : sep.intercalate
    (rows.map (fun r => '(' :: (",".data.intercalate r ++ [')']))) = tuples
  have hnl : newline ∉ lead ++ tuples := by
    have h2 : newline ∉ tuples := by
      rw [← htuples]
      apply not_mem_intercalate newline sep _ hsep.2
      intro piece hp
      obtain ⟨r, hr, rfl⟩ := List.mem_map.mp hp
      have h3 : newline ∉ ",".data.intercalate r :=
        not_mem_intercalate newline _ r (by decide) (fun v hv => ((hrows r hr).2 v hv).2.2.2)
      have h4 : newline ≠ '(' := by decide
      have h5 : newline ≠ ')' := by decide
      simp [h3, h4, h5]
    simp [hlead.2, h2]
  have hgroups : (Regex.regex_matches valuesRegex (lead ++ tuples)).map
      (fun m => Regex.str m.2 1) = rows.map (fun r => ",".data.intercalate r) := by
    have h := matches_valuesLine lead sep (rows.map (fun r => ",".data.intercalate r))
      (not_mem_blank lead '(' hlead.1 (by decide)) hsep.1
      (by
        intro t ht
        obtain ⟨r, hr, rfl⟩ := List.mem_map.mp ht
        obtain ⟨hlen, hvals⟩ := hrows r hr
        refine ⟨?_, not_mem_intercalate ')' _ r (by decide) (fun v hv => (hvals v hv).2.2.1)⟩
        cases r with
        | nil =>
          rw [List.length_nil] at hlen
          exact absurd (List.length_eq_zero.mp hlen.symm) hfne
        | cons v vs =>
          intro hnil
          have hv := (hvals v (List.mem_cons_self _ _)).1
          cases vs with
          | nil => rw [intercalate_singleton] at hnil; exact hv hnil
          | cons w ws =>
            rw [intercalate_cons_cons] at hnil
            simp at hnil)
    rw [← htuples]
    simpa [List.map_map, Function.comp_def] using h
  have hloop := groupLoop_written fields rows
    (fun r hr => ⟨by rw [hflen]; exact (hrows r hr).1,
      fun v hv => ⟨((hrows r hr).2 v hv).1, ((hrows r hr).2 v hv).2.1⟩⟩)
  have hcut : cut ')' (s4 ++ (fieldsInner ++ ')' :: (s5 ++ (kValues ++ (lead ++ tuples)))))
      = (s4 ++ fieldsInner, some (s5 ++ (kValues ++ (lead ++ tuples)))) := by
    rw [← List.append_assoc]
    exact cut_found ')' _ _ hfin
  have hextract5 := extract_token s5 kValues (lead ++ tuples) (s4 ++ fieldsInner) hs5 tValues
    (head_blank_append lead tuples hlead.1)
  have hleadne : (lead ++ tuples).isEmpty = false := by
    cases hl : lead with
    | nil => exact absurd hl hlead.1.1
    | cons d ds => rfl
  rw [hleadne] at hextract5
  have hparen : ∀ tail old : List Char,
      IStream.extract { rest := s3 ++ '(' :: (s4 ++ tail), eofbit := false, failbit := false } old
        = ({ rest := s4 ++ tail, eofbit := false, failbit := false }, ['(']) := by
    intro tail old
    have h := extract_next s3 ['('] s4 tail old hs3 tParen hs4
    simpa using h
  unfold parse
  simp only [extract_first kInsert s1 _ [] tInsert hs1, hInsert]
  rw [if_neg (by decide), if_neg (by decide), if_pos (by decide)]
  unfold parseInsert
  simp only [extract_next s1 kInto s2 _ _ hs1 tInto hs2, hInto,
    extract_next s2 name s3 _ _ hs2 hname hs3, hparen]
  simp only [IStream.getline, Bool.or_self, Bool.false_eq_true, if_false, hcut, hextract5,
    hValues, cut_absent newline _ hnl, hlines, hgroups, hloop, ne_eq, not_true_eq_false]

/-- C21 on the INSERT statement of Scenario 1 written with a blank after the
opening parenthesis, and with a second row. -/
theorem parse_insert_witness :
    parse "INSERT INTO USERS ( ID,NAME) VALUES (1,'Ann'), (2,'Bob')"
      = .ok { emptyQuery with
          operation := "INSERT", table := "USERS", fields := ["ID", "NAME"],
          multiValues := [[("ID", "1"), ("NAME", "Ann")], [("ID", "2"), ("NAME", "Bob")]] } :=
  (parse_insert "INSERT".data "INTO".data "VALUES".data "USERS".data
    " ".data " ".data " ".data " ".data " ".data " ".data ", ".data
    ["ID".data, "NAME".data] [["1".data, "'Ann'".data], ["2".data, "'Bob'".data]]
    (by decide) (by decide) (by decide) (by decide) (by decide) (by decide) (by decide)
    (by decide) (by decide) (by decide) (by decide) (by decide) (by decide)).1

end SQLParser

/-! ## Lemmas on characters -/

theorem space_cases (c : Char) (h : isSpace c = true) :
    c = Char.ofNat 32 ∨ c = Char.ofNat 9 ∨ c = Char.ofNat 10 ∨ c = Char.ofNat 11 ∨
    c = Char.ofNat 12 ∨ c = Char.ofNat 13 := by
  have hc := Char.ofNat_toNat c
  simp only [isSpace, Bool.or_eq_true, beq_iff_eq, Bool.and_eq_true, decide_eq_true_eq] at h
  rcases h with h | ⟨h1, h2⟩
  · left; rw [← hc, h]
  · right
    interval_cases hn : c.toNat <;> simp [← hc, hn]

theorem upper_bounds (c : Char) : c.isUpper = true ↔ 65 ≤ c.toNat ∧ c.toNat ≤ 90 := by
  simp only [Char.isUpper, Bool.and_eq_true, decide_eq_true_eq, ge_iff_le, UInt32.le_def,
    BitVec.le_def]
  exact Iff.rfl

theorem lower_bounds (c : Char) : c.isLower = true ↔ 97 ≤ c.toNat ∧ c.toNat ≤ 122 := by
  simp only [Char.isLower, Bool.and_eq_true, decide_eq_true_eq, ge_iff_le, UInt32.le_def,
    BitVec.le_def]
  exact Iff.rfl

theorem digit_bounds (c : Char) : c.isDigit = true ↔ 48 ≤ c.toNat ∧ c.toNat ≤ 57 := by
  simp only [Char.isDigit, Bool.and_eq_true, decide_eq_true_eq, ge_iff_le, UInt32.le_def,
    BitVec.le_def]
  exact Iff.rfl

theorem toUpper_letter (d u : Char) (hu : u.isUpper = true) (h : d.toUpper = u) :
    d.isAlpha = true ∧ d.toLower = u.toLower := by
  have hd := Char.ofNat_toNat d
  by_cases hr : 97 ≤ d.toNat ∧ d.toNat ≤ 122
  · obtain ⟨h1, h2⟩ := hr
    interval_cases hn : d.toNat <;> (subst hd; subst h; decide)
  · have hdu : d.toUpper = d := by
      simp only [Char.toUpper]
      rw [if_neg hr]
    rw [hdu] at h
    subst h
    exact ⟨by simp [Char.isAlpha, hu], rfl⟩

theorem toLower_letter (d l : Char) (hl : l.isLower = true) (h : d.toLower = l) :
    d.isAlpha = true := by
  by_cases hr : 65 ≤ d.toNat ∧ d.toNat ≤ 90
  · simp [Char.isAlpha, (upper_bounds d).mpr hr]
  · have hdl : d.toLower = d := by
      simp only [Char.toLower]
      rw [if_neg hr]
    rw [hdl] at h
    subst h
    simp [Char.isAlpha, hl]

theorem alpha_facts (d : Char) (h : d.isAlpha = true) :
    isWord d = true ∧ isSpace d = false ∧ SQLParser.fieldChar d = true ∧
    SQLParser.operatorChar d = false ∧ d ≠ '\'' ∧ d ≠ '"' := by
  have hb : (65 ≤ d.toNat ∧ d.toNat ≤ 90) ∨ (97 ≤ d.toNat ∧ d.toNat ≤ 122) := by
    simp only [Char.isAlpha, Bool.or_eq_true, upper_bounds, lower_bounds] at h
    exact h
  have hw : isWord d = true := by simp [isWord, Char.isAlphanum, h]
  have hne : ∀ c : Char, ¬ ((65 ≤ c.toNat ∧ c.toNat ≤ 90) ∨ (97 ≤ c.toNat ∧ c.toNat ≤ 122)) →
      d ≠ c := by
    intro c hc hdc
    subst hdc
    exact hc hb
  refine ⟨hw, ?_, by simp [SQLParser.fieldChar, hw], ?_, hne _ (by decide), hne _ (by decide)⟩
  · simp only [isSpace, Bool.or_eq_false_iff, beq_eq_false_iff_ne, ne_eq,
      Bool.and_eq_false_iff, decide_eq_false_iff_not]
    omega
  · simp only [SQLParser.operatorChar, Bool.or_eq_false_iff, decide_eq_false_iff_not]
    exact ⟨⟨⟨hne _ (by decide), hne _ (by decide)⟩, hne _ (by decide)⟩, hne _ (by decide)⟩

theorem fieldChar_facts (c : Char) (h : SQLParser.fieldChar c = true) :
    isSpace c = false ∧ SQLParser.operatorChar c = false := by
  have hb : (48 ≤ c.toNat ∧ c.toNat ≤ 57) ∨ (65 ≤ c.toNat ∧ c.toNat ≤ 90) ∨
      (97 ≤ c.toNat ∧ c.toNat ≤ 122) ∨ c.toNat = 95 ∨ c.toNat = 46 := by
    simp only [SQLParser.fieldChar, isWord, Char.isAlphanum, Char.isAlpha, Bool.or_eq_true,
      upper_bounds, lower_bounds, digit_bounds, decide_eq_true_eq] at h
    rcases h with (((h | h) | h) | h) | h
    · right; left; exact h
    · right; right; left; exact h
    · left; exact h
    · right; right; right; left; rw [h]; rfl
    · right; right; right; right; rw [h]; rfl
  have hne : ∀ d : Char, ¬ ((48 ≤ d.toNat ∧ d.toNat ≤ 57) ∨ (65 ≤ d.toNat ∧ d.toNat ≤ 90) ∨
      (97 ≤ d.toNat ∧ d.toNat ≤ 122) ∨ d.toNat = 95 ∨ d.toNat = 46) → c ≠ d := by
    intro d hd hcd
    subst hcd
    exact hd hb
  refine ⟨?_, ?_⟩
  · simp only [isSpace, Bool.or_eq_false_iff, beq_eq_false_iff_ne, ne_eq,
      Bool.and_eq_false_iff, decide_eq_false_iff_not]
    omega
  · simp only [SQLParser.operatorChar, Bool.or_eq_false_iff, decide_eq_false_iff_not]
    exact ⟨⟨⟨hne _ (by decide), hne _ (by decide)⟩, hne _ (by decide)⟩, hne _ (by decide)⟩

theorem space_facts (c : Char) (h : isSpace c = true) :
    isWord c = false ∧ SQLParser.fieldChar c = false ∧ SQLParser.operatorChar c = false ∧
    c.toLower = c ∧ c.toUpper = c ∧ c.isLower = false ∧ c ≠ '\'' ∧ c ≠ '"' := by
  rcases space_cases c h with h | h | h | h | h | h <;> (subst h; decide)

theorem operatorChar_facts (c : Char) (h : SQLParser.operatorChar c = true) :
    isSpace c = false ∧ isWord c = false ∧ c.toUpper = c := by
  simp only [SQLParser.operatorChar, Bool.or_eq_true, decide_eq_true_eq] at h
  rcases h with ((h | h) | h) | h <;> (subst h; decide)

/-! ## Lemmas on the patterns of `parse_conditions` -/

/-- A greedy repetition fails when the rest of the pattern fails at each
place where the repetition may stop. -/
theorem starRun_fail {α : Type} (p : Char → Bool) (run tail : List Char)
    (prev : Option Char) (k : Option Char → List Char → Option α)
    (htail : ∀ c, tail.head? = some c → p c = false)
    (hk : ∀ a b prev1, a ++ b = run → k prev1 (b ++ tail) = none) :
    starRun p prev (run ++ tail) k = none := by
  induction run generalizing prev with
  | nil =>
    have h := hk [] [] prev rfl
    cases tail with
    | nil => simpa [starRun] using h
    | cons c cs =>
      simp only [List.nil_append] at h ⊢
      simp [starRun, htail c rfl, h]
  | cons c cs ih =>
    have h1 := ih (some c) (fun a b prev1 hab => hk (c :: a) b prev1 (by simp [hab]))
    have h2 := hk [] (c :: cs) prev rfl
    simp only [List.cons_append] at h2 ⊢
    simp only [starRun, List.append_eq, h1, h2]
    split <;> rfl

namespace SQLParser

theorem run_plus {α : Type} (p : Char → Bool) (run tail : List Char) (prev : Option Char)
    (caps : Captures) (k : Option Char → List Char → Captures → Option α)
    (hne : run ≠ []) (hrun : ∀ c ∈ run, p c = true)
    (htail : ∀ c, tail.head? = some c → p c = false)
    (hk : (k run.getLast? tail caps).isSome = true) :
    Regex.run (Regex.plus p) prev (run ++ tail) caps k = k run.getLast? tail caps := by
  cases run with
  | nil => exact absurd rfl hne
  | cons c cs =>
    have hc := hrun c (List.mem_cons_self _ _)
    have hlast : (c :: cs).getLast? = (cs.getLast?).or (some c) := by
      have := getLast?_cons_or c cs none
      simpa using this
    rw [hlast] at hk ⊢
    simp only [Regex.plus, Regex.run, List.cons_append, hc, if_true]
    exact starRun_greedy p cs tail (some c) _
      (fun d hd => hrun d (List.mem_cons_of_mem _ hd)) htail hk

theorem run_star {α : Type} (p : Char → Bool) (run tail : List Char) (prev : Option Char)
    (caps : Captures) (k : Option Char → List Char → Captures → Option α)
    (hrun : ∀ c ∈ run, p c = true) (htail : ∀ c, tail.head? = some c → p c = false)
    (hk : (k ((run.getLast?).or prev) tail caps).isSome = true) :
    Regex.run (Regex.star p) prev (run ++ tail) caps k
      = k ((run.getLast?).or prev) tail caps := by
  simp only [Regex.run]
  exact starRun_greedy p run tail prev _ hrun htail hk

/-- The letters of a keyword, matched in any letter case. -/
theorem run_word {α : Type} (keyword text rest : List Char) (tail : Regex)
    (prev : Option Char) (caps : Captures)
    (k : Option Char → List Char → Captures → Option α)
    (h : text.map Char.toLower = keyword.map Char.toLower) :
    Regex.run (Regex.word keyword tail) prev (text ++ rest) caps k
      = Regex.run tail ((text.getLast?).or prev) rest caps k := by
  induction keyword generalizing text prev with
  | nil =>
    have : text = [] := by simpa using h
    subst this
    rfl
  | cons c cs ih =>
    cases text with
    | nil => simp at h
    | cons d ds =>
      simp only [List.map_cons, List.cons.injEq] at h
      rw [getLast?_cons_or]
      simp only [Regex.word, Regex.run, List.cons_append, h.1, decide_True, if_true]
      exact ih ds (some d) h.2

theorem map_toLower_of_to_upper (text keyword : List Char)
    (hk : ∀ c ∈ keyword, c.isUpper = true) (h : to_upper text = keyword) :
    text.map Char.toLower = keyword.map Char.toLower ∧ ∀ d ∈ text, d.isAlpha = true := by
  induction keyword generalizing text with
  | nil =>
    have : text = [] := by simpa [to_upper] using h
    subst this
    simp
  | cons c cs ih =>
    cases text with
    | nil => simp [to_upper] at h
    | cons d ds =>
      simp only [to_upper, List.map_cons, List.cons.injEq] at h
      have h1 := toUpper_letter d c (hk c (List.mem_cons_self _ _)) h.1
      have h2 := ih ds (fun x hx => hk x (List.mem_cons_of_mem _ hx)) h.2
      refine ⟨by simp [h1.2, h2.1], ?_⟩
      intro x hx
      rcases List.mem_cons.mp hx with rfl | hm
      · exact h1.1
      · exact h2.2 x hm

end SQLParser

namespace SQLParser

theorem run_seq {α : Type} (a b : Regex) (prev : Option Char) (text : List Char)
    (caps : Captures) (k : Option Char → List Char → Captures → Option α) :
    Regex.run (Regex.seq a b) prev text caps k
      = Regex.run a prev text caps (fun prev1 text1 caps1 => Regex.run b prev1 text1 caps1 k) :=
  rfl

theorem run_group {α : Type} (index : Nat) (a : Regex) (prev : Option Char) (text : List Char)
    (caps : Captures) (k : Option Char → List Char → Captures → Option α) :
    Regex.run (Regex.group index a) prev text caps k
      = Regex.run a prev text caps (fun prev1 text1 caps1 =>
          k prev1 text1 ((index, text.take (text.length - text1.length)) :: caps1)) :=
  rfl

theorem run_alt_some {α : Type} (a b : Regex) (prev : Option Char) (text : List Char)
    (caps : Captures) (k : Option Char → List Char → Captures → Option α) (r : α)
    (h : Regex.run a prev text caps k = some r) :
    Regex.run (Regex.alt a b) prev text caps k = some r := by
  simp only [Regex.run, h]

theorem run_alt_none {α : Type} (a b : Regex) (prev : Option Char) (text : List Char)
    (caps : Captures) (k : Option Char → List Char → Captures → Option α)
    (h : Regex.run a prev text caps k = none) :
    Regex.run (Regex.alt a b) prev text caps k = Regex.run b prev text caps k := by
  simp only [Regex.run, h]

theorem run_boundary {α : Type} (prev : Option Char) (text : List Char)
    (caps : Captures) (k : Option Char → List Char → Captures → Option α)
    (h : (prev.any isWord != text.head?.any isWord) = true) :
    Regex.run Regex.wordBoundary prev text caps k = k prev text caps := by
  simp only [Regex.run, h, if_true]

theorem run_boundary_seq_none {α : Type} (a : Regex) (prev : Option Char) (text : List Char)
    (caps : Captures) (k : Option Char → List Char → Captures → Option α)
    (h : Regex.run a prev text caps k = none) :
    Regex.run (Regex.seq Regex.wordBoundary a) prev text caps k = none := by
  simp only [Regex.run, h]
  split <;> rfl

theorem run_char_fail {α : Type} (p : Char → Bool) (prev : Option Char) (text : List Char)
    (caps : Captures) (k : Option Char → List Char → Captures → Option α)
    (h : ∀ c, text.head? = some c → p c = false) :
    Regex.run (Regex.char p) prev text caps k = none := by
  cases text with
  | nil => rfl
  | cons c cs => simp [Regex.run, h c rfl]

theorem run_plus_fail {α : Type} (p : Char → Bool) (prev : Option Char) (text : List Char)
    (caps : Captures) (k : Option Char → List Char → Captures → Option α)
    (h : ∀ c, text.head? = some c → p c = false) :
    Regex.run (Regex.plus p) prev text caps k = none := by
  rw [Regex.plus, run_seq]
  exact run_char_fail p prev text caps _ h

theorem run_word_fail {α : Type} (keyword text : List Char) (prev : Option Char)
    (caps : Captures) (k : Option Char → List Char → Captures → Option α)
    (hne : keyword ≠ []) (hk : ∀ c ∈ keyword, c.toLower.isLower = true)
    (h : keywordAt keyword text = false) :
    Regex.run (Regex.word keyword .wordBoundary) prev text caps k = none := by
  induction keyword generalizing text prev with
  | nil => exact absurd rfl hne
  | cons c cs ih =>
    cases text with
    | nil => simp [Regex.word, Regex.run]
    | cons d ds =>
      by_cases hd : d.toLower = c.toLower
      · simp only [keywordAt, hd, decide_True, Bool.true_and] at h
        simp only [Regex.word, Regex.run, hd, decide_True, if_true]
        cases cs with
        | nil =>
          have hw : isWord d = true :=
            (alpha_facts d (toLower_letter d _ (hk c (List.mem_cons_self _ _)) hd)).1
          simp only [keywordAt, Bool.not_eq_false'] at h
          simp [Regex.word, Regex.run, hw, h]
        | cons c2 cs2 =>
          exact ih ds (some d) (by simp) (fun x hx => hk x (List.mem_cons_of_mem _ hx)) h
      · simp [Regex.word, Regex.run, hd]

theorem keywordAt_head (keyword text : List Char) (c d : Char) (h : d.toLower ≠ c.toLower) :
    keywordAt (c :: keyword) (d :: text) = false := by
  simp [keywordAt, h]

/-- A keyword between a character that is not a word character and white
space is matched by `\bKEYWORD\b`. -/
theorem run_keyword {α : Type} (keyword word tail : List Char) (prev : Option Char)
    (caps : Captures) (k : Option Char → List Char → Captures → Option α)
    (hupper : ∀ c ∈ keyword, c.isUpper = true) (hne : keyword ≠ [])
    (hword : to_upper word = keyword) (hprev : prev.any isWord = false)
    (htail : ∀ c, tail.head? = some c → isWord c = false) :
    Regex.run (Regex.seq .wordBoundary (Regex.word keyword .wordBoundary)) prev
      (word ++ tail) caps k = k word.getLast? tail caps := by
  obtain ⟨hmap, halpha⟩ := map_toLower_of_to_upper word keyword hupper hword
  cases word with
  | nil =>
    have : keyword = [] := by simpa [to_upper] using hword.symm
    exact absurd this hne
  | cons d ds =>
    have hd := alpha_facts d (halpha d (List.mem_cons_self _ _))
    have hne2 : d :: ds ≠ [] := by simp
    have he : (d :: ds).getLast? = some ((d :: ds).getLast hne2) :=
      List.getLast?_eq_getLast _ hne2
    have hea := (alpha_facts _ (halpha _ (List.getLast_mem hne2))).1
    have hb1 : (prev.any isWord != ((d :: ds) ++ tail).head?.any isWord) = true := by
      simp [hprev, hd.1]
    have hb2 : ((some ((d :: ds).getLast hne2)).any isWord != tail.head?.any isWord)
        = true := by
      cases tail with
      | nil => simp [hea]
      | cons t ts => simp [hea, htail t rfl]
    rw [run_seq, run_boundary _ _ _ _ hb1,
      run_word keyword (d :: ds) tail _ prev caps k hmap, he, Option.or_some,
      run_boundary _ _ _ _ hb2]

theorem run_operator {α : Type} (op tail : List Char) (prev : Option Char) (caps : Captures)
    (k : Option Char → List Char → Captures → Option α)
    (hop : (op ≠ [] ∧ ∀ ch ∈ op, operatorChar ch = true) ∨
      to_upper op = "LIKE".data ∨ to_upper op = "IN".data)
    (hprev : prev.any isWord = false)
    (htail : ∃ c cs, tail = c :: cs ∧ isSpace c = true)
    (hk : (k op.getLast? tail caps).isSome = true) :
    Regex.run operatorPattern prev (op ++ tail) caps k = k op.getLast? tail caps := by
  obtain ⟨sp, rest, rfl, hsp⟩ := htail
  have hspf := space_facts sp hsp
  obtain ⟨r, hr⟩ := Option.isSome_iff_exists.mp hk
  have htw : ∀ c, (sp :: rest).head? = some c → isWord c = false := by
    intro c hc; simp at hc; subst hc; exact hspf.1
  have hplus : ∀ keyword : List Char, (∀ c ∈ keyword, c.isUpper = true) → keyword ≠ [] →
      to_upper op = keyword →
      Regex.run (Regex.plus operatorChar) prev (op ++ sp :: rest) caps k = none := by
    intro keyword hupper hne hkw
    obtain ⟨_, halpha⟩ := map_toLower_of_to_upper op keyword hupper hkw
    apply run_plus_fail
    intro c hc
    cases op with
    | nil =>
      have : keyword = [] := by simpa [to_upper] using hkw.symm
      exact absurd this hne
    | cons d ds =>
      simp at hc
      subst hc
      exact (alpha_facts _ (halpha _ (List.mem_cons_self _ _))).2.2.2.1
  rw [hr]
  unfold operatorPattern
  rcases hop with ⟨hne, hall⟩ | hlike | hin
  · apply run_alt_some
    rw [run_plus operatorChar op (sp :: rest) prev caps k hne hall
      (by intro c hc; simp at hc; subst hc; exact hspf.2.2.1) hk, hr]
  · rw [run_alt_none _ _ _ _ _ _ (hplus "LIKE".data (by decide) (by decide) hlike)]
    apply run_alt_some
    rw [run_keyword "LIKE".data op (sp :: rest) prev caps k (by decide) (by decide) hlike
      hprev htw, hr]
  · rw [run_alt_none _ _ _ _ _ _ (hplus "IN".data (by decide) (by decide) hin)]
    have hfail : Regex.run (Regex.word "LIKE".data .wordBoundary) prev
        (op ++ sp :: rest) caps k = none := by
      apply run_word_fail _ _ _ _ _ (by decide) (by decide)
      obtain ⟨hmap, _⟩ := map_toLower_of_to_upper op "IN".data (by decide) hin
      cases op with
      | nil => simp at hmap
      | cons d ds =>
        have hd : d.toLower = 'i' := by
          have h1 : (d :: ds).map Char.toLower = ['i', 'n'] := hmap
          simp only [List.map_cons, List.cons.injEq] at h1
          exact h1.1
        exact keywordAt_head _ _ 'L' d (by rw [hd]; decide)
    rw [run_alt_none _ _ _ _ _ _ (run_boundary_seq_none _ _ _ _ _ hfail)]
    rw [run_keyword "IN".data op (sp :: rest) prev caps k (by decide) (by decide) hin
      hprev htw, hr]

end SQLParser

namespace SQLParser

theorem run_char {α : Type} (p : Char → Bool) (prev : Option Char) (c : Char)
    (text : List Char) (caps : Captures)
    (k : Option Char → List Char → Captures → Option α) (h : p c = true) :
    Regex.run (Regex.char p) prev (c :: text) caps k = k (some c) text caps := by
  simp [Regex.run, h]

theorem literal_text_getLast (lit : LiteralText) (hwf : lit.WellFormed) :
    ∃ e, lit.text.getLast? = some e ∧ isSpace e = false := by
  cases lit with
  | quoted q body =>
    refine ⟨q, ?_, ?_⟩
    · simp only [LiteralText.text]
      rw [← List.cons_append, List.getLast?_append]
      rfl
    · rcases hwf.1 with h | h <;> (subst h; decide)
  | bare token =>
    obtain ⟨⟨hne, hns⟩, _⟩ := hwf
    exact ⟨token.getLast hne, List.getLast?_eq_getLast _ hne, hns _ (List.getLast_mem hne)⟩

theorem literal_text_head (lit : LiteralText) (hwf : lit.WellFormed) :
    ∃ c cs, lit.text = c :: cs ∧ isSpace c = false := by
  cases lit with
  | quoted q body =>
    refine ⟨q, body ++ [q], rfl, ?_⟩
    rcases hwf.1 with h | h <;> (subst h; decide)
  | bare token =>
    obtain ⟨⟨hne, hns⟩, _⟩ := hwf
    cases token with
    | nil => exact absurd rfl hne
    | cons c cs => exact ⟨c, cs, rfl, hns c (List.mem_cons_self _ _)⟩

theorem run_quoted {α : Type} (q : Char) (body tail : List Char) (prev : Option Char)
    (caps : Captures) (k : Option Char → List Char → Captures → Option α)
    (hq : q ∉ body) (hk : (k (some q) tail caps).isSome = true) :
    Regex.run (.seq (.char (fun c => c = q))
        (.seq (.star (fun c => c != q)) (.char (fun c => c = q))))
      prev (q :: (body ++ q :: tail)) caps k = k (some q) tail caps := by
  have hchar : ∀ prev1, Regex.run (Regex.char (fun c => decide (c = q))) prev1 (q :: tail) caps k
      = k (some q) tail caps := fun prev1 => run_char _ prev1 q tail caps k (by simp)
  rw [run_seq, run_char _ _ _ _ _ _ (by simp), run_seq,
    run_star (fun c => c != q) body (q :: tail) (some q) caps _
      (fun c hc => by
        have : c ≠ q := fun h => hq (h ▸ hc)
        simpa using this)
      (by intro c hc; simp at hc; subst hc; simp)
      (by rw [hchar]; exact hk),
    hchar]

theorem run_literal {α : Type} (lit : LiteralText) (tail : List Char) (prev : Option Char)
    (caps : Captures) (k : Option Char → List Char → Captures → Option α)
    (hwf : lit.WellFormed) (htail : ∀ c, tail.head? = some c → isSpace c = true)
    (hk : (k lit.text.getLast? tail caps).isSome = true) :
    Regex.run literalPattern prev (lit.text ++ tail) caps k = k lit.text.getLast? tail caps := by
  obtain ⟨r, hr⟩ := Option.isSome_iff_exists.mp hk
  rw [hr]
  unfold literalPattern
  cases lit with
  | quoted q body =>
    have hlast : (LiteralText.quoted q body).text.getLast? = some q := by
      simp only [LiteralText.text]
      rw [← List.cons_append, List.getLast?_append]
      rfl
    rw [hlast] at hr
    have htext : (LiteralText.quoted q body).text ++ tail = q :: (body ++ q :: tail) := by
      simp [LiteralText.text]
    rw [htext]
    rcases hwf.1 with h | h
    · subst h
      apply run_alt_some
      rw [run_quoted '\'' body tail prev caps k hwf.2 (by rw [hr]; rfl), hr]
    · subst h
      rw [run_alt_none _ _ _ _ _ _ (by
        rw [run_seq]
        exact run_char_fail _ _ _ _ _ (by intro c hc; simp at hc; subst hc; decide))]
      apply run_alt_some
      rw [run_quoted '"' body tail prev caps k hwf.2 (by rw [hr]; rfl), hr]
  | bare token =>
    obtain ⟨⟨hne, hns⟩, h1, h2⟩ := hwf
    simp only [LiteralText.text] at hr ⊢
    have hfail : ∀ q : Char, token.head? ≠ some q →
        Regex.run (.seq (.char (fun c => c = q))
          (.seq (.star (fun c => c != q)) (.char (fun c => c = q))))
          prev (token ++ tail) caps k = none := by
      intro q hq
      rw [run_seq]
      apply run_char_fail
      intro c hc
      cases token with
      | nil => exact absurd rfl hne
      | cons d ds =>
        simp only [List.cons_append, List.head?_cons, Option.some.injEq] at hc
        rw [← hc]
        have : d ≠ q := fun h => hq (by simp [h])
        simpa using this
    rw [run_alt_none _ _ _ _ _ _ (hfail '\'' h1), run_alt_none _ _ _ _ _ _ (hfail '"' h2),
      run_plus (fun c => !isSpace c) token tail prev caps k hne
        (fun c hc => by simp [hns c hc])
        (fun c hc => by simp [htail c hc])
        (by rw [hr]; rfl), hr]

/-- The pattern of one condition, on a written condition followed by white
space or by nothing. -/
theorem run_condition {α : Type} (c : ConditionText) (tail : List Char) (prev : Option Char)
    (caps : Captures) (k : Option Char → List Char → Captures → Option α)
    (hwf : c.WellFormed) (htail : ∀ d, tail.head? = some d → isSpace d = true)
    (hk : (k c.literal.text.getLast? tail caps).isSome = true) :
    Regex.run (.seq (.plus fieldChar)
        (.seq (.star isSpace)
          (.seq operatorPattern (.seq (.star isSpace) literalPattern))))
      prev (c.text ++ tail) caps k = k c.literal.text.getLast? tail caps := by
  obtain ⟨hfne, hfield, hg1, hg2, hop, hlit⟩ := hwf
  obtain ⟨l0, ls, hl0, hl0s⟩ := literal_text_head c.literal hlit
  have htext : c.text ++ tail
      = c.field ++ (c.gap1 ++ (c.op ++ (c.gap2 ++ (c.literal.text ++ tail)))) := by
    simp [ConditionText.text]
  have h4 := run_literal c.literal tail c.gap2.getLast? caps k hlit htail hk
  have hg2last : ∃ e, c.gap2.getLast? = some e ∧ isSpace e = true :=
    ⟨c.gap2.getLast hg2.1, List.getLast?_eq_getLast _ hg2.1,
      hg2.2 _ (List.getLast_mem hg2.1)⟩
  have hg1last : ∃ e, c.gap1.getLast? = some e ∧ isSpace e = true :=
    ⟨c.gap1.getLast hg1.1, List.getLast?_eq_getLast _ hg1.1,
      hg1.2 _ (List.getLast_mem hg1.1)⟩
  obtain ⟨e2, he2, _⟩ := hg2last
  obtain ⟨e1, he1, he1s⟩ := hg1last
  have h3 : ∀ prev1, Regex.run (.seq (.star isSpace) literalPattern) prev1
      (c.gap2 ++ (c.literal.text ++ tail)) caps k = k c.literal.text.getLast? tail caps := by
    intro prev1
    have hor : (c.gap2.getLast?).or prev1 = c.gap2.getLast? := by rw [he2]; rfl
    rw [run_seq, run_star isSpace c.gap2 _ prev1 caps _ hg2.2
      (by intro d hd; rw [hl0] at hd; simp at hd; subst hd; exact hl0s)
      (by rw [hor, h4]; exact hk), hor, h4]
  have hopfacts : ∃ o os, c.op = o :: os ∧ isSpace o = false := by
    rcases hop with ⟨hne, hall⟩ | hkw | hkw
    · cases hc : c.op with
      | nil => exact absurd hc hne
      | cons o os =>
        exact ⟨o, os, rfl, (operatorChar_facts o (hall o (by rw [hc]; simp))).1⟩
    · obtain ⟨_, halpha⟩ := map_toLower_of_to_upper c.op _ (by decide) hkw
      cases hc : c.op with
      | nil => rw [hc] at hkw; simp [to_upper] at hkw
      | cons o os =>
        exact ⟨o, os, rfl, (alpha_facts o (halpha o (by rw [hc]; simp))).2.1⟩
    · obtain ⟨_, halpha⟩ := map_toLower_of_to_upper c.op _ (by decide) hkw
      cases hc : c.op with
      | nil => rw [hc] at hkw; simp [to_upper] at hkw
      | cons o os =>
        exact ⟨o, os, rfl, (alpha_facts o (halpha o (by rw [hc]; simp))).2.1⟩
  obtain ⟨o, os, ho, hos⟩ := hopfacts
  have hg2head : ∃ d ds, c.gap2 ++ (c.literal.text ++ tail) = d :: ds ∧ isSpace d = true := by
    cases hc : c.gap2 with
    | nil => exact absurd hc hg2.1
    | cons d ds => exact ⟨d, ds ++ (c.literal.text ++ tail), rfl, hg2.2 d (by rw [hc]; simp)⟩
  have h2 : Regex.run (.seq operatorPattern (.seq (.star isSpace) literalPattern))
      (some e1) (c.op ++ (c.gap2 ++ (c.literal.text ++ tail))) caps k
        = k c.literal.text.getLast? tail caps := by
    rw [run_seq, run_operator c.op _ (some e1) caps _ hop
      (by simp [(space_facts e1 he1s).1]) hg2head
      (by rw [h3]; exact hk), h3]
  have h1 : ∀ prev1, Regex.run
      (.seq (.star isSpace) (.seq operatorPattern (.seq (.star isSpace) literalPattern)))
      prev1 (c.gap1 ++ (c.op ++ (c.gap2 ++ (c.literal.text ++ tail)))) caps k
        = k c.literal.text.getLast? tail caps := by
    intro prev1
    have hor : (c.gap1.getLast?).or prev1 = some e1 := by rw [he1]; rfl
    rw [run_seq, run_star isSpace c.gap1 _ prev1 caps _ hg1.2
      (by intro d hd; rw [ho] at hd; simp at hd; subst hd; exact hos)
      (by rw [hor, h2]; exact hk), hor, h2]
  rw [htext, run_seq, run_plus fieldChar c.field _ prev caps _ hfne hfield
    (by
      intro d hd
      cases hc : c.gap1 with
      | nil => exact absurd hc hg1.1
      | cons g gs =>
        rw [hc] at hd
        simp at hd
        subst hd
        exact (space_facts _ (hg1.2 _ (by rw [hc]; simp))).2.1)
    (by rw [h1]; exact hk), h1]

end SQLParser

namespace SQLParser

theorem condition_text_shape (c : ConditionText) (tail : List Char) :
    c.text ++ tail
      = c.field ++ (c.gap1 ++ (c.op ++ (c.gap2 ++ (c.literal.text ++ tail)))) := by
  simp [ConditionText.text]

theorem blank_getLast (s : List Char) (hs : Blank s) :
    ∃ e, s.getLast? = some e ∧ isSpace e = true :=
  ⟨s.getLast hs.1, List.getLast?_eq_getLast _ hs.1, hs.2 _ (List.getLast_mem hs.1)⟩

theorem blank_head (s tail : List Char) (hs : Blank s) :
    ∃ d ds, s ++ tail = d :: ds ∧ isSpace d = true := by
  cases hc : s with
  | nil => exact absurd hc hs.1
  | cons d ds => exact ⟨d, ds ++ tail, rfl, hs.2 d (by rw [hc]; simp)⟩

theorem operator_head (op : List Char)
    (hop : (op ≠ [] ∧ ∀ ch ∈ op, operatorChar ch = true) ∨
      to_upper op = "LIKE".data ∨ to_upper op = "IN".data) :
    op ≠ [] ∧ ∀ ch ∈ op, isSpace ch = false := by
  rcases hop with ⟨hne, hall⟩ | hkw | hkw
  · exact ⟨hne, fun ch hch => (operatorChar_facts ch (hall ch hch)).1⟩
  · obtain ⟨_, halpha⟩ := map_toLower_of_to_upper op _ (by decide) hkw
    refine ⟨?_, fun ch hch => (alpha_facts ch (halpha ch hch)).2.1⟩
    intro h; subst h; simp [to_upper] at hkw
  · obtain ⟨_, halpha⟩ := map_toLower_of_to_upper op _ (by decide) hkw
    refine ⟨?_, fun ch hch => (alpha_facts ch (halpha ch hch)).2.1⟩
    intro h; subst h; simp [to_upper] at hkw

/-- The pattern `conditionRegex` matches a written condition as a whole and
captures its field, its operator and its literal. -/
theorem regex_match_condition (c : ConditionText) (hwf : c.WellFormed) :
    Regex.regex_match conditionRegex c.text
      = some [(3, c.literal.text), (4, c.literal.text), (2, c.op), (1, c.field)] := by
  obtain ⟨hfne, hfield, hg1, hg2, hop, hlit⟩ := hwf
  obtain ⟨l0, ls, hl0, hl0s⟩ := literal_text_head c.literal hlit
  obtain ⟨e2, he2, _⟩ := blank_getLast c.gap2 hg2
  obtain ⟨e1, he1, he1s⟩ := blank_getLast c.gap1 hg1
  obtain ⟨hopne, hopns⟩ := operator_head c.op hop
  have htext := condition_text_shape c []
  rw [List.append_nil] at htext
  unfold Regex.regex_match conditionRegex
  rw [htext]
  -- the literal, groups 3 and 4
  have h4 : ∀ prev1 caps1, Regex.run (.group 3 (.group 4 literalPattern)) prev1
      (c.literal.text ++ []) caps1
      (fun _ text1 caps => if text1.isEmpty then some caps else none)
        = some ((3, c.literal.text) :: (4, c.literal.text) :: caps1) := by
    intro prev1 caps1
    rw [run_group, run_group, run_literal c.literal [] prev1 caps1 _ hlit (by simp) (by simp)]
    simp
  have h3 : ∀ prev1 caps1, Regex.run (.seq (.star isSpace) (.group 3 (.group 4 literalPattern)))
      prev1 (c.gap2 ++ (c.literal.text ++ [])) caps1
      (fun _ text1 caps => if text1.isEmpty then some caps else none)
        = some ((3, c.literal.text) :: (4, c.literal.text) :: caps1) := by
    intro prev1 caps1
    rw [run_seq, run_star isSpace c.gap2 _ prev1 caps1 _ hg2.2
      (by intro d hd; rw [hl0] at hd; simp at hd; subst hd; exact hl0s)
      (by rw [h4]; rfl), h4]
  have h2 : ∀ caps1, Regex.run
      (.seq (.group 2 operatorPattern)
        (.seq (.star isSpace) (.group 3 (.group 4 literalPattern))))
      (some e1) (c.op ++ (c.gap2 ++ (c.literal.text ++ []))) caps1
      (fun _ text1 caps => if text1.isEmpty then some caps else none)
        = some ((3, c.literal.text) :: (4, c.literal.text) :: (2, c.op) :: caps1) := by
    intro caps1
    rw [run_seq, run_group, run_operator c.op _ (some e1) caps1 _ hop
      (by simp [(space_facts e1 he1s).1]) (blank_head c.gap2 _ hg2)
      (by rw [h3]; rfl), h3, take_length_sub]
  have h1 : ∀ prev1 caps1, Regex.run
      (.seq (.star isSpace) (.seq (.group 2 operatorPattern)
        (.seq (.star isSpace) (.group 3 (.group 4 literalPattern)))))
      prev1 (c.gap1 ++ (c.op ++ (c.gap2 ++ (c.literal.text ++ [])))) caps1
      (fun _ text1 caps => if text1.isEmpty then some caps else none)
        = some ((3, c.literal.text) :: (4, c.literal.text) :: (2, c.op) :: caps1) := by
    intro prev1 caps1
    have hor : (c.gap1.getLast?).or prev1 = some e1 := by rw [he1]; rfl
    rw [run_seq, run_star isSpace c.gap1 _ prev1 caps1 _ hg1.2
      (by
        intro d hd
        cases hc : c.op with
        | nil => exact absurd hc hopne
        | cons o os =>
          rw [hc] at hd
          simp at hd
          subst hd
          exact hopns _ (by rw [hc]; simp))
      (by rw [hor, h2]; rfl), hor, h2]
  rw [run_seq, run_group, run_plus fieldChar c.field _ none [] _ hfne hfield
    (by
      intro d hd
      obtain ⟨g, gs, hg, hgs⟩ := blank_head c.gap1
        (c.op ++ (c.gap2 ++ (c.literal.text ++ []))) hg1
      rw [hg] at hd
      simp at hd
      subst hd
      exact (space_facts _ hgs).2.1)
    (by rw [h1]; rfl), h1, take_length_sub]

/-- The pattern `tokenRegex` at the start of a written condition takes the
condition. -/
theorem run_token_condition {α : Type} (c : ConditionText) (tail : List Char)
    (prev : Option Char) (k : Option Char → List Char → Captures → Option α)
    (hwf : c.WellFormed) (htail : ∀ d, tail.head? = some d → isSpace d = true)
    (hk : (k c.literal.text.getLast? tail [(1, c.text)]).isSome = true) :
    Regex.run tokenRegex prev (c.text ++ tail) [] k
      = k c.literal.text.getLast? tail [(1, c.text)] := by
  obtain ⟨r, hr⟩ := Option.isSome_iff_exists.mp hk
  rw [hr]
  unfold tokenRegex
  rw [run_group]
  apply run_alt_some
  rw [run_condition c tail prev [] _ hwf htail (by rw [take_length_sub]; exact hk),
    take_length_sub, hr]

end SQLParser

namespace SQLParser

theorem keywordAt_blank (c : Char) (cs text : List Char) (hc : c.toLower.isLower = true)
    (h : ∀ d, text.head? = some d → isSpace d = true) :
    keywordAt (c :: cs) text = false := by
  cases text with
  | nil => rfl
  | cons d ds =>
    have hd := space_facts d (h d rfl)
    apply keywordAt_head
    intro heq
    rw [hd.2.2.2.1] at heq
    rw [← heq, hd.2.2.2.2.2.1] at hc
    exact absurd hc (by decide)

theorem keywordAt_field (keyword field rest : List Char) (sp : Char)
    (hk : ∀ c ∈ keyword, c.toLower.isLower = true) (hsp : isSpace sp = true) :
    keywordAt keyword (field ++ sp :: rest) = keywordAt keyword (field ++ [' ']) := by
  induction keyword generalizing field with
  | nil =>
    cases field with
    | nil => simp [keywordAt, (space_facts sp hsp).1]; decide
    | cons f fs => simp [keywordAt]
  | cons c cs ih =>
    cases field with
    | nil =>
      rw [List.nil_append, List.nil_append,
        keywordAt_blank c cs (sp :: rest) (hk c (List.mem_cons_self _ _))
          (by intro d hd; simp at hd; subst hd; exact hsp),
        keywordAt_blank c cs [' '] (hk c (List.mem_cons_self _ _))
          (by intro d hd; simp at hd; subst hd; decide)]
    | cons f fs =>
      simp only [List.cons_append, keywordAt, List.append_eq]
      rw [ih fs (fun x hx => hk x (List.mem_cons_of_mem _ hx))]

theorem run_operator_fail {α : Type} (text : List Char) (prev : Option Char) (caps : Captures)
    (k : Option Char → List Char → Captures → Option α)
    (hhead : ∀ c, text.head? = some c → operatorChar c = false)
    (h1 : keywordAt "LIKE".data text = false) (h2 : keywordAt "IN".data text = false) :
    Regex.run operatorPattern prev text caps k = none := by
  unfold operatorPattern
  rw [run_alt_none _ _ _ _ _ _ (run_plus_fail _ _ _ _ _ hhead),
    run_alt_none _ _ _ _ _ _ (run_boundary_seq_none _ _ _ _ _
      (run_word_fail _ _ _ _ _ (by decide) (by decide) h1))]
  exact run_boundary_seq_none _ _ _ _ _ (run_word_fail _ _ _ _ _ (by decide) (by decide) h2)

theorem run_star_eq {α : Type} (p : Char → Bool) (prev : Option Char) (text : List Char)
    (caps : Captures) (k : Option Char → List Char → Captures → Option α) :
    Regex.run (Regex.star p) prev text caps k
      = starRun p prev text (fun prev1 text1 => k prev1 text1 caps) :=
  rfl

theorem starRun_stop {α : Type} (p : Char → Bool) (prev : Option Char) (text : List Char)
    (k : Option Char → List Char → Option α)
    (h : ∀ c, text.head? = some c → p c = false) :
    starRun p prev text k = k prev text := by
  cases text with
  | nil => rfl
  | cons c cs => simp [starRun, h c rfl]

/-- The pattern of one condition does not match at a relation word that is
followed by a condition whose field is not a keyword. -/
theorem run_condition_fail {α : Type} (rel after : List Char) (c : ConditionText)
    (rest : List Char) (prev : Option Char) (caps : Captures)
    (k : Option Char → List Char → Captures → Option α)
    (hrel : to_upper rel = "AND".data ∨ to_upper rel = "OR".data) (hafter : Blank after)
    (hwf : c.WellFormed)
    (hlike : keywordAt "LIKE".data (c.field ++ [' ']) = false)
    (hin : keywordAt "IN".data (c.field ++ [' ']) = false) :
    Regex.run (.seq (.plus fieldChar)
        (.seq (.star isSpace)
          (.seq operatorPattern (.seq (.star isSpace) literalPattern))))
      prev (rel ++ (after ++ (c.text ++ rest))) caps k = none := by
  obtain ⟨hfne, hfield, hg1, hg2, hop, hlit⟩ := hwf
  -- the relation is made of letters; after the first one none is `l` or `i`
  have hletters : ∃ r0 rs, rel = r0 :: rs ∧ r0.isAlpha = true ∧
      ∀ d ∈ rs, d.isAlpha = true ∧ d.toLower ≠ 'l' ∧ d.toLower ≠ 'i' := by
    rcases hrel with h | h
    · obtain ⟨hmap, halpha⟩ := map_toLower_of_to_upper rel _ (by decide) h
      cases hr : rel with
      | nil => rw [hr] at hmap; simp at hmap
      | cons r0 rs =>
        rw [hr] at hmap halpha
        refine ⟨r0, rs, rfl, halpha r0 (List.mem_cons_self _ _), fun d hd => ?_⟩
        have hrs : rs.map Char.toLower = ['n', 'd'] := by
          have h1 : (r0 :: rs).map Char.toLower = ['a', 'n', 'd'] := hmap
          simp only [List.map_cons, List.cons.injEq] at h1
          exact h1.2
        have hmem : d.toLower ∈ ['n', 'd'] := by
          rw [← hrs]; exact List.mem_map_of_mem _ hd
        refine ⟨halpha d (List.mem_cons_of_mem _ hd), ?_, ?_⟩ <;>
          (intro heq; rw [heq] at hmem; revert hmem; decide)
    · obtain ⟨hmap, halpha⟩ := map_toLower_of_to_upper rel _ (by decide) h
      cases hr : rel with
      | nil => rw [hr] at hmap; simp at hmap
      | cons r0 rs =>
        rw [hr] at hmap halpha
        refine ⟨r0, rs, rfl, halpha r0 (List.mem_cons_self _ _), fun d hd => ?_⟩
        have hrs : rs.map Char.toLower = ['r'] := by
          have h1 : (r0 :: rs).map Char.toLower = ['o', 'r'] := hmap
          simp only [List.map_cons, List.cons.injEq] at h1
          exact h1.2
        have hmem : d.toLower ∈ ['r'] := by
          rw [← hrs]; exact List.mem_map_of_mem _ hd
        refine ⟨halpha d (List.mem_cons_of_mem _ hd), ?_, ?_⟩ <;>
          (intro heq; rw [heq] at hmem; revert hmem; decide)
  obtain ⟨r0, rs, hr, hr0, hrs⟩ := hletters
  obtain ⟨g, gs, hg, hgs⟩ := blank_head c.gap1
    (c.op ++ (c.gap2 ++ (c.literal.text ++ rest))) hg1
  have hfieldhead : ∃ f fs, c.field = f :: fs := by
    cases hc : c.field with
    | nil => exact absurd hc hfne
    | cons f fs => exact ⟨f, fs, rfl⟩
  obtain ⟨f, fs, hf⟩ := hfieldhead
  have hf0 := fieldChar_facts f (hfield f (by rw [hf]; simp))
  -- the operator does not match at the field
  have hatfield : ∀ prev1, Regex.run
      (.seq operatorPattern (.seq (.star isSpace) literalPattern)) prev1
      (c.text ++ rest) caps k = none := by
    intro prev1
    rw [run_seq]
    apply run_operator_fail
    · intro d hd
      rw [condition_text_shape, hf] at hd
      simp at hd
      subst hd
      exact hf0.2
    · rw [condition_text_shape, hg, keywordAt_field _ _ _ _ (by decide) hgs]
      exact hlike
    · rw [condition_text_shape, hg, keywordAt_field _ _ _ _ (by decide) hgs]
      exact hin
  -- nor at white space
  have hatspace : ∀ prev1 sp tail, isSpace sp = true → Regex.run
      (.seq operatorPattern (.seq (.star isSpace) literalPattern)) prev1
      (sp :: tail) caps k = none := by
    intro prev1 sp tail hsp
    rw [run_seq]
    apply run_operator_fail
    · intro d hd; simp at hd; subst hd; exact (space_facts _ hsp).2.2.1
    · exact keywordAt_blank _ _ _ (by decide) (by intro d hd; simp at hd; subst hd; exact hsp)
    · exact keywordAt_blank _ _ _ (by decide) (by intro d hd; simp at hd; subst hd; exact hsp)
  -- nor at a later letter of the relation
  have hatletter : ∀ prev1 d tail, d.isAlpha = true → d.toLower ≠ 'l' → d.toLower ≠ 'i' →
      Regex.run (.seq operatorPattern (.seq (.star isSpace) literalPattern)) prev1
        (d :: tail) caps k = none := by
    intro prev1 d tail hd h1 h2
    rw [run_seq]
    apply run_operator_fail
    · intro e he; simp at he; subst he; exact (alpha_facts _ hd).2.2.2.1
    · exact keywordAt_head _ _ 'L' d h1
    · exact keywordAt_head _ _ 'I' d h2
  -- white space, then the operator
  have hgap : ∀ prev1, Regex.run
      (.seq (.star isSpace) (.seq operatorPattern (.seq (.star isSpace) literalPattern)))
      prev1 (after ++ (c.text ++ rest)) caps k = none := by
    intro prev1
    rw [run_seq, run_star_eq]
    apply starRun_fail
    · intro d hd
      rw [condition_text_shape, hf] at hd
      simp at hd
      subst hd
      exact hf0.1
    · intro a b prev2 hab
      show Regex.run (.seq operatorPattern (.seq (.star isSpace) literalPattern)) prev2
        (b ++ (c.text ++ rest)) caps k = none
      cases b with
      | nil => exact hatfield prev2
      | cons sp tail =>
        exact hatspace prev2 sp _ (hafter.2 sp (by rw [← hab]; simp))
  obtain ⟨a0, as, ha, has⟩ := blank_head after (c.text ++ rest) hafter
  rw [hr, run_seq, Regex.plus, run_seq, List.cons_append,
    run_char _ _ _ _ _ _ (alpha_facts r0 hr0).2.2.1, run_star_eq]
  apply starRun_fail
  · intro d hd
    rw [ha] at hd
    simp at hd
    subst hd
    exact (space_facts _ has).2.1
  · intro a b prev1 hab
    show Regex.run
      (.seq (.star isSpace) (.seq operatorPattern (.seq (.star isSpace) literalPattern)))
      prev1 (b ++ (after ++ (c.text ++ rest))) caps k = none
    cases b with
    | nil => exact hgap prev1
    | cons d tail =>
      obtain ⟨hd, h1, h2⟩ := hrs d (by rw [← hab]; simp)
      rw [run_seq, run_star_eq, starRun_stop isSpace prev1 _ _
        (by intro e he; simp at he; subst he; exact (alpha_facts _ hd).2.1)]
      exact hatletter prev1 d _ hd h1 h2

end SQLParser

namespace SQLParser

/-- The pattern `tokenRegex` does not match at white space or at the end. -/
theorem run_token_fail_blank {α : Type} (prev : Option Char) (text : List Char)
    (k : Option Char → List Char → Captures → Option α)
    (h : ∀ c, text.head? = some c → isSpace c = true) :
    Regex.run tokenRegex prev text [] k = none := by
  unfold tokenRegex
  rw [run_group, run_alt_none _ _ _ _ _ _ (by
      rw [run_seq]
      exact run_plus_fail _ _ _ _ _ (fun c hc => (space_facts c (h c hc)).2.1)),
    run_alt_none _ _ _ _ _ _ (run_boundary_seq_none _ _ _ _ _
      (run_word_fail _ _ _ _ _ (by decide) (by decide)
        (keywordAt_blank _ _ _ (by decide) h)))]
  exact run_boundary_seq_none _ _ _ _ _
    (run_word_fail _ _ _ _ _ (by decide) (by decide) (keywordAt_blank _ _ _ (by decide) h))

/-- The pattern `tokenRegex` at a relation word, after white space and before
a further condition, takes the relation word. -/
theorem run_token_relation {α : Type} (l : LinkText) (rest : List Char)
    (prev : Option Char) (k : Option Char → List Char → Captures → Option α)
    (hwf : l.WellFormed) (hprev : prev.any isWord = false)
    (hk : (k l.relation.getLast? (l.after ++ (l.condition.text ++ rest))
      [(1, l.relation)]).isSome = true) :
    Regex.run tokenRegex prev (l.relation ++ (l.after ++ (l.condition.text ++ rest))) [] k
      = k l.relation.getLast? (l.after ++ (l.condition.text ++ rest)) [(1, l.relation)] := by
  obtain ⟨_, hafter, hrel, hc, hlike, hin⟩ := hwf
  obtain ⟨r, hr⟩ := Option.isSome_iff_exists.mp hk
  obtain ⟨a0, as, ha, has⟩ := blank_head l.after (l.condition.text ++ rest) hafter
  have htail : ∀ d, (l.after ++ (l.condition.text ++ rest)).head? = some d → isWord d = false := by
    intro d hd
    rw [ha] at hd
    simp at hd
    subst hd
    exact (space_facts _ has).1
  rw [hr]
  unfold tokenRegex
  rw [run_group, run_alt_none _ _ _ _ _ _
    (run_condition_fail l.relation l.after l.condition rest prev [] _ hrel hafter hc hlike hin)]
  rcases hrel with h | h
  · apply run_alt_some
    rw [run_keyword "AND".data l.relation _ prev [] _ (by decide) (by decide) h hprev htail,
      take_length_sub, hr]
  · have hfail : Regex.run (Regex.word "AND".data .wordBoundary) prev
        (l.relation ++ (l.after ++ (l.condition.text ++ rest))) []
        (fun prev1 text1 caps1 => k prev1 text1
          ((1, (l.relation ++ (l.after ++ (l.condition.text ++ rest))).take
            ((l.relation ++ (l.after ++ (l.condition.text ++ rest))).length - text1.length))
            :: caps1)) = none := by
      apply run_word_fail _ _ _ _ _ (by decide) (by decide)
      obtain ⟨hmap, _⟩ := map_toLower_of_to_upper l.relation "OR".data (by decide) h
      cases hrl : l.relation with
      | nil => rw [hrl] at hmap; simp at hmap
      | cons d ds =>
        rw [hrl] at hmap
        have hd : d.toLower = 'o' := by
          have h1 : (d :: ds).map Char.toLower = ['o', 'r'] := hmap
          simp only [List.map_cons, List.cons.injEq] at h1
          exact h1.1
        exact keywordAt_head _ _ 'A' d (by rw [hd]; decide)
    rw [run_alt_none _ _ _ _ _ _ (run_boundary_seq_none _ _ _ _ _ hfail),
      run_keyword "OR".data l.relation _ prev [] _ (by decide) (by decide) h hprev htail,
      take_length_sub, hr]

theorem search_token_skip (ws text : List Char) (prev : Option Char)
    (hws : ∀ c ∈ ws, isSpace c = true) :
    Regex.regex_search tokenRegex prev (ws ++ text)
      = Regex.regex_search tokenRegex ((ws.getLast?).or prev) text := by
  induction ws generalizing prev with
  | nil => rfl
  | cons c cs ih =>
    rw [getLast?_cons_or, ← ih (some c) (fun d hd => hws d (List.mem_cons_of_mem _ hd))]
    simp only [List.cons_append, Regex.regex_search, List.append_eq]
    rw [run_token_fail_blank prev (c :: (cs ++ text)) _
      (by intro d hd; simp at hd; subst hd; exact hws _ (List.mem_cons_self _ _))]

theorem search_token_none (ws : List Char) (prev : Option Char)
    (hws : ∀ c ∈ ws, isSpace c = true) :
    Regex.regex_search tokenRegex prev ws = none := by
  induction ws generalizing prev with
  | nil =>
    simp only [Regex.regex_search]
    exact run_token_fail_blank prev [] _ (by simp)
  | cons c cs ih =>
    simp only [Regex.regex_search]
    rw [run_token_fail_blank prev (c :: cs) _
      (by intro d hd; simp at hd; subst hd; exact hws _ (List.mem_cons_self _ _))]
    exact ih (some c) (fun d hd => hws d (List.mem_cons_of_mem _ hd))

theorem search_at (re : Regex) (prev : Option Char) (matched rest : List Char)
    (prev1 : Option Char) (caps : Captures) (hne : matched ≠ [])
    (h : Regex.run re prev (matched ++ rest) []
        (fun prev1 text1 caps => some (prev1, text1, caps)) = some (prev1, rest, caps)) :
    Regex.regex_search re prev (matched ++ rest) = some (matched, prev1, rest, caps) := by
  cases hm : matched with
  | nil => exact absurd hm hne
  | cons c cs =>
    rw [hm] at h
    simp only [List.cons_append, Regex.regex_search, List.append_eq] at h ⊢
    rw [h]
    have := take_length_sub (c :: cs) rest
    simp only [List.cons_append] at this
    simp only [this]

end SQLParser

namespace SQLParser

theorem mem_trim (x : Char) (s : List Char) (h : x ∈ trim s) : x ∈ s := by
  unfold trim at h
  rw [List.mem_reverse] at h
  have h1 := (List.dropWhile_sublist isSpace).subset h
  rw [List.mem_reverse] at h1
  exact (List.dropWhile_sublist isSpace).subset h1

theorem unescape_of_not_mem (q : Char) (s : List Char) (h : q ∉ s) : unescape q s = s := by
  induction s with
  | nil => rfl
  | cons c cs ih =>
    cases cs with
    | nil => rfl
    | cons d ds =>
      have hd : d ≠ q := fun hd => h (by simp [hd])
      have ih' := ih (fun hm => h (List.mem_cons_of_mem _ hm))
      simp [unescape, hd, ih']

theorem remove_quotes_literal (lit : LiteralText) (hwf : lit.WellFormed) :
    remove_quotes (trim lit.text) = lit.value := by
  obtain ⟨c0, cs, hhead, hc0⟩ := literal_text_head lit hwf
  obtain ⟨e, hlast, he⟩ := literal_text_getLast lit hwf
  have htrim : trim lit.text = lit.text := by
    apply trim_eq_self
    · intro c hc; rw [hhead] at hc; simp at hc; subst hc; exact hc0
    · intro c hc; rw [hlast] at hc; simp at hc; subst hc; exact he
  rw [htrim]
  cases lit with
  | quoted q body =>
    simp only [LiteralText.text, LiteralText.value]
    rw [remove_quotes_quoted q body hwf.1]
    exact unescape_of_not_mem q _ (fun hm => hwf.2 (mem_trim q body hm))
  | bare token =>
    obtain ⟨htok, h1, h2⟩ := hwf
    simp only [LiteralText.text, LiteralText.value] at htrim ⊢
    unfold remove_quotes
    rw [if_neg (by
      intro h
      rcases h.2 with h3 | h3
      · exact h1 h3.1
      · exact h2 h3.1)]
    exact htrim

theorem conditionLoop_condition (c : ConditionText) (rest : List (List Char))
    (currentRelation : List Char) (hwf : c.WellFormed) :
    conditionLoop (c.text :: rest) currentRelation
      = c.condition currentRelation :: conditionLoop rest [] := by
  have hmatch := regex_match_condition c hwf
  obtain ⟨hfne, hfield, hg1, hg2, hop, hlit⟩ := hwf
  obtain ⟨e, hlast, he⟩ := literal_text_getLast c.literal hlit
  obtain ⟨hopne, hopns⟩ := operator_head c.op hop
  obtain ⟨f, fs, hf⟩ : ∃ f fs, c.field = f :: fs := by
    cases hc : c.field with
    | nil => exact absurd hc hfne
    | cons f fs => exact ⟨f, fs, rfl⟩
  have htext := condition_text_shape c []
  rw [List.append_nil] at htext
  have htrim : trim c.text = c.text := by
    apply trim_eq_self
    · intro d hd
      rw [htext, hf] at hd
      simp at hd
      subst hd
      exact (fieldChar_facts _ (hfield _ (by rw [hf]; simp))).1
    · intro d hd
      have hl : c.text.getLast? = some e := by
        have htext2 : c.text = (c.field ++ c.gap1 ++ c.op ++ c.gap2) ++ c.literal.text := by
          simp [ConditionText.text]
        rw [htext2, List.getLast?_append, hlast]
        rfl
      rw [hl] at hd
      simp at hd
      subst hd
      exact he
  have hspace : ∃ g, g ∈ c.text ∧ isSpace g = true := by
    obtain ⟨g, gs, hg, hgs⟩ := blank_head c.gap1 [] hg1
    refine ⟨g, ?_, hgs⟩
    rw [htext]
    have : g ∈ c.gap1 := by
      rw [List.append_nil] at hg
      rw [hg]; simp
    simp [this]
  have hnot : ¬ (to_upper (trim c.text) = "AND".data ∨ to_upper (trim c.text) = "OR".data) := by
    rw [htrim]
    obtain ⟨g, hg, hgs⟩ := hspace
    intro h
    rcases h with h | h
    · have := not_isSpace_of_to_upper c.text _ h (by decide) g hg
      simp [hgs] at this
    · have := not_isSpace_of_to_upper c.text _ h (by decide) g hg
      simp [hgs] at this
  have hfieldtrim : trim c.field = c.field := by
    apply trim_eq_self
    · intro d hd
      rw [hf] at hd
      simp at hd
      subst hd
      exact (fieldChar_facts _ (hfield _ (by rw [hf]; simp))).1
    · intro d hd
      exact (fieldChar_facts _ (hfield _ (List.mem_of_mem_getLast? hd))).1
  have hoptrim : trim c.op = c.op := by
    apply trim_eq_self
    · intro d hd
      exact hopns d (List.mem_of_mem_head? hd)
    · intro d hd
      exact hopns d (List.mem_of_mem_getLast? hd)
  have hs1 : Regex.str [(3, c.literal.text), (4, c.literal.text), (2, c.op), (1, c.field)] 1
      = c.field := by simp [Regex.str, List.find?]
  have hs2 : Regex.str [(3, c.literal.text), (4, c.literal.text), (2, c.op), (1, c.field)] 2
      = c.op := by simp [Regex.str, List.find?]
  have hs3 : Regex.str [(3, c.literal.text), (4, c.literal.text), (2, c.op), (1, c.field)] 3
      = c.literal.text := by simp [Regex.str, List.find?]
  rw [conditionLoop]
  simp only
  rw [if_neg hnot, htrim, hmatch]
  simp only [hs1, hs2, hs3, hfieldtrim, hoptrim, remove_quotes_literal c.literal hlit,
    ConditionText.condition]

theorem conditionLoop_relation (relation : List Char) (rest : List (List Char))
    (currentRelation : List Char)
    (h : to_upper relation = "AND".data ∨ to_upper relation = "OR".data) :
    conditionLoop (relation :: rest) currentRelation = conditionLoop rest (to_upper relation) := by
  have htrim : trim relation = relation := by
    have hns : ∀ c ∈ relation, isSpace c = false := by
      rcases h with h | h
      · exact not_isSpace_of_to_upper relation _ h (by decide)
      · exact not_isSpace_of_to_upper relation _ h (by decide)
    apply trim_eq_self
    · intro d hd; exact hns d (List.mem_of_mem_head? hd)
    · intro d hd; exact hns d (List.mem_of_mem_getLast? hd)
  rw [conditionLoop]
  simp only
  rw [htrim, if_pos h]

theorem conditionLoop_links (links : List LinkText) (hwf : ∀ l ∈ links, l.WellFormed) :
    conditionLoop (links.flatMap (fun l => [l.relation, l.condition.text])) []
      = links.map (fun l => l.condition.condition (to_upper l.relation)) := by
  induction links with
  | nil => rfl
  | cons l rest ih =>
    obtain ⟨_, _, hrel, hc, _, _⟩ := hwf l (List.mem_cons_self _ _)
    simp only [List.flatMap_cons, List.cons_append, List.nil_append, List.map_cons]
    rw [conditionLoop_relation _ _ _ hrel, conditionLoop_condition _ _ _ hc,
      ih (fun x hx => hwf x (List.mem_cons_of_mem _ hx))]

end SQLParser

/-! ## Claims on condition chains as written -/

namespace SQLParser

theorem links_head (links : List LinkText) (trail : List Char)
    (hwf : ∀ l ∈ links, l.WellFormed) (htrail : ∀ ch ∈ trail, isSpace ch = true) :
    ∀ d, (links.flatMap LinkText.text ++ trail).head? = some d → isSpace d = true := by
  intro d hd
  cases links with
  | nil => exact htrail d (List.mem_of_mem_head? (by simpa using hd))
  | cons l rest =>
    obtain ⟨hb, _⟩ := hwf l (List.mem_cons_self _ _)
    obtain ⟨b, bs, hbs, hsp⟩ := blank_head l.before
      (l.relation ++ (l.after ++ l.condition.text) ++ (rest.flatMap LinkText.text ++ trail)) hb
    have hshape : (l :: rest).flatMap LinkText.text ++ trail
        = l.before ++ (l.relation ++ (l.after ++ l.condition.text) ++
            (rest.flatMap LinkText.text ++ trail)) := by
      simp [LinkText.text]
    rw [hshape, hbs] at hd
    simp at hd
    subst hd
    exact hsp

theorem condition_text_ne_nil (c : ConditionText) (hwf : c.WellFormed) : c.text ≠ [] := by
  intro h
  have := hwf.1
  simp [ConditionText.text] at h
  exact this h.1

theorem relation_ne_nil (relation : List Char)
    (h : to_upper relation = "AND".data ∨ to_upper relation = "OR".data) : relation ≠ [] := by
  intro hr
  subst hr
  rcases h with h | h <;> simp [to_upper] at h

theorem search_token_condition (c : ConditionText) (ws tail : List Char) (prev : Option Char)
    (hwf : c.WellFormed) (hws : ∀ ch ∈ ws, isSpace ch = true)
    (htail : ∀ d, tail.head? = some d → isSpace d = true) :
    Regex.regex_search tokenRegex prev (ws ++ (c.text ++ tail))
      = some (c.text, c.literal.text.getLast?, tail, [(1, c.text)]) := by
  rw [search_token_skip ws _ prev hws]
  apply search_at _ _ _ _ _ _ (condition_text_ne_nil c hwf)
  rw [run_token_condition c tail _ (fun prev1 text1 caps => some (prev1, text1, caps))
    hwf htail rfl]

theorem search_token_relation (l : LinkText) (rest : List Char) (prev : Option Char)
    (hwf : l.WellFormed) :
    Regex.regex_search tokenRegex prev
        (l.before ++ (l.relation ++ (l.after ++ (l.condition.text ++ rest))))
      = some (l.relation, l.relation.getLast?, l.after ++ (l.condition.text ++ rest),
          [(1, l.relation)]) := by
  obtain ⟨e, he, hes⟩ := blank_getLast l.before hwf.1
  rw [search_token_skip l.before _ prev hwf.1.2]
  apply search_at _ _ _ _ _ _ (relation_ne_nil _ hwf.2.2.1)
  rw [run_token_relation l rest _ (fun prev1 text1 caps => some (prev1, text1, caps))
    hwf (by rw [he]; simp [(space_facts e hes).1]) rfl]

theorem matches_links (links : List LinkText) (trail : List Char)
    (hwf : ∀ l ∈ links, l.WellFormed) (htrail : ∀ ch ∈ trail, isSpace ch = true)
    (fuel : Nat) (prev : Option Char)
    (hfuel : (links.flatMap LinkText.text ++ trail).length < fuel) :
    (Regex.matchesFrom tokenRegex fuel prev (links.flatMap LinkText.text ++ trail)).map
        (fun m => m.1)
      = links.flatMap (fun l => [l.relation, l.condition.text]) := by
  induction links generalizing fuel prev with
  | nil =>
    cases fuel with
    | zero => simp at hfuel
    | succ fuel =>
      simp [Regex.matchesFrom, search_token_none trail prev htrail]
  | cons l rest ih =>
    have hl := hwf l (List.mem_cons_self _ _)
    have hrest : ∀ x ∈ rest, x.WellFormed := fun x hx => hwf x (List.mem_cons_of_mem _ hx)
    have hshape : (l :: rest).flatMap LinkText.text ++ trail
        = l.before ++ (l.relation ++ (l.after ++ (l.condition.text ++
            (rest.flatMap LinkText.text ++ trail)))) := by
      simp [LinkText.text]
    have hrne := relation_ne_nil _ hl.2.2.1
    have hcne := condition_text_ne_nil _ hl.2.2.2.1
    have hbne := hl.1.1
    have hane := hl.2.1.1
    rw [hshape] at hfuel ⊢
    have hlen : ∀ s : List Char, s ≠ [] → 1 ≤ s.length := by
      intro s hs
      cases s with
      | nil => exact absurd rfl hs
      | cons _ _ => simp
    have h1 := hlen _ hrne
    have h2 := hlen _ hcne
    have h3 := hlen _ hbne
    have h4 := hlen _ hane
    simp only [List.length_append] at hfuel
    cases fuel with
    | zero => omega
    | succ fuel =>
      cases fuel with
      | zero => omega
      | succ fuel =>
        have hr1 : l.relation.isEmpty = false := by
          cases hc : l.relation with
          | nil => exact absurd hc hrne
          | cons _ _ => rfl
        have hr2 : l.condition.text.isEmpty = false := by
          cases hc : l.condition.text with
          | nil => exact absurd hc hcne
          | cons _ _ => rfl
        rw [Regex.matchesFrom, search_token_relation l _ prev hl]
        simp only [hr1, Bool.false_eq_true, if_false, List.map_cons]
        rw [Regex.matchesFrom, search_token_condition l.condition l.after _ _ hl.2.2.2.1
          hl.2.1.2 (links_head rest trail hrest htrail)]
        simp only [hr2, Bool.false_eq_true, if_false, List.map_cons]
        rw [ih hrest fuel _ (by simp only [List.length_append]; omega)]
        simp

/-- C26 as stated fails: the literal `' Ann '` without its quotes is ` Ann `,
with a blank at each end, yet the condition carries the value `Ann`. -/
theorem parse_conditions_trims_literal :
    parse_conditions "name = ' Ann '".data []
      = [{ field := "NAME", op := "=", value := "Ann", relation := "" }] ∧
    parse_conditions "name = ' Ann '".data []
      ≠ [{ field := "NAME", op := "=", value := " Ann ", relation := "" }] := by
  decide

/-- C26, amended: parsing a condition chain. Take a text `c1 R1 c2 ... R(n-1) cn`,
with white space around it or not, in which each `ci` is a field (a run of
letters, digits, underscores and dots), an operator (a run of the characters
`<>!=`, or `LIKE` or `IN` in any letter case) and a literal (a text between
two quotes of one kind that holds no such quote, or a token that does not
begin with a quote), white space between them, each `Ri` is `AND` or `OR` in
any letter case with white space on both sides, and no field after a relation
is the word `LIKE` or `IN`. Then `parse_conditions` appends exactly one
condition per `ci`, in order: the upper-cased field, the operator as written,
as value the bare literal, or the text between the quotes without the white
space at its ends, letter case preserved, and as relation the empty text for
the first condition and the upper-cased `R(i-1)` for the others. -/
theorem parse_conditions_chain (lead trail : List Char) (c : ConditionText)
    (links : List LinkText) (conditions : List Condition)
    (hlead : ∀ ch ∈ lead, isSpace ch = true) (htrail : ∀ ch ∈ trail, isSpace ch = true)
    (hc : c.WellFormed) (hlinks : ∀ l ∈ links, l.WellFormed) :
    parse_conditions (lead ++ (c.text ++ (links.flatMap LinkText.text ++ trail))) conditions
      = conditions ++
          c.condition [] :: links.map (fun l => l.condition.condition (to_upper l.relation)) := by
  have hcne := condition_text_ne_nil c hc
  have hne : c.text.isEmpty = false := by
    cases h : c.text with
    | nil => exact absurd h hcne
    | cons _ _ => rfl
  have hlen : 1 ≤ c.text.length := by
    cases h : c.text with
    | nil => exact absurd h hcne
    | cons _ _ => simp
  unfold parse_conditions Regex.regex_matches
  rw [Regex.matchesFrom, search_token_condition c lead _ none hc hlead
    (links_head links trail hlinks htrail)]
  simp only [hne, Bool.false_eq_true, if_false, List.map_cons]
  rw [matches_links links trail hlinks htrail _ _
    (by simp only [List.length_append]; omega),
    conditionLoop_condition c _ [] hc, conditionLoop_links links hlinks]

/-- C26 on the chain `id = 1 AND name = 'Ann Lee' or x LIKE "a b"`. -/
theorem parse_conditions_chain_witness :
    parse_conditions "id = 1 AND name = 'Ann Lee' or x LIKE \"a b\"".data []
      = [{ field := "ID", op := "=", value := "1", relation := "" },
         { field := "NAME", op := "=", value := "Ann Lee", relation := "AND" },
         { field := "X", op := "LIKE", value := "a b", relation := "OR" }] :=
  parse_conditions_chain [] []
    { field := "id".data, gap1 := " ".data, op := "=".data, gap2 := " ".data,
      literal := .bare "1".data }
    [{ before := " ".data, relation := "AND".data, after := " ".data,
       condition := { field := "name".data, gap1 := " ".data, op := "=".data,
                      gap2 := " ".data, literal := .quoted '\'' "Ann Lee".data } },
     { before := " ".data, relation := "or".data, after := " ".data,
       condition := { field := "x".data, gap1 := " ".data, op := "LIKE".data,
                      gap2 := " ".data, literal := .quoted '"' "a b".data } }]
    [] (by decide) (by decide) (by decide) (by decide)

end SQLParser

/-! ## The loops over a stream read the pieces and the words -/

theorem getlines_eq_cut (delim : Char) (text : List Char) :
    getlines delim text =
      match text with
      | [] => []
      | _ :: _ =>
        match cut delim text with
        | (piece, some after) => piece :: getlines delim after
        | (piece, none) => [piece] := by
  induction text with
  | nil => rfl
  | cons c cs ih =>
    by_cases hc : c = delim
    · simp [getlines, cut, hc]
    · cases cs with
      | nil => simp [getlines, cut, hc]
      | cons d ds =>
        simp only [getlines, cut, hc, if_false] at ih ⊢
        rw [ih]
        cases hcut : cut delim (d :: ds) with
        | mk piece after =>
          simp only [cut] at hcut
          rw [hcut]
          cases after <;> rfl

theorem cut_length (delim : Char) (text piece after : List Char)
    (h : cut delim text = (piece, some after)) : after.length < text.length := by
  induction text generalizing piece with
  | nil => simp [cut] at h
  | cons c cs ih =>
    by_cases hc : c = delim
    · simp only [cut, hc, if_true, Prod.mk.injEq, Option.some.injEq] at h
      rw [← h.2]
      simp
    · simp only [cut, hc, if_false, Prod.mk.injEq] at h
      have := ih (cut delim cs).1 (by rw [← h.2])
      simp only [List.length_cons]
      omega

/-- The loop `while (std::getline(stream, token, delim))` over a new stream
reads exactly `getlines`. -/
theorem getlinesLoop_eq (delim : Char) (text : List Char) (fuel : Nat)
    (hfuel : text.length < fuel) :
    getlinesLoop delim fuel (IStream.ofText text) = getlines delim text := by
  induction fuel generalizing text with
  | zero => simp at hfuel
  | succ fuel ih =>
    rw [getlines_eq_cut]
    cases text with
    | nil => simp [getlinesLoop, IStream.getline, IStream.ofText, cut]
    | cons c cs =>
      cases hcut : cut delim (c :: cs) with
      | mk piece after =>
        cases after with
        | none =>
          have hpiece : piece ≠ [] := by
            intro hp
            subst hp
            by_cases hc : c = delim <;> simp [cut, hc] at hcut
          have hne : piece.isEmpty = false := by
            cases piece with
            | nil => exact absurd rfl hpiece
            | cons _ _ => rfl
          simp only [getlinesLoop, IStream.getline, IStream.ofText, Bool.or_self,
            Bool.false_eq_true, if_false, hcut, hne]
          cases fuel with
          | zero => rfl
          | succ fuel => simp [getlinesLoop, IStream.getline]
        | some after =>
          have hlen := cut_length delim (c :: cs) piece after hcut
          simp only [getlinesLoop, IStream.getline, IStream.ofText, Bool.or_self,
            Bool.false_eq_true, if_false, hcut]
          have := ih after (by simp only [List.length_cons] at hlen hfuel; omega)
          simp only [IStream.ofText] at this
          rw [this]

theorem words_eq (text : List Char) :
    words text =
      match text.dropWhile isSpace with
      | [] => []
      | c :: cs =>
        (c :: cs).takeWhile (fun d => !isSpace d)
          :: words ((c :: cs).dropWhile (fun d => !isSpace d)) := by
  induction text with
  | nil => rfl
  | cons c cs ih =>
    by_cases hc : isSpace c = true
    · simp only [words, hc, if_true, List.dropWhile]
      exact ih
    · have hc' : isSpace c = false := by simpa using hc
      cases cs with
      | nil => simp [words, hc', List.dropWhile, List.takeWhile]
      | cons d ds =>
        by_cases hd : isSpace d = true
        · simp [words, hc', hd, List.dropWhile, List.takeWhile]
        · have hd' : isSpace d = false := by simpa using hd
          simp only [words, hc', hd', List.dropWhile, List.takeWhile, Bool.not_false,
            Bool.false_eq_true, if_false] at ih ⊢
          rw [ih]

/-- The loop `while (stream >> token)` over a new stream reads exactly
`words`. -/
theorem wordsLoop_eq (stream : IStream) (fuel : Nat) (hfail : stream.failbit = false)
    (heof : stream.eofbit = true → stream.rest = []) (hfuel : stream.rest.length < fuel) :
    wordsLoop fuel stream = words stream.rest := by
  induction fuel generalizing stream with
  | zero => simp at hfuel
  | succ fuel ih =>
    obtain ⟨rest, eofbit, failbit⟩ := stream
    simp only at hfail heof hfuel
    subst hfail
    cases eofbit with
    | true =>
      rw [heof rfl]
      simp [wordsLoop, IStream.extract, words]
    | false =>
      rw [words_eq]
      cases hdrop : rest.dropWhile isSpace with
      | nil => simp [wordsLoop, IStream.extract, hdrop]
      | cons c cs =>
        have hcns : isSpace c = false := by
          have h := List.head?_dropWhile_not isSpace rest
          rw [hdrop] at h
          simpa using h
        have hsuffix : ((c :: cs).dropWhile (fun d => !isSpace d)).length < fuel := by
          have h1 : (cs.dropWhile (fun d => !isSpace d)).length ≤ cs.length :=
            (List.dropWhile_sublist _).length_le
          have h2 : (rest.dropWhile isSpace).length ≤ rest.length :=
            (List.dropWhile_sublist _).length_le
          rw [hdrop] at h2
          simp only [List.dropWhile, hcns, Bool.not_false, List.length_cons] at h2 ⊢
          omega
        simp only [wordsLoop, IStream.extract, Bool.or_self, Bool.false_eq_true, if_false,
          hdrop]
        rw [ih _ rfl (by
          intro h
          simpa using h) hsuffix]

/-! ## Claims on operators outside the comparison set -/

namespace Table

open StdMap

/-- C34: LIKE and IN are rejected at evaluation. For every record that holds
the field of the condition and every condition whose operator is none of `=`,
`==`, `!=`, `<>`, `<`, `>`, `<=`, `>=`, `Table::evaluateCondition` throws the
unsupported-operator error carrying that operator. -/
theorem evaluateCondition_unsupported (S : Stod) (record : Record) (condition : Condition)
    (value : String)
    (hfield : find record condition.field = some value)
    (hop : condition.op ∉ ["=", "==", "!=", "<>", "<", ">", "<=", ">="]) :
    evaluateCondition S record condition = .error (.unsupportedOperator condition.op) := by
  simp only [List.mem_cons, List.mem_singleton, not_or, List.not_mem_nil, or_false] at hop
  obtain ⟨h1, h2, h3, h4, h5, h6, h7, h8⟩ := hop
  simp [evaluateCondition, hfield, compareValues, h1, h2, h3, h4, h5, h6, h7, h8]

/-- C34 on `NAME LIKE 'A%'`, as `parse_conditions` returns it, and the row of
Ann. -/
theorem evaluateCondition_unsupported_witness :
    SQLParser.parse_conditions "NAME LIKE 'A%'".data [] = [Scenario.nameLikeA] ∧
    find Scenario.ann Scenario.nameLikeA.field = some "Ann" ∧
    Scenario.nameLikeA.op ∉ ["=", "==", "!=", "<>", "<", ">", "<=", ">="] ∧
    evaluateCondition Stod.integral Scenario.ann Scenario.nameLikeA
      = .error (.unsupportedOperator "LIKE") :=
  ⟨by decide, by decide, by decide,
   evaluateCondition_unsupported Stod.integral Scenario.ann Scenario.nameLikeA "Ann"
     (by decide) (by decide)⟩

end Table

/-! ## Claims on the operands of a join condition -/

theorem bareName_of_unqualified (name bare : String) (h : Unqualified name bare) :
    bareName name = bare := by
  rcases h with ⟨pre, hpre, hname⟩ | ⟨hdot, hname⟩
  · subst hname
    have hdrop : ((pre ++ "." ++ bare).data.dropWhile (fun c => decide (c ≠ '.')))
        = '.' :: bare.data := by
      simp only [String.data_append, List.append_assoc]
      rw [List.dropWhile_append_of_pos (fun c hc => by
        simp only [ne_eq, decide_not, Bool.not_eq_true', decide_eq_false_iff_not]
        rintro rfl
        exact hpre hc)]
      rfl
    unfold bareName
    rw [hdrop]
  · rw [hname]
    have hdrop : (name.data.dropWhile (fun c => decide (c ≠ '.'))) = [] := by
      rw [List.dropWhile_eq_nil_iff]
      intro c hc
      simp only [ne_eq, decide_not, Bool.not_eq_true', decide_eq_false_iff_not]
      rintro rfl
      exact hdot hc
    unfold bareName
    rw [hdrop]

/-- C37: join operands ignore their table qualifier. For every left row, right
row and condition with operator `=`, `evaluateJoinCondition` returns, and its
value is the equality of the left operand looked up in the left row with the
right operand looked up in the right row, where each operand is looked up
under the text after its first dot (the whole name when it has no dot) and a
missing key reads as the empty string. -/
theorem evaluateJoinCondition_equals (leftRecord rightRecord : Record) (condition : Condition)
    (leftKey rightKey : String)
    (hop : condition.op = "=")
    (hleft : Unqualified condition.field leftKey)
    (hright : Unqualified condition.value rightKey) :
    evaluateJoinCondition leftRecord rightRecord condition
      = .ok (decide ((StdMap.find leftRecord leftKey).getD ""
          = (StdMap.find rightRecord rightKey).getD "")) := by
  simp only [evaluateJoinCondition, hop, if_true, getValue,
    bareName_of_unqualified _ _ hleft, bareName_of_unqualified _ _ hright]

/-- C37 on `ON ORDERS.ID = USERS.USERID` with the row of Ann on the left and an
order of user 1 on the right: the left operand is read from the row of Ann
under `ID` although it is written with the name of the right table, the right
operand from the order under `USERID`; and with an operand that neither row
holds both sides read as the empty string. -/
theorem evaluateJoinCondition_equals_witness :
    Unqualified Scenario.joinSwapped.field "ID" ∧
    Unqualified Scenario.joinSwapped.value "USERID" ∧
    evaluateJoinCondition Scenario.ann Scenario.orderOfUser1 Scenario.joinSwapped
      = .ok (decide ((StdMap.find Scenario.ann "ID").getD ""
          = (StdMap.find Scenario.orderOfUser1 "USERID").getD "")) ∧
    evaluateJoinCondition Scenario.ann Scenario.orderOfUser1 Scenario.joinSwapped = .ok true ∧
    evaluateJoinCondition Scenario.ann Scenario.orderOfUser2 Scenario.joinSwapped = .ok false ∧
    evaluateJoinCondition Scenario.ann Scenario.orderOfUser1 Scenario.joinOnAbsent = .ok true :=
  ⟨Or.inl ⟨"ORDERS", by decide, by decide⟩, Or.inl ⟨"USERS", by decide, by decide⟩,
   evaluateJoinCondition_equals Scenario.ann Scenario.orderOfUser1 Scenario.joinSwapped
     "ID" "USERID" (by decide) (Or.inl ⟨"ORDERS", by decide, by decide⟩)
     (Or.inl ⟨"USERS", by decide, by decide⟩),
   by decide, by decide, by decide⟩

/-! ## Claims on the projection of a selection -/

namespace Table

open StdMap

theorem projectFields_missing (record : Record) (fields : List String) (selected : Record)
    (m : String) (hm : m ∈ fields) (hmissing : find record m = none) :
    ∃ name, name ∈ fields ∧ find record name = none ∧
      projectFields record fields selected = .error (.fieldNotFound name) := by
  induction fields generalizing selected with
  | nil => simp at hm
  | cons f rest ih =>
    unfold projectFields
    cases hf : find record f with
    | none => exact ⟨f, List.mem_cons_self _ _, hf, rfl⟩
    | some value =>
      have hm2 : m ∈ rest := by
        rcases List.mem_cons.mp hm with h | h
        · rw [h, hf] at hmissing
          cases hmissing
        · exact h
      obtain ⟨name, h1, h2, h3⟩ := ih (assign selected f value) hm2
      exact ⟨name, List.mem_cons_of_mem _ h1, h2, h3⟩

theorem selectLoop_skip (S : Stod) (F : List String) (c : List Condition)
    (pre rest : List Record) (hpre : ∀ x ∈ pre, evaluateConditions S x c = .ok false) :
    selectLoop S F c (pre ++ rest) = selectLoop S F c rest := by
  induction pre with
  | nil => rfl
  | cons r pre ih =>
    simp only [List.cons_append, selectLoop, hpre r (List.mem_cons_self _ _)]
    exact ih (fun x hx => hpre x (List.mem_cons_of_mem _ hx))

/-- C39, amended: projection errors depend on matches. Take a field list,
other than the single `*`, that names a column no record of the table has.
When the chain evaluates to false, without raising an error, on every record
(in particular when the table has no record) `selectRecords` returns the empty
list; and when the chain is true on some record and evaluates to false,
without raising an error, on every record before it, `selectRecords` throws
the field-not-found error, for a name of the list that this record does not
hold. -/
theorem selectRecords_missing_column (S : Stod) (t : Table) (fieldsToSelect : List String)
    (conditions : List Condition) (missing : String)
    (hnamed : missing ∈ fieldsToSelect)
    (hstar : fieldsToSelect ≠ ["*"])
    (hmissing : ∀ record ∈ t.records, find record missing = none) :
    ((∀ record ∈ t.records, evaluateConditions S record conditions = .ok false) →
      selectRecords S t fieldsToSelect conditions = .ok []) ∧
    (t.records = [] → selectRecords S t fieldsToSelect conditions = .ok []) ∧
    (∀ pre record post, t.records = pre ++ record :: post →
      (∀ x ∈ pre, evaluateConditions S x conditions = .ok false) →
      evaluateConditions S record conditions = .ok true →
      ∃ name, name ∈ fieldsToSelect ∧ find record name = none ∧
        selectRecords S t fieldsToSelect conditions = .error (.fieldNotFound name)) := by
  refine ⟨fun h => selectLoop_all_false S fieldsToSelect conditions t.records h, ?_, ?_⟩
  · intro h
    simp [selectRecords, h, selectLoop]
  · intro pre record post hrecords hpre hrecord
    have hmiss : find record missing = none :=
      hmissing record (by rw [hrecords]; simp)
    obtain ⟨name, h1, h2, h3⟩ := projectFields_missing record fieldsToSelect [] missing hnamed hmiss
    refine ⟨name, h1, h2, ?_⟩
    unfold selectRecords
    rw [hrecords, selectLoop_skip S fieldsToSelect conditions pre _ hpre]
    simp only [selectLoop, hrecord, project, if_neg hstar, h3]

/-- C39 on `USERS` holding Ann and Cat and the field list `AGE`: with
`WHERE ID = 3` no record matches and the result is empty, with `WHERE ID = 2`
Cat matches and the call throws, and on the table without records the result
is empty. -/
theorem selectRecords_missing_column_witness :
    selectRecords Stod.integral Scenario.usersAnnCat ["AGE"] [Scenario.idIs3] = .ok [] ∧
    selectRecords Stod.integral Scenario.usersAnnCat ["AGE"] [Scenario.idIs2]
      = .error (.fieldNotFound "AGE") ∧
    selectRecords Stod.integral Scenario.users ["AGE"] [Scenario.idIs2] = .ok [] ∧
    (∀ pre record post, Scenario.usersAnnCat.records = pre ++ record :: post →
      (∀ x ∈ pre, evaluateConditions Stod.integral x [Scenario.idIs2] = .ok false) →
      evaluateConditions Stod.integral record [Scenario.idIs2] = .ok true →
      ∃ name, name ∈ ["AGE"] ∧ find record name = none ∧
        selectRecords Stod.integral Scenario.usersAnnCat ["AGE"] [Scenario.idIs2]
          = .error (.fieldNotFound name)) :=
  ⟨by decide, by decide, by decide,
   (selectRecords_missing_column Stod.integral Scenario.usersAnnCat ["AGE"] [Scenario.idIs2]
      "AGE" (by decide) (by decide) (by decide)).2.2⟩

end Table

/-! ## Claims on a failing CREATE -/

namespace Database

open StdMap

theorem createConstraints_error (colDef : ColumnDefinition) (cs : List String) (e : DbError)
    (h : createConstraints colDef cs = .error e) (name : String) : e ≠ .tableExists name := by
  induction cs generalizing e with
  | nil => simp [createConstraints] at h
  | cons c rest ih =>
    unfold createConstraints at h
    cases hr : createConstraints colDef rest with
    | error e1 =>
      have he1 := ih e1 hr
      rw [hr] at h
      split at h
      · cases h
        exact he1
      · split at h
        · cases h
          exact he1
        · split at h
          · cases h
            exact he1
          · cases h
            simp
    | ok cs1 =>
      rw [hr] at h
      split at h
      · cases h
      · split at h
        · cases h
        · split at h
          · cases h
          · cases h
            simp

theorem createDataType_error (type : String) (e : DbError)
    (h : createDataType type = .error e) (name : String) : e ≠ .tableExists name := by
  unfold createDataType at h
  repeat' split at h
  all_goals first
    | (cases h; done)
    | (cases h; simp)

theorem createField_error (colDef : ColumnDefinition) (e : DbError)
    (h : createField colDef = .error e) (name : String) : e ≠ .tableExists name := by
  unfold createField at h
  cases hd : createDataType colDef.type with
  | error e1 =>
    rw [hd] at h
    cases h
    exact createDataType_error _ _ hd name
  | ok dataType =>
    rw [hd] at h
    cases hc : createConstraints colDef colDef.constraints with
    | error e1 =>
      simp only [hc] at h
      cases h
      exact createConstraints_error _ _ _ hc name
    | ok cs =>
      simp only [hc] at h
      cases h

theorem addFieldConstraints_error (db : Database) (field : Field) (t t1 : Table)
    (cs : List Constraint) (e : DbError)
    (h : Table.addFieldConstraints db field t cs = .fail e t1) (name : String) :
    e ≠ .tableExists name := by
  induction cs generalizing t e with
  | nil => simp [Table.addFieldConstraints] at h
  | cons c rest ih =>
    unfold Table.addFieldConstraints at h
    repeat' split at h
    all_goals first
      | exact ih _ _ h
      | (cases h; done)
      | (cases h; simp)

theorem addField_error (db : Database) (field : Field) (t t1 : Table) (e : DbError)
    (h : Table.addField db t field = .fail e t1) (name : String) : e ≠ .tableExists name := by
  unfold Table.addField at h
  split at h
  · cases h
    simp
  · exact addFieldConstraints_error db field _ t1 _ e h name

theorem createColumns_error (db : Database) (t : Table) (columns : List ColumnDefinition)
    (e : DbError) (h : createColumns db t columns = .error e) (name : String) :
    e ≠ .tableExists name := by
  induction columns generalizing t with
  | nil => simp [createColumns] at h
  | cons colDef rest ih =>
    unfold createColumns at h
    cases hf : createField colDef with
    | error e1 =>
      rw [hf] at h
      cases h
      exact createField_error _ _ hf name
    | ok field =>
      rw [hf] at h
      cases ha : Table.addField db t field with
      | fail e1 t1 =>
        simp only [ha] at h
        cases h
        exact addField_error db field t t1 _ ha name
      | ok t1 =>
        simp only [ha] at h
        exact ih t1 h

/-- C36: a failing CREATE registers nothing. For every database and CREATE
statement for which `createTable` throws, the table map is as it was; and when
the exception is raised for a column (that is, it is not the duplicate-table
error), no table of that name exists afterwards and a later CREATE of the same
name is not rejected as a duplicate. -/
theorem createTable_failure (db db1 : Database) (query : Query) (e : DbError)
    (h : createTable db query = .fail e db1) :
    db1 = db ∧
    (e ≠ .tableExists query.table →
      db1.getTable query.table = none ∧
      ∀ later : Query, later.table = query.table →
        ∀ e2 db2, createTable db1 later = .fail e2 db2 → e2 ≠ .tableExists later.table) := by
  unfold createTable at h
  cases hfind : find db.tables query.table with
  | some t =>
    rw [hfind] at h
    cases h
    exact ⟨rfl, fun hne => absurd rfl hne⟩
  | none =>
    rw [hfind] at h
    cases hc : createColumns db (Table.new query.table) query.columns with
    | ok newTable =>
      simp only [hc] at h
      cases h
    | error e1 =>
      simp only [hc] at h
      cases h
      refine ⟨rfl, fun _ => ⟨hfind, ?_⟩⟩
      intro later hlater e2 db2 h2
      unfold createTable at h2
      rw [hlater, hfind] at h2
      cases hc2 : createColumns db (Table.new query.table) later.columns with
      | ok newTable =>
        simp only [hc2] at h2
        cases h2
      | error e3 =>
        simp only [hc2] at h2
        cases h2
        exact createColumns_error db _ _ _ hc2 _

/-- C36 on a database without tables: `CREATE TABLE T` with a column of an
unknown type, with the column `ID` twice, and with a reference to the missing
table `NOPE` each throw and leave the database as it was; after the last one
no table `T` exists and `CREATE TABLE T (ID INT PRIMARY_KEY)` returns. -/
theorem createTable_failure_witness :
    createTable Scenario.emptyDb (Scenario.createQuery "T" [Scenario.blobColumn])
      = .fail (.unsupportedDataType "BLOB") Scenario.emptyDb ∧
    createTable Scenario.emptyDb (Scenario.createQuery "T" [Scenario.idColumn, Scenario.idColumn])
      = .fail (.fieldExists "ID") Scenario.emptyDb ∧
    createTable Scenario.emptyDb (Scenario.createQuery "T" [Scenario.referenceThenKey])
      = .fail (.referencedTableNotFound "NOPE") Scenario.emptyDb ∧
    (createTable Scenario.emptyDb (Scenario.createQuery "T" [Scenario.idColumn])).error = none ∧
    (Scenario.emptyDb = Scenario.emptyDb ∧
     (DbError.referencedTableNotFound "NOPE"
        ≠ .tableExists (Scenario.createQuery "T" [Scenario.referenceThenKey]).table →
      Scenario.emptyDb.getTable (Scenario.createQuery "T" [Scenario.referenceThenKey]).table
        = none ∧
      ∀ later : Query, later.table = (Scenario.createQuery "T" [Scenario.referenceThenKey]).table →
        ∀ e2 db2, createTable Scenario.emptyDb later = .fail e2 db2 →
          e2 ≠ .tableExists later.table)) :=
  ⟨by decide, by decide, by decide, by decide,
   createTable_failure Scenario.emptyDb Scenario.emptyDb
     (Scenario.createQuery "T" [Scenario.referenceThenKey]) (.referencedTableNotFound "NOPE")
     (by decide)⟩

end Database

/-! ## Claims on the validators of the data types -/

theorem matchesShape_dateTime (l : List Char) :
    matchesShape "DDDD-DD-DD DD:DD:DD".data l = true ↔
      ∃ w : DateTimeText, w.WellFormed ∧ l = w.text := by
  have hp : "DDDD-DD-DD DD:DD:DD".data
      = ['D', 'D', 'D', 'D', '-', 'D', 'D', '-', 'D', 'D', ' ', 'D', 'D', ':', 'D', 'D', ':',
         'D', 'D'] := rfl
  rw [hp]
  constructor
  · intro h
    rcases l with _ | ⟨c0, l⟩
    · simp [matchesShape] at h
    rcases l with _ | ⟨c1, l⟩
    · simp [matchesShape] at h
    rcases l with _ | ⟨c2, l⟩
    · simp [matchesShape] at h
    rcases l with _ | ⟨c3, l⟩
    · simp [matchesShape] at h
    rcases l with _ | ⟨c4, l⟩
    · simp [matchesShape] at h
    rcases l with _ | ⟨c5, l⟩
    · simp [matchesShape] at h
    rcases l with _ | ⟨c6, l⟩
    · simp [matchesShape] at h
    rcases l with _ | ⟨c7, l⟩
    · simp [matchesShape] at h
    rcases l with _ | ⟨c8, l⟩
    · simp [matchesShape] at h
    rcases l with _ | ⟨c9, l⟩
    · simp [matchesShape] at h
    rcases l with _ | ⟨c10, l⟩
    · simp [matchesShape] at h
    rcases l with _ | ⟨c11, l⟩
    · simp [matchesShape] at h
    rcases l with _ | ⟨c12, l⟩
    · simp [matchesShape] at h
    rcases l with _ | ⟨c13, l⟩
    · simp [matchesShape] at h
    rcases l with _ | ⟨c14, l⟩
    · simp [matchesShape] at h
    rcases l with _ | ⟨c15, l⟩
    · simp [matchesShape] at h
    rcases l with _ | ⟨c16, l⟩
    · simp [matchesShape] at h
    rcases l with _ | ⟨c17, l⟩
    · simp [matchesShape] at h
    rcases l with _ | ⟨c18, l⟩
    · simp [matchesShape] at h
    rcases l with _ | ⟨c19, l⟩
    · simp only [matchesShape, Bool.and_eq_true, decide_eq_true_eq, if_true, Bool.and_true] at h
      simp only [show ('-' = 'D') = False from by decide, show (' ' = 'D') = False from by decide, show (':' = 'D') = False from by decide, if_false, if_true, decide_eq_true_eq] at h
      obtain ⟨h0, h1, h2, h3, h4, h5, h6, h7, h8, h9, h10, h11, h12, h13, h14, h15, h16, h17, h18⟩ := h
      subst h4 h7 h10 h13 h16
      refine ⟨⟨[c0, c1, c2, c3], [c5, c6], [c8, c9], [c11, c12], [c14, c15], [c17, c18]⟩, ?_, rfl⟩
      refine ⟨rfl, rfl, rfl, rfl, rfl, rfl, ?_⟩
      intro c hc
      simp only [List.cons_append, List.nil_append, List.mem_cons, List.not_mem_nil, or_false] at hc
      rcases hc with h | h | h | h | h | h | h | h | h | h | h | h | h | h <;> (rw [h]; assumption)
    · simp [matchesShape] at h
  · rintro ⟨⟨y, mo, d, hh, mi, s⟩, ⟨hy, hmo, hd, hhh, hmi, hs, hdig⟩, rfl⟩
    simp only at hy hmo hd hhh hmi hs hdig
    obtain ⟨y0, y1, y2, y3, rfl⟩ : ∃ a b c d, y = [a, b, c, d] := by
      rcases y with _ | ⟨a, _ | ⟨b, _ | ⟨c, _ | ⟨d, _ | ⟨e, y⟩⟩⟩⟩⟩ <;> simp at hy
      exact ⟨a, b, c, d, rfl⟩
    have two : ∀ x : List Char, x.length = 2 → ∃ a b, x = [a, b] := by
      intro x hx
      rcases x with _ | ⟨a, _ | ⟨b, _ | ⟨c, x⟩⟩⟩ <;> simp at hx
      exact ⟨a, b, rfl⟩
    obtain ⟨m0, m1, rfl⟩ := two mo hmo
    obtain ⟨d0, d1, rfl⟩ := two d hd
    obtain ⟨g0, g1, rfl⟩ := two hh hhh
    obtain ⟨i0, i1, rfl⟩ := two mi hmi
    obtain ⟨s0, s1, rfl⟩ := two s hs
    simp only [List.cons_append, List.nil_append, List.mem_cons, List.not_mem_nil, or_false,
      forall_eq_or_imp, forall_eq] at hdig
    obtain ⟨a0, a1, a2, a3, a4, a5, a6, a7, a8, a9, a10, a11, a12, a13⟩ := hdig
    simp [DateTimeText.text, matchesShape, *]

/-- C32: the date-time validator. For every string `v`,
`DateTimeType::validate` returns iff `v` is a text of the shape
`DDDD-DD-DD DD:DD:DD`: a decimal digit at every `D`, and `-`, `-`, one space,
`:` and `:` as the separators; such a text has exactly 19 characters. On
every other string it throws the type error. -/
theorem dateTime_validate (S : Stod) (v : String) :
    (DataType.validate S .dateTime v = .ok () ↔
      ∃ w : DateTimeText, w.WellFormed ∧ v.data = w.text) ∧
    (DataType.validate S .dateTime v = .ok () → v.length = 19) ∧
    (DataType.validate S .dateTime v ≠ .ok () →
      DataType.validate S .dateTime v = .error (.typeError "DateTime")) := by
  have hiff : DataType.validate S .dateTime v = .ok () ↔
      ∃ w : DateTimeText, w.WellFormed ∧ v.data = w.text := by
    rw [← matchesShape_dateTime]
    simp only [DataType.validate]
    split <;> simp [*]
  refine ⟨hiff, ?_, ?_⟩
  · intro h
    obtain ⟨w, ⟨hy, hmo, hd, hh, hmi, hs, _⟩, hv⟩ := hiff.mp h
    simp only [String.length, hv, DateTimeText.text, List.length_append, List.length_cons]
    omega
  · intro h
    simp only [DataType.validate] at h ⊢
    split
    · rename_i hm
      simp [hm] at h
    · rfl

theorem utf8Size_ascii (c : Char) (h : c.toNat < 128) : c.utf8Size = 1 := by
  have h1 : c.val ≤ UInt32.ofNatCore 127 (by decide) := by
    simp only [UInt32.le_def, BitVec.le_def]
    show c.toNat ≤ 127
    omega
  simp only [Char.utf8Size, h1, if_true]

theorem utf8Len_ascii (l : List Char) (h : ∀ c ∈ l, c.toNat < 128) :
    String.utf8Len l = l.length := by
  induction l with
  | nil => rfl
  | cons c cs ih =>
    rw [String.utf8Len_cons, ih (fun x hx => h x (List.mem_cons_of_mem _ hx)),
      utf8Size_ascii c (h c (List.mem_cons_self _ _)), List.length_cons]

theorem space_ascii (c : Char) (h : isSpace c = true) : c.toNat < 128 := by
  rcases space_cases c h with h | h | h | h | h | h <;> (subst h; decide)

theorem digit_ascii (c : Char) (h : c.isDigit = true) : c.toNat < 128 := by
  have := (digit_bounds c).mp h
  omega

theorem digit_not_space (c : Char) (h : c.isDigit = true) :
    isSpace c = false ∧ c ≠ '-' ∧ c ≠ '+' := by
  have hb := (digit_bounds c).mp h
  refine ⟨?_, ?_, ?_⟩
  · cases hs : isSpace c with
    | false => rfl
    | true =>
      rcases space_cases c hs with h | h | h | h | h | h <;> (subst h; revert hb; decide)
  · rintro rfl
    revert hb
    decide
  · rintro rfl
    revert hb
    decide

theorem skipSpaces_spec (l : List Char) :
    ∃ blank, l = blank ++ (skipSpaces l).2 ∧ blank.length = (skipSpaces l).1 ∧
      ∀ c ∈ blank, isSpace c = true := by
  induction l with
  | nil => exact ⟨[], rfl, rfl, by simp⟩
  | cons c cs ih =>
    obtain ⟨blank, h1, h2, h3⟩ := ih
    unfold skipSpaces
    by_cases hc : isSpace c = true
    · simp only [hc, if_true]
      refine ⟨c :: blank, ?_, by simp [h2], ?_⟩
      · rw [List.cons_append, ← h1]
      · intro x hx
        rcases List.mem_cons.mp hx with h | h
        · rw [h]; exact hc
        · exact h3 x h
    · simp only [hc]
      exact ⟨[], rfl, rfl, by simp⟩

theorem skipSpaces_append (blank rest : List Char) (hblank : ∀ c ∈ blank, isSpace c = true)
    (hrest : ∀ c r, rest = c :: r → isSpace c = false) :
    skipSpaces (blank ++ rest) = (blank.length, rest) := by
  induction blank with
  | nil =>
    cases rest with
    | nil => rfl
    | cons c r => simp [skipSpaces, hrest c r rfl]
  | cons b bs ih =>
    have ih2 := ih (fun x hx => hblank x (List.mem_cons_of_mem _ hx))
    simp only [List.cons_append, skipSpaces, hblank b (List.mem_cons_self _ _), if_true,
      List.append_eq, ih2, List.length_cons]

theorem takeDigits_spec (l : List Char) :
    l = (takeDigits l).1 ++ (takeDigits l).2 ∧ ∀ c ∈ (takeDigits l).1, c.isDigit = true := by
  induction l with
  | nil => exact ⟨rfl, by simp [takeDigits]⟩
  | cons c cs ih =>
    unfold takeDigits
    by_cases hc : c.isDigit = true
    · simp only [hc, if_true, List.cons_append, List.mem_cons]
      refine ⟨by rw [← ih.1], ?_⟩
      rintro x (h | h)
      · rw [h]; exact hc
      · exact ih.2 x h
    · simp only [hc]
      exact ⟨rfl, by simp⟩

theorem takeDigits_all (ds : List Char) (h : ∀ c ∈ ds, c.isDigit = true) :
    takeDigits ds = (ds, []) := by
  induction ds with
  | nil => rfl
  | cons c cs ih =>
    simp only [takeDigits, h c (List.mem_cons_self _ _), if_true,
      ih (fun x hx => h x (List.mem_cons_of_mem _ hx))]

theorem stoi_of_text (v : String) (w : IntegerText) (hw : w.WellFormed)
    (hv : v.data = w.text) : stoi v = some (w.value, v.utf8ByteSize) := by
  obtain ⟨hblank, hsign, hne, hdig, hlo, hhi⟩ := hw
  obtain ⟨blank, sign, digits⟩ := w
  simp only at hblank hsign hne hdig
  have hsize : v.utf8ByteSize = blank.length + sign.length + digits.length := by
    have : v.utf8ByteSize = String.utf8Len v.data := by cases v; rfl
    rw [this, hv]
    simp only [IntegerText.text, String.utf8Len_append]
    rw [utf8Len_ascii blank (fun c hc => space_ascii c (hblank c hc)),
      utf8Len_ascii digits (fun c hc => digit_ascii c (hdig c hc)),
      utf8Len_ascii sign (by
        rcases hsign with h | h | h <;> (subst h; simp; try decide))]
    omega
  obtain ⟨d, ds, rfl⟩ : ∃ d ds, digits = d :: ds := by
    cases digits with
    | nil => exact absurd rfl hne
    | cons d ds => exact ⟨d, ds, rfl⟩
  have hd := digit_not_space d (hdig d (List.mem_cons_self _ _))
  have htake := takeDigits_all (d :: ds) hdig
  have hskip : skipSpaces v.data = (blank.length, sign ++ d :: ds) := by
    rw [hv]
    apply skipSpaces_append blank _ hblank
    intro c r hcr
    rcases hsign with h | h | h <;> subst h
    · simp only [List.nil_append, List.cons.injEq] at hcr
      rw [← hcr.1]; exact hd.1
    · simp only [List.cons_append, List.nil_append, List.cons.injEq] at hcr
      rw [← hcr.1]; decide
    · simp only [List.cons_append, List.nil_append, List.cons.injEq] at hcr
      rw [← hcr.1]; decide
  rw [hsize]
  unfold stoi stoInteger
  simp only [hskip]
  rcases hsign with h | h | h <;> subst h
  · simp only [IntegerText.value] at hlo hhi ⊢
    simp only [List.nil_append, hd.2.1, hd.2.2, if_false, htake]
    simp only [show ¬ (([] : List Char) = ['-']) from by decide, if_false] at hlo hhi ⊢
    simp [hlo, hhi]
  · simp only [IntegerText.value] at hlo hhi ⊢
    simp only [List.cons_append, List.nil_append, if_true, htake]
    simp only [if_true] at hlo hhi ⊢
    simp [hlo, hhi]
  · simp only [IntegerText.value] at hlo hhi ⊢
    simp only [List.cons_append, List.nil_append, show ¬ ('+' = '-') from by decide, if_false,
      if_true, htake]
    simp only [show ¬ ((['+'] : List Char) = ['-']) from by decide, if_false] at hlo hhi ⊢
    simp [hlo, hhi]

theorem read_to_end (v : String) (blank sign ds rem : List Char)
    (hv : v.data = blank ++ (sign ++ (ds ++ rem)))
    (hblank : ∀ c ∈ blank, isSpace c = true)
    (hsign : ∀ c ∈ sign, c.toNat < 128)
    (hdig : ∀ c ∈ ds, c.isDigit = true)
    (hidx : blank.length + sign.length + ds.length = v.utf8ByteSize) : rem = [] := by
  have hsize : v.utf8ByteSize = String.utf8Len v.data := by cases v; rfl
  rw [hsize, hv] at hidx
  simp only [String.utf8Len_append] at hidx
  rw [utf8Len_ascii blank (fun c hc => space_ascii c (hblank c hc)),
    utf8Len_ascii ds (fun c hc => digit_ascii c (hdig c hc)),
    utf8Len_ascii sign hsign] at hidx
  exact String.utf8Len_eq_zero.mp (by omega)

theorem stoInteger_tail (lo hi : Int) (negative : Bool) (n k : Nat) (r : List Char)
    (x : Int) (idx : Nat)
    (h : (if (takeDigits r).1 = [] then none
          else if lo ≤ (if negative = true then -(digitsValue (takeDigits r).1 : Int)
                  else (digitsValue (takeDigits r).1 : Int)) ∧
                (if negative = true then -(digitsValue (takeDigits r).1 : Int)
                  else (digitsValue (takeDigits r).1 : Int)) ≤ hi then
            some (if negative = true then -(digitsValue (takeDigits r).1 : Int)
                  else (digitsValue (takeDigits r).1 : Int), n + k + (takeDigits r).1.length)
          else none) = some (x, idx)) :
    ∃ ds rem, r = ds ++ rem ∧ ds ≠ [] ∧ (∀ c ∈ ds, c.isDigit = true) ∧
      idx = n + k + ds.length ∧
      lo ≤ (if negative = true then -(digitsValue ds : Int) else (digitsValue ds : Int)) ∧
      (if negative = true then -(digitsValue ds : Int) else (digitsValue ds : Int)) ≤ hi := by
  obtain ⟨ht1, ht2⟩ := takeDigits_spec r
  have hne : ¬ (takeDigits r).1 = [] := by
    intro hnil
    rw [if_pos hnil] at h
    cases h
  rw [if_neg hne] at h
  by_cases hrange : lo ≤ (if negative = true then -(digitsValue (takeDigits r).1 : Int)
        else (digitsValue (takeDigits r).1 : Int)) ∧
      (if negative = true then -(digitsValue (takeDigits r).1 : Int)
        else (digitsValue (takeDigits r).1 : Int)) ≤ hi
  · rw [if_pos hrange] at h
    simp only [Option.some.injEq, Prod.mk.injEq] at h
    exact ⟨(takeDigits r).1, (takeDigits r).2, ht1, hne, ht2, h.2.symm, hrange⟩
  · rw [if_neg hrange] at h
    cases h

theorem stoi_whole_text (v : String) (x : Int) (h : stoi v = some (x, v.utf8ByteSize)) :
    ∃ w : IntegerText, w.WellFormed ∧ v.data = w.text := by
  obtain ⟨blank, hb1, hb2, hb3⟩ := skipSpaces_spec v.data
  unfold stoi stoInteger at h
  generalize hws : skipSpaces v.data = ws at h hb1 hb2
  obtain ⟨n, rest⟩ := ws
  simp only at h hb1 hb2
  cases rest with
  | nil => simp [takeDigits] at h
  | cons c cs =>
    by_cases hm : c = '-'
    · subst hm
      obtain ⟨ds, rem, h1, h2, h3, h4, h5, h6⟩ :=
        stoInteger_tail (-2147483648) 2147483647 true n 1 cs x v.utf8ByteSize h
      have hrem : rem = [] := read_to_end v blank ['-'] ds rem
        (by rw [hb1, h1]; rfl) hb3 (by simp) h3 (by rw [hb2]; exact h4.symm)
      subst hrem
      rw [List.append_nil] at h1
      exact ⟨⟨blank, ['-'], ds⟩, ⟨hb3, Or.inr (Or.inl rfl), h2, h3, h5, h6⟩,
        by rw [hb1, h1]; rfl⟩
    · by_cases hp : c = '+'
      · subst hp
        obtain ⟨ds, rem, h1, h2, h3, h4, h5, h6⟩ :=
          stoInteger_tail (-2147483648) 2147483647 false n 1 cs x v.utf8ByteSize h
        have hrem : rem = [] := read_to_end v blank ['+'] ds rem
          (by rw [hb1, h1]; rfl) hb3 (by simp) h3 (by rw [hb2]; exact h4.symm)
        subst hrem
        rw [List.append_nil] at h1
        exact ⟨⟨blank, ['+'], ds⟩, ⟨hb3, Or.inr (Or.inr rfl), h2, h3, h5, h6⟩,
          by rw [hb1, h1]; rfl⟩
      · have h0 : (if c = '-' then (true, 1, cs) else if c = '+' then (false, 1, cs)
            else (false, 0, c :: cs)) = (false, 0, c :: cs) := by
          rw [if_neg hm, if_neg hp]
        simp only [h0] at h
        obtain ⟨ds, rem, h1, h2, h3, h4, h5, h6⟩ :=
          stoInteger_tail (-2147483648) 2147483647 false n 0 (c :: cs) x v.utf8ByteSize h
        have hrem : rem = [] := read_to_end v blank [] ds rem
          (by rw [hb1, h1]; rfl) hb3 (by simp) h3 (by rw [hb2]; exact h4.symm)
        subst hrem
        rw [List.append_nil] at h1
        exact ⟨⟨blank, [], ds⟩, ⟨hb3, Or.inl rfl, h2, h3, h5, h6⟩,
          by rw [hb1, h1]; rfl⟩

/-- C31 fails on the code as it is written: `IntType::validate` returns on
`" 42"`, a string that holds a character which is neither a sign nor a
digit. `std::stoi` skips leading white space and reports the three characters
as consumed, so the test `idx != value.size()` passes. -/
theorem int_validate_accepts_leading_space :
    DataType.validate Stod.integral .int " 42" = .ok () := by
  decide

/-- C31, amended: the integer validator. For every string `v`,
`IntType::validate` returns iff `v` is, from its first to its last character,
white space (zero or more characters among space, tab, line feed, vertical
tab, form feed and carriage return), then an optional sign `-` or `+`, then
one or more decimal digits, and the number written lies in
`[-2147483648, 2147483647]`. On every other string it throws the type error. -/
theorem int_validate (S : Stod) (v : String) :
    (DataType.validate S .int v = .ok () ↔
      ∃ w : IntegerText, w.WellFormed ∧ v.data = w.text) ∧
    (DataType.validate S .int v ≠ .ok () →
      DataType.validate S .int v = .error (.typeError "Int")) := by
  constructor
  · constructor
    · intro h
      simp only [DataType.validate] at h
      cases hs : stoi v with
      | none => simp [hs] at h
      | some p =>
        obtain ⟨x, idx⟩ := p
        simp only [hs] at h
        by_cases hidx : idx = v.utf8ByteSize
        · subst hidx
          exact stoi_whole_text v x hs
        · simp [hidx] at h
    · rintro ⟨w, hw, hv⟩
      simp [DataType.validate, stoi_of_text v w hw hv]
  · intro h
    simp only [DataType.validate] at h ⊢
    cases hs : stoi v with
    | none => rfl
    | some p =>
      obtain ⟨x, idx⟩ := p
      simp only [hs] at h ⊢
      by_cases hidx : idx = v.utf8ByteSize
      · simp [hidx] at h
      · simp [hidx]

/-! ## Claims on undeclared columns -/

namespace Table

open StdMap

/-- C38: undeclared columns are stored verbatim. Take a table in which every
primary-key field has its index, and a record that holds, for each declared
field, a value that passes the validation of the field; the record may hold
any further keys. When no primary-key value of the record is in its index,
`insertRecord` returns and the record, with every key it holds, is the last
record of the table; `selectRecords` with the field list `*` and no condition
returns the stored records, the new one included, and so does
`executeSelectQuery` for `SELECT * FROM` that table. -/
theorem insertRecord_keeps_undeclared (S : Stod) (db : Database) (t : Table) (record : Record)
    (hdecl : IndexesDeclared t)
    (hvalid : ∀ p ∈ t.fields, ∃ value, find record p.1 = some value ∧
      p.2.validate S value = .ok ())
    (hfree : ∀ p ∈ t.fields, p.2.isPrimaryKey = true →
      (find record p.1).getD "" ∉ (find t.uniqueFields p.1).getD ∅) :
    ∃ t1, insertRecord S db t record = .ok t1 ∧
      t1.records = t.records ++ [record] ∧
      selectRecords S t1 ["*"] [] = .ok (t.records ++ [record]) ∧
      ∀ (db1 : Database) (name : String), find db1.tables name = some t1 →
        Database.executeSelectQuery S db1 (Scenario.selectAll name)
          = some (.ok (t.records ++ [record])) := by
  obtain ⟨uf1, h1, _⟩ := insertRecord_of_fresh S db t record hdecl
    ((validateFields_ok_iff S t.fields record).mpr hvalid) hfree
  refine ⟨_, h1, rfl, ?_, ?_⟩
  · simp only [selectRecords, selectLoop_star]
  · intro db1 name hname
    simp only [Database.executeSelectQuery, Scenario.selectAll, SQLParser.emptyQuery, hname,
      if_true, selectRecords, selectLoop_star]

/-- C38 on `INSERT INTO USERS ( ID,NAME,EXTRA) VALUES (1,'Ann','x')`, where
`USERS` declares `ID` and `NAME` only: the row is stored with the key `EXTRA`
and `SELECT * FROM USERS` returns it with that key. -/
theorem insertRecord_keeps_undeclared_witness :
    SQLParser.parse "INSERT INTO USERS ( ID,NAME,EXTRA) VALUES (1,'Ann','x')"
      = .ok Scenario.insertAnnExtra ∧
    Database.insertIntoTable Stod.integral { tables := [("USERS", Scenario.users)] }
        Scenario.insertAnnExtra
      = .ok { tables := [("USERS", Scenario.usersExtra)] } ∧
    SQLParser.parse "SELECT * FROM USERS" = .ok (Scenario.selectAll "USERS") ∧
    "EXTRA" ∉ keys Scenario.users.fields ∧
    find Scenario.annExtra "EXTRA" = some "x" ∧
    insertRecord Stod.integral Scenario.emptyDb Scenario.users Scenario.annExtra
      = .ok Scenario.usersExtra ∧
    (∃ t1, insertRecord Stod.integral Scenario.emptyDb Scenario.users Scenario.annExtra = .ok t1 ∧
      t1.records = Scenario.users.records ++ [Scenario.annExtra] ∧
      selectRecords Stod.integral t1 ["*"] []
        = .ok (Scenario.users.records ++ [Scenario.annExtra]) ∧
      ∀ (db1 : Database) (name : String), find db1.tables name = some t1 →
        Database.executeSelectQuery Stod.integral db1 (Scenario.selectAll name)
          = some (.ok (Scenario.users.records ++ [Scenario.annExtra]))) :=
  ⟨by decide, by decide, by decide, by decide, by decide, by decide,
   insertRecord_keeps_undeclared Stod.integral Scenario.emptyDb Scenario.users
     Scenario.annExtra (by decide) (by decide) (by decide)⟩

end Table

/-! ## Claims on an UPDATE that throws -/

namespace Table

open StdMap

theorem find_touch (uf : UniqueFields) (k C : String) :
    find (touch uf k ∅) C = find uf C ∨
      (find uf C = none ∧ find (touch uf k ∅) C = some ∅) := by
  unfold touch
  cases h : find uf k with
  | some index => exact Or.inl rfl
  | none =>
    simp only
    by_cases hC : C = k
    · subst hC
      exact Or.inr ⟨h, find_assign_self _ _ _⟩
    · exact Or.inl (find_assign_ne _ _ _ _ hC)

theorem created_trans (a b c : UniqueFields)
    (hab : ∀ C, find b C = find a C ∨ (find a C = none ∧ find b C = some ∅))
    (hbc : ∀ C, find c C = find b C ∨ (find b C = none ∧ find c C = some ∅)) :
    ∀ C, find c C = find a C ∨ (find a C = none ∧ find c C = some ∅) := by
  intro C
  rcases hab C with h1 | ⟨h1, h2⟩
  · rcases hbc C with h3 | ⟨h3, h4⟩
    · exact Or.inl (h3.trans h1)
    · exact Or.inr ⟨h1 ▸ h3, h4⟩
  · rcases hbc C with h3 | ⟨h3, h4⟩
    · exact Or.inr ⟨h1, h3.trans h2⟩
    · rw [h2] at h3
      cases h3

/-- The constraint loop of `enforceConstraintsOnUpdate` changes the indexes
only by creating empty ones. -/
theorem checkConstraintsOnUpdate_created (db : Database) (fieldName newValue : String)
    (cs : List Constraint) (uf : UniqueFields) :
    ∀ C, find (checkConstraintsOnUpdate db fieldName newValue cs uf).state C = find uf C ∨
      (find uf C = none ∧
        find (checkConstraintsOnUpdate db fieldName newValue cs uf).state C = some ∅) := by
  induction cs generalizing uf with
  | nil => intro C; exact Or.inl rfl
  | cons c rest ih =>
    unfold checkConstraintsOnUpdate
    split
    · split
      · exact find_touch uf fieldName
      · exact created_trans _ _ _ (find_touch uf fieldName) (ih _)
    · split
      · split
        · split
          · intro C; exact Or.inl rfl
          · exact ih uf
          · intro C; exact Or.inl rfl
        · exact ih uf
      · exact ih uf

theorem enforceUpdateLoop_created (S : Stod) (db : Database) (fields : StdMap Field)
    (originalRecord : Record) (entries : List (String × String)) (uf : UniqueFields) :
    ∀ C, find (enforceUpdateLoop S db fields originalRecord entries uf).state C = find uf C ∨
      (find uf C = none ∧
        find (enforceUpdateLoop S db fields originalRecord entries uf).state C = some ∅) := by
  induction entries generalizing uf with
  | nil => intro C; exact Or.inl rfl
  | cons p rest ih =>
    obtain ⟨fieldName, newValue⟩ := p
    unfold enforceUpdateLoop
    cases hf : find fields fieldName with
    | none => intro C; exact Or.inl rfl
    | some field =>
      simp only
      cases hv : field.validate S newValue with
      | error e => intro C; exact Or.inl rfl
      | ok u =>
        simp only
        split
        · have hc := checkConstraintsOnUpdate_created db fieldName newValue field.constraints uf
          cases hk : checkConstraintsOnUpdate db fieldName newValue field.constraints uf with
          | ok uf1 =>
            rw [hk] at hc
            exact created_trans _ _ _ hc (ih uf1)
          | fail e uf1 =>
            rw [hk] at hc
            exact hc
        · exact ih uf

theorem updateRecord_fail_created (S : Stod) (db : Database) (fields : StdMap Field)
    (newValues : StdMap String) (record : Record) (uf : UniqueFields) (e : DbError)
    (s : Record × UniqueFields)
    (h : updateRecord S db fields newValues record uf = .fail e s) :
    s.1 = record ∧
    ∀ C, find s.2 C = find uf C ∨ (find uf C = none ∧ find s.2 C = some ∅) := by
  unfold updateRecord at h
  cases ha : applyNewValues S fields newValues record with
  | error e1 =>
    simp only [ha] at h
    cases h
    exact ⟨rfl, fun C => Or.inl rfl⟩
  | ok updatedRecord =>
    simp only [ha] at h
    have hs := enforceUpdateLoop_created S db fields record updatedRecord uf
    cases he : enforceUpdateLoop S db fields record updatedRecord uf with
    | ok uf1 =>
      simp only [he] at h
      cases h
    | fail e1 uf1 =>
      simp only [he] at h
      cases h
      rw [he] at hs
      exact ⟨rfl, hs⟩

theorem updateLoop_append (S : Stod) (db : Database) (fields : StdMap Field)
    (newValues : StdMap String) (c : List Condition) (pre rest : List Record)
    (uf : UniqueFields) (updated : Bool) (rs : List Record) (uf1 : UniqueFields) (u : Bool)
    (hpre : updateLoop S db fields newValues c pre uf updated = .ok (rs, uf1, u)) :
    updateLoop S db fields newValues c (pre ++ rest) uf updated =
      match updateLoop S db fields newValues c rest uf1 u with
      | .ok (rs2, uf2, u2) => .ok (rs ++ rs2, uf2, u2)
      | .fail e (rs2, uf2, u2) => .fail e (rs ++ rs2, uf2, u2) := by
  induction pre generalizing uf updated rs with
  | nil =>
    simp only [updateLoop, Outcome.ok.injEq, Prod.mk.injEq] at hpre
    obtain ⟨h1, h2, h3⟩ := hpre
    subst h1 h2 h3
    simp only [List.nil_append]
    cases updateLoop S db fields newValues c rest uf updated with
    | ok s => rfl
    | fail e s => rfl
  | cons r pre ih =>
    rw [updateLoop] at hpre
    simp only [List.cons_append]
    rw [updateLoop]
    cases hev : evaluateConditions S r c with
    | error e => simp [hev] at hpre
    | ok b =>
      cases b
      · simp only [hev] at hpre ⊢
        cases hd : updateLoop S db fields newValues c pre uf updated with
        | fail e s2 =>
          obtain ⟨rs1, uf2, u2⟩ := s2
          simp [hd] at hpre
        | ok s2 =>
          obtain ⟨rs1, uf2, u2⟩ := s2
          simp only [hd, Outcome.ok.injEq, Prod.mk.injEq] at hpre
          obtain ⟨h1, h2, h3⟩ := hpre
          subst h1 h2 h3
          rw [ih uf updated rs1 hd]
          cases updateLoop S db fields newValues c rest uf2 u2 with
          | ok s => rfl
          | fail e s => rfl
      · simp only [hev] at hpre ⊢
        cases hu : updateRecord S db fields newValues r uf with
        | fail e s1 =>
          obtain ⟨r0, uf2⟩ := s1
          simp [hu] at hpre
        | ok s1 =>
          obtain ⟨r1, uf2⟩ := s1
          simp only [hu] at hpre ⊢
          cases hd : updateLoop S db fields newValues c pre uf2 true with
          | fail e s2 =>
            obtain ⟨rs1, uf3, u3⟩ := s2
            simp [hd] at hpre
          | ok s2 =>
            obtain ⟨rs1, uf3, u3⟩ := s2
            simp only [hd, Outcome.ok.injEq, Prod.mk.injEq] at hpre
            obtain ⟨h1, h2, h3⟩ := hpre
            subst h1 h2 h3
            rw [ih uf2 true rs1 hd]
            cases updateLoop S db fields newValues c rest uf3 u3 with
            | ok s => rfl
            | fail e s => rfl

/-- C35: UPDATE is not rolled back. Let the records of a table be `pre`, then
`record`, then `post`; let the loop of `updateRecords` run over `pre` without
an exception, leaving the records `updated` and the indexes `indexes`; and let
the chain be true on `record` and the update of `record` throw. Then
`updateRecords` throws that exception and leaves the table with the records
`updated`, then `record`, then `post`: a record of `pre` on which the chain is
true holds the new value of every assigned column and its old value elsewhere,
a record of `pre` on which the chain is false is as it was, and `record` and
the records of `post` are as they were. The indexes are the ones the updates
of `pre` left (each with its swaps made), but for indexes that did not exist
and now exist empty; and when the table was in a consistent state before the
call, it is in a consistent state after it: every primary-key index holds the
values that the records, as they are left, hold in its column. And there is a table and an UPDATE for which the call
throws and the table differs from its state before the call: `USERS` holding
Ann (`ID` 1) and Cat (`ID` 2) and `SET ID=9` without WHERE, where Ann becomes
`ID` 9, the index becomes `{9, 2}`, and the update of Cat throws for the
duplicate key. -/
theorem updateRecords_not_rolled_back :
    (∀ (S : Stod) (db : Database) (t : Table) (newValues : StdMap String)
      (conditions : List Condition) (pre post : List Record) (record : Record)
      (updated : List Record) (indexes : UniqueFields) (flag : Bool) (e : DbError)
      (s : Record × UniqueFields),
      Sorted newValues →
      t.records = pre ++ record :: post →
      updateLoop S db t.fields newValues conditions pre t.uniqueFields false
        = .ok (updated, indexes, flag) →
      evaluateConditions S record conditions = .ok true →
      updateRecord S db t.fields newValues record indexes = .fail e s →
      updateRecords S db t newValues conditions
        = .fail e { t with records := updated ++ record :: post, uniqueFields := s.2 } ∧
      List.Forall₂ (fun old new =>
        (evaluateConditions S old conditions = .ok true ∧
          (∀ k v, find newValues k = some v → find new k = some v) ∧
          (∀ k, find newValues k = none → find new k = find old k)) ∨
        (evaluateConditions S old conditions = .ok false ∧ new = old)) pre updated ∧
      (∀ C, find s.2 C = find indexes C ∨ (find indexes C = none ∧ find s.2 C = some ∅)) ∧
      (Consistent t →
        Consistent { t with records := updated ++ record :: post, uniqueFields := s.2 })) ∧
    (updateRecords Stod.integral Scenario.emptyDb Scenario.usersAnnCat [("ID", "9")] []
        = .fail (.primaryKeyViolated "ID") Scenario.usersAnn9Cat ∧
      Scenario.usersAnn9Cat ≠ Scenario.usersAnnCat) := by
  refine ⟨?_, by decide, by decide⟩
  intro S db t newValues conditions pre post record updated indexes flag e s
    hmap hrecords hpre hrecord hfail
  obtain ⟨r0, uf1⟩ := s
  have hcall : updateRecords S db t newValues conditions
      = .fail e { t with records := updated ++ record :: post, uniqueFields := uf1 } := by
    unfold updateRecords
    rw [hrecords, updateLoop_append S db t.fields newValues conditions pre (record :: post)
      t.uniqueFields false updated indexes flag hpre]
    rw [updateLoop]
    simp only [hrecord, hfail]
  refine ⟨hcall, ?_, ?_, ?_⟩
  · exact updateLoop_ok_records S db t.fields newValues conditions
      (nodup_keys_of_sorted newValues hmap) pre t.uniqueFields false _ hpre
  · exact (updateRecord_fail_created S db t.fields newValues record indexes e _ hfail).2
  · intro hcons
    have h := updateRecords_consistent S db t newValues conditions hmap hcons
    rw [hcall] at h
    exact h

/-- C35 on `UPDATE USERS SET ID=9` with Ann and Cat stored: the failing record
is the second one, the records before it are Ann alone. -/
theorem updateRecords_not_rolled_back_witness :
    Sorted ([("ID", "9")] : StdMap String) ∧
    Scenario.usersAnnCat.records = [Scenario.ann] ++ Scenario.cat :: [] ∧
    updateLoop Stod.integral Scenario.emptyDb Scenario.usersAnnCat.fields [("ID", "9")] []
        [Scenario.ann] Scenario.usersAnnCat.uniqueFields false
      = .ok ([Scenario.ann9], [("ID", {"9", "2"})], true) ∧
    evaluateConditions Stod.integral Scenario.cat [] = .ok true ∧
    updateRecord Stod.integral Scenario.emptyDb Scenario.usersAnnCat.fields [("ID", "9")]
        Scenario.cat [("ID", {"9", "2"})]
      = .fail (.primaryKeyViolated "ID") (Scenario.cat, [("ID", {"9", "2"})]) ∧
    updateRecords Stod.integral Scenario.emptyDb Scenario.usersAnnCat [("ID", "9")] []
      = .fail (.primaryKeyViolated "ID")
          { Scenario.usersAnnCat with
            records := [Scenario.ann9] ++ Scenario.cat :: [],
            uniqueFields := [("ID", {"9", "2"})] } :=
  ⟨by decide, by decide, by decide, by decide, by decide,
   (updateRecords_not_rolled_back.1 Stod.integral Scenario.emptyDb Scenario.usersAnnCat
      [("ID", "9")] [] [Scenario.ann] [] Scenario.cat [Scenario.ann9] [("ID", {"9", "2"})] true
      (.primaryKeyViolated "ID") (Scenario.cat, [("ID", {"9", "2"})])
      (by decide) (by decide) (by decide) (by decide) (by decide)).1⟩

end Table

/-! ## Claims on SELECT with JOIN clauses -/

namespace Database

open StdMap

theorem performInnerJoin_right_nil (leftRecords : List Record) (condition : Condition)
    (N M : String) : Table.performInnerJoin leftRecords [] condition N M = .ok [] := by
  induction leftRecords with
  | nil => rfl
  | cons l ls ih => simp [Table.performInnerJoin, Table.joinLeftRecord, ih]

theorem performInnerJoin_unsupported (l : Record) (ls : List Record) (r : Record)
    (rs : List Record) (condition : Condition) (N M : String) (hop : condition.op ≠ "=") :
    Table.performInnerJoin (l :: ls) (r :: rs) condition N M
      = .error (.unsupportedJoinOperator condition.op) := by
  simp [Table.performInnerJoin, Table.joinLeftRecord, evaluateJoinCondition, hop]

theorem joinAll_append (db : Database) (primaryName : String) (before rest : List Join)
    (records current : List Record)
    (h : joinAll db primaryName before records = some (.ok current)) :
    joinAll db primaryName (before ++ rest) records = joinAll db primaryName rest current := by
  induction before generalizing records with
  | nil =>
    simp only [joinAll, Option.some.injEq, Except.ok.injEq] at h
    subst h
    rfl
  | cons join more ih =>
    simp only [List.cons_append]
    rw [joinAll] at h ⊢
    cases hj : find db.tables join.table with
    | none => simp [hj] at h
    | some joinTable =>
      simp only [hj] at h ⊢
      cases hc : SQLParser.parse_conditions join.onCondition.data [] with
      | nil => simp [hc] at h
      | cons condition others =>
        simp only [hc] at h ⊢
        cases hp : Table.performInnerJoin records joinTable.records condition joinTable.name
            primaryName with
        | error e => simp [hp] at h
        | ok result =>
          simp only [hp] at h ⊢
          exact ih result h

/-- Once no combined record is left, the later JOIN clauses cannot raise the
unsupported-operator error. -/
theorem joinAll_nil (db : Database) (primaryName : String) (joins : List Join) :
    joinAll db primaryName joins [] = none ∨
    joinAll db primaryName joins [] = some (.ok []) ∨
    ∃ name, joinAll db primaryName joins [] = some (.error (.tableNotFound name)) := by
  induction joins with
  | nil => exact Or.inr (Or.inl rfl)
  | cons join more ih =>
    rw [joinAll]
    cases hj : find db.tables join.table with
    | none => exact Or.inr (Or.inr ⟨join.table, rfl⟩)
    | some joinTable =>
      simp only
      cases hc : SQLParser.parse_conditions join.onCondition.data [] with
      | nil => exact Or.inl rfl
      | cons condition others =>
        simp only [Table.performInnerJoin]
        exact ih

/-- C33 fails on the code as it is written: with `USERS` holding Ann and
`ORDERS` holding no record, `SELECT * FROM USERS INNER JOIN ORDERS ON
USERS.ID < ORDERS.ID` returns the empty list. The operator is looked at only
when `evaluateJoinCondition` is called for a pair of records. -/
theorem join_operator_unchecked_without_pairs :
    SQLParser.parse "SELECT * FROM USERS INNER JOIN ORDERS ON USERS.ID < ORDERS.ID"
      = .ok (Scenario.selectJoin "USERS.ID < ORDERS.ID") ∧
    SQLParser.parse_conditions "USERS.ID < ORDERS.ID".data [] = [Scenario.joinLess] ∧
    executeSelectQuery Stod.integral Scenario.noOrdersDb
        (Scenario.selectJoin "USERS.ID < ORDERS.ID")
      = some (.ok []) := by
  decide

/-- C33, amended: joins accept only `=`. Take a SELECT on an existing table
and one of its JOIN clauses such that the clauses before it are executed
without an exception, its table exists, and the first condition that
`parse_conditions` reads from its ON text has an operator other than `=`.
When the records combined so far and the records of the joined table are
both non-empty, `executeSelectQuery` throws the unsupported-operator error
carrying that operator; when either of them is empty, it does not throw the
unsupported-operator error. -/
theorem executeSelectQuery_join_operator (S : Stod) (db : Database) (query : Query)
    (before rest : List Join) (join : Join) (primaryTable joinTable : Table)
    (current : List Record) (condition : Condition) (others : List Condition)
    (hprimary : find db.tables query.table = some primaryTable)
    (hjoins : query.joins = before ++ join :: rest)
    (hbefore : joinAll db primaryTable.name before primaryTable.records = some (.ok current))
    (hjoined : find db.tables join.table = some joinTable)
    (hcondition : SQLParser.parse_conditions join.onCondition.data [] = condition :: others)
    (hop : condition.op ≠ "=") :
    (current ≠ [] → joinTable.records ≠ [] →
      executeSelectQuery S db query = some (.error (.unsupportedJoinOperator condition.op))) ∧
    (current = [] ∨ joinTable.records = [] →
      ∀ op, executeSelectQuery S db query ≠ some (.error (.unsupportedJoinOperator op))) := by
  have hne : ¬ (before ++ join :: rest = []) := by simp
  have hrun : executeSelectQuery S db query =
      match joinAll db primaryTable.name (join :: rest) current with
      | none => none
      | some (.error e) => some (.error e)
      | some (.ok currentRecords) =>
        match filterLoop S query.conditions currentRecords with
        | .error e => some (.error e)
        | .ok filteredResults => some (projectLoop query.fields filteredResults) := by
    unfold executeSelectQuery
    simp only [hprimary, hjoins, if_neg hne]
    rw [joinAll_append db primaryTable.name before (join :: rest) primaryTable.records
      current hbefore]
  constructor
  · intro hcurrent hrecords
    obtain ⟨l, ls, hl⟩ := List.exists_cons_of_ne_nil hcurrent
    obtain ⟨r, rs, hr⟩ := List.exists_cons_of_ne_nil hrecords
    rw [hrun, joinAll]
    simp only [hjoined, hcondition, hl, hr,
      performInnerJoin_unsupported l ls r rs condition _ _ hop]
  · intro hempty op
    have hjoin : Table.performInnerJoin current joinTable.records condition joinTable.name
        primaryTable.name = .ok [] := by
      rcases hempty with h | h
      · rw [h]; rfl
      · rw [h]; exact performInnerJoin_right_nil _ _ _ _
    rw [hrun, joinAll]
    simp only [hjoined, hcondition, hjoin]
    rcases joinAll_nil db primaryTable.name rest with h | h | ⟨name, h⟩
    · rw [h]; simp
    · rw [h]; simp [filterLoop, projectLoop]
    · rw [h]; simp

/-- C33 on `SELECT * FROM USERS INNER JOIN ORDERS ON USERS.ID < ORDERS.ID`
with Ann in `USERS` and one order in `ORDERS`: the call throws the
unsupported-operator error for `<`; the operators `==` and `!=` are read from
an ON text as they are written, and are not `=`. -/
theorem executeSelectQuery_join_operator_witness :
    SQLParser.parse_conditions "USERS.ID == ORDERS.ID".data []
      = [{ Scenario.joinLess with op := "==" }] ∧
    SQLParser.parse_conditions "USERS.ID != ORDERS.ID".data []
      = [{ Scenario.joinLess with op := "!=" }] ∧
    executeSelectQuery Stod.integral Scenario.shopDb (Scenario.selectJoin "USERS.ID == ORDERS.ID")
      = some (.error (.unsupportedJoinOperator "==")) ∧
    executeSelectQuery Stod.integral Scenario.shopDb (Scenario.selectJoin "USERS.ID != ORDERS.ID")
      = some (.error (.unsupportedJoinOperator "!=")) ∧
    Scenario.usersAnn.records ≠ [] ∧ Scenario.ordersOne.records ≠ [] ∧
    executeSelectQuery Stod.integral Scenario.shopDb (Scenario.selectJoin "USERS.ID < ORDERS.ID")
      = some (.error (.unsupportedJoinOperator "<")) :=
  ⟨by decide, by decide, by decide, by decide, by decide, by decide,
   (executeSelectQuery_join_operator Stod.integral Scenario.shopDb
      (Scenario.selectJoin "USERS.ID < ORDERS.ID") []
      [] { table := "ORDERS", onCondition := "USERS.ID < ORDERS.ID" }
      Scenario.usersAnn Scenario.ordersOne Scenario.usersAnn.records Scenario.joinLess []
      (by decide) (by decide) (by decide) (by decide) (by decide) (by decide)).1
     (by decide) (by decide)⟩

/-! ### The read of the first join condition -/

/-- C40 fails on the code: `SQLParser::parse` returns a SELECT for
`SELECT * FROM USERS INNER JOIN ORDERS ON`, whose ON text is empty, and for
`SELECT * FROM USERS INNER JOIN ORDERS ON USERS.ID`, whose ON text holds no
comparison; `parse_conditions` reads no condition from either text, and with
both tables in the database `executeSelectQuery` reads `joinConditions[0]`
from the empty vector. -/
theorem executeSelectQuery_reads_past_end :
    SQLParser.parse "SELECT * FROM USERS INNER JOIN ORDERS ON" = .ok (Scenario.selectJoin "") ∧
    SQLParser.parse_conditions "".data [] = [] ∧
    executeSelectQuery Stod.integral Scenario.shopDb (Scenario.selectJoin "") = none ∧
    SQLParser.parse "SELECT * FROM USERS INNER JOIN ORDERS ON USERS.ID"
      = .ok (Scenario.selectJoin "USERS.ID") ∧
    SQLParser.parse_conditions "USERS.ID".data [] = [] ∧
    executeSelectQuery Stod.integral Scenario.shopDb (Scenario.selectJoin "USERS.ID") = none := by
  decide

end Database

/-! ## Claims on chains that raise an error -/

namespace Table

open StdMap

/-- C12 fails on the code as it is written: with only Ann stored in `USERS`,
the chain of `WHERE AGE = 3` is true on no record, yet
`UPDATE USERS SET NAME='Bo' WHERE AGE = 3` throws the error of the chain,
"Field not found in condition", and not the no-match error. The exception of
`evaluateCondition` leaves the loop of `updateRecords` before the test of
`updated` is reached. -/
theorem updateRecords_chain_error_not_no_match :
    (∀ r ∈ Scenario.usersAnn.records,
      evaluateConditions Stod.integral r [Scenario.ageIs3] ≠ .ok true) ∧
    updateRecords Stod.integral Scenario.emptyDb Scenario.usersAnn [("NAME", "Bo")]
        [Scenario.ageIs3]
      = .fail (.conditionFieldNotFound "AGE") Scenario.usersAnn ∧
    updateRecords Stod.integral Scenario.emptyDb Scenario.usersAnn [("NAME", "Bo")]
        [Scenario.ageIs3]
      ≠ .fail .noMatch Scenario.usersAnn := by
  decide

/-- An UPDATE of a primary key whose chain is true on one record only and
raises an error on a later record: with Ann and Cat stored,
`UPDATE USERS SET ID=5 WHERE ID = 1 OR NAME < 3` is true on Ann alone and no
record holds `ID` 5, yet the call throws at Cat, where `std::stod` cannot read
`Cat`; Ann already holds `ID` 5. -/
theorem update_key_throws_on_later_record :
    evaluateConditions Stod.integral Scenario.ann [Scenario.idIs1, Scenario.orNameLess3]
      = .ok true ∧
    evaluateConditions Stod.integral Scenario.cat [Scenario.idIs1, Scenario.orNameLess3]
      = .error .numberConversion ∧
    (∀ x ∈ Scenario.usersAnnCat.records, find x "ID" ≠ some "5") ∧
    updateRecords Stod.integral Scenario.emptyDb Scenario.usersAnnCat [("ID", "5")]
        [Scenario.idIs1, Scenario.orNameLess3]
      = .fail .numberConversion
          { Scenario.usersAnnCat with
            records := [Scenario.ann5, Scenario.cat],
            uniqueFields := [("ID", {"5", "2"})] } := by
  decide

/-- C39 fails on the code as it is written: with only Ann stored in `USERS`,
no record holds `AGE` and the chain of `WHERE AGE = 3` is true on no record,
yet `SELECT AGE FROM USERS WHERE AGE = 3` throws the error of the chain,
"Field not found in condition", and does not return the empty list. -/
theorem selectRecords_chain_error_not_empty :
    (∀ r ∈ Scenario.usersAnn.records, find r "AGE" = none) ∧
    (∀ r ∈ Scenario.usersAnn.records,
      evaluateConditions Stod.integral r [Scenario.ageIs3] ≠ .ok true) ∧
    selectRecords Stod.integral Scenario.usersAnn ["AGE"] [Scenario.ageIs3]
      = .error (.conditionFieldNotFound "AGE") := by
  decide

end Table

end RelDb
